import Mathlib

/-! # SimpScript: a shallow embedding of the interpreter core

The development follows the C++ sources file by file:

* `Token.h` / `Token.cpp`      : `TokenType`, `TokenValue`, `Token`
* `Lexer.h` / `Lexer.cpp`      : `Lexer` and its member functions
* `AST.h`                      : `ASTNode`
* `Parser.h` / `Parser.cpp`    : `Parser` and the recursive-descent functions
* `Value.h` / `Value.cpp`      : `Value`, `Callable` and the operators
* `Environment.h` / `.cpp`     : `Environment`, `define`, `get`, `assign`
* `Interpreter.h` / `.cpp`     : `Interpreter`, `setupGlobals`
* `AST.cpp`                    : `evaluate`
* `main.cpp`                   : `runFile`

Conventions of the embedding.

* Text (`std::string`) is a `List Char`.
* `int` is an `Int` kept in the 32-bit range by `wrapInt`.
* `double` is the type `Double` below, an executable model of IEEE-754 binary64.
* A C++ exception is the `error` case of `Except Exc`.
* Objects held through `std::shared_ptr` (environments, callables) live in
  heaps (lists) of the `World` and are referred to by their index.
* Recursion that the C++ code leaves to the call stack takes a `fuel` argument;
  running out of it is the separate outcome `Exc.outOfFuel`.
-/

namespace SimpScript

/-! ## Characters (`<cctype>`, "C" locale) -/

/-- The character `'\0'`. -/
def NUL : Char := Char.ofNat 0

/-- The double-quote character. -/
def QUOTE : Char := Char.ofNat 34

/-- `std::isspace`: space, `\t`, `\n`, `\v`, `\f`, `\r`. -/
def isspace (c : Char) : Bool :=
  c.toNat == 32 || (decide (9 ≤ c.toNat) && decide (c.toNat ≤ 13))

/-- `std::isdigit`. -/
def isdigit (c : Char) : Bool :=
  decide (48 ≤ c.toNat) && decide (c.toNat ≤ 57)

/-- `std::isalpha`. -/
def isalphaC (c : Char) : Bool :=
  (decide (65 ≤ c.toNat) && decide (c.toNat ≤ 90)) ||
  (decide (97 ≤ c.toNat) && decide (c.toNat ≤ 122))

/-- `std::string::substr(pos, len)`. -/
def substr (s : List Char) (pos len : Nat) : List Char :=
  (s.drop pos).take len

/-! ## `int` -/

/-- Largest `int`. -/
def INT_MAX : Int := 2147483647

/-- Smallest `int`. -/
def INT_MIN : Int := -2147483648

/-- Two's-complement wrap-around of a mathematical integer into the 32-bit `int` range. -/
def wrapInt (i : Int) : Int :=
  (i + 2147483648) % 4294967296 - 2147483648

/-- Value of a run of decimal digits, most significant first. -/
def digitsValue (ds : List Char) : Nat :=
  ds.foldl (fun acc c => 10 * acc + (c.toNat - 48)) 0

/-- Decimal rendering of an `int` by `operator<<`. -/
def fmtInt (i : Int) : List Char :=
  if i < 0 then '-' :: Nat.toDigits 10 i.natAbs else Nat.toDigits 10 i.natAbs

/-! ## `double` (IEEE-754 binary64) -/

/-- A binary64 datum. A finite datum denotes `(-1)^sign * mant * 2^exp`; several
pairs `(mant, exp)` may denote the same number, and the operations below only
depend on the number denoted (and on the sign of a zero). -/
inductive Double where
  | finite (sign : Bool) (mant : Nat) (exp : Int)
  | infinite (sign : Bool)
  | nan
  deriving DecidableEq, Repr

/-- Floor of the base-2 logarithm (0 for 0 and 1); the first argument bounds the recursion. -/
def log2Floor : Nat → Nat → Nat
  | 0, _ => 0
  | fuel + 1, n => if 2 ≤ n then log2Floor fuel (n / 2) + 1 else 0

/-- Floor of the base-10 logarithm (0 for 0..9); the first argument bounds the recursion. -/
def log10Floor : Nat → Nat → Nat
  | 0, _ => 0
  | fuel + 1, n => if 10 ≤ n then log10Floor fuel (n / 10) + 1 else 0

namespace Double

/-- Round the positive rational `num / den * 2^exp` to the nearest binary64 (ties to even).
The second component tells whether the result is inexact and below the normal range
(the condition under which `strtod` reports `ERANGE` for a tiny result). -/
def roundFlag (sign : Bool) (num den : Nat) (exp : Int) : Double × Bool :=
  if num = 0 then (.finite sign 0 0, false)
  else
    let e : Int :=
      (if den ≤ num then (log2Floor (num / den) (num / den) : Int)
       else
         let k := log2Floor (den / num) (den / num)
         if num * 2 ^ k = den then -(k : Int) else -((k : Int) + 1)) + exp
    let q : Int := max e (-1022) - 52
    let s : Int := exp - q
    let n := if 0 ≤ s then num * 2 ^ s.toNat else num
    let d := if 0 ≤ s then den else den * 2 ^ (-s).toNat
    let m := n / d
    let r := n % d
    let m1 := if d < 2 * r ∨ (2 * r = d ∧ m % 2 = 1) then m + 1 else m
    if 0 ≤ q ∧ 2 ^ 1024 ≤ m1 * 2 ^ q.toNat then (.infinite sign, false)
    else (.finite sign m1 q, decide (r ≠ 0) && decide (e < -1022))

/-- Round the positive rational `num / den * 2^exp` to the nearest binary64. -/
def round (sign : Bool) (num den : Nat) (exp : Int) : Double :=
  (roundFlag sign num den exp).1

/-- Conversion `static_cast<double>(int)`: exact, every `int` fits in 53 bits. -/
def ofInt (i : Int) : Double :=
  .finite (decide (i < 0)) i.natAbs 0

/-- The signed integer `(-1)^sign * mant * 2^(exp - e)` for an exponent `e ≤ exp`. -/
def scaled (sign : Bool) (mant : Nat) (exp e : Int) : Int :=
  (if sign then -(mant : Int) else (mant : Int)) * 2 ^ (exp - e).toNat

/-- Comparison `a < b` on doubles. -/
def lt : Double → Double → Bool
  | .nan, _ => false
  | _, .nan => false
  | .infinite sa, .infinite sb => sa && !sb
  | .infinite sa, .finite _ _ _ => sa
  | .finite _ _ _, .infinite sb => !sb
  | .finite sa ma ea, .finite sb mb eb =>
      decide (scaled sa ma ea (min ea eb) < scaled sb mb eb (min ea eb))

/-- Comparison `a == b` on doubles. -/
def eq : Double → Double → Bool
  | .nan, _ => false
  | _, .nan => false
  | .infinite sa, .infinite sb => sa == sb
  | .infinite _, .finite _ _ _ => false
  | .finite _ _ _, .infinite _ => false
  | .finite sa ma ea, .finite sb mb eb =>
      decide (scaled sa ma ea (min ea eb) = scaled sb mb eb (min ea eb))

/-- Unary minus. -/
def neg : Double → Double
  | .nan => .nan
  | .infinite s => .infinite (!s)
  | .finite s m e => .finite (!s) m e

/-- Addition `a + b`. -/
def add : Double → Double → Double
  | .nan, _ => .nan
  | _, .nan => .nan
  | .infinite sa, .infinite sb => if sa = sb then .infinite sa else .nan
  | .infinite sa, .finite _ _ _ => .infinite sa
  | .finite _ _ _, .infinite sb => .infinite sb
  | .finite sa ma ea, .finite sb mb eb =>
      let e := min ea eb
      let t := scaled sa ma ea e + scaled sb mb eb e
      if t = 0 then .finite (sa && sb) 0 0
      else round (decide (t < 0)) t.natAbs 1 e

/-- Subtraction `a - b`. -/
def sub (a b : Double) : Double := add a (neg b)

/-- Multiplication `a * b`. -/
def mul : Double → Double → Double
  | .nan, _ => .nan
  | _, .nan => .nan
  | .infinite sa, .infinite sb => .infinite (sa != sb)
  | .infinite sa, .finite sb mb _ => if mb = 0 then .nan else .infinite (sa != sb)
  | .finite sa ma _, .infinite sb => if ma = 0 then .nan else .infinite (sa != sb)
  | .finite sa ma ea, .finite sb mb eb => round (sa != sb) (ma * mb) 1 (ea + eb)

/-- Division `a / b`. -/
def div : Double → Double → Double
  | .nan, _ => .nan
  | _, .nan => .nan
  | .infinite _, .infinite _ => .nan
  | .infinite sa, .finite sb _ _ => .infinite (sa != sb)
  | .finite sa _ _, .infinite sb => .finite (sa != sb) 0 0
  | .finite sa ma ea, .finite sb mb eb =>
      if mb = 0 then (if ma = 0 then .nan else .infinite (sa != sb))
      else round (sa != sb) ma mb (ea - eb)

/-- Conversion `static_cast<int>(double)`: truncation toward zero; a value outside the
`int` range (undefined in C++) gives `INT_MIN`, as the x86 conversion does. -/
def toInt : Double → Int
  | .finite s m e =>
      let t : Int := if 0 ≤ e then (m : Int) * 2 ^ e.toNat else (m : Int) / 2 ^ (-e).toNat
      let v : Int := if s then -t else t
      if INT_MIN ≤ v ∧ v ≤ INT_MAX then v else INT_MIN
  | _ => INT_MIN

/-- Drop the trailing `'0'` characters of a digit string. -/
def stripZeros (ds : List Char) : List Char :=
  (ds.reverse.dropWhile (fun c => c == '0')).reverse

/-- The digits of `n`, padded on the left with zeros to width `w`. -/
def padDigits (w n : Nat) : List Char :=
  let ds := Nat.toDigits 10 n
  List.replicate (w - ds.length) '0' ++ ds

/-- Rendering by `operator<<(double)` with the stream defaults (`%g`, precision 6). -/
def format : Double → List Char
  | .nan => "nan".toList
  | .infinite s => if s then "-inf".toList else "inf".toList
  | .finite s m e =>
      let pre : List Char := if s then ['-'] else []
      if m = 0 then pre ++ ['0']
      else
        let num := if 0 ≤ e then m * 2 ^ e.toNat else m
        let den := if 0 ≤ e then 1 else 2 ^ (-e).toNat
        -- decimal exponent x with 10^x ≤ num/den < 10^(x+1)
        let x0 : Int :=
          if den ≤ num then (log10Floor (num / den) (num / den) : Int)
          else
            let k := log10Floor (den / num) (den / num)
            if num * 10 ^ k = den then -(k : Int) else -((k : Int) + 1)
        -- six significant digits: round num/den / 10^(x0-5)
        let sh : Int := x0 - 5
        let n := if 0 ≤ sh then num else num * 10 ^ (-sh).toNat
        let d := if 0 ≤ sh then den * 10 ^ sh.toNat else den
        let t := n / d
        let r := n % d
        let t1 := if d < 2 * r ∨ (2 * r = d ∧ t % 2 = 1) then t + 1 else t
        let x : Int := if t1 = 1000000 then x0 + 1 else x0
        let sig : Nat := if t1 = 1000000 then 100000 else t1
        let ds := padDigits 6 sig
        if x < -4 ∨ 6 ≤ x then
          let frac := stripZeros (ds.drop 1)
          let mant := ds.take 1 ++ (if frac = [] then [] else '.' :: frac)
          pre ++ mant ++ ['e'] ++ (if x < 0 then ['-'] else ['+']) ++ padDigits 2 x.natAbs
        else if 0 ≤ x then
          let frac := stripZeros (ds.drop (x.toNat + 1))
          pre ++ ds.take (x.toNat + 1) ++ (if frac = [] then [] else '.' :: frac)
        else
          let frac := stripZeros (List.replicate ((-x).toNat - 1) '0' ++ ds)
          pre ++ ['0', '.'] ++ frac

/-- Conversion `std::stod` of `intDigits.fracDigits`: the nearest double, or `none` where
`stod` throws `std::out_of_range` (overflow, or an inexact result below the normal range). -/
def stod (intDigits fracDigits : List Char) : Option Double :=
  match roundFlag false (digitsValue (intDigits ++ fracDigits)) (10 ^ fracDigits.length) 0 with
  | (.finite s m e, tiny) => if tiny then none else some (.finite s m e)
  | _ => none

end Double

/-! ## Values (`Value.h`, `Value.cpp`) -/

/-- Runtime value, `class Value`. A function value holds a `std::shared_ptr<Callable>`;
here it is the index of the callable in the heap of callables. -/
inductive Value where
  | nil
  | boolean (b : Bool)
  | integer (i : Int)
  | float (d : Double)
  | string (s : List Char)
  | array (elems : List Value)
  | function (handle : Nat)
  deriving Repr, Inhabited

/-- Exceptions thrown by the C++ code, and the two outcomes that belong to the model. -/
inductive Exc where
  /-- A `std::runtime_error` with its message. -/
  | runtimeError (msg : List Char)
  /-- A `ParseError` (derived from `std::runtime_error`). -/
  | parseError (msg : List Char)
  /-- A `ReturnValue` (derived from `std::runtime_error`). -/
  | returnValue (v : Value)
  /-- The `std::out_of_range` thrown by `std::stoi` / `std::stod`, with its `what()`. -/
  | outOfRange (what : List Char)
  /-- Undefined behaviour: a member of an `Interpreter` is read through a reference that
  does not refer to an `Interpreter` object, or the `int` operation `INT_MIN / -1` or
  `INT_MIN % -1` is performed, whose quotient no `int` holds (on x86 the division traps and
  the process is killed by `SIGFPE`: nothing is returned and nothing is thrown). -/
  | undefinedBehaviour
  /-- The recursion bound of the model is exhausted. -/
  | outOfFuel
  deriving Repr, Inhabited

/-- Whether `catch (const std::runtime_error&)` catches the exception. -/
def Exc.isRuntimeError : Exc → Bool
  | .runtimeError _ => true
  | .parseError _ => true
  | .returnValue _ => true
  | _ => false

namespace Value

def isNil : Value → Bool
  | .nil => true
  | _ => false

def isBoolean : Value → Bool
  | .boolean _ => true
  | _ => false

def isInteger : Value → Bool
  | .integer _ => true
  | _ => false

def isFloat : Value → Bool
  | .float _ => true
  | _ => false

def isNumber (v : Value) : Bool := v.isInteger || v.isFloat

def isString : Value → Bool
  | .string _ => true
  | _ => false

def isArray : Value → Bool
  | .array _ => true
  | _ => false

def isFunction : Value → Bool
  | .function _ => true
  | _ => false

/-- Member `toString`. -/
def toString : Value → List Char
  | .nil => "nil".toList
  | .boolean b => if b then "true".toList else "false".toList
  | .integer i => fmtInt i
  | .float d => d.format
  | .string s => s
  | .array elems => '[' :: elemsToString true elems ++ [']']
  | .function _ => "<function>".toList
where
  /-- The loop over the elements; `first` is `i == 0`. -/
  elemsToString (first : Bool) : List Value → List Char
  | [] => []
  | x :: xs => (if first then [] else ", ".toList) ++ x.toString ++ elemsToString false xs

def asBoolean : Value → Except Exc Bool
  | .boolean b => .ok b
  | _ => .error (.runtimeError "Value is not a boolean".toList)

def asInteger : Value → Except Exc Int
  | .integer i => .ok i
  | .float d => .ok d.toInt
  | _ => .error (.runtimeError "Value is not an integer".toList)

def asFloat : Value → Except Exc Double
  | .float d => .ok d
  | .integer i => .ok (Double.ofInt i)
  | _ => .error (.runtimeError "Value is not a number".toList)

def asString : Value → List Char
  | .string s => s
  | v => v.toString

def asArray : Value → Except Exc (List Value)
  | .array elems => .ok elems
  | _ => .error (.runtimeError "Value is not an array".toList)

def asFunction : Value → Except Exc Nat
  | .function h => .ok h
  | _ => .error (.runtimeError "Value is not a function".toList)

/-- Member `at(int index)` (`at` is reserved in Lean). -/
def atIndex (v : Value) (index : Int) : Except Exc Value :=
  match v with
  | .array elems =>
      if index < 0 ∨ elems.length ≤ index.toNat then
        .error (.runtimeError "Array index out of bounds".toList)
      else .ok (elems.getD index.toNat .nil)
  | _ => .error (.runtimeError "Value is not an array".toList)

/-- Member `set(int index, const Value&)`: the updated value of the object it is called on. -/
def set (v : Value) (index : Int) (value : Value) : Except Exc Value :=
  match v with
  | .array elems =>
      if index < 0 ∨ elems.length ≤ index.toNat then
        .error (.runtimeError "Array index out of bounds".toList)
      else .ok (.array (elems.set index.toNat value))
  | _ => .error (.runtimeError "Value is not an array".toList)

/-- Member `size()`. -/
def size : Value → Except Exc Int
  | .array elems => .ok (wrapInt elems.length)
  | .string s => .ok (wrapInt s.length)
  | _ => .error (.runtimeError "Value does not have a size".toList)

/-- Member `isTruthy`. -/
def isTruthy : Value → Bool
  | .nil => false
  | .boolean b => b
  | .integer i => i != 0
  | .float d => !(Double.eq d (Double.ofInt 0))
  | .string s => !s.isEmpty
  | .array elems => !elems.isEmpty
  | .function _ => true

/-- The operator `+`. -/
def add (l r : Value) : Except Exc Value :=
  if l.isString || r.isString then
    .ok (.string (l.toString ++ r.toString))
  else if l.isNumber && r.isNumber then
    if l.isFloat || r.isFloat then do
      let a ← l.asFloat
      let b ← r.asFloat
      .ok (.float (Double.add a b))
    else do
      let a ← l.asInteger
      let b ← r.asInteger
      .ok (.integer (wrapInt (a + b)))
  else .error (.runtimeError "Cannot add these types".toList)

/-- The operator `-`. -/
def sub (l r : Value) : Except Exc Value :=
  if l.isNumber && r.isNumber then
    if l.isFloat || r.isFloat then do
      let a ← l.asFloat
      let b ← r.asFloat
      .ok (.float (Double.sub a b))
    else do
      let a ← l.asInteger
      let b ← r.asInteger
      .ok (.integer (wrapInt (a - b)))
  else .error (.runtimeError "Cannot subtract these types".toList)

/-- The operator `*`. -/
def mul (l r : Value) : Except Exc Value :=
  if l.isNumber && r.isNumber then
    if l.isFloat || r.isFloat then do
      let a ← l.asFloat
      let b ← r.asFloat
      .ok (.float (Double.mul a b))
    else do
      let a ← l.asInteger
      let b ← r.asInteger
      .ok (.integer (wrapInt (a * b)))
  else .error (.runtimeError "Cannot multiply these types".toList)

/-- The operator `/`; integer division truncates toward zero. After the two tests for zero
the division of two integers is the `int` operation `asInteger() / rhs.asInteger()`, which
for `INT_MIN / -1` overflows. -/
def div (l r : Value) : Except Exc Value :=
  if l.isNumber && r.isNumber then do
    let ri ← r.asInteger
    if r.isInteger && ri == 0 then
      .error (.runtimeError "Division by zero".toList)
    else
      let rf ← r.asFloat
      if r.isFloat && Double.eq rf (Double.ofInt 0) then
        .error (.runtimeError "Division by zero".toList)
      else if l.isFloat || r.isFloat then do
        let a ← l.asFloat
        .ok (.float (Double.div a rf))
      else do
        let a ← l.asInteger
        if a == INT_MIN && ri == -1 then .error .undefinedBehaviour
        else .ok (.integer (wrapInt (Int.tdiv a ri)))
  else .error (.runtimeError "Cannot divide these types".toList)

/-- The operator `%`. After the test for zero the remainder is the `int` operation
`asInteger() % rhs.asInteger()`, which for `INT_MIN % -1` overflows as the division does. -/
def mod (l r : Value) : Except Exc Value :=
  if l.isInteger && r.isInteger then do
    let a ← l.asInteger
    let b ← r.asInteger
    if b == 0 then .error (.runtimeError "Modulo by zero".toList)
    else if a == INT_MIN && b == -1 then .error .undefinedBehaviour
    else .ok (.integer (wrapInt (Int.tmod a b)))
  else .error (.runtimeError "Modulo requires integer operands".toList)

/-- The operator `==`. -/
def eq : Value → Value → Bool
  | .nil, .nil => true
  | .boolean a, .boolean b => a == b
  | .integer a, .integer b => a == b
  | .float a, .float b => Double.eq a b
  | .string a, .string b => a == b
  | .array a, .array b => a.length == b.length && eqElems a b
  | .function a, .function b => a == b
  | .integer a, .float b => Double.eq (Double.ofInt a) b
  | .float a, .integer b => Double.eq a (Double.ofInt b)
  | _, _ => false
where
  /-- The loop over the indices of two arrays of equal size. -/
  eqElems : List Value → List Value → Bool
  | x :: xs, y :: ys => if !(eq x y) then false else eqElems xs ys
  | _, _ => true

/-- The operator `!=`. -/
def ne (l r : Value) : Bool := !(eq l r)

/-- The operator `<` of `std::string`. -/
def strLt : List Char → List Char → Bool
  | [], [] => false
  | [], _ :: _ => true
  | _ :: _, [] => false
  | a :: as, b :: bs => if a < b then true else if b < a then false else strLt as bs

/-- The operator `<`. -/
def lt (l r : Value) : Except Exc Bool :=
  if l.isNumber && r.isNumber then do
    let a ← l.asFloat
    let b ← r.asFloat
    .ok (Double.lt a b)
  else if l.isString && r.isString then
    .ok (strLt l.asString r.asString)
  else .error (.runtimeError "Cannot compare these types with <".toList)

/-- The operator `<=`, which is `*this < rhs || *this == rhs`. -/
def le (l r : Value) : Except Exc Bool := do
  let b ← lt l r
  .ok (b || eq l r)

/-- The operator `>`, which is `!(*this <= rhs)`. -/
def gt (l r : Value) : Except Exc Bool := do
  let b ← le l r
  .ok (!b)

/-- The operator `>=`, which is `!(*this < rhs)`. -/
def ge (l r : Value) : Except Exc Bool := do
  let b ← lt l r
  .ok (!b)

end Value

/-! ## Tokens (`Token.h`) -/

/-- The enumeration `TokenType`. -/
inductive TokenType where
  | END_OF_FILE | ERROR
  | INTEGER | FLOAT | STRING | IDENTIFIER
  | PLUS | MINUS | MULTIPLY | DIVIDE | MODULO
  | ASSIGN | PLUS_ASSIGN | MINUS_ASSIGN | MULT_ASSIGN | DIV_ASSIGN
  | EQUAL | NOT_EQUAL | GREATER | LESS | GREATER_EQUAL | LESS_EQUAL
  | AND | OR | NOT
  | EQUALS | ISNT | GREATER_THAN | LESS_THAN | AT_LEAST | AT_MOST
  | LEFT_PAREN | RIGHT_PAREN | LEFT_BRACKET | RIGHT_BRACKET | LEFT_BRACE | RIGHT_BRACE
  | COMMA | COLON | SEMICOLON
  | IF | ELSE | WHILE | FOR | FUNCTION | RETURN | SHOW | SHOWNL | NEXTL | ASK
  | ENDIF | ENDWHILE | ENDFOR | ENDFUNCTION
  deriving DecidableEq, Repr, Inhabited

/-- The payload `std::variant<std::monostate, int, double, std::string>` of a token. -/
inductive TokenValue where
  | none
  | int (v : Int)
  | float (v : Double)
  | string (v : List Char)
  deriving DecidableEq, Repr, Inhabited

/-- The class `Token`. -/
structure Token where
  type : TokenType
  value : TokenValue
  line : Int
  column : Int
  deriving DecidableEq, Repr, Inhabited

namespace Token

def hasStringValue (t : Token) : Bool :=
  match t.value with
  | .string _ => true
  | _ => false

def getIntValue (t : Token) : Except Exc Int :=
  match t.value with
  | .int v => .ok v
  | _ => .error (.runtimeError "Token does not contain an integer value".toList)

def getFloatValue (t : Token) : Except Exc Double :=
  match t.value with
  | .float v => .ok v
  | _ => .error (.runtimeError "Token does not contain a float value".toList)

def getStringValue (t : Token) : Except Exc (List Char) :=
  match t.value with
  | .string v => .ok v
  | _ => .error (.runtimeError "Token does not contain a string value".toList)

end Token

/-! ## Lexer (`Lexer.h`, `Lexer.cpp`) -/

/-- The table `Lexer::keywords`. -/
def keywords : List (List Char × TokenType) :=
  [ ("if".toList, .IF), ("else".toList, .ELSE), ("while".toList, .WHILE),
    ("for".toList, .FOR), ("function".toList, .FUNCTION), ("return".toList, .RETURN),
    ("show".toList, .SHOW), ("shownl".toList, .SHOWNL), ("nextl".toList, .NEXTL),
    ("ask".toList, .ASK), ("endif".toList, .ENDIF), ("endwhile".toList, .ENDWHILE),
    ("endfor".toList, .ENDFOR), ("endfunction".toList, .ENDFUNCTION),
    ("and".toList, .AND), ("or".toList, .OR), ("not".toList, .NOT) ]

/-- The table `Lexer::naturalOperators`. -/
def naturalOperators : List (List Char × TokenType) :=
  [ ("equals".toList, .EQUALS), ("isnt".toList, .ISNT),
    ("greater than".toList, .GREATER_THAN), ("less than".toList, .LESS_THAN),
    ("at least".toList, .AT_LEAST), ("at most".toList, .AT_MOST) ]

/-- The data members of `class Lexer`. -/
structure Lexer where
  source : List Char
  position : Nat
  line : Int
  column : Int
  currentChar : Char
  deriving DecidableEq, Repr, Inhabited

namespace Lexer

/-- The constructor `Lexer(source)`. -/
def new (source : List Char) : Lexer :=
  { source := source, position := 0, line := 1, column := 1,
    currentChar := source.getD 0 NUL }

def isAtEnd (l : Lexer) : Bool := decide (l.source.length ≤ l.position)

/-- Number of characters from the position to the end of the source: the bound of every
scanning loop (each loop tests `isAtEnd()` and each round calls `advance()`). -/
def remaining (l : Lexer) : Nat := l.source.length - l.position

def advance (l : Lexer) : Lexer :=
  if l.source.length ≤ l.position + 1 then
    { l with position := l.position + 1, currentChar := NUL }
  else
    let c := l.source.getD (l.position + 1) NUL
    if c = '\n' then
      { l with position := l.position + 1, currentChar := c, line := l.line + 1, column := 1 }
    else
      { l with position := l.position + 1, currentChar := c, column := l.column + 1 }

/-- The loop `while (cond(currentChar) && !isAtEnd()) advance();` with at most `n` rounds. -/
def advanceWhile (cond : Char → Bool) : Nat → Lexer → Lexer
  | 0, l => l
  | n + 1, l => if cond l.currentChar && !l.isAtEnd then advanceWhile cond n l.advance else l

def skipWhitespace (l : Lexer) : Lexer :=
  advanceWhile isspace l.remaining l

def skipComment (l : Lexer) : Lexer :=
  let l1 := advanceWhile (fun c => c != '\n') l.remaining l
  if l1.currentChar = '\n' then l1.advance else l1

def peek (l : Lexer) : Char :=
  if l.source.length ≤ l.position + 1 then NUL else l.source.getD (l.position + 1) NUL

def isDigit (c : Char) : Bool := isdigit c

def isAlpha (c : Char) : Bool := isalphaC c || c == '_'

def isAlphaNumeric (c : Char) : Bool := isAlpha c || isDigit c

/-- The overload `makeToken(type)`. -/
def makeToken (l : Lexer) (type : TokenType) : Token :=
  { type := type, value := .none, line := l.line, column := l.column }

/-- The overloads `makeToken(type, value)`. -/
def makeTokenWith (l : Lexer) (type : TokenType) (value : TokenValue) : Token :=
  { type := type, value := value, line := l.line, column := l.column }

/-- The function `std::stoi` on a run of digits. -/
def stoi (ds : List Char) : Except Exc Int :=
  if (digitsValue ds : Int) ≤ INT_MAX then .ok (digitsValue ds)
  else .error (.outOfRange "stoi".toList)

def handleNumber (l : Lexer) : Except Exc (Token × Lexer) :=
  let startPos := l.position
  let startCol := l.column
  let l1 := advanceWhile isDigit l.remaining l
  if l1.currentChar = '.' ∧ isDigit l1.peek then
    let l2 := l1.advance
    let l3 := advanceWhile isDigit l2.remaining l2
    let intPart := substr l.source startPos (l1.position - startPos)
    let fracPart := substr l.source (l1.position + 1) (l3.position - (l1.position + 1))
    match Double.stod intPart fracPart with
    | some d => .ok ({ type := .FLOAT, value := .float d, line := l3.line, column := startCol }, l3)
    | none => .error (.outOfRange "stod".toList)
  else
    let numberStr := substr l.source startPos (l1.position - startPos)
    match stoi numberStr with
    | .ok v => .ok ({ type := .INTEGER, value := .int v, line := l1.line, column := startCol }, l1)
    | .error e => .error e

def handleIdentifier (l : Lexer) : Token × Lexer :=
  let startPos := l.position
  let l1 := advanceWhile isAlphaNumeric l.remaining l
  let identifier := substr l.source startPos (l1.position - startPos)
  match keywords.lookup identifier with
  | some t => (l1.makeToken t, l1)
  | none => (l1.makeTokenWith .IDENTIFIER (.string identifier), l1)

def handleString (l : Lexer) : Token × Lexer :=
  let l1 := l.advance
  let startPos := l1.position
  let l2 := advanceWhile (fun c => c != QUOTE) l1.remaining l1
  if l2.isAtEnd then
    (l2.makeTokenWith .ERROR (.string "Unterminated string".toList), l2)
  else
    let str := substr l.source startPos (l2.position - startPos)
    let l3 := l2.advance
    (l3.makeTokenWith .STRING (.string str), l3)

/-- The trimming `s.substr(0, s.find_last_not_of(" \t") + 1)`. -/
def trimRight (s : List Char) : List Char :=
  (s.reverse.dropWhile (fun c => c == ' ' || c == '\t')).reverse

def handleWord (l : Lexer) : Token × Lexer :=
  let startPos := l.position
  let startCol := l.column
  let l1 := advanceWhile isAlpha l.remaining l
  let l2 := advanceWhile (fun c => isspace c && c != '\n') l1.remaining l1
  let l5 :=
    if isAlpha l2.currentChar then
      let tempPos := l2.position
      let tempLine := l2.line
      let tempCol := l2.column
      let firstWord := substr l.source startPos (tempPos - startPos - 1)
      let secondWordStart := l2.position
      let l3 := advanceWhile isAlpha l2.remaining l2
      let twoWords :=
        trimRight (firstWord ++ [' '] ++
          substr l.source secondWordStart (l3.position - secondWordStart))
      match naturalOperators.lookup twoWords with
      | some t => Sum.inl (l3.makeToken t, l3)
      | none =>
          Sum.inr { l3 with position := tempPos, line := tempLine, column := tempCol,
                            currentChar := l.source.getD tempPos NUL }
    else Sum.inr l2
  match l5 with
  | .inl r => r
  | .inr l4 =>
      handleIdentifier { l4 with position := startPos, column := startCol,
                                 currentChar := l.source.getD startPos NUL }

/-- One case of the `switch` in `handleOperator`: `advance()`, then a compound token
if `=` follows. -/
def withAssign (l : Lexer) (compound single : TokenType) : Token × Lexer :=
  let l1 := l.advance
  if l1.currentChar = '=' then (l1.advance.makeToken compound, l1.advance)
  else (l1.makeToken single, l1)

/-- One case of the `switch` in `handleOperator`: `advance()` and a token. -/
def single (l : Lexer) (t : TokenType) : Token × Lexer :=
  (l.advance.makeToken t, l.advance)

def handleOperator (l : Lexer) : Token × Lexer :=
  let c := l.currentChar
  if c = '+' then withAssign l .PLUS_ASSIGN .PLUS
  else if c = '-' then withAssign l .MINUS_ASSIGN .MINUS
  else if c = '*' then withAssign l .MULT_ASSIGN .MULTIPLY
  else if c = '/' then withAssign l .DIV_ASSIGN .DIVIDE
  else if c = '%' then single l .MODULO
  else if c = '=' then withAssign l .EQUAL .ASSIGN
  else if c = '!' then
    let l1 := l.advance
    if l1.currentChar = '=' then (l1.advance.makeToken .NOT_EQUAL, l1.advance)
    else (l1.makeTokenWith .ERROR (.string "Unexpected character \x27!\x27".toList), l1)
  else if c = '>' then withAssign l .GREATER_EQUAL .GREATER
  else if c = '<' then withAssign l .LESS_EQUAL .LESS
  else if c = '(' then single l .LEFT_PAREN
  else if c = ')' then single l .RIGHT_PAREN
  else if c = '[' then single l .LEFT_BRACKET
  else if c = ']' then single l .RIGHT_BRACKET
  else if c = Char.ofNat 123 then single l .LEFT_BRACE
  else if c = Char.ofNat 125 then single l .RIGHT_BRACE
  else if c = ',' then single l .COMMA
  else if c = ':' then single l .COLON
  else if c = ';' then single l .SEMICOLON
  else
    let errorMsg := "Unexpected character \x27".toList ++ [c] ++ "\x27".toList
    (l.advance.makeTokenWith .ERROR (.string errorMsg), l.advance)

/-- The body of `nextToken`; the first argument bounds the recursion after a comment. With
no character left the lexer is at the end, which is the case `0`. -/
def nextTokenAux : Nat → Lexer → Except Exc (Token × Lexer)
  | 0, l =>
      let l1 := l.skipWhitespace
      .ok (l1.makeToken .END_OF_FILE, l1)
  | n + 1, l =>
      let l1 := l.skipWhitespace
      if l1.isAtEnd then .ok (l1.makeToken .END_OF_FILE, l1)
      else if l1.currentChar = Char.ofNat 35 then nextTokenAux n l1.skipComment
      else if isDigit l1.currentChar then l1.handleNumber
      else if isAlpha l1.currentChar then .ok l1.handleWord
      else if l1.currentChar = QUOTE then .ok l1.handleString
      else .ok l1.handleOperator

def nextToken (l : Lexer) : Except Exc (Token × Lexer) :=
  nextTokenAux l.remaining l

/-- The member `peekToken`: the next token, with position, line, column and current
character put back. -/
def peekToken (l : Lexer) : Except Exc (Token × Lexer) :=
  match l.nextToken with
  | .ok (token, l1) =>
      .ok (token, { l1 with position := l.position, line := l.line, column := l.column,
                            currentChar := l.currentChar })
  | .error e => .error e

end Lexer

/-! ## Syntax trees (`AST.h`) -/

/-- The payload `std::variant<int, double, std::string, bool>` of a `LiteralNode`. -/
inductive LiteralValue where
  | int (v : Int)
  | double (v : Double)
  | string (v : List Char)
  | bool (v : Bool)
  deriving DecidableEq, Repr, Inhabited

/-- The enumeration `BinaryOpNode::OpType`. -/
inductive BinaryOpType where
  | ADD | SUB | MUL | DIV | MOD | EQ | NEQ | GT | LT | GTE | LTE | AND | OR
  deriving DecidableEq, Repr, Inhabited

/-- The enumeration `UnaryOpNode::OpType`. -/
inductive UnaryOpType where
  | NEGATIVE | NOT
  deriving DecidableEq, Repr, Inhabited

/-- The node classes derived from `ASTNode`. -/
inductive ASTNode where
  | Literal (value : LiteralValue)
  | Variable (name : List Char)
  | BinaryOp (opType : BinaryOpType) (left right : ASTNode)
  | UnaryOp (opType : UnaryOpType) (operand : ASTNode)
  | ArrayLiteral (elements : List ASTNode)
  | ArrayAccess (array index : ASTNode)
  | FunctionCall (name : List Char) (arguments : List ASTNode)
  | Block (statements : List ASTNode)
  | Assignment (name : List Char) (expression : ASTNode)
  | ArrayAssignment (array index value : ASTNode)
  | If (condition thenBranch : ASTNode) (elseBranch : Option ASTNode)
  | While (condition body : ASTNode)
  | For (initialization condition increment body : ASTNode)
  | FunctionDef (name : List Char) (parameters : List (List Char)) (body : ASTNode)
  | Return (expression : ASTNode)
  | Print (expression : ASTNode) (newline : Bool)
  | Input
  | Program (statements : List ASTNode)
  deriving Repr, Inhabited

/-! ## Parser (`Parser.h`, `Parser.cpp`) -/

/-- The data members of `class Parser`; the `Lexer&` is the lexer state. -/
structure Parser where
  lexer : Lexer
  currentToken : Token
  deriving DecidableEq, Repr, Inhabited

/-- The failure of a parsing function: the exception thrown and the parser at the throw.
A parsing function returns `Except PErr (α × Parser)`: on success, its value and the
parser afterwards. -/
abbrev PErr := Exc × Parser

namespace Parser

def advance (p : Parser) : Except PErr (Unit × Parser) :=
  match p.lexer.nextToken with
  | .ok (t, l) => .ok ((), { lexer := l, currentToken := t })
  | .error e => .error (e, p)

/-- The constructor `Parser(lexer)`. -/
def new (lexer : Lexer) : Except Exc Parser :=
  match advance { lexer := lexer, currentToken := { type := .ERROR, value := .none, line := 0, column := 0 } } with
  | .ok (_, p) => .ok p
  | .error (e, _) => .error e

def check (p : Parser) (type : TokenType) : Bool :=
  p.currentToken.type == type

/-- The member `error(message)`: the `ParseError` to throw. -/
def error (p : Parser) (message : List Char) : Exc :=
  .parseError ("Error at line ".toList ++ fmtInt p.currentToken.line ++
    ", column ".toList ++ fmtInt p.currentToken.column ++ ": ".toList ++ message)

def consume (p : Parser) (type : TokenType) (message : List Char) : Except PErr (Unit × Parser) :=
  if p.check type then p.advance else .error (p.error message, p)

/-- The member `match(type)` (`match` is reserved in Lean). -/
def matchType (p : Parser) (type : TokenType) : Except PErr (Bool × Parser) :=
  if p.check type then
    match p.advance with
    | .ok (_, p1) => .ok (true, p1)
    | .error e => .error e
  else .ok (false, p)

/-- The member `currentToken.getStringValue()` as a parsing step. -/
def stringValue (p : Parser) : Except PErr (List Char × Parser) :=
  match p.currentToken.getStringValue with
  | .ok v => .ok (v, p)
  | .error e => .error (e, p)

/-- The loop of `synchronize`; the first argument bounds the number of tokens skipped. -/
def synchronizeLoop : Nat → Parser → Except PErr (Unit × Parser)
  | 0, p => .error (.outOfFuel, p)
  | fuel + 1, p =>
      if p.currentToken.type ≠ .END_OF_FILE then
        if p.currentToken.type = .SEMICOLON then p.advance
        else if p.currentToken.type = .FUNCTION ∨ p.currentToken.type = .IF ∨
            p.currentToken.type = .WHILE ∨ p.currentToken.type = .FOR ∨
            p.currentToken.type = .RETURN ∨ p.currentToken.type = .SHOW ∨
            p.currentToken.type = .SHOWNL ∨ p.currentToken.type = .ASK then .ok ((), p)
        else
          match p.advance with
          | .ok (_, p1) => synchronizeLoop fuel p1
          | .error e => .error e
      else .ok ((), p)

def synchronize (fuel : Nat) (p : Parser) : Except PErr (Unit × Parser) :=
  match p.advance with
  | .ok (_, p1) => synchronizeLoop fuel p1
  | .error e => .error e

/-- The node type chosen at the end of the loop body of `comparison`. -/
def comparisonOp : TokenType → Option BinaryOpType
  | .GREATER | .GREATER_THAN => some .GT
  | .LESS | .LESS_THAN => some .LT
  | .GREATER_EQUAL | .AT_LEAST => some .GTE
  | .LESS_EQUAL | .AT_MOST => some .LTE
  | _ => none

mutual

/-- The loop of `program`, with the statements collected so far. -/
def programLoop : Nat → List ASTNode → Parser → Except PErr (ASTNode × Parser)
  | 0, _, p => .error (.outOfFuel, p)
  | fuel + 1, statements, p =>
      if p.currentToken.type ≠ .END_OF_FILE then do
        let (s, p1) ← statement fuel p
        programLoop fuel (statements ++ [s]) p1
      else .ok (.Program statements, p)

def statement : Nat → Parser → Except PErr (ASTNode × Parser)
  | 0, p => .error (.outOfFuel, p)
  | fuel + 1, p => do
      let (m, p) ← p.matchType .IF
      if m then ifStatement fuel p else
      let (m, p) ← p.matchType .WHILE
      if m then whileStatement fuel p else
      let (m, p) ← p.matchType .FOR
      if m then forStatement fuel p else
      let (m, p) ← p.matchType .FUNCTION
      if m then functionDeclaration fuel p else
      let (m, p) ← p.matchType .RETURN
      if m then returnStatement fuel p else
      let (m, p) ← p.matchType .SHOW
      if m then printStatement fuel false p else
      let (m, p) ← p.matchType .SHOWNL
      if m then printStatement fuel true p else
      expressionStatement fuel p

def ifStatement : Nat → Parser → Except PErr (ASTNode × Parser)
  | 0, p => .error (.outOfFuel, p)
  | fuel + 1, p => do
      let (condition, p) ← expression fuel p
      let (thenBranch, p) ← statement fuel p
      let (m, p) ← p.matchType .ELSE
      if m then
        let (elseBranch, p) ← statement fuel p
        let (_, p) ← p.consume .ENDIF "Expect \x27endif\x27 after if statement".toList
        .ok (.If condition thenBranch (some elseBranch), p)
      else
        let (_, p) ← p.consume .ENDIF "Expect \x27endif\x27 after if statement".toList
        .ok (.If condition thenBranch none, p)

def whileStatement : Nat → Parser → Except PErr (ASTNode × Parser)
  | 0, p => .error (.outOfFuel, p)
  | fuel + 1, p => do
      let (condition, p) ← expression fuel p
      let (body, p) ← block fuel [] p
      let (_, p) ← p.consume .ENDWHILE "Expect \x27endwhile\x27 after while loop".toList
      .ok (.While condition body, p)

def forStatement : Nat → Parser → Except PErr (ASTNode × Parser)
  | 0, p => .error (.outOfFuel, p)
  | fuel + 1, p => do
      let (init, p) ← expression fuel p
      let (_, p) ← p.consume .SEMICOLON "Expect \x27;\x27 after for loop initialization".toList
      let (condition, p) ← expression fuel p
      let (_, p) ← p.consume .SEMICOLON "Expect \x27;\x27 after for loop condition".toList
      let (increment, p) ← expression fuel p
      let (body, p) ← statement fuel p
      let (_, p) ← p.consume .ENDFOR "Expect \x27endfor\x27 after for loop".toList
      .ok (.For init condition increment body, p)

/-- The function `block`: its loop, with the statements collected so far. -/
def block : Nat → List ASTNode → Parser → Except PErr (ASTNode × Parser)
  | 0, _, p => .error (.outOfFuel, p)
  | fuel + 1, statements, p =>
      if !p.check .END_OF_FILE && !p.check .ENDIF && !p.check .ENDWHILE &&
          !p.check .ENDFOR && !p.check .ENDFUNCTION then do
        let (s, p1) ← statement fuel p
        block fuel (statements ++ [s]) p1
      else .ok (.Block statements, p)

def expressionStatement : Nat → Parser → Except PErr (ASTNode × Parser)
  | 0, p => .error (.outOfFuel, p)
  | fuel + 1, p => expression fuel p

def printStatement : Nat → Bool → Parser → Except PErr (ASTNode × Parser)
  | 0, _, p => .error (.outOfFuel, p)
  | fuel + 1, newline, p => do
      let (expr, p) ← expression fuel p
      .ok (.Print expr newline, p)

def functionDeclaration : Nat → Parser → Except PErr (ASTNode × Parser)
  | 0, p => .error (.outOfFuel, p)
  | fuel + 1, p => do
      let (_, p) ← p.consume .IDENTIFIER "Expect function name".toList
      let (name, p) ← p.stringValue
      let (_, p) ← p.advance
      let (_, p) ← p.consume .LEFT_PAREN "Expect \x27(\x27 after function name".toList
      let (parameters, p) ←
        if !p.check .RIGHT_PAREN then parameterLoop fuel [] p else .ok ([], p)
      let (_, p) ← p.consume .RIGHT_PAREN "Expect \x27)\x27 after parameters".toList
      let (body, p) ← block fuel [] p
      let (_, p) ← p.consume .ENDFUNCTION "Expect \x27endfunction\x27 after function body".toList
      .ok (.FunctionDef name parameters body, p)

/-- The `do ... while (match(COMMA))` loop of `functionDeclaration`. -/
def parameterLoop : Nat → List (List Char) → Parser → Except PErr (List (List Char) × Parser)
  | 0, _, p => .error (.outOfFuel, p)
  | fuel + 1, parameters, p => do
      let (_, p) ← p.consume .IDENTIFIER "Expect parameter name".toList
      let (name, p) ← p.stringValue
      let (_, p) ← p.advance
      let (m, p) ← p.matchType .COMMA
      if m then parameterLoop fuel (parameters ++ [name]) p
      else .ok (parameters ++ [name], p)

def returnStatement : Nat → Parser → Except PErr (ASTNode × Parser)
  | 0, p => .error (.outOfFuel, p)
  | fuel + 1, p => do
      let (expr, p) ← expression fuel p
      .ok (.Return expr, p)

def expression : Nat → Parser → Except PErr (ASTNode × Parser)
  | 0, p => .error (.outOfFuel, p)
  | fuel + 1, p => assignment fuel p

def assignment : Nat → Parser → Except PErr (ASTNode × Parser)
  | 0, p => .error (.outOfFuel, p)
  | fuel + 1, p => do
      let (expr, p) ← logicalOr fuel p
      let (m, p) ← p.matchType .ASSIGN
      if m then
        let (value, p) ← assignment fuel p
        match expr with
        | .Variable name => .ok (.Assignment name value, p)
        | .ArrayAccess array index => .ok (.ArrayAssignment array index value, p)
        | _ => .error (p.error "Invalid assignment target".toList, p)
      else .ok (expr, p)

def logicalOr : Nat → Parser → Except PErr (ASTNode × Parser)
  | 0, p => .error (.outOfFuel, p)
  | fuel + 1, p => do
      let (expr, p) ← logicalAnd fuel p
      logicalOrLoop fuel expr p

def logicalOrLoop : Nat → ASTNode → Parser → Except PErr (ASTNode × Parser)
  | 0, _, p => .error (.outOfFuel, p)
  | fuel + 1, expr, p =>
      if !p.check .OR then .ok (expr, p)
      else do
        let (_, p) ← p.advance
        let (right, p) ← logicalAnd fuel p
        logicalOrLoop fuel (.BinaryOp .OR expr right) p

def logicalAnd : Nat → Parser → Except PErr (ASTNode × Parser)
  | 0, p => .error (.outOfFuel, p)
  | fuel + 1, p => do
      let (expr, p) ← equality fuel p
      logicalAndLoop fuel expr p

def logicalAndLoop : Nat → ASTNode → Parser → Except PErr (ASTNode × Parser)
  | 0, _, p => .error (.outOfFuel, p)
  | fuel + 1, expr, p =>
      if !p.check .AND then .ok (expr, p)
      else do
        let (_, p) ← p.advance
        let (right, p) ← equality fuel p
        logicalAndLoop fuel (.BinaryOp .AND expr right) p

def equality : Nat → Parser → Except PErr (ASTNode × Parser)
  | 0, p => .error (.outOfFuel, p)
  | fuel + 1, p => do
      let (expr, p) ← comparison fuel p
      equalityLoop fuel expr p

def equalityLoop : Nat → ASTNode → Parser → Except PErr (ASTNode × Parser)
  | 0, _, p => .error (.outOfFuel, p)
  | fuel + 1, expr, p =>
      let opType := p.currentToken.type
      if opType = .EQUAL ∨ opType = .NOT_EQUAL ∨ opType = .EQUALS ∨ opType = .ISNT then do
        let (_, p) ← p.advance
        let (right, p) ← comparison fuel p
        let nodeOpType : BinaryOpType :=
          if opType = .EQUAL ∨ opType = .EQUALS then .EQ else .NEQ
        equalityLoop fuel (.BinaryOp nodeOpType expr right) p
      else .ok (expr, p)

def comparison : Nat → Parser → Except PErr (ASTNode × Parser)
  | 0, p => .error (.outOfFuel, p)
  | fuel + 1, p => do
      let (expr, p) ← term fuel p
      comparisonLoop fuel expr p

def comparisonLoop : Nat → ASTNode → Parser → Except PErr (ASTNode × Parser)
  | 0, _, p => .error (.outOfFuel, p)
  | fuel + 1, expr, p =>
      match comparisonOp p.currentToken.type with
      | some nodeOpType => do
          let (_, p) ← p.advance
          let (right, p) ← term fuel p
          comparisonLoop fuel (.BinaryOp nodeOpType expr right) p
      | none => .ok (expr, p)

def term : Nat → Parser → Except PErr (ASTNode × Parser)
  | 0, p => .error (.outOfFuel, p)
  | fuel + 1, p => do
      let (expr, p) ← factor fuel p
      termLoop fuel expr p

def termLoop : Nat → ASTNode → Parser → Except PErr (ASTNode × Parser)
  | 0, _, p => .error (.outOfFuel, p)
  | fuel + 1, expr, p =>
      let opType := p.currentToken.type
      if opType = .PLUS ∨ opType = .MINUS then do
        let (_, p) ← p.advance
        let (right, p) ← factor fuel p
        let nodeOpType : BinaryOpType := if opType = .PLUS then .ADD else .SUB
        termLoop fuel (.BinaryOp nodeOpType expr right) p
      else .ok (expr, p)

def factor : Nat → Parser → Except PErr (ASTNode × Parser)
  | 0, p => .error (.outOfFuel, p)
  | fuel + 1, p => do
      let (expr, p) ← unary fuel p
      factorLoop fuel expr p

def factorLoop : Nat → ASTNode → Parser → Except PErr (ASTNode × Parser)
  | 0, _, p => .error (.outOfFuel, p)
  | fuel + 1, expr, p =>
      let opType := p.currentToken.type
      if opType = .MULTIPLY ∨ opType = .DIVIDE ∨ opType = .MODULO then do
        let (_, p) ← p.advance
        let (right, p) ← unary fuel p
        let nodeOpType : BinaryOpType :=
          if opType = .MULTIPLY then .MUL else if opType = .DIVIDE then .DIV else .MOD
        factorLoop fuel (.BinaryOp nodeOpType expr right) p
      else .ok (expr, p)

/-- The function `unary`. The operator is read from `currentToken` after `match` has
advanced past the operator token, and `advance()` then skips that token. -/
def unary : Nat → Parser → Except PErr (ASTNode × Parser)
  | 0, p => .error (.outOfFuel, p)
  | fuel + 1, p => do
      let (m1, p) ← p.matchType .MINUS
      let (m, p) ← if m1 then (.ok (true, p) : Except PErr (Bool × Parser)) else p.matchType .NOT
      if m then
        let op := p.currentToken.type
        let (_, p) ← p.advance
        let (right, p) ← unary fuel p
        let opType : UnaryOpType := if op = .MINUS then .NEGATIVE else .NOT
        .ok (.UnaryOp opType right, p)
      else call fuel p

def call : Nat → Parser → Except PErr (ASTNode × Parser)
  | 0, p => .error (.outOfFuel, p)
  | fuel + 1, p => do
      let (expr, p) ← primary fuel p
      callLoop fuel expr p

def callLoop : Nat → ASTNode → Parser → Except PErr (ASTNode × Parser)
  | 0, _, p => .error (.outOfFuel, p)
  | fuel + 1, expr, p => do
      let (m, p) ← p.matchType .LEFT_PAREN
      if m then
        let (e, p) ← finishCall fuel expr p
        callLoop fuel e p
      else
        let (m, p) ← p.matchType .LEFT_BRACKET
        if m then
          let (index, p) ← expression fuel p
          let (_, p) ← p.consume .RIGHT_BRACKET "Expect \x27]\x27 after array index".toList
          callLoop fuel (.ArrayAccess expr index) p
        else .ok (expr, p)

def finishCall : Nat → ASTNode → Parser → Except PErr (ASTNode × Parser)
  | 0, _, p => .error (.outOfFuel, p)
  | fuel + 1, callee, p => do
      let (arguments, p) ←
        if !p.check .RIGHT_PAREN then expressionList fuel [] p else .ok ([], p)
      let (_, p) ← p.consume .RIGHT_PAREN "Expect \x27)\x27 after function arguments".toList
      match callee with
      | .Variable name => .ok (.FunctionCall name arguments, p)
      | _ => .error (p.error "Expected function name".toList, p)

/-- The loop `do { xs.push_back(expression()); } while (match(COMMA));` of `finishCall`
and of the array literal in `primary`. -/
def expressionList : Nat → List ASTNode → Parser → Except PErr (List ASTNode × Parser)
  | 0, _, p => .error (.outOfFuel, p)
  | fuel + 1, xs, p => do
      let (e, p) ← expression fuel p
      let (m, p) ← p.matchType .COMMA
      if m then expressionList fuel (xs ++ [e]) p
      else .ok (xs ++ [e], p)

def primary : Nat → Parser → Except PErr (ASTNode × Parser)
  | 0, p => .error (.outOfFuel, p)
  | fuel + 1, p =>
      if p.check .INTEGER then
        match p.currentToken.getIntValue with
        | .ok value => do
            let (_, p) ← p.advance
            .ok (.Literal (.int value), p)
        | .error e => .error (e, p)
      else if p.check .FLOAT then
        match p.currentToken.getFloatValue with
        | .ok value => do
            let (_, p) ← p.advance
            .ok (.Literal (.double value), p)
        | .error e => .error (e, p)
      else if p.check .STRING then do
        let (value, p) ← p.stringValue
        let (_, p) ← p.advance
        .ok (.Literal (.string value), p)
      else if p.check .IDENTIFIER then do
        let (name, p) ← p.stringValue
        let (_, p) ← p.advance
        .ok (.Variable name, p)
      else do
        let (m, p) ← p.matchType .ASK
        if m then .ok (.Input, p) else
        let (m, p) ← p.matchType .LEFT_PAREN
        if m then
          let (expr, p) ← expression fuel p
          let (_, p) ← p.consume .RIGHT_PAREN "Expect \x27)\x27 after expression".toList
          .ok (expr, p)
        else
        let (m, p) ← p.matchType .LEFT_BRACKET
        if m then
          let (elements, p) ←
            if !p.check .RIGHT_BRACKET then expressionList fuel [] p else .ok ([], p)
          let (_, p) ← p.consume .RIGHT_BRACKET "Expect \x27]\x27 after array elements".toList
          .ok (.ArrayLiteral elements, p)
        else
          let errorMsg := "Expect expression, got ".toList ++ "token type ".toList ++
            Nat.toDigits 10 p.currentToken.type.toCtorIdx
          let errorMsg := if p.currentToken.hasStringValue then
              match p.currentToken.value with
              | .string v => errorMsg ++ " with value \x27".toList ++ v ++ "\x27".toList
              | _ => errorMsg
            else errorMsg
          .error (p.error errorMsg, p)

end

/-- The function `program`. -/
def program (fuel : Nat) (p : Parser) : Except PErr (ASTNode × Parser) :=
  programLoop fuel [] p

/-- The function `parse`: the program and the text written to `std::cerr`, or the
exception that leaves `parse`. -/
def parse (fuel : Nat) (p : Parser) : Except Exc (ASTNode × List Char) :=
  match program fuel p with
  | .ok (prog, _) => .ok (prog, [])
  | .error (.parseError msg, p1) =>
      match synchronize fuel p1 with
      | .ok _ => .ok (.Program [], msg ++ ['\n'])
      | .error (e, _) => .error e
  | .error (e, _) => .error e

end Parser

/-! ## Environments (`Environment.h`, `Environment.cpp`) -/

/-- The data members of `class Environment`. The map `values` is an association list
with one entry per name; `enclosing` is the index of the enclosing environment in the
heap, `none` for `nullptr`. -/
structure Environment where
  values : List (List Char × Value)
  enclosing : Option Nat
  deriving Repr, Inhabited

/-- The statement `values[name] = value` on a `std::unordered_map`. -/
def mapSet (m : List (List Char × Value)) (name : List Char) (value : Value) :
    List (List Char × Value) :=
  match m with
  | [] => [(name, value)]
  | (k, v) :: rest => if k = name then (k, value) :: rest else (k, v) :: mapSet rest name value

/-- The call `values.find(name)`. -/
def mapFind (m : List (List Char × Value)) (name : List Char) : Option Value :=
  match m with
  | [] => none
  | (k, v) :: rest => if k = name then some v else mapFind rest name

/-- The message of the exception thrown by `get` and `assign`. -/
def undefinedVariable (name : List Char) : Exc :=
  .runtimeError ("Undefined variable \x27".toList ++ name ++ "\x27".toList)

namespace Environment

/-- The member `define`, on environment `env` of the heap `envs`. -/
def define (envs : List Environment) (env : Nat) (name : List Char) (value : Value) :
    List Environment :=
  envs.modify (fun e => { e with values := mapSet e.values name value }) env

/-- The member `get` on environment `env`; the first argument bounds the walk along
`enclosing` (a chain without repetition is not longer than the heap). -/
def getAux (envs : List Environment) : Nat → Nat → List Char → Except Exc Value
  | 0, _, _ => .error .outOfFuel
  | fuel + 1, env, name =>
      match envs.get? env with
      | none => .error .undefinedBehaviour
      | some e =>
          match mapFind e.values name with
          | some v => .ok v
          | none =>
              match e.enclosing with
              | some parent => getAux envs fuel parent name
              | none => .error (undefinedVariable name)

def get (envs : List Environment) (env : Nat) (name : List Char) : Except Exc Value :=
  getAux envs envs.length env name

/-- The member `assign` on environment `env`: the heap afterwards, or the exception. -/
def assignAux (envs : List Environment) :
    Nat → Nat → List Char → Value → Except Exc (List Environment)
  | 0, _, _, _ => .error .outOfFuel
  | fuel + 1, env, name, value =>
      match envs.get? env with
      | none => .error .undefinedBehaviour
      | some e =>
          match mapFind e.values name with
          | some _ => .ok (define envs env name value)
          | none =>
              match e.enclosing with
              | some parent => assignAux envs fuel parent name value
              | none => .error (undefinedVariable name)

def assign (envs : List Environment) (env : Nat) (name : List Char) (value : Value) :
    Except Exc (List Environment) :=
  assignAux envs envs.length env name value

/-- The member `exists`. -/
def «exists» (envs : List Environment) (env : Nat) (name : List Char) : Bool :=
  match envs.get? env with
  | some e => (mapFind e.values name).isSome
  | none => false

end Environment

/-! ## Callables and the interpreter (`Value.h`, `Interpreter.h`, `Interpreter.cpp`) -/

/-- The four lambdas that `Interpreter::setupGlobals` wraps in a `NativeFunction`. -/
inductive Native where
  | show | shownl | ask | size
  deriving DecidableEq, Repr, Inhabited

/-- The classes derived from `Callable`. The closure of a user function is the index of
the captured environment. -/
inductive Callable where
  | NativeFunction (arity : Int) (function : Native)
  | UserFunction (parameters : List (List Char)) (body : ASTNode) (closure : Nat)
  deriving Repr, Inhabited

/-- The member `arity`. -/
def Callable.arity : Callable → Int
  | .NativeFunction arity _ => arity
  | .UserFunction parameters _ _ => wrapInt parameters.length

/-- The data members of `class Interpreter`: indices of environments. -/
structure Interpreter where
  environment : Nat
  globals : Nat
  deriving DecidableEq, Repr, Inhabited

/-- Everything an evaluation can read or change: the heap of environments, the heap of
callables, the interpreter object, and the standard streams (`cin` as its lines). -/
structure World where
  environments : List Environment
  callables : List Callable
  interpreter : Interpreter
  cout : List Char
  cin : List (List Char)
  deriving Repr, Inhabited

/-- What an `Interpreter&` handed to `evaluate` refers to: the interpreter object, or
(after the `reinterpret_cast` in `UserFunction::call`) an `Environment` object. -/
inductive InterpreterRef where
  | interpreter
  | environment (env : Nat)
  deriving DecidableEq, Repr, Inhabited

namespace World

/-- The call `std::make_shared<Environment>(enclosing)`: the new heap and the index. -/
def newEnvironment (w : World) (enclosing : Option Nat) : World × Nat :=
  ({ w with environments := w.environments ++ [{ values := [], enclosing := enclosing }] },
   w.environments.length)

/-- The call `std::make_shared<...>` of a callable: the new heap and the index. -/
def newCallable (w : World) (c : Callable) : World × Nat :=
  ({ w with callables := w.callables ++ [c] }, w.callables.length)

def define (w : World) (env : Nat) (name : List Char) (value : Value) : World :=
  { w with environments := Environment.define w.environments env name value }

/-- The call `interpreter.getEnvironment()` through the reference `ref`. -/
def getEnvironment (w : World) (ref : InterpreterRef) : Except Exc Nat :=
  match ref with
  | .interpreter => .ok w.interpreter.environment
  | .environment _ => .error .undefinedBehaviour

/-- The call `interpreter.setEnvironment(env)` on the interpreter object. -/
def setEnvironment (w : World) (env : Nat) : World :=
  { w with interpreter := { w.interpreter with environment := env } }

/-- The statement `std::getline(std::cin, input)`: the line read (empty at end of input). -/
def getline (w : World) : List Char × World :=
  match w.cin with
  | [] => ([], w)
  | line :: rest => (line, { w with cin := rest })

/-- The constructor `Interpreter()` with `setupGlobals`, on the given input. The value of
`nextl` is `Value("\n")`: for an argument of type `const char*` overload resolution selects
the constructor `Value(bool)` (a standard conversion) over `Value(const std::string&)` (a
user-defined conversion), so `nextl` is bound to the boolean true. -/
def new (cin : List (List Char)) : World :=
  let w : World :=
    { environments := [{ values := [], enclosing := none }],
      callables := [.NativeFunction 1 .show, .NativeFunction 1 .shownl,
                    .NativeFunction 0 .ask],
      interpreter := { environment := 0, globals := 0 },
      cout := [], cin := cin }
  let w := w.define 0 "show".toList (.function 0)
  let w := w.define 0 "shownl".toList (.function 1)
  let w := w.define 0 "ask".toList (.function 2)
  let w := w.define 0 "nextl".toList (.boolean true)
  let (w, size) := w.newCallable (.NativeFunction 1 .size)
  w.define 0 "size".toList (.function size)

end World

/-- The member `NativeFunction::call`: the wrapped lambda applied to the arguments. -/
def Native.call (f : Native) (args : List Value) (w : World) : Except Exc Value × World :=
  match f with
  | .show => (.ok .nil, { w with cout := w.cout ++ (args.getD 0 .nil).toString })
  | .shownl => (.ok .nil, { w with cout := w.cout ++ (args.getD 0 .nil).toString ++ ['\n'] })
  | .ask => let (input, w1) := w.getline; (.ok (.string input), w1)
  | .size =>
      match (args.getD 0 .nil).size with
      | .ok n => (.ok (.integer n), w)
      | .error e => (.error e, w)

/-- The `switch` of `BinaryOpNode::evaluate` on two evaluated operands. -/
def applyBinary (opType : BinaryOpType) (leftVal rightVal : Value) : Except Exc Value :=
  match opType with
  | .ADD => leftVal.add rightVal
  | .SUB => leftVal.sub rightVal
  | .MUL => leftVal.mul rightVal
  | .DIV => leftVal.div rightVal
  | .MOD => leftVal.mod rightVal
  | .EQ => .ok (.boolean (leftVal.eq rightVal))
  | .NEQ => .ok (.boolean (leftVal.ne rightVal))
  | .GT => (leftVal.gt rightVal).map .boolean
  | .LT => (leftVal.lt rightVal).map .boolean
  | .GTE => (leftVal.ge rightVal).map .boolean
  | .LTE => (leftVal.le rightVal).map .boolean
  | .AND => .ok (.boolean (leftVal.isTruthy && rightVal.isTruthy))
  | .OR => .ok (.boolean (leftVal.isTruthy || rightVal.isTruthy))

/-- The `switch` of `UnaryOpNode::evaluate` on the evaluated operand. -/
def applyUnary (opType : UnaryOpType) (val : Value) : Except Exc Value :=
  match opType with
  | .NOT => .ok (.boolean (!val.isTruthy))
  | .NEGATIVE =>
      match val with
      | .integer i => .ok (.integer (wrapInt (-i)))
      | .float d => .ok (.float (Double.neg d))
      | _ => .error (.runtimeError "Cannot negate non-numeric value".toList)

/-- The value of a `LiteralNode`. -/
def LiteralValue.toValue : LiteralValue → Value
  | .int v => .integer v
  | .double v => .float v
  | .string v => .string v
  | .bool v => .boolean v

/-- The message of the arity check in `Value::call`. -/
def arityMessage (arity : Int) (given : Nat) : List Char :=
  "Expected ".toList ++ fmtInt arity ++ " arguments but got ".toList ++ Nat.toDigits 10 given

/-- The binding loop of `UserFunction::call`: parameter `i` is bound to argument `i`,
or to nil when there is none. -/
def bindParameters (envs : List Environment) (env : Nat) :
    List (List Char) → List Value → List Environment
  | [], _ => envs
  | p :: ps, [] => bindParameters (Environment.define envs env p .nil) env ps []
  | p :: ps, a :: as => bindParameters (Environment.define envs env p a) env ps as

/-! ## Evaluation (`AST.cpp`, `Value::call`, `UserFunction::call`) -/

mutual

/-- The virtual member `evaluate(Interpreter&)` of the node classes. -/
def evaluate : Nat → InterpreterRef → ASTNode → World → Except Exc Value × World
  | 0, _, _, w => (.error .outOfFuel, w)
  | fuel + 1, ref, node, w =>
      match node with
      | .Literal value => (.ok value.toValue, w)
      | .Variable name =>
          match w.getEnvironment ref with
          | .ok env => (Environment.get w.environments env name, w)
          | .error e => (.error e, w)
      | .BinaryOp opType left right =>
          match evaluate fuel ref left w with
          | (.ok leftVal, w1) =>
              match evaluate fuel ref right w1 with
              | (.ok rightVal, w2) => (applyBinary opType leftVal rightVal, w2)
              | (.error e, w2) => (.error e, w2)
          | (.error e, w1) => (.error e, w1)
      | .UnaryOp opType operand =>
          match evaluate fuel ref operand w with
          | (.ok val, w1) => (applyUnary opType val, w1)
          | (.error e, w1) => (.error e, w1)
      | .ArrayLiteral elements =>
          match evaluateAll fuel ref elements w with
          | (.ok values, w1) => (.ok (.array values), w1)
          | (.error e, w1) => (.error e, w1)
      | .ArrayAccess array index =>
          match evaluate fuel ref array w with
          | (.ok arrayVal, w1) =>
              match evaluate fuel ref index w1 with
              | (.ok indexVal, w2) =>
                  if !arrayVal.isArray then
                    (.error (.runtimeError "Cannot index non-array value".toList), w2)
                  else
                    match indexVal with
                    | .integer i => (arrayVal.atIndex i, w2)
                    | _ => (.error (.runtimeError "Array index must be an integer".toList), w2)
              | (.error e, w2) => (.error e, w2)
          | (.error e, w1) => (.error e, w1)
      | .FunctionCall name arguments =>
          match w.getEnvironment ref with
          | .ok env =>
              match Environment.get w.environments env name with
              | .ok function =>
                  match evaluateAll fuel ref arguments w with
                  | (.ok args, w1) => call fuel function args w1
                  | (.error e, w1) => (.error e, w1)
              | .error e => (.error e, w)
          | .error e => (.error e, w)
      | .Block statements => evaluateEach fuel ref statements .nil w
      | .Assignment name expression =>
          match evaluate fuel ref expression w with
          | (.ok value, w1) =>
              match w1.getEnvironment ref with
              | .ok env =>
                  match Environment.assign w1.environments env name value with
                  | .ok envs => (.ok value, { w1 with environments := envs })
                  | .error e =>
                      if e.isRuntimeError then (.ok value, w1.define env name value)
                      else (.error e, w1)
              | .error e => (.error e, w1)
          | (.error e, w1) => (.error e, w1)
      | .ArrayAssignment array index value =>
          match evaluate fuel ref array w with
          | (.ok arrayVal, w1) =>
              match evaluate fuel ref index w1 with
              | (.ok indexVal, w2) =>
                  match evaluate fuel ref value w2 with
                  | (.ok val, w3) =>
                      if !arrayVal.isArray then
                        (.error (.runtimeError "Cannot index non-array value".toList), w3)
                      else
                        match indexVal with
                        | .integer i =>
                            -- `arrayVal` is a local copy: the updated copy is dropped
                            match arrayVal.set i val with
                            | .ok _ => (.ok val, w3)
                            | .error e => (.error e, w3)
                        | _ =>
                            (.error (.runtimeError "Array index must be an integer".toList), w3)
                  | (.error e, w3) => (.error e, w3)
              | (.error e, w2) => (.error e, w2)
          | (.error e, w1) => (.error e, w1)
      | .If condition thenBranch elseBranch =>
          match evaluate fuel ref condition w with
          | (.ok c, w1) =>
              if c.isTruthy then evaluate fuel ref thenBranch w1
              else
                match elseBranch with
                | some e => evaluate fuel ref e w1
                | none => (.ok .nil, w1)
          | (.error e, w1) => (.error e, w1)
      | .While condition body => whileLoop fuel ref condition body .nil w
      | .For initialization condition increment body =>
          match w.getEnvironment ref with
          | .ok enclosing =>
              let (w1, loopEnv) := w.newEnvironment (some enclosing)
              let w2 := w1.setEnvironment loopEnv
              match evaluate fuel ref initialization w2 with
              | (.ok _, w3) =>
                  match forLoop fuel ref condition increment body .nil w3 with
                  | (.ok result, w4) => (.ok result, w4.setEnvironment enclosing)
                  | (.error e, w4) => (.error e, w4.setEnvironment enclosing)
              | (.error e, w3) => (.error e, w3.setEnvironment enclosing)
          | .error e => (.error e, w)
      | .FunctionDef name parameters body =>
          match w.getEnvironment ref with
          | .ok env =>
              let (w1, function) := w.newCallable (.UserFunction parameters body env)
              (.ok .nil, w1.define env name (.function function))
          | .error e => (.error e, w)
      | .Return expression =>
          match evaluate fuel ref expression w with
          | (.ok value, w1) => (.error (.returnValue value), w1)
          | (.error e, w1) => (.error e, w1)
      | .Print expression newline =>
          match evaluate fuel ref expression w with
          | (.ok value, w1) =>
              if newline then (.ok value, { w1 with cout := w1.cout ++ value.toString ++ ['\n'] })
              else (.ok value, { w1 with cout := w1.cout ++ value.toString })
          | (.error e, w1) => (.error e, w1)
      | .Input => let (input, w1) := w.getline; (.ok (.string input), w1)
      | .Program statements => evaluateEach fuel ref statements .nil w

/-- The loops `for (arg : arguments) args.push_back(arg->evaluate(interpreter))`. -/
def evaluateAll : Nat → InterpreterRef → List ASTNode → World → Except Exc (List Value) × World
  | 0, _, _, w => (.error .outOfFuel, w)
  | _ + 1, _, [], w => (.ok [], w)
  | fuel + 1, ref, node :: rest, w =>
      match evaluate fuel ref node w with
      | (.ok v, w1) =>
          match evaluateAll fuel ref rest w1 with
          | (.ok vs, w2) => (.ok (v :: vs), w2)
          | (.error e, w2) => (.error e, w2)
      | (.error e, w1) => (.error e, w1)

/-- The loops `for (statement : statements) result = statement->evaluate(interpreter)`
of `BlockNode` and `ProgramNode`. -/
def evaluateEach : Nat → InterpreterRef → List ASTNode → Value → World → Except Exc Value × World
  | 0, _, _, _, w => (.error .outOfFuel, w)
  | _ + 1, _, [], result, w => (.ok result, w)
  | fuel + 1, ref, node :: rest, _, w =>
      match evaluate fuel ref node w with
      | (.ok v, w1) => evaluateEach fuel ref rest v w1
      | (.error e, w1) => (.error e, w1)

/-- The loop of `WhileNode::evaluate`. -/
def whileLoop : Nat → InterpreterRef → ASTNode → ASTNode → Value → World → Except Exc Value × World
  | 0, _, _, _, _, w => (.error .outOfFuel, w)
  | fuel + 1, ref, condition, body, result, w =>
      match evaluate fuel ref condition w with
      | (.ok c, w1) =>
          if c.isTruthy then
            match evaluate fuel ref body w1 with
            | (.ok v, w2) => whileLoop fuel ref condition body v w2
            | (.error e, w2) => (.error e, w2)
          else (.ok result, w1)
      | (.error e, w1) => (.error e, w1)

/-- The loop of `ForNode::evaluate`. -/
def forLoop : Nat → InterpreterRef → ASTNode → ASTNode → ASTNode → Value → World →
    Except Exc Value × World
  | 0, _, _, _, _, _, w => (.error .outOfFuel, w)
  | fuel + 1, ref, condition, increment, body, result, w =>
      match evaluate fuel ref condition w with
      | (.ok c, w1) =>
          if c.isTruthy then
            match evaluate fuel ref body w1 with
            | (.ok v, w2) =>
                match evaluate fuel ref increment w2 with
                | (.ok _, w3) => forLoop fuel ref condition increment body v w3
                | (.error e, w3) => (.error e, w3)
            | (.error e, w2) => (.error e, w2)
          else (.ok result, w1)
      | (.error e, w1) => (.error e, w1)

/-- The member `Value::call`, followed by `NativeFunction::call` or `UserFunction::call`. -/
def call : Nat → Value → List Value → World → Except Exc Value × World
  | 0, _, _, w => (.error .outOfFuel, w)
  | fuel + 1, function, args, w =>
      match function with
      | .function handle =>
          match w.callables.get? handle with
          | none => (.error .undefinedBehaviour, w)
          | some func =>
              if wrapInt args.length ≠ func.arity then
                (.error (.runtimeError (arityMessage func.arity args.length)), w)
              else
                match func with
                | .NativeFunction _ f => f.call args w
                | .UserFunction parameters body closure =>
                    let (w1, environment) := w.newEnvironment (some closure)
                    let bound := bindParameters w1.environments environment parameters args
                    let w2 := { w1 with environments := bound }
                    -- the body is evaluated with the new environment cast to an interpreter
                    match evaluate fuel (.environment environment) body w2 with
                    | (.ok v, w3) => (.ok v, w3)
                    | (.error (.returnValue v), w3) => (.ok v, w3)
                    | (.error e, w3) => (.error e, w3)
      | _ => (.error (.runtimeError "Value is not callable".toList), w)

end

/-! ## The driver (`main.cpp`) -/

/-- The text `e.what()`. -/
def Exc.what : Exc → List Char
  | .runtimeError msg => msg
  | .parseError msg => msg
  | .returnValue _ => "Return value".toList
  | .outOfRange what => what
  | .undefinedBehaviour => []
  | .outOfFuel => []

/-- How a run ends. -/
inductive Outcome where
  /-- The process ends with the given exit status. -/
  | exit (status : Nat)
  /-- The run reaches undefined behaviour. -/
  | undefinedBehaviour
  /-- The recursion bound of the model is exhausted. -/
  | outOfFuel
  deriving DecidableEq, Repr, Inhabited

/-- What the statements of the `try` block of `runFile` leave behind: the value returned
by `interpreter.execute(program)` or the exception that leaves the block, and the text
written to the two output streams. -/
structure Execution where
  result : Except Exc Value
  cout : List Char
  cerr : List Char
  deriving Repr, Inhabited

/-- The statements `Interpreter interpreter; interpreter.execute(program);` on the lines
`cin` of input, after a parse that wrote `cerr`. -/
def executeProgram (fuel : Nat) (program : ASTNode) (cerr : List Char)
    (cin : List (List Char)) : Execution :=
  match evaluate fuel .interpreter program (World.new cin) with
  | (r, w) => { result := r, cout := w.cout, cerr := cerr }

/-- The statements `Lexer lexer(source); Parser parser(lexer); auto program = parser.parse();
Interpreter interpreter; interpreter.execute(program);` on the lines `cin` of input. -/
def execute (fuel : Nat) (source : List Char) (cin : List (List Char)) : Execution :=
  match Parser.new (Lexer.new source) with
  | .error e => { result := .error e, cout := [], cerr := [] }
  | .ok parser =>
      match parser.parse fuel with
      | .error e => { result := .error e, cout := [], cerr := [] }
      | .ok (program, cerr) => executeProgram fuel program cerr cin

/-- What a run leaves behind: the two output streams and the outcome. -/
structure RunResult where
  cout : List Char
  cerr : List Char
  outcome : Outcome
  deriving DecidableEq, Repr, Inhabited

/-- The end of `runFile`: normal completion, or the `catch` clauses. `RuntimeError` is
never thrown, and `std::exception` catches every exception of the core. -/
def Execution.finish (x : Execution) : RunResult :=
  match x.result with
  | .ok _ => { cout := x.cout, cerr := x.cerr, outcome := .exit 0 }
  | .error .undefinedBehaviour => { cout := x.cout, cerr := x.cerr, outcome := .undefinedBehaviour }
  | .error .outOfFuel => { cout := x.cout, cerr := x.cerr, outcome := .outOfFuel }
  | .error (.parseError msg) =>
      { cout := x.cout, cerr := x.cerr ++ "Parse error: ".toList ++ msg ++ ['\n'],
        outcome := .exit 1 }
  | .error e =>
      { cout := x.cout, cerr := x.cerr ++ "Error: ".toList ++ e.what ++ ['\n'],
        outcome := .exit 1 }

/-- The function `runFile` without the debug flags, on the text of the file and the lines
of the standard input. -/
def runFile (fuel : Nat) (source : List Char) (cin : List (List Char)) : RunResult :=
  (execute fuel source cin).finish

/-- The function `runFile` from the point where the program has been parsed: the run of a
given syntax tree. -/
def runProgram (fuel : Nat) (program : ASTNode) (cin : List (List Char)) : RunResult :=
  (executeProgram fuel program [] cin).finish

/-- A non-negative integer literal: a non-empty run of decimal digits. -/
def isNatLiteral (ds : List Char) : Bool :=
  !ds.isEmpty && ds.all isdigit

/-! ## Predicates used to state the lexer lemmas -/

/-- The lexer `l` has the characters `r` still to read and holds the first of them. -/
structure Lexer.At (l : Lexer) (r : List Char) : Prop where
  rest : l.source.drop l.position = r
  cur : l.currentChar = r.headD NUL

namespace Lexer

/-- Horizontal white space, as skipped between the two words of an operator. -/
def hspace (c : Char) : Bool := isspace c && c != '\n'

/-- The next token of `l` has type `t` and payload `v`, and the lexer is then at `r`. -/
def Yields (l : Lexer) (t : TokenType) (v : TokenValue) (r : List Char) : Prop :=
  ∃ (line column : Int) (l1 : Lexer), l.nextToken = .ok (⟨t, v, line, column⟩, l1) ∧ l1.At r

/-- The single-character operators with the token `handleOperator` makes of each when no
`=` follows it. -/
def operatorTable : List (Char × TokenType) :=
  [('+', .PLUS), ('-', .MINUS), ('*', .MULTIPLY), ('/', .DIVIDE),
   ('%', .MODULO), ('=', .ASSIGN), ('>', .GREATER), ('<', .LESS), ('(', .LEFT_PAREN),
   (')', .RIGHT_PAREN), ('[', .LEFT_BRACKET), (']', .RIGHT_BRACKET),
   (Char.ofNat 123, .LEFT_BRACE), (Char.ofNat 125, .RIGHT_BRACE), (',', .COMMA),
   (':', .COLON), (';', .SEMICOLON)]

/-- The type and payload of the token `handleIdentifier` makes of the word `w`. -/
def wordToken (w : List Char) : TokenType × TokenValue :=
  match keywords.lookup w with
  | some t => (t, .none)
  | none => (.IDENTIFIER, .string w)

/-- The two words the lexer looks up in `naturalOperators`. -/
def twoWords (w sp w2 : List Char) : List Char :=
  Lexer.trimRight (w ++ sp.dropLast ++ [' '] ++ w2)

end Lexer

/-- The lines `n`, `n-1`, ..., `1`, each followed by a newline. -/
def countdown : Nat → List Char
  | 0 => []
  | n + 1 => fmtInt (n + 1 : Nat) ++ '\n' :: countdown n

/-- The condition `x greater than 0` of the countdown program. -/
def countdownCondition : ASTNode :=
  .BinaryOp .GT (.Variable ['x']) (.Literal (.int 0))

/-- The body `shownl x x = x - 1` of the countdown program. -/
def countdownBody : ASTNode :=
  .Block [.Print (.Variable ['x']) true,
          .Assignment ['x'] (.BinaryOp .SUB (.Variable ['x']) (.Literal (.int 1)))]

/-- The source of the countdown program for the literal `n`. -/
def countdownSource (n : List Char) : List Char :=
  "x = ".toList ++ n ++ " while x greater than 0 shownl x x = x - 1 endwhile".toList

/-- The syntax tree of the countdown program. -/
def countdownProgram (n : Int) : ASTNode :=
  .Program [.Assignment ['x'] (.Literal (.int n)),
            .While countdownCondition countdownBody]

/-- The tree that scenario 2 is meant to parse to: the definition of `add` with parameters
`a`, `b` and body `return a+b`, followed by `shownl add(2,3)`. -/
def addProgram : ASTNode :=
  .Program
    [.FunctionDef "add".toList [['a'], ['b']]
       (.Block [.Return (.BinaryOp .ADD (.Variable ['a']) (.Variable ['b']))]),
     .Print (.FunctionCall "add".toList [.Literal (.int 2), .Literal (.int 3)]) true]

/-- The tree that scenario 5 is meant to parse to (the definition of `make`, whose body
defines `inc` and returns it), followed by `f = make() shownl f() shownl f()`. -/
def makeProgram : ASTNode :=
  .Program
    [.FunctionDef "make".toList []
       (.Block
         [.Assignment ['n'] (.Literal (.int 0)),
          .FunctionDef "inc".toList []
            (.Block
              [.Assignment ['n'] (.BinaryOp .ADD (.Variable ['n']) (.Literal (.int 1))),
               .Return (.Variable ['n'])]),
          .Return (.Variable "inc".toList)]),
     .Assignment ['f'] (.FunctionCall "make".toList []),
     .Print (.FunctionCall ['f'] []) true,
     .Print (.FunctionCall ['f'] []) true]

/-- The four two-word operators: the two words and the comparison each stands for. -/
def naturalComparisons : List (List Char × List Char × (Int → Int → Bool)) :=
  [("greater".toList, "than".toList, fun a b => decide (a > b)),
   ("less".toList, "than".toList, fun a b => decide (a < b)),
   ("at".toList, "least".toList, fun a b => decide (a ≥ b)),
   ("at".toList, "most".toList, fun a b => decide (a ≤ b))]

/-- The source `if a w1 w2 b shownl "yes" else shownl "no" endif`. -/
def comparisonSource (a w1 w2 b : List Char) : List Char :=
  "if ".toList ++ a ++ [' '] ++ w1 ++ [' '] ++ w2 ++ [' '] ++ b ++
    " shownl \"yes\" else shownl \"no\" endif".toList

/-- The parser on `source` after `n` calls of `advance()` that follow its construction. -/
def Parser.afterTokens (source : List Char) : Nat → Parser
  | 0 =>
      match Parser.new (Lexer.new source) with
      | .ok p => p
      | .error _ => default
  | n + 1 =>
      match (Parser.afterTokens source n).advance with
      | .ok (_, p) => p
      | .error _ => Parser.afterTokens source n

/-- Specification side: the scopes of the environment chain that starts at `env`, innermost
first, following `enclosing` for at most the given number of steps. -/
def scopeChain (envs : List Environment) : Nat → Nat → List Nat
  | 0, _ => []
  | fuel + 1, env =>
      match envs.get? env with
      | none => []
      | some e =>
          env :: (match e.enclosing with
                  | some parent => scopeChain envs fuel parent
                  | none => [])

/-- Specification side: the innermost scope of the chain of `env` that binds `name`. -/
def innermostBinding (envs : List Environment) (env : Nat) (name : List Char) : Option Nat :=
  (scopeChain envs envs.length env).find? (fun e => Environment.«exists» envs e name)

/-- Every environment of the heap was created after its enclosing environment. -/
def parentsPrecede (envs : List Environment) : Bool :=
  envs.enum.all fun (i, e) =>
    match e.enclosing with
    | some parent => decide (parent < i)
    | none => true

/-- A world whose current scope (environment 1, empty) is enclosed by the global scope
(environment 0), which binds `x` to 1. -/
def nestedWorld : World :=
  { environments := [{ values := [(['x'], .integer 1)], enclosing := none },
                     { values := [], enclosing := some 0 }],
    callables := [],
    interpreter := { environment := 1, globals := 0 },
    cout := [], cin := [] }

/-- The scope an evaluation through `ref` may add names to: the current environment of the
interpreter (none when `ref` is not the interpreter). -/
def currentScope (ref : InterpreterRef) (w : World) : Option Nat :=
  match ref with
  | .interpreter => some w.interpreter.environment
  | .environment _ => none

/-- Every environment of `envs` is still there in `envs2`, with the same enclosing
environment and, except for the environment `c`, with the same names bound. -/
def Keeps (c : Option Nat) (envs envs2 : List Environment) : Prop :=
  ∀ (i : Nat) (s : Environment), envs[i]? = some s →
    ∃ t, envs2[i]? = some t ∧ t.enclosing = s.enclosing ∧
      (c = some i ∨ ∀ k, (mapFind t.values k).isSome = (mapFind s.values k).isSome)

/-- What an evaluation through `ref` leaves as it was: the interpreter object, and the
environments as far as `Keeps` says. -/
def Frame (ref : InterpreterRef) (w w2 : World) : Prop :=
  w2.interpreter = w.interpreter ∧
    Keeps (currentScope ref w) w.environments w2.environments

/-- The tree of the loop `for i = 0; i < 1; i = i + 1 shownl i endfor`. -/
def scopeLoop : ASTNode :=
  .For (.Assignment ['i'] (.Literal (.int 0)))
    (.BinaryOp .LT (.Variable ['i']) (.Literal (.int 1)))
    (.Assignment ['i'] (.BinaryOp .ADD (.Variable ['i']) (.Literal (.int 1))))
    (.Print (.Variable ['i']) true)

/-- The heap invariant of the worlds an evaluation reaches: every environment was created
after its enclosing environment, the current environment of the interpreter exists, and so
does the closure of every user function. -/
def World.WellFormed (w : World) : Prop :=
  parentsPrecede w.environments = true ∧
    w.interpreter.environment < w.environments.length ∧
    ∀ (h : Nat) (ps : List (List Char)) (body : ASTNode) (closure : Nat),
      w.callables[h]? = some (.UserFunction ps body closure) →
        closure < w.environments.length

/-- A heap in which the scope 1 and its enclosing scope 0 both bind `x`, and only the
scope 0 binds `y`. -/
def shadowHeap : List Environment :=
  [{ values := [(['x'], .integer 1), (['y'], .integer 7)], enclosing := none },
   { values := [(['x'], .integer 2)], enclosing := some 0 }]

/-- Specification side: the rational number a binary64 datum denotes, none for the
infinities and NaN. -/
def Double.denotes : Double → Option ℚ
  | .finite s m e => some ((if s then -1 else 1) * (m : ℚ) * (2 : ℚ) ^ e)
  | _ => none

/-- Specification side: the number a numeric value denotes. -/
def Value.denotes : Value → Option ℚ
  | .integer i => some (i : ℚ)
  | .float d => d.denotes
  | _ => none

/-- The enumeration `Value::Type` (`NATIVE_FUNCTION` is never used as a tag). -/
inductive ValueType where
  | NIL | BOOLEAN | INTEGER | FLOAT | STRING | ARRAY | FUNCTION | NATIVE_FUNCTION
  deriving DecidableEq, Repr, Inhabited

/-- Member `getType`. -/
def Value.getType : Value → ValueType
  | .nil => .NIL
  | .boolean _ => .BOOLEAN
  | .integer _ => .INTEGER
  | .float _ => .FLOAT
  | .string _ => .STRING
  | .array _ => .ARRAY
  | .function _ => .FUNCTION

/-- The tree `show "a" + nextl` is meant to parse to. -/
def nextlProgram : ASTNode :=
  .Program [.Print (.BinaryOp .ADD (.Literal (.string ['a'])) (.Variable "nextl".toList)) false]

/-- The result of `expression()` on a parser constructed on `source`: the tree, or the
exception thrown. -/
def parseExpression (fuel : Nat) (source : List Char) : Except Exc ASTNode :=
  match Parser.new (Lexer.new source) with
  | .error e => .error e
  | .ok p =>
      match p.expression fuel with
      | .ok (node, _) => .ok node
      | .error (e, _) => .error e

/-- The lexer after `n` calls of `peekToken()`, or the exception one of them throws. -/
def peekTokens : Nat → Lexer → Except Exc Lexer
  | 0, l => .ok l
  | n + 1, l =>
      match l.peekToken with
      | .ok (_, l1) => peekTokens n l1
      | .error e => .error e

/-- The kind of the first token of `source`, if `nextToken()` returns one. -/
def firstKind (source : List Char) : Option TokenType :=
  match (Lexer.new source).nextToken with
  | .ok (t, _) => some t.type
  | .error _ => none

/-- A source text for each token kind that the lexer produces, `ERROR` and `END_OF_FILE`
apart. -/
def canonicalSources : List (TokenType × List Char) :=
  [(.INTEGER, "1".toList), (.FLOAT, "1.5".toList), (.STRING, "\"a\"".toList),
   (.IDENTIFIER, "x".toList), (.PLUS, "+".toList), (.MINUS, "-".toList),
   (.MULTIPLY, "*".toList), (.DIVIDE, "/".toList), (.MODULO, "%".toList),
   (.ASSIGN, "=".toList), (.PLUS_ASSIGN, "+=".toList), (.MINUS_ASSIGN, "-=".toList),
   (.MULT_ASSIGN, "*=".toList), (.DIV_ASSIGN, "/=".toList), (.EQUAL, "==".toList),
   (.NOT_EQUAL, "!=".toList), (.GREATER, ">".toList), (.LESS, "<".toList),
   (.GREATER_EQUAL, ">=".toList), (.LESS_EQUAL, "<=".toList), (.AND, "and".toList),
   (.OR, "or".toList), (.NOT, "not".toList), (.GREATER_THAN, "greater than".toList),
   (.LESS_THAN, "less than".toList), (.AT_LEAST, "at least".toList),
   (.AT_MOST, "at most".toList), (.LEFT_PAREN, "(".toList), (.RIGHT_PAREN, ")".toList),
   (.LEFT_BRACKET, "[".toList), (.RIGHT_BRACKET, "]".toList),
   (.LEFT_BRACE, "\x7b".toList), (.RIGHT_BRACE, "\x7d".toList), (.COMMA, ",".toList),
   (.COLON, ":".toList), (.SEMICOLON, ";".toList), (.IF, "if".toList),
   (.ELSE, "else".toList), (.WHILE, "while".toList), (.FOR, "for".toList),
   (.FUNCTION, "function".toList), (.RETURN, "return".toList), (.SHOW, "show".toList),
   (.SHOWNL, "shownl".toList), (.NEXTL, "nextl".toList), (.ASK, "ask".toList),
   (.ENDIF, "endif".toList), (.ENDWHILE, "endwhile".toList), (.ENDFOR, "endfor".toList),
   (.ENDFUNCTION, "endfunction".toList)]

/-- The reserved words. -/
def reservedWords : List (List Char) :=
  ["if".toList, "else".toList, "endif".toList, "while".toList, "endwhile".toList,
   "for".toList, "endfor".toList, "function".toList, "endfunction".toList, "return".toList,
   "show".toList, "shownl".toList, "nextl".toList, "ask".toList, "and".toList, "or".toList,
   "not".toList]

/-- The pairs of words that are one operator, with the kind of the token. -/
def wordPairs : List (List Char × List Char × TokenType) :=
  [("greater".toList, "than".toList, .GREATER_THAN), ("less".toList, "than".toList, .LESS_THAN),
   ("at".toList, "least".toList, .AT_LEAST), ("at".toList, "most".toList, .AT_MOST)]

/-- The statements `Lexer lexer(source); Parser parser(lexer); parser.parse()`: the program
and the text written to `std::cerr`, or the exception that leaves them. -/
def parseSource (fuel : Nat) (source : List Char) : Except Exc (ASTNode × List Char) :=
  match Parser.new (Lexer.new source) with
  | .error e => .error e
  | .ok parser => parser.parse fuel

/-- A loop `for i = 0; true; 0` whose body is `statement`. -/
def foreverLoop (statement : ASTNode) : ASTNode :=
  .For (.Assignment ['i'] (.Literal (.int 0))) (.Literal (.bool true)) (.Literal (.int 0))
    statement

/-- The program `shownl x` inside `if`, `while` and `for`, after `x = 3`. -/
def nestedReturn : ASTNode :=
  .Program
    [.Assignment ['x'] (.Literal (.int 3)),
     .If (.Literal (.int 1))
       (.While (.Literal (.int 1)) (.Block [foreverLoop (.Return (.Variable ['x']))])) none,
     .Print (.Literal (.int 9)) true]

/-- The statements `shownl 1`, `return 7`, `shownl 2` as a program. -/
def returnProgram : ASTNode :=
  .Program [.Print (.Literal (.int 1)) true, .Return (.Literal (.int 7)),
    .Print (.Literal (.int 2)) true]

/-- Values built from nil, booleans, integers, strings and arrays of such values. -/
def Value.isPlain : Value → Bool
  | .nil => true
  | .boolean _ => true
  | .integer _ => true
  | .string _ => true
  | .array elems => allPlain elems
  | .float _ => false
  | .function _ => false
where
  /-- Every element of the list is such a value. -/
  allPlain : List Value → Bool
  | [] => true
  | x :: xs => isPlain x && allPlain xs

/-- Exactly one of three booleans is true. -/
def exactlyOne (x y z : Bool) : Prop :=
  (x = true ∧ y = false ∧ z = false) ∨ (x = false ∧ y = true ∧ z = false) ∨
    (x = false ∧ y = false ∧ z = true)

/-- The expression `(a / b) * b + (a % b) == a` on integer literals. -/
def divModIdentity (a b : Int) : ASTNode :=
  .BinaryOp .EQ
    (.BinaryOp .ADD
      (.BinaryOp .MUL (.BinaryOp .DIV (.Literal (.int a)) (.Literal (.int b)))
        (.Literal (.int b)))
      (.BinaryOp .MOD (.Literal (.int a)) (.Literal (.int b))))
    (.Literal (.int a))

/-- The node `op(op(a, b), c)` on three integer literals. -/
def leftNested (op : BinaryOpType) (a b c : Int) : ASTNode :=
  .BinaryOp op (.BinaryOp op (.Literal (.int a)) (.Literal (.int b))) (.Literal (.int c))

/-- The tokens returned by `n` calls of `nextToken()` and the lexer after them, or the
exception that one of the calls throws. -/
def nextTokens : Nat → Lexer → Except Exc (List Token × Lexer)
  | 0, l => .ok ([], l)
  | n + 1, l =>
      match l.nextToken with
      | .ok (t, l1) =>
          match nextTokens n l1 with
          | .ok (ts, l2) => .ok (t :: ts, l2)
          | .error e => .error e
      | .error e => .error e

/-- The lexer holds the character at its position, the position is not beyond the end of the
source, and `r` is the text from the position on. -/
def Lexer.Reads (l : Lexer) (r : List Char) : Prop :=
  l.At r ∧ l.position + r.length = l.source.length

/-- What a function of the lexer that makes a token does to the lexer `l`: the token is not
`END_OF_FILE`, the position is further on, and the lexer still holds the character at its
position. -/
def Lexer.Progress (l : Lexer) (res : Token × Lexer) : Prop :=
  res.1.type ≠ .END_OF_FILE ∧ l.position < res.2.position ∧ res.2.source = l.source ∧
    ∃ r1, res.2.Reads r1

/-- A float literal above the largest `double`: `1`, 309 zeros, `.5`. -/
def hugeFloat : List Char := '1' :: List.replicate 309 '0' ++ ".5".toList

/-- The kinds and payloads of the tokens returned by `n` calls of `nextToken()` on a source
text, when all of them return. -/
def tokenKinds (n : Nat) (source : List Char) : Option (List (TokenType × TokenValue)) :=
  (nextTokens n (Lexer.new source)).toOption.map fun p => p.1.map fun t => (t.type, t.value)

/-! # Theorems -/

/-! ## Lexer lemmas -/

namespace Lexer

theorem At.remaining {l : Lexer} {r : List Char} (h : l.At r) : l.remaining = r.length := by
  unfold Lexer.remaining
  rw [← h.rest, List.length_drop]

theorem At.isAtEnd {l : Lexer} {r : List Char} (h : l.At r) : l.isAtEnd = r.isEmpty := by
  have hr := h.remaining
  unfold Lexer.remaining at hr
  unfold Lexer.isAtEnd
  cases r with
  | nil => simp at hr ⊢; omega
  | cons c r => simp at hr ⊢; omega

theorem At.new (source : List Char) : (Lexer.new source).At source := by
  constructor
  · simp [Lexer.new]
  · cases source <;> simp [Lexer.new, List.getD]

theorem At.advance {l : Lexer} {c : Char} {r : List Char} (h : l.At (c :: r)) :
    l.advance.At r ∧ l.advance.source = l.source ∧ l.advance.position = l.position + 1 := by
  have hlen := h.remaining
  unfold Lexer.remaining at hlen
  simp at hlen
  have hdrop : l.source.drop (l.position + 1) = r := by
    have := h.rest
    rw [← List.drop_drop, this]
    rfl
  have hget : l.source.getD (l.position + 1) NUL = r.headD NUL := by
    rw [← hdrop]
    simp [List.getD_eq_getElem?_getD, List.head?_drop, List.headD_eq_head?_getD]
  unfold Lexer.advance
  by_cases hle : l.source.length ≤ l.position + 1
  · have hr : r = [] := by
      rw [← hdrop]; exact List.drop_eq_nil_of_le hle
    rw [if_pos hle]
    exact ⟨⟨hdrop, by simp [hr]⟩, rfl, rfl⟩
  · rw [if_neg hle]
    by_cases hc : l.source.getD (l.position + 1) NUL = '\n'
    · simp only [hc, if_true]
      exact ⟨⟨hdrop, by rw [← hget, hc]⟩, trivial, trivial⟩
    · simp only [hc, if_false]
      exact ⟨⟨hdrop, hget⟩, trivial, trivial⟩

/-- A scanning loop consumes a run of characters that satisfy its condition and stops at
the first character that does not. -/
theorem At.advanceWhile {f : Char → Bool} (z : List Char) :
    ∀ {l : Lexer} {r : List Char} (n : Nat), l.At (z ++ r) → z.length ≤ n →
      (∀ c ∈ z, f c = true) → (r.isEmpty || !f (r.headD NUL)) = true →
      (Lexer.advanceWhile f n l).At r ∧
      (Lexer.advanceWhile f n l).source = l.source ∧
      (Lexer.advanceWhile f n l).position = l.position + z.length := by
  induction z with
  | nil =>
    intro l r n h _ _ hr
    have hstop : Lexer.advanceWhile f n l = l := by
      cases n with
      | zero => rfl
      | succ n =>
        unfold Lexer.advanceWhile
        have h1 := h.cur
        have h2 := h.isAtEnd
        simp at h1 h2
        cases r with
        | nil => simp [h2]
        | cons c r => simp at hr h1; simp [h1, hr]
    rw [hstop]
    exact ⟨h, rfl, rfl⟩
  | cons x z ih =>
    intro l r n h hn hall hr
    cases n with
    | zero => simp at hn
    | succ n =>
      unfold Lexer.advanceWhile
      have h1 := h.cur
      have h2 := h.isAtEnd
      simp at h1 h2
      have hx : f x = true := hall x (by simp)
      simp only [h1, hx, h2]
      simp only [Bool.not_false, Bool.and_self, if_true]
      obtain ⟨ha, hs, hp⟩ := At.advance h
      obtain ⟨ia, is, ip⟩ := ih n ha (by simpa using hn) (fun c hc => hall c (by simp [hc])) hr
      refine ⟨ia, by rw [is, hs], ?_⟩
      rw [ip, hp]; simp; omega


theorem At.substr {l : Lexer} {z r : List Char} (h : l.At (z ++ r)) (l1 : Lexer)
    (hp : l1.position = l.position + z.length) :
    SimpScript.substr l.source l.position (l1.position - l.position) = z := by
  unfold SimpScript.substr
  rw [h.rest, hp]
  simp

theorem NUL_props : isspace NUL = false ∧ isDigit NUL = false ∧ isAlpha NUL = false ∧
    NUL ≠ QUOTE ∧ NUL ≠ Char.ofNat 35 ∧ isAlphaNumeric NUL = false := by decide

theorem stop_of {f : Char → Bool} {r : List Char} (h : f (r.headD NUL) = false) :
    (r.isEmpty || !f (r.headD NUL)) = true := by
  rw [h]; simp

/-- After the white space, `nextToken` dispatches on the first character. -/
theorem nextToken_dispatch {l : Lexer} {u : List Char} {c : Char} {r : List Char}
    (h : l.At (u ++ c :: r)) (hws : ∀ x ∈ u, isspace x = true) (hc : isspace c = false)
    (hhash : c ≠ Char.ofNat 35) :
    ∃ l1 : Lexer, l1.At (c :: r) ∧ l1.source = l.source ∧
      l.nextToken =
        if isDigit c then l1.handleNumber
        else if isAlpha c then .ok l1.handleWord
        else if c = QUOTE then .ok l1.handleString
        else .ok l1.handleOperator := by
  have hrem := h.remaining
  obtain ⟨h1, hs, _⟩ := At.advanceWhile (f := isspace) u l.remaining h
    (by rw [hrem]; simp) hws (by simp [hc])
  refine ⟨_, h1, hs, ?_⟩
  unfold Lexer.nextToken
  have hpos : l.remaining = (u.length + r.length) + 1 := by rw [hrem]; simp; omega
  rw [hpos]
  unfold Lexer.nextTokenAux
  simp only [Lexer.skipWhitespace]
  rw [← hpos]
  have he := h1.isAtEnd
  have hcur := h1.cur
  simp at he hcur
  simp [he, hcur, hhash]

/-- At the end of the input (after white space only) the token is `END_OF_FILE`. -/
theorem yields_eof {l : Lexer} {u : List Char} (h : l.At u)
    (hws : ∀ x ∈ u, isspace x = true) : Yields l .END_OF_FILE .none [] := by
  have hrem := h.remaining
  obtain ⟨h1, _, _⟩ := At.advanceWhile (f := isspace) (r := []) u l.remaining
    (by simpa using h) (by rw [hrem]) hws (by simp)
  have he := h1.isAtEnd
  refine ⟨(Lexer.advanceWhile isspace l.remaining l).line,
    (Lexer.advanceWhile isspace l.remaining l).column, _, ?_, h1⟩
  unfold Lexer.nextToken
  cases hn : l.remaining with
  | zero =>
    unfold Lexer.nextTokenAux
    simp [Lexer.skipWhitespace, Lexer.makeToken, hn]
  | succ n =>
    unfold Lexer.nextTokenAux
    simp only [Lexer.skipWhitespace]
    rw [← hn]
    simp [he, Lexer.makeToken]

/-- An integer literal in the `int` range is one `INTEGER` token. -/
theorem handleNumber_int {l : Lexer} {n r : List Char} (h : l.At (n ++ r))
    (hds : ∀ x ∈ n, isdigit x = true)
    (hr : isdigit (r.headD NUL) = false) (hdot : r.headD NUL ≠ '.')
    (hmax : (digitsValue n : Int) ≤ INT_MAX) :
    ∃ (line column : Int) (l1 : Lexer), l.handleNumber = .ok (⟨.INTEGER, .int (digitsValue n), line, column⟩, l1) ∧
      l1.At r := by
  obtain ⟨h1, hs, hp⟩ := At.advanceWhile (f := isDigit) n l.remaining h
    (by rw [h.remaining]; simp) hds (stop_of hr)
  have hsub := h.substr _ hp
  refine ⟨(Lexer.advanceWhile isDigit l.remaining l).line, l.column, _, ?_, h1⟩
  unfold Lexer.handleNumber
  have hcur := h1.cur
  simp only [hcur, hdot, false_and, if_false, hsub, Lexer.stoi, hmax, if_true]

theorem yields_int {l : Lexer} {u n r : List Char} (h : l.At (u ++ n ++ r))
    (hws : ∀ x ∈ u, isspace x = true) (hlit : isNatLiteral n = true)
    (hr : isdigit (r.headD NUL) = false) (hdot : r.headD NUL ≠ '.')
    (hmax : (digitsValue n : Int) ≤ INT_MAX) :
    Yields l .INTEGER (.int (digitsValue n)) r := by
  cases n with
  | nil => simp [isNatLiteral] at hlit
  | cons d n =>
    simp [isNatLiteral] at hlit
    have hd : isdigit d = true := hlit.1
    have hsp : isspace d = false := by
      revert hd; unfold isdigit isspace; simp; intro h1 h2; omega
    have hh : d ≠ Char.ofNat 35 := by
      intro e; rw [e] at hd; revert hd; decide
    obtain ⟨l1, h1, _, heq⟩ := nextToken_dispatch (c := d) (r := n ++ r)
      (by simpa using h) hws hsp hh
    obtain ⟨line, col, l2, hn, h2⟩ := handleNumber_int (n := d :: n) (r := r) (by simpa using h1)
      (by intro x hx; simp at hx; rcases hx with rfl | hx; exact hd; exact hlit.2 x hx) hr hdot hmax
    refine ⟨line, col, l2, ?_, h2⟩
    rw [heq]
    simp [Lexer.isDigit, hd, hn]


theorem operatorTable_props {c : Char} {t : TokenType} (h : (c, t) ∈ operatorTable) :
    isspace c = false ∧ c ≠ Char.ofNat 35 ∧ isDigit c = false ∧ isAlpha c = false ∧
      c ≠ QUOTE := by
  simp only [operatorTable, List.mem_cons, Prod.mk.injEq, List.mem_singleton,
    List.not_mem_nil, or_false] at h
  casesm* _ ∨ _
  all_goals rename_i e
  all_goals obtain ⟨rfl, -⟩ := e
  all_goals decide

theorem handleOperator_spec {l : Lexer} {c : Char} {r : List Char} {t : TokenType}
    (h : l.At (c :: r)) (hop : (c, t) ∈ operatorTable) (hr : r.headD NUL ≠ '=') :
    ∃ (line column : Int) (l1 : Lexer),
      l.handleOperator = (⟨t, .none, line, column⟩, l1) ∧ l1.At r := by
  obtain ⟨h1, _, _⟩ := At.advance h
  have hc := h.cur
  have hc1 := h1.cur
  simp only [List.headD_cons] at hc
  simp only [List.headD_eq_head?_getD] at hr hc1
  refine ⟨l.advance.line, l.advance.column, l.advance, ?_, h1⟩
  simp only [operatorTable, List.mem_cons, Prod.mk.injEq, List.mem_singleton,
    List.not_mem_nil, or_false] at hop
  unfold Lexer.handleOperator
  casesm* _ ∨ _
  all_goals rename_i e
  all_goals obtain ⟨rfl, rfl⟩ := e
  all_goals simp [hc, Lexer.withAssign, Lexer.single, Lexer.makeToken, hc1, hr]

theorem yields_operator {l : Lexer} {u : List Char} {c : Char} {r : List Char}
    {t : TokenType} (h : l.At (u ++ c :: r)) (hws : ∀ x ∈ u, isspace x = true)
    (hop : (c, t) ∈ operatorTable) (hr : r.headD NUL ≠ '=') : Yields l t .none r := by
  obtain ⟨p1, p2, p3, p4, p5⟩ := operatorTable_props hop
  obtain ⟨l1, h1, _, heq⟩ := nextToken_dispatch h hws p1 p2
  obtain ⟨line, col, l2, hn, h2⟩ := handleOperator_spec h1 hop hr
  refine ⟨line, col, l2, ?_, h2⟩
  rw [heq]
  simp [p3, p4, p5, hn]

theorem getD_eq_headD_drop (s : List Char) (p : Nat) :
    s.getD p NUL = (s.drop p).headD NUL := by
  simp [List.getD_eq_getElem?_getD, List.head?_drop, List.headD_eq_head?_getD]

/-- Putting the position back to an earlier one puts the lexer back at the earlier text. -/
theorem At.restore {l m : Lexer} {r : List Char} (h : l.At r) (hs : m.source = l.source)
    (line column : Int) :
    Lexer.At { source := m.source, position := l.position, line := line, column := column,
               currentChar := l.source.getD l.position NUL } r := by
  constructor
  · simp only [hs]; exact h.rest
  · simp only [getD_eq_headD_drop, h.rest]

theorem handleIdentifier_spec {l : Lexer} {w r : List Char} (h : l.At (w ++ r))
    (hw : ∀ x ∈ w, isAlphaNumeric x = true) (hr : isAlphaNumeric (r.headD NUL) = false) :
    ∃ (line column : Int) (l1 : Lexer),
      l.handleIdentifier = (⟨(wordToken w).1, (wordToken w).2, line, column⟩, l1) ∧
      l1.At r := by
  obtain ⟨h1, hs, hp⟩ := At.advanceWhile (f := isAlphaNumeric) w l.remaining h
    (by rw [h.remaining]; simp) hw (stop_of hr)
  have hsub := h.substr _ hp
  refine ⟨(Lexer.advanceWhile isAlphaNumeric l.remaining l).line,
    (Lexer.advanceWhile isAlphaNumeric l.remaining l).column, _, ?_, h1⟩
  unfold Lexer.handleIdentifier wordToken
  simp only [hsub]
  cases keywords.lookup w <;> simp [Lexer.makeToken, Lexer.makeTokenWith]

theorem alnum_of_alpha {c : Char} (h : isAlpha c = true) : isAlphaNumeric c = true := by
  simp [Lexer.isAlphaNumeric, h]

theorem hspace_props {c : Char} (h : hspace c = true) :
    isAlpha c = false ∧ isAlphaNumeric c = false ∧ isspace c = true := by
  unfold hspace at h
  simp at h
  have h1 := h.1
  refine ⟨?_, ?_, h1⟩
  · revert h1; unfold isspace Lexer.isAlpha isalphaC; simp
    intro h1
    refine ⟨⟨?_, ?_⟩, ?_⟩
    · intro _; rcases h1 with h1 | h1 <;> omega
    · intro _; rcases h1 with h1 | h1 <;> omega
    · intro e; rw [e] at h1; revert h1; decide
  · revert h1; unfold isspace Lexer.isAlphaNumeric Lexer.isAlpha isalphaC Lexer.isDigit isdigit; simp
    intro h1
    refine ⟨⟨⟨?_, ?_⟩, ?_⟩, ?_⟩
    · intro _; rcases h1 with h1 | h1 <;> omega
    · intro _; rcases h1 with h1 | h1 <;> omega
    · intro e; rw [e] at h1; revert h1; decide
    · intro _; rcases h1 with h1 | h1 <;> omega

/-- A word that is not followed by a second word goes through `handleIdentifier`. -/
theorem handleWord_single {l : Lexer} {w g r : List Char} (h : l.At (w ++ g ++ r))
    (hw : ∀ x ∈ w, isAlpha x = true) (hsp : ∀ x ∈ g, hspace x = true)
    (hr1 : isAlpha (r.headD NUL) = false) (hr2 : hspace (r.headD NUL) = false)
    (hr3 : g = [] → isDigit (r.headD NUL) = false) :
    ∃ (line column : Int) (l1 : Lexer),
      l.handleWord = (⟨(wordToken w).1, (wordToken w).2, line, column⟩, l1) ∧
      l1.At (g ++ r) := by
  have hstop1 : isAlpha ((g ++ r).headD NUL) = false := by
    cases g with
    | nil => simpa using hr1
    | cons s g => simpa using (hspace_props (hsp s (by simp))).1
  have hstop2 : isAlphaNumeric ((g ++ r).headD NUL) = false := by
    cases g with
    | nil =>
      have := hr3 rfl
      simp [Lexer.isAlphaNumeric] at hr1 this ⊢
      simp [hr1, this]
    | cons s g => simpa using (hspace_props (hsp s (by simp))).2.1
  obtain ⟨h1, hs1, hp1⟩ := At.advanceWhile (f := isAlpha) w l.remaining
    (by simpa using h) (by rw [h.remaining]; simp) hw (stop_of hstop1)
  obtain ⟨h2, hs2, hp2⟩ := At.advanceWhile (f := fun c => isspace c && c != '\n') g
    (Lexer.advanceWhile isAlpha l.remaining l).remaining h1 (by rw [h1.remaining]; simp)
    hsp (stop_of (f := fun c => isspace c && c != '\n') hr2)
  have hres := At.restore h (m := Lexer.advanceWhile (fun c => isspace c && c != '\n')
      (Lexer.advanceWhile isAlpha l.remaining l).remaining
      (Lexer.advanceWhile isAlpha l.remaining l)) (by rw [hs2, hs1])
    (Lexer.advanceWhile (fun c => isspace c && c != '\n')
      (Lexer.advanceWhile isAlpha l.remaining l).remaining
      (Lexer.advanceWhile isAlpha l.remaining l)).line l.column
  obtain ⟨line, col, l3, hid, h3⟩ := handleIdentifier_spec (w := w) (r := g ++ r)
    (by simpa using hres) (fun x hx => alnum_of_alpha (hw x hx)) hstop2
  refine ⟨line, col, l3, ?_, h3⟩
  unfold Lexer.handleWord
  have hcur := h2.cur
  simp only [hcur, hr1]
  simpa using hid


theorem alpha_props {c : Char} (h : isAlpha c = true) :
    isspace c = false ∧ c ≠ Char.ofNat 35 ∧ isDigit c = false := by
  unfold Lexer.isAlpha isalphaC at h
  simp at h
  refine ⟨?_, ?_, ?_⟩
  · unfold isspace; simp
    rcases h with (h | h) | h
    · constructor <;> omega
    · constructor <;> omega
    · subst h; decide
  · intro e; subst e; revert h; decide
  · unfold Lexer.isDigit isdigit; simp
    rcases h with (h | h) | h
    · omega
    · omega
    · subst h; decide

/-- A word not followed by a second word is a keyword or an identifier. -/
theorem yields_word {l : Lexer} {u w g r : List Char} (h : l.At (u ++ w ++ g ++ r))
    (hws : ∀ x ∈ u, isspace x = true)
    (hne : w ≠ []) (hw : ∀ x ∈ w, isAlpha x = true) (hsp : ∀ x ∈ g, hspace x = true)
    (hr1 : isAlpha (r.headD NUL) = false) (hr2 : hspace (r.headD NUL) = false)
    (hr3 : g = [] → isDigit (r.headD NUL) = false) :
    Yields l (wordToken w).1 (wordToken w).2 (g ++ r) := by
  cases w with
  | nil => exact absurd rfl hne
  | cons c w =>
    have hc := hw c (by simp)
    obtain ⟨p1, p2, p3⟩ := alpha_props hc
    obtain ⟨l1, h1, _, heq⟩ := nextToken_dispatch (c := c) (r := w ++ g ++ r)
      (by simpa using h) hws p1 p2
    obtain ⟨line, col, l2, hn, h2⟩ := handleWord_single (w := c :: w) (g := g) (r := r)
      (by simpa using h1) hw hsp hr1 hr2 hr3
    refine ⟨line, col, l2, ?_, h2⟩
    rw [heq]
    simp only [p3, hc, hn]
    simp

theorem take_dropLast_aux (w g rest : List Char) (hsp : g ≠ []) :
    (w ++ g ++ rest).take (w.length + g.length - 1) = w ++ g.dropLast := by
  have h1 : w.length + g.length - 1 = w.length + (g.length - 1) := by
    have : 0 < g.length := List.length_pos.mpr hsp
    omega
  rw [h1, List.append_assoc, List.take_append, List.take_append_eq_append_take]
  simp [List.dropLast_eq_take]

/-- The states of `handleWord` after the first word, the white space and a second word. -/
theorem handleWord_two {l : Lexer} {w g v r : List Char} (h : l.At (w ++ g ++ v ++ r))
    (hw : ∀ x ∈ w, isAlpha x = true) (hsp : ∀ x ∈ g, hspace x = true) (hspne : g ≠ [])
    (hw2 : ∀ x ∈ v, isAlpha x = true) (hw2ne : v ≠ [])
    (hr : isAlpha (r.headD NUL) = false) :
    (∀ t, naturalOperators.lookup (twoWords w g v) = some t →
      ∃ (line column : Int) (l1 : Lexer),
        l.handleWord = (⟨t, .none, line, column⟩, l1) ∧ l1.At r) ∧
    (naturalOperators.lookup (twoWords w g v) = none →
      ∃ (line column : Int) (l1 : Lexer),
        l.handleWord = (⟨(wordToken w).1, (wordToken w).2, line, column⟩, l1) ∧
        l1.At (g ++ v ++ r)) := by
  obtain ⟨s0, sp', rfl⟩ : ∃ s0 sp', g = s0 :: sp' := by
    cases g with
    | nil => exact absurd rfl hspne
    | cons s0 sp' => exact ⟨s0, sp', rfl⟩
  obtain ⟨c2, w2', rfl⟩ : ∃ c2 w2', v = c2 :: w2' := by
    cases v with
    | nil => exact absurd rfl hw2ne
    | cons c2 w2' => exact ⟨c2, w2', rfl⟩
  have hs0 := hspace_props (hsp s0 (by simp))
  have hc2 := hw2 c2 (by simp)
  have hc2s : hspace c2 = false := by
    have := (alpha_props hc2).1
    simp [hspace, this]
  -- first word
  obtain ⟨h1, hs1, hp1⟩ := At.advanceWhile (f := isAlpha) w l.remaining
    (r := s0 :: sp' ++ c2 :: w2' ++ r) (by simpa using h) (by rw [h.remaining]; simp) hw
    (by simp [hs0.1])
  -- white space
  obtain ⟨h2, hs2, hp2⟩ := At.advanceWhile (f := fun c => isspace c && c != '\n')
    (s0 :: sp') (r := c2 :: w2' ++ r)
    (Lexer.advanceWhile isAlpha l.remaining l).remaining (by simpa using h1)
    (by rw [h1.remaining]; simp) hsp
    (stop_of (f := fun c => isspace c && c != '\n') (r := c2 :: w2' ++ r) hc2s)
  -- second word
  obtain ⟨h3, hs3, hp3⟩ := At.advanceWhile (f := isAlpha) (c2 :: w2') (r := r)
    (Lexer.advanceWhile (fun c => isspace c && c != '\n')
      (Lexer.advanceWhile isAlpha l.remaining l).remaining
      (Lexer.advanceWhile isAlpha l.remaining l)).remaining (by simpa using h2)
    (by rw [h2.remaining]; simp) hw2 (stop_of hr)
  generalize hl1 : Lexer.advanceWhile isAlpha l.remaining l = l1 at *
  generalize hl2 : Lexer.advanceWhile (fun c => isspace c && c != '\n') l1.remaining l1 = l2 at *
  generalize hl3 : Lexer.advanceWhile isAlpha l2.remaining l2 = l3 at *
  have hfirst : SimpScript.substr l.source l.position (l2.position - l.position - 1)
      = w ++ (s0 :: sp').dropLast := by
    unfold SimpScript.substr
    rw [h.rest, hp2, hp1]
    have : l.position + w.length + (s0 :: sp').length - l.position - 1
        = w.length + (s0 :: sp').length - 1 := by omega
    rw [this]
    have := take_dropLast_aux w (s0 :: sp') (c2 :: w2' ++ r) (by simp)
    simpa using this
  have hsecond : SimpScript.substr l.source l2.position (l3.position - l2.position)
      = c2 :: w2' := by
    have := h2.substr (z := c2 :: w2') (r := r) l3 hp3
    rw [hs2, hs1] at this
    exact this
  have hcur := h2.cur
  simp only [List.headD_cons] at hcur
  constructor
  · intro t ht
    refine ⟨l3.line, l3.column, l3, ?_, h3⟩
    unfold Lexer.handleWord
    simp only [hl1, hl2, hl3, hcur, hc2, if_true, hfirst, hsecond]
    unfold twoWords at ht
    simp only [List.append_assoc] at ht ⊢
    rw [ht]
    simp [hc2, Lexer.makeToken]
  · intro hnone
    have hres := At.restore h (m := l3) (by rw [hs3, hs2, hs1]) l2.line l.column
    obtain ⟨line, col, l4, hid, h4⟩ := handleIdentifier_spec (w := w)
      (r := s0 :: sp' ++ c2 :: w2' ++ r) (by simpa using hres)
      (fun x hx => alnum_of_alpha (hw x hx)) (by simp [hs0.2.1])
    refine ⟨line, col, l4, ?_, by simpa using h4⟩
    unfold Lexer.handleWord
    simp only [hl1, hl2, hl3, hcur, hc2, if_true, hfirst, hsecond]
    unfold twoWords at hnone
    simp only [List.append_assoc] at hnone ⊢
    rw [hnone]
    simpa [hc2] using hid


/-- Two words that form a natural-language operator are one token. -/
theorem yields_two_hit {l : Lexer} {u w g v r : List Char} {t : TokenType}
    (h : l.At (u ++ w ++ g ++ v ++ r)) (hws : ∀ x ∈ u, isspace x = true)
    (hne : w ≠ []) (hw : ∀ x ∈ w, isAlpha x = true)
    (hsp : ∀ x ∈ g, hspace x = true) (hspne : g ≠ [])
    (hw2 : ∀ x ∈ v, isAlpha x = true) (hw2ne : v ≠ [])
    (hr : isAlpha (r.headD NUL) = false)
    (ht : naturalOperators.lookup (twoWords w g v) = some t) :
    Yields l t .none r := by
  cases w with
  | nil => exact absurd rfl hne
  | cons c w =>
    have hc := hw c (by simp)
    obtain ⟨p1, p2, p3⟩ := alpha_props hc
    obtain ⟨l1, h1, _, heq⟩ := nextToken_dispatch (c := c) (r := w ++ g ++ v ++ r)
      (by simpa using h) hws p1 p2
    obtain ⟨line, col, l2, hn, h2⟩ := (handleWord_two (w := c :: w) (g := g) (v := v)
      (r := r) (by simpa using h1) hw hsp hspne hw2 hw2ne hr).1 t ht
    refine ⟨line, col, l2, ?_, h2⟩
    rw [heq]
    simp only [p3, hc, hn]
    simp

/-- A word followed by a second word that does not complete an operator is a keyword or an
identifier, and the second word is still to read. -/
theorem yields_two_miss {l : Lexer} {u w g v r : List Char}
    (h : l.At (u ++ w ++ g ++ v ++ r)) (hws : ∀ x ∈ u, isspace x = true)
    (hne : w ≠ []) (hw : ∀ x ∈ w, isAlpha x = true)
    (hsp : ∀ x ∈ g, hspace x = true) (hspne : g ≠ [])
    (hw2 : ∀ x ∈ v, isAlpha x = true) (hw2ne : v ≠ [])
    (hr : isAlpha (r.headD NUL) = false)
    (ht : naturalOperators.lookup (twoWords w g v) = none) :
    Yields l (wordToken w).1 (wordToken w).2 (g ++ v ++ r) := by
  cases w with
  | nil => exact absurd rfl hne
  | cons c w =>
    have hc := hw c (by simp)
    obtain ⟨p1, p2, p3⟩ := alpha_props hc
    obtain ⟨l1, h1, _, heq⟩ := nextToken_dispatch (c := c) (r := w ++ g ++ v ++ r)
      (by simpa using h) hws p1 p2
    obtain ⟨line, col, l2, hn, h2⟩ := (handleWord_two (w := c :: w) (g := g) (v := v)
      (r := r) (by simpa using h1) hw hsp hspne hw2 hw2ne hr).2 ht
    refine ⟨line, col, l2, ?_, h2⟩
    rw [heq]
    simp only [p3, hc, hn]
    simp

/-- A terminated string literal is one `STRING` token holding its characters. -/
theorem yields_string {l : Lexer} {u s r : List Char}
    (h : l.At (u ++ QUOTE :: s ++ QUOTE :: r)) (hws : ∀ x ∈ u, isspace x = true)
    (hs : ∀ x ∈ s, x ≠ QUOTE) : Yields l .STRING (.string s) r := by
  obtain ⟨l1, h1, hs1, heq⟩ := nextToken_dispatch (c := QUOTE) (r := s ++ QUOTE :: r)
    (by simpa using h) hws (by decide) (by decide)
  obtain ⟨h2, hs2, hp2⟩ := At.advance h1
  obtain ⟨h3, hs3, hp3⟩ := At.advanceWhile (f := fun c => c != QUOTE) s
    l1.advance.remaining (r := QUOTE :: r) h2 (by rw [h2.remaining]; simp)
    (by intro c hc; simpa using hs c hc) (by simp)
  obtain ⟨h4, hs4, hp4⟩ := At.advance h3
  have hsub := h2.substr _ hp3
  rw [hs2] at hsub
  have hend := h3.isAtEnd
  simp only [List.isEmpty_cons] at hend
  generalize hl3 :
    Lexer.advanceWhile (fun c => c != QUOTE) l1.advance.remaining l1.advance = l3 at *
  refine ⟨l3.advance.line, l3.advance.column, l3.advance, ?_, h4⟩
  rw [heq]
  have e1 : isDigit QUOTE = false := by decide
  have e2 : isAlpha QUOTE = false := by decide
  simp only [e1, e2, Bool.false_eq_true, if_false, if_true]
  unfold Lexer.handleString
  simp only [hl3, hend, Bool.false_eq_true, if_false, hsub, Lexer.makeTokenWith]

end Lexer

open Lexer

/-! ## Arithmetic helpers -/

theorem wrapInt_of_range {i : Int} (h1 : INT_MIN ≤ i) (h2 : i ≤ INT_MAX) : wrapInt i = i := by
  unfold wrapInt
  unfold INT_MIN at h1
  unfold INT_MAX at h2
  omega

theorem Double.scaled_ofInt (a : Int) : Double.scaled (decide (a < 0)) a.natAbs 0 0 = a := by
  unfold Double.scaled
  by_cases h : a < 0
  · have h1 : (a.natAbs : Int) = -a := by omega
    simp only [h, decide_True, if_true, h1]
    simp
  · have h1 : (a.natAbs : Int) = a := by omega
    simp only [h, decide_False, h1]
    simp

/-- Integers are compared exactly through their conversion to `double`. -/
theorem Double.lt_ofInt (a b : Int) : Double.lt (Double.ofInt a) (Double.ofInt b) = decide (a < b) := by
  simp [Double.lt, Double.ofInt, Double.scaled_ofInt]

theorem Double.eq_ofInt (a b : Int) : Double.eq (Double.ofInt a) (Double.ofInt b) = decide (a = b) := by
  simp [Double.eq, Double.ofInt, Double.scaled_ofInt]

@[simp] theorem bind_ok_eq {ε α β : Type} (a : α) (f : α → Except ε β) :
    (Except.ok a >>= f) = f a := rfl

@[simp] theorem bind_error_eq {ε α β : Type} (e : ε) (f : α → Except ε β) :
    ((Except.error e : Except ε α) >>= f) = Except.error e := rfl

theorem digit_head {n : List Char} (h : isNatLiteral n = true) :
    ∃ d ds', n = d :: ds' ∧ isdigit d = true := by
  cases n with
  | nil => simp [isNatLiteral] at h
  | cons d ds' => simp [isNatLiteral] at h; exact ⟨d, ds', rfl, h.1⟩

theorem digit_props {d : Char} (h : isdigit d = true) :
    isAlpha d = false ∧ hspace d = false := by
  unfold isdigit at h
  simp at h
  constructor
  · unfold Lexer.isAlpha isalphaC; simp
    refine ⟨⟨?_, ?_⟩, ?_⟩
    · intro _; omega
    · intro _; omega
    · intro e; subst e; revert h; decide
  · unfold hspace isspace; simp
    intro h1
    rcases h1 with h1 | h1 <;> omega

/-! ## Operator precedence -/

/-- The source `a + b * c` evaluates to `a + (b * c)` (each result wrapped to `int`). -/
theorem execute_add_mul (a b c : List Char) (k : Nat) (cin : List (List Char))
    (ha : isNatLiteral a = true) (hb : isNatLiteral b = true) (hc : isNatLiteral c = true)
    (hA : (digitsValue a : Int) ≤ INT_MAX) (hB : (digitsValue b : Int) ≤ INT_MAX)
    (hC : (digitsValue c : Int) ≤ INT_MAX) :
    (execute (k + 100) (a ++ " + ".toList ++ b ++ " * ".toList ++ c) cin).result =
      .ok (.integer (wrapInt (digitsValue a + wrapInt (digitsValue b * digitsValue c)))) := by
  have h0 := At.new (a ++ " + ".toList ++ b ++ " * ".toList ++ c)
  obtain ⟨ln1, cl1, l1, e1, at1⟩ := yields_int (u := []) (n := a)
    (r := ' ' :: '+' :: ' ' :: (b ++ ' ' :: '*' :: ' ' :: c)) (by simpa using h0) (by simp) ha
    (by simp only [List.headD_cons]; decide) (by simp only [List.headD_cons]; decide) hA
  obtain ⟨ln2, cl2, l2, e2, at2⟩ := yields_operator (u := [' ']) (c := '+') (t := .PLUS)
    (r := ' ' :: (b ++ ' ' :: '*' :: ' ' :: c)) (by simpa using at1) (by decide) (by decide)
    (by simp only [List.headD_cons]; decide)
  obtain ⟨ln3, cl3, l3, e3, at3⟩ := yields_int (u := [' ']) (n := b)
    (r := ' ' :: '*' :: ' ' :: c) (by simpa using at2) (by decide) hb
    (by simp only [List.headD_cons]; decide) (by simp only [List.headD_cons]; decide) hB
  obtain ⟨ln4, cl4, l4, e4, at4⟩ := yields_operator (u := [' ']) (c := '*') (t := .MULTIPLY)
    (r := ' ' :: c) (by simpa using at3) (by decide) (by decide)
    (by simp only [List.headD_cons]; decide)
  obtain ⟨ln5, cl5, l5, e5, at5⟩ := yields_int (u := [' ']) (n := c)
    (r := []) (by simpa using at4) (by decide) hc (by decide) (by decide) hC
  obtain ⟨ln6, cl6, l6, e6, at6⟩ := yields_eof (u := []) at5 (by simp)
  simp only [String.toList, List.append_assoc, List.cons_append, List.nil_append] at e1 ⊢
  simp only [execute, executeProgram]
  simp only [Parser.new, Parser.advance, e1, Parser.parse, Parser.program]
  repeat
    ((first
      | rw [Parser.programLoop] | rw [Parser.statement] | rw [Parser.expressionStatement]
      | rw [Parser.expression] | rw [Parser.assignment] | rw [Parser.logicalOr]
      | rw [Parser.logicalOrLoop] | rw [Parser.logicalAnd] | rw [Parser.logicalAndLoop]
      | rw [Parser.equality] | rw [Parser.equalityLoop] | rw [Parser.comparison]
      | rw [Parser.comparisonLoop] | rw [Parser.term] | rw [Parser.termLoop]
      | rw [Parser.factor] | rw [Parser.factorLoop] | rw [Parser.unary] | rw [Parser.call]
      | rw [Parser.callLoop] | rw [Parser.primary]);
     (try simp [Parser.matchType, Parser.check, Parser.advance, Parser.comparisonOp,
      Token.getIntValue, e1, e2, e3, e4, e5, e6]))
  repeat
    ((first | rw [evaluate] | rw [evaluateEach]);
     (try simp [applyBinary, LiteralValue.toValue,
      Value.add, Value.mul, Value.isString, Value.isNumber, Value.isInteger, Value.isFloat,
      Value.asInteger]))

/-- The source `a * b + c` evaluates to `(a * b) + c` (each result wrapped to `int`). -/
theorem execute_mul_add (a b c : List Char) (k : Nat) (cin : List (List Char))
    (ha : isNatLiteral a = true) (hb : isNatLiteral b = true) (hc : isNatLiteral c = true)
    (hA : (digitsValue a : Int) ≤ INT_MAX) (hB : (digitsValue b : Int) ≤ INT_MAX)
    (hC : (digitsValue c : Int) ≤ INT_MAX) :
    (execute (k + 100) (a ++ " * ".toList ++ b ++ " + ".toList ++ c) cin).result =
      .ok (.integer (wrapInt (wrapInt (digitsValue a * digitsValue b) + digitsValue c))) := by
  have h0 := At.new (a ++ " * ".toList ++ b ++ " + ".toList ++ c)
  obtain ⟨ln1, cl1, l1, e1, at1⟩ := yields_int (u := []) (n := a)
    (r := ' ' :: '*' :: ' ' :: (b ++ ' ' :: '+' :: ' ' :: c)) (by simpa using h0) (by simp) ha
    (by simp only [List.headD_cons]; decide) (by simp only [List.headD_cons]; decide) hA
  obtain ⟨ln2, cl2, l2, e2, at2⟩ := yields_operator (u := [' ']) (c := '*') (t := .MULTIPLY)
    (r := ' ' :: (b ++ ' ' :: '+' :: ' ' :: c)) (by simpa using at1) (by decide) (by decide)
    (by simp only [List.headD_cons]; decide)
  obtain ⟨ln3, cl3, l3, e3, at3⟩ := yields_int (u := [' ']) (n := b)
    (r := ' ' :: '+' :: ' ' :: c) (by simpa using at2) (by decide) hb
    (by simp only [List.headD_cons]; decide) (by simp only [List.headD_cons]; decide) hB
  obtain ⟨ln4, cl4, l4, e4, at4⟩ := yields_operator (u := [' ']) (c := '+') (t := .PLUS)
    (r := ' ' :: c) (by simpa using at3) (by decide) (by decide)
    (by simp only [List.headD_cons]; decide)
  obtain ⟨ln5, cl5, l5, e5, at5⟩ := yields_int (u := [' ']) (n := c)
    (r := []) (by simpa using at4) (by decide) hc (by decide) (by decide) hC
  obtain ⟨ln6, cl6, l6, e6, at6⟩ := yields_eof (u := []) at5 (by simp)
  simp only [String.toList, List.append_assoc, List.cons_append, List.nil_append] at e1 ⊢
  simp only [execute, executeProgram]
  simp only [Parser.new, Parser.advance, e1, Parser.parse, Parser.program]
  repeat
    ((first
      | rw [Parser.programLoop] | rw [Parser.statement] | rw [Parser.expressionStatement]
      | rw [Parser.expression] | rw [Parser.assignment] | rw [Parser.logicalOr]
      | rw [Parser.logicalOrLoop] | rw [Parser.logicalAnd] | rw [Parser.logicalAndLoop]
      | rw [Parser.equality] | rw [Parser.equalityLoop] | rw [Parser.comparison]
      | rw [Parser.comparisonLoop] | rw [Parser.term] | rw [Parser.termLoop]
      | rw [Parser.factor] | rw [Parser.factorLoop] | rw [Parser.unary] | rw [Parser.call]
      | rw [Parser.callLoop] | rw [Parser.primary]);
     (try simp [Parser.matchType, Parser.check, Parser.advance, Parser.comparisonOp,
      Token.getIntValue, e1, e2, e3, e4, e5, e6]))
  repeat
    ((first | rw [evaluate] | rw [evaluateEach]);
     (try simp [applyBinary, LiteralValue.toValue,
      Value.add, Value.mul, Value.isString, Value.isNumber, Value.isInteger, Value.isFloat,
      Value.asInteger]))

/-- Running `shownl a + b * c` writes the decimal form of `a + (b * c)` and a newline. -/
theorem execute_shownl_add_mul (a b c : List Char) (k : Nat) (cin : List (List Char))
    (ha : isNatLiteral a = true) (hb : isNatLiteral b = true) (hc : isNatLiteral c = true)
    (hA : (digitsValue a : Int) ≤ INT_MAX) (hB : (digitsValue b : Int) ≤ INT_MAX)
    (hC : (digitsValue c : Int) ≤ INT_MAX) :
    (runFile (k + 100) ("shownl ".toList ++ a ++ " + ".toList ++ b ++ " * ".toList ++ c) cin) =
      { cout := fmtInt (wrapInt (digitsValue a + wrapInt (digitsValue b * digitsValue c)))
          ++ ['\n'],
        cerr := [], outcome := .exit 0 } := by
  have h0 := At.new ("shownl ".toList ++ a ++ " + ".toList ++ b ++ " * ".toList ++ c)
  obtain ⟨d, a', rfl, hd⟩ := digit_head ha
  obtain ⟨ln0, cl0, l0, e0, at0⟩ := yields_word (u := []) (w := "shownl".toList) (g := [' '])
    (r := d :: a' ++ ' ' :: '+' :: ' ' :: (b ++ ' ' :: '*' :: ' ' :: c)) (by simpa using h0)
    (by simp) (by decide) (by decide) (by decide)
    (by simp only [List.cons_append, List.headD_cons]; exact (digit_props hd).1)
    (by simp only [List.cons_append, List.headD_cons]; exact (digit_props hd).2) (by simp)
  obtain ⟨ln1, cl1, l1, e1, at1⟩ := yields_int (u := [' ']) (n := d :: a')
    (r := ' ' :: '+' :: ' ' :: (b ++ ' ' :: '*' :: ' ' :: c)) (by simpa using at0) (by decide) ha
    (by simp only [List.headD_cons]; decide) (by simp only [List.headD_cons]; decide) hA
  obtain ⟨ln2, cl2, l2, e2, at2⟩ := yields_operator (u := [' ']) (c := '+') (t := .PLUS)
    (r := ' ' :: (b ++ ' ' :: '*' :: ' ' :: c)) (by simpa using at1) (by decide) (by decide)
    (by simp only [List.headD_cons]; decide)
  obtain ⟨ln3, cl3, l3, e3, at3⟩ := yields_int (u := [' ']) (n := b)
    (r := ' ' :: '*' :: ' ' :: c) (by simpa using at2) (by decide) hb
    (by simp only [List.headD_cons]; decide) (by simp only [List.headD_cons]; decide) hB
  obtain ⟨ln4, cl4, l4, e4, at4⟩ := yields_operator (u := [' ']) (c := '*') (t := .MULTIPLY)
    (r := ' ' :: c) (by simpa using at3) (by decide) (by decide)
    (by simp only [List.headD_cons]; decide)
  obtain ⟨ln5, cl5, l5, e5, at5⟩ := yields_int (u := [' ']) (n := c)
    (r := []) (by simpa using at4) (by decide) hc (by decide) (by decide) hC
  obtain ⟨ln6, cl6, l6, e6, at6⟩ := yields_eof (u := []) at5 (by simp)
  have hw : wordToken "shownl".toList = (.SHOWNL, .none) := by decide
  rw [hw] at e0
  simp only [String.toList, List.append_assoc, List.cons_append, List.nil_append] at e0 ⊢
  simp only [runFile, execute, executeProgram, Execution.finish]
  simp only [Parser.new, Parser.advance, e0, Parser.parse, Parser.program]
  repeat
    ((first
      | rw [Parser.programLoop] | rw [Parser.statement] | rw [Parser.printStatement]
      | rw [Parser.expression] | rw [Parser.assignment] | rw [Parser.logicalOr]
      | rw [Parser.logicalOrLoop] | rw [Parser.logicalAnd] | rw [Parser.logicalAndLoop]
      | rw [Parser.equality] | rw [Parser.equalityLoop] | rw [Parser.comparison]
      | rw [Parser.comparisonLoop] | rw [Parser.term] | rw [Parser.termLoop]
      | rw [Parser.factor] | rw [Parser.factorLoop] | rw [Parser.unary] | rw [Parser.call]
      | rw [Parser.callLoop] | rw [Parser.primary]);
     (try simp [Parser.matchType, Parser.check, Parser.advance, Parser.comparisonOp,
      Token.getIntValue, e0, e1, e2, e3, e4, e5, e6]))
  repeat
    ((first | rw [evaluate] | rw [evaluateEach]);
     (try simp [applyBinary, LiteralValue.toValue,
      Value.add, Value.mul, Value.isString, Value.isNumber, Value.isInteger, Value.isFloat,
      Value.asInteger, Value.toString]))
  rfl

/-- C1: for non-negative integer literals `a`, `b`, `c` (literals and results within the
`int` range), lexing, parsing and evaluating the source `a + b * c` yields the integer
`a + (b * c)` and `a * b + c` yields `(a * b) + c`; running `shownl 1 + 2 * 3` writes `7`
followed by a newline. -/
theorem C1_precedence (a b c : List Char) (fuel : Nat) (cin : List (List Char))
    (ha : isNatLiteral a = true) (hb : isNatLiteral b = true) (hc : isNatLiteral c = true)
    (hA : (digitsValue a : Int) ≤ INT_MAX) (hB : (digitsValue b : Int) ≤ INT_MAX)
    (hC : (digitsValue c : Int) ≤ INT_MAX)
    (h1 : (digitsValue a : Int) + digitsValue b * digitsValue c ≤ INT_MAX)
    (h2 : (digitsValue a : Int) * digitsValue b + digitsValue c ≤ INT_MAX)
    (hfuel : 100 ≤ fuel) :
    (execute fuel (a ++ " + ".toList ++ b ++ " * ".toList ++ c) cin).result =
        .ok (.integer (digitsValue a + digitsValue b * digitsValue c)) ∧
      (execute fuel (a ++ " * ".toList ++ b ++ " + ".toList ++ c) cin).result =
        .ok (.integer (digitsValue a * digitsValue b + digitsValue c)) ∧
      runFile fuel "shownl 1 + 2 * 3".toList cin =
        { cout := "7\n".toList, cerr := [], outcome := .exit 0 } := by
  obtain ⟨k, rfl⟩ : ∃ k, fuel = k + 100 := ⟨fuel - 100, by omega⟩
  have nA : (0 : Int) ≤ digitsValue a := Int.natCast_nonneg _
  have nB : (0 : Int) ≤ digitsValue b := Int.natCast_nonneg _
  have nC : (0 : Int) ≤ digitsValue c := Int.natCast_nonneg _
  have nBC : (0 : Int) ≤ digitsValue b * digitsValue c := Int.mul_nonneg nB nC
  have nAB : (0 : Int) ≤ digitsValue a * digitsValue b := Int.mul_nonneg nA nB
  have m : INT_MIN ≤ 0 := by decide
  refine ⟨?_, ?_, ?_⟩
  · rw [execute_add_mul a b c k cin ha hb hc hA hB hC,
      wrapInt_of_range (i := (digitsValue b : Int) * digitsValue c) (by omega) (by omega),
      wrapInt_of_range (by omega) h1]
  · rw [execute_mul_add a b c k cin ha hb hc hA hB hC,
      wrapInt_of_range (i := (digitsValue a : Int) * digitsValue b) (by omega) (by omega),
      wrapInt_of_range (by omega) h2]
  · exact execute_shownl_add_mul "1".toList "2".toList "3".toList k cin (by decide) (by decide)
      (by decide) (by decide) (by decide) (by decide)

theorem C1_precedence_witness :
    (isNatLiteral "1".toList = true ∧ isNatLiteral "2".toList = true ∧
        isNatLiteral "3".toList = true ∧ (100 : Nat) ≤ 100) ∧
      (execute 100 "1 + 2 * 3".toList []).result = .ok (.integer 7) ∧
      (execute 100 "1 * 2 + 3".toList []).result = .ok (.integer 5) ∧
      runFile 100 "shownl 1 + 2 * 3".toList [] =
        { cout := "7\n".toList, cerr := [], outcome := .exit 0 } :=
  ⟨by decide,
   C1_precedence "1".toList "2".toList "3".toList 100 [] (by decide) (by decide) (by decide)
     (by decide) (by decide) (by decide) (by decide) (by decide) (by decide)⟩

/-! ## The countdown program -/

theorem mapFind_mapSet_self (m : List (List Char × Value)) (k : List Char) (v : Value) :
    mapFind (mapSet m k v) k = some v := by
  induction m with
  | nil => simp [mapSet, mapFind]
  | cons kv m ih =>
    obtain ⟨k1, v1⟩ := kv
    by_cases h : k1 = k
    · simp [mapSet, mapFind, h]
    · simp [mapSet, mapFind, h, ih]

/-- The loop of the countdown program, started with `x = m` in the global environment,
writes `m`, ..., `1` and ends. -/
theorem whileLoop_countdown (m : Nat) :
    ∀ (fuel : Nat) (vals : List (List Char × Value)) (callables : List Callable)
      (cout : List Char) (cin : List (List Char)) (result : Value),
      m + 10 ≤ fuel → (m : Int) ≤ INT_MAX → mapFind vals ['x'] = some (.integer m) →
      ∃ r vals1,
        whileLoop fuel .interpreter countdownCondition countdownBody result
          { environments := [{ values := vals, enclosing := none }], callables := callables,
            interpreter := { environment := 0, globals := 0 }, cout := cout, cin := cin } =
        (.ok r,
          { environments := [{ values := vals1, enclosing := none }], callables := callables,
            interpreter := { environment := 0, globals := 0 }, cout := cout ++ countdown m,
            cin := cin }) := by
  induction m with
  | zero =>
    intro fuel vals callables cout cin result hf _ hx
    obtain ⟨k, rfl⟩ : ∃ k, fuel = k + 10 := ⟨fuel - 10, by omega⟩
    refine ⟨result, vals, ?_⟩
    rw [whileLoop]
    simp only [countdownCondition]
    repeat
      ((first | rw [evaluate] | rw [evaluateEach]);
       (try simp [applyBinary, Except.map, LiteralValue.toValue, World.getEnvironment, Environment.get,
         Environment.getAux, hx, Value.gt, Value.le, Value.lt, Value.eq, Value.isNumber,
         Value.isInteger, Value.isFloat, Value.asFloat, Double.lt_ofInt, Value.isTruthy,
         countdown]))
  | succ m ih =>
    intro fuel vals callables cout cin result hf hmax hx
    obtain ⟨k, rfl⟩ : ∃ k, fuel = k + 10 := ⟨fuel - 10, by omega⟩
    have hm1 : wrapInt (m : Int) = m := by
      unfold INT_MAX at hmax
      unfold wrapInt
      push_cast at hmax
      omega
    obtain ⟨r, vals1, hrec⟩ := ih (k + 9) (mapSet vals ['x'] (.integer m)) callables
      (cout ++ fmtInt ((m + 1 : Nat) : Int) ++ ['\n']) cin (.integer m) (by omega)
      (by push_cast at hmax; omega) (mapFind_mapSet_self _ _ _)
    refine ⟨r, vals1, ?_⟩
    rw [whileLoop]
    simp only [countdownCondition, countdownBody]
    repeat
      ((first | rw [evaluate] | rw [evaluateEach]);
       (try simp [applyBinary, Except.map, LiteralValue.toValue, World.getEnvironment, Environment.get,
         Environment.getAux, hx, Value.gt, Value.le, Value.lt, Value.eq, Value.isNumber,
         Value.isInteger, Value.isFloat, Value.asFloat, Double.lt_ofInt, Value.isTruthy,
         Value.sub, Value.asInteger, Environment.assign, Environment.assignAux,
         Environment.define, Value.toString, hm1]))
    have hc : (0 : Int) ≤ m + 1 ∧ ¬ (m : Int) + 1 = 0 := by omega
    rw [if_pos hc]
    simp only [countdownCondition, countdownBody] at hrec
    push_cast at hrec
    simp only [List.append_assoc] at hrec
    rw [hrec]
    simp [countdown]

set_option maxRecDepth 100000 in
set_option maxHeartbeats 4000000 in
theorem parse_countdown (n : List Char) (k : Nat) (hn : isNatLiteral n = true)
    (hN : (digitsValue n : Int) ≤ INT_MAX) :
    ∃ p : Parser, Parser.new (Lexer.new (countdownSource n)) = .ok p ∧
      p.parse (k + 100) = .ok (countdownProgram (digitsValue n), []) := by
  have h0 := At.new (countdownSource n)
  obtain ⟨ln1, cl1, l1, e1, at1⟩ := yields_word (l := Lexer.new (countdownSource n))
    (u := []) (w := ['x']) (g := [' '])
    (r := '=' :: ' ' :: (n ++ " while x greater than 0 shownl x x = x - 1 endwhile".toList))
    (by simpa [countdownSource] using h0)
    (by simp) (by decide) (by decide) (by decide)
    (by simp only [List.headD_cons]; decide) (by simp only [List.headD_cons]; decide) (by simp)
  obtain ⟨ln2, cl2, l2, e2, at2⟩ := yields_operator (u := [' ']) (c := '=') (t := .ASSIGN)
    (r := ' ' :: (n ++ " while x greater than 0 shownl x x = x - 1 endwhile".toList))
    (by simpa using at1) (by decide) (by decide) (by simp only [List.headD_cons]; decide)
  obtain ⟨ln3, cl3, l3, e3, at3⟩ := yields_int (u := [' ']) (n := n)
    (r := " while x greater than 0 shownl x x = x - 1 endwhile".toList)
    (by simpa using at2) (by decide) hn (by decide) (by decide) hN
  obtain ⟨ln4, cl4, l4, e4, at4⟩ := yields_two_miss (u := [' ']) (w := "while".toList)
    (g := [' ']) (v := ['x']) (r := " greater than 0 shownl x x = x - 1 endwhile".toList)
    (by simpa using at3) (by decide) (by decide) (by decide) (by decide) (by decide)
    (by decide) (by decide) (by decide) (by decide)
  obtain ⟨ln5, cl5, l5, e5, at5⟩ := yields_two_miss (u := [' ']) (w := ['x'])
    (g := [' ']) (v := "greater".toList) (r := " than 0 shownl x x = x - 1 endwhile".toList)
    (by simpa using at4) (by decide) (by decide) (by decide) (by decide) (by decide)
    (by decide) (by decide) (by decide) (by decide)
  obtain ⟨ln6, cl6, l6, e6, at6⟩ := yields_two_hit (u := [' ']) (w := "greater".toList)
    (g := [' ']) (v := "than".toList) (r := " 0 shownl x x = x - 1 endwhile".toList)
    (t := .GREATER_THAN)
    (by simpa using at5) (by decide) (by decide) (by decide) (by decide) (by decide)
    (by decide) (by decide) (by decide) (by decide)
  obtain ⟨ln7, cl7, l7, e7, at7⟩ := yields_int (u := [' ']) (n := ['0'])
    (r := " shownl x x = x - 1 endwhile".toList)
    (by simpa using at6) (by decide) (by decide) (by decide) (by decide) (by decide)
  obtain ⟨ln8, cl8, l8, e8, at8⟩ := yields_two_miss (u := [' ']) (w := "shownl".toList)
    (g := [' ']) (v := ['x']) (r := " x = x - 1 endwhile".toList)
    (by simpa using at7) (by decide) (by decide) (by decide) (by decide) (by decide)
    (by decide) (by decide) (by decide) (by decide)
  obtain ⟨ln9, cl9, l9, e9, at9⟩ := yields_two_miss (u := [' ']) (w := ['x'])
    (g := [' ']) (v := ['x']) (r := " = x - 1 endwhile".toList)
    (by simpa using at8) (by decide) (by decide) (by decide) (by decide) (by decide)
    (by decide) (by decide) (by decide) (by decide)
  obtain ⟨ln10, cl10, l10, e10, at10⟩ := yields_word (u := [' ']) (w := ['x']) (g := [' '])
    (r := "= x - 1 endwhile".toList)
    (by simpa using at9) (by decide) (by decide) (by decide) (by decide)
    (by decide) (by decide) (by decide)
  obtain ⟨ln11, cl11, l11, e11, at11⟩ := yields_operator (u := [' ']) (c := '=') (t := .ASSIGN)
    (r := " x - 1 endwhile".toList)
    (by simpa using at10) (by decide) (by decide) (by decide)
  obtain ⟨ln12, cl12, l12, e12, at12⟩ := yields_word (u := [' ']) (w := ['x']) (g := [' '])
    (r := "- 1 endwhile".toList)
    (by simpa using at11) (by decide) (by decide) (by decide) (by decide)
    (by decide) (by decide) (by decide)
  obtain ⟨ln13, cl13, l13, e13, at13⟩ := yields_operator (u := [' ']) (c := '-') (t := .MINUS)
    (r := " 1 endwhile".toList)
    (by simpa using at12) (by decide) (by decide) (by decide)
  obtain ⟨ln14, cl14, l14, e14, at14⟩ := yields_int (u := [' ']) (n := ['1'])
    (r := " endwhile".toList)
    (by simpa using at13) (by decide) (by decide) (by decide) (by decide) (by decide)
  obtain ⟨ln15, cl15, l15, e15, at15⟩ := yields_word (u := [' ']) (w := "endwhile".toList)
    (g := []) (r := [])
    (by simpa using at14) (by decide) (by decide) (by decide) (by decide)
    (by decide) (by decide) (by decide)
  obtain ⟨ln16, cl16, l16, e16, at16⟩ := yields_eof (u := []) (by simpa using at15) (by simp)
  have w1 : wordToken ['x'] = (.IDENTIFIER, .string ['x']) := by decide
  have w2 : wordToken "while".toList = (.WHILE, .none) := by decide
  have w3 : wordToken "shownl".toList = (.SHOWNL, .none) := by decide
  have w4 : wordToken "endwhile".toList = (.ENDWHILE, .none) := by decide
  have d0 : ((digitsValue ['0'] : Nat) : Int) = 0 := by decide
  have d1 : ((digitsValue ['1'] : Nat) : Int) = 1 := by decide
  simp only [w1, w2, w3, w4, d0, d1] at e1 e4 e5 e7 e8 e9 e10 e12 e14 e15
  refine ⟨{ lexer := l1, currentToken := ⟨.IDENTIFIER, .string ['x'], ln1, cl1⟩ }, ?_, ?_⟩
  · simp only [Parser.new, Parser.advance, e1]
  simp only [Parser.parse, Parser.program, countdownProgram, countdownCondition, countdownBody]
  repeat
    ((first
      | rw [Parser.programLoop] | rw [Parser.statement] | rw [Parser.expressionStatement]
      | rw [Parser.whileStatement] | rw [Parser.block] | rw [Parser.printStatement]
      | rw [Parser.expression] | rw [Parser.assignment] | rw [Parser.logicalOr]
      | rw [Parser.logicalOrLoop] | rw [Parser.logicalAnd] | rw [Parser.logicalAndLoop]
      | rw [Parser.equality] | rw [Parser.equalityLoop] | rw [Parser.comparison]
      | rw [Parser.comparisonLoop] | rw [Parser.term] | rw [Parser.termLoop]
      | rw [Parser.factor] | rw [Parser.factorLoop] | rw [Parser.unary] | rw [Parser.call]
      | rw [Parser.callLoop] | rw [Parser.primary]);
     (try simp [Parser.matchType, Parser.check, Parser.advance, Parser.comparisonOp,
      Parser.consume, Parser.stringValue, Token.getStringValue,
      Token.getIntValue, e1, e2, e3, e4, e5, e6, e7, e8, e9, e10, e11, e12, e13, e14, e15, e16]))

theorem runFile_countdown (n : List Char) (fuel : Nat) (cin : List (List Char))
    (hn : isNatLiteral n = true) (hN : (digitsValue n : Int) ≤ INT_MAX)
    (hfuel : digitsValue n + 100 ≤ fuel) :
    runFile fuel (countdownSource n) cin =
      { cout := countdown (digitsValue n), cerr := [], outcome := .exit 0 } := by
  obtain ⟨j, rfl⟩ : ∃ j, fuel = j + 100 := ⟨fuel - 100, by omega⟩
  obtain ⟨p, hp1, hp2⟩ := parse_countdown n j hn hN
  simp only [runFile, execute, executeProgram, Execution.finish, hp1, hp2, countdownProgram]
  have hw : World.new cin =
      { environments := [{ values := [("show".toList, .function 0), ("shownl".toList, .function 1),
            ("ask".toList, .function 2), ("nextl".toList, .boolean true),
            ("size".toList, .function 3)], enclosing := none }],
        callables := [.NativeFunction 1 .show, .NativeFunction 1 .shownl,
          .NativeFunction 0 .ask, .NativeFunction 1 .size],
        interpreter := { environment := 0, globals := 0 }, cout := [], cin := cin } := by
    rfl
  rw [hw]
  repeat
    ((first | rw [evaluate] | rw [evaluateEach]);
     (try simp [LiteralValue.toValue, World.getEnvironment,
       Environment.assign, Environment.assignAux, mapFind, undefinedVariable,
       Exc.isRuntimeError, World.define, Environment.define, mapSet]))
  obtain ⟨r, vals1, hloop⟩ := whileLoop_countdown (digitsValue n) (j + 96)
    [("show".toList, .function 0), ("shownl".toList, .function 1),
      ("ask".toList, .function 2), ("nextl".toList, .boolean true),
      ("size".toList, .function 3), (['x'], .integer (digitsValue n))]
    [.NativeFunction 1 .show, .NativeFunction 1 .shownl,
          .NativeFunction 0 .ask, .NativeFunction 1 .size] [] cin .nil (by omega) hN
    (by simp [mapFind])
  simp only [String.toList] at hloop
  rw [hloop]
  simp [evaluateEach]

theorem countdown_ne_nil (n : Nat) (h : 0 < n) : countdown n ≠ [] := by
  obtain ⟨m, rfl⟩ : ∃ m, n = m + 1 := ⟨n - 1, by omega⟩
  simp [countdown]

set_option maxRecDepth 100000 in
/-- C2, counterexample: for the literal `2147483648`, one past the largest `int`, the run of
`x = 2147483648 while x greater than 0 shownl x x = x - 1 endwhile` writes nothing to the
standard output: `std::stoi` throws in the lexer, `runFile` reports `Error: stoi` and
returns 1. -/
theorem C2_literal_out_of_range :
    runFile 1000 "x = 2147483648 while x greater than 0 shownl x x = x - 1 endwhile".toList [] =
        { cout := [], cerr := "Error: stoi\n".toList, outcome := .exit 1 } ∧
      (runFile 1000
          "x = 2147483648 while x greater than 0 shownl x x = x - 1 endwhile".toList []).cout ≠
        countdown 2147483648 := by
  have h : runFile 1000
      "x = 2147483648 while x greater than 0 shownl x x = x - 1 endwhile".toList [] =
        { cout := [], cerr := "Error: stoi\n".toList, outcome := .exit 1 } := by decide!
  refine ⟨h, ?_⟩
  rw [h]
  exact fun e => countdown_ne_nil 2147483648 (by omega) e.symm

/-- C2, amended: for every non-negative integer literal `n` in the `int` range (at most
2147483647), running `x = n while x greater than 0 shownl x x = x - 1 endwhile` ends normally
once the recursion bound is large enough and writes `n`, `n-1`, ..., `1`, each followed by a
newline (nothing for `n = 0`); for `n = 10` the output is
`10\n9\n8\n7\n6\n5\n4\n3\n2\n1\n`. -/
theorem C2_countdown (n : List Char) (fuel : Nat) (cin : List (List Char))
    (hn : isNatLiteral n = true) (hN : (digitsValue n : Int) ≤ INT_MAX)
    (hfuel : digitsValue n + 100 ≤ fuel) :
    runFile fuel
        ("x = ".toList ++ n ++ " while x greater than 0 shownl x x = x - 1 endwhile".toList)
        cin =
      { cout := countdown (digitsValue n), cerr := [], outcome := .exit 0 } ∧
    ∀ (f : Nat) (input : List (List Char)), 110 ≤ f →
      runFile f "x = 10 while x greater than 0 shownl x x = x - 1 endwhile".toList input =
        { cout := "10\n9\n8\n7\n6\n5\n4\n3\n2\n1\n".toList, cerr := [], outcome := .exit 0 } := by
  constructor
  · exact runFile_countdown n fuel cin hn hN hfuel
  · intro f input hf
    exact runFile_countdown "10".toList f input (by decide) (by decide) hf

theorem C2_countdown_witness :
    (isNatLiteral "3".toList = true ∧ (digitsValue "3".toList : Int) ≤ INT_MAX ∧
        digitsValue "3".toList + 100 ≤ 103) ∧
      runFile 103 "x = 3 while x greater than 0 shownl x x = x - 1 endwhile".toList [] =
        { cout := "3\n2\n1\n".toList, cerr := [], outcome := .exit 0 } :=
  ⟨by decide, (C2_countdown "3".toList 103 [] (by decide) (by decide) (by decide)).1⟩

/-! ## Function declarations and calls -/

set_option maxRecDepth 100000 in
/-- C3 (code defect): on `function add(a,b) return a+b endfunction shownl add(2,3)` the
parser throws (the name is read from the token after the identifier), so the run writes
nothing to the standard output and ends with status 1; and the tree the source is meant
to parse to runs into undefined behaviour, because `UserFunction::call` evaluates the body
through an `Environment` cast to an `Interpreter`. -/
theorem C3_function_declaration_fails :
    runFile 1000 "function add(a,b) return a+b endfunction shownl add(2,3)".toList [] =
        { cout := [], cerr := "Error: Token does not contain a string value\n".toList,
          outcome := .exit 1 } ∧
      runProgram 1000 addProgram [] =
        { cout := [], cerr := [], outcome := .undefinedBehaviour } := by
  decide!

set_option maxRecDepth 100000 in
/-- C4 (code defect): the program of scenario 5 followed by `f = make() shownl f() shownl f()`
does not parse (same slip as in C3), and the tree it is meant to parse to runs into
undefined behaviour at the first statement of `make`, so no call returns 1, 2, 3. -/
theorem C4_closure_counter_fails :
    runFile 1000
        ("function make() n = 0 function inc() n = n + 1 return n endfunction return inc " ++
          "endfunction f = make() shownl f() shownl f()").toList [] =
        { cout := [], cerr := "Error: Token does not contain a string value\n".toList,
          outcome := .exit 1 } ∧
      runProgram 1000 makeProgram [] =
        { cout := [], cerr := [], outcome := .undefinedBehaviour } := by
  decide!

/-! ## Indexed assignment -/

set_option maxRecDepth 100000 in
/-- C5 (code defect): `a = [1,2,3] a[1] = 9 shownl a` writes `[1, 2, 3]`, not `[1, 9, 3]`:
`ArrayAssignmentNode::evaluate` stores into a copy of the array, and an indexed assignment
`name[i] = v` leaves every world as it was. -/
theorem C5_indexed_assignment_lost :
    runFile 1000 "a = [1,2,3] a[1] = 9 shownl a".toList [] =
        { cout := "[1, 2, 3]\n".toList, cerr := [], outcome := .exit 0 } ∧
      ∀ (fuel : Nat) (name : List Char) (i v : Int) (w : World),
        (evaluate fuel .interpreter
          (.ArrayAssignment (.Variable name) (.Literal (.int i)) (.Literal (.int v))) w).2 = w := by
  constructor
  · decide!
  · intro fuel name i v w
    cases fuel with
    | zero => rfl
    | succ fuel =>
      cases fuel with
      | zero => rfl
      | succ fuel =>
        simp only [evaluate, World.getEnvironment, LiteralValue.toValue]
        cases Environment.get w.environments w.interpreter.environment name with
        | error e => rfl
        | ok a =>
          simp only []
          cases a <;> simp [Value.isArray, Value.set]
          split <;> rfl

/-! ## Unary operators -/

set_option maxRecDepth 100000 in
/-- C7 (code defect): `-2 + 5` is rejected by the parser: `unary` reads the operator from
the token after the `-` and skips that token, so the operand is looked for at `+`. The
program parsed is empty, its value is nil (not 3), and `shownl -2 + 5` writes nothing. -/
theorem C7_negative_operand_rejected :
    (execute 1000 "-2 + 5".toList []).result = .ok .nil ∧
      (execute 1000 "-2 + 5".toList []).cerr =
        "Error at line 1, column 5: Expect expression, got token type 6\n".toList ∧
      runFile 1000 "shownl -2 + 5".toList [] =
        { cout := [],
          cerr := "Error at line 1, column 12: Expect expression, got token type 6\n".toList,
          outcome := .exit 0 } := by
  refine ⟨by rfl, by decide!, by decide!⟩

/-! ## Natural-language comparisons -/

theorem applyBinary_GT (x y : Int) :
    applyBinary .GT (.integer x) (.integer y) = .ok (.boolean (decide (x > y))) := by
  simp [applyBinary, Value.gt, Value.le, Value.lt, Value.eq, Value.isNumber, Value.isInteger,
    Value.asFloat, Double.lt_ofInt, Double.eq_ofInt, Except.map]
  rw [Bool.eq_iff_iff]
  simp
  omega
theorem applyBinary_LT (x y : Int) :
    applyBinary .LT (.integer x) (.integer y) = .ok (.boolean (decide (x < y))) := by
  simp [applyBinary, Value.lt, Value.isNumber, Value.isInteger,
    Value.asFloat, Double.lt_ofInt, Except.map]
theorem applyBinary_GTE (x y : Int) :
    applyBinary .GTE (.integer x) (.integer y) = .ok (.boolean (decide (x ≥ y))) := by
  simp [applyBinary, Value.ge, Value.lt, Value.isNumber, Value.isInteger,
    Value.asFloat, Double.lt_ofInt, Except.map]
  rw [Bool.eq_iff_iff]
  simp
theorem applyBinary_LTE (x y : Int) :
    applyBinary .LTE (.integer x) (.integer y) = .ok (.boolean (decide (x ≤ y))) := by
  simp [applyBinary, Value.le, Value.lt, Value.eq, Value.isNumber, Value.isInteger,
    Value.asFloat, Double.lt_ofInt, Double.eq_ofInt, Except.map]
  rw [Bool.eq_iff_iff]
  simp
  omega

/-- What the lexer, the parser and the evaluator need to know of a two-word operator. -/
theorem naturalComparisons_props {w1 w2 : List Char} {cmp : Int → Int → Bool}
    (h : (w1, w2, cmp) ∈ naturalComparisons) :
    ∃ (t : TokenType) (op : BinaryOpType),
      (∀ x y : Int, applyBinary op (.integer x) (.integer y) = .ok (.boolean (cmp x y))) ∧
      w1 ≠ [] ∧ (∀ x ∈ w1, isAlpha x = true) ∧ w2 ≠ [] ∧ (∀ x ∈ w2, isAlpha x = true) ∧
      naturalOperators.lookup (twoWords w1 [' '] w2) = some t ∧
      Parser.comparisonOp t = some op ∧
      t ≠ .LEFT_PAREN ∧ t ≠ .LEFT_BRACKET ∧ t ≠ .MULTIPLY ∧ t ≠ .DIVIDE ∧ t ≠ .MODULO ∧
      t ≠ .PLUS ∧ t ≠ .MINUS := by
  simp only [naturalComparisons, List.mem_cons, Prod.mk.injEq, List.mem_singleton,
    List.not_mem_nil, or_false] at h
  rcases h with ⟨rfl, rfl, rfl⟩ | ⟨rfl, rfl, rfl⟩ | ⟨rfl, rfl, rfl⟩ | ⟨rfl, rfl, rfl⟩
  · exact ⟨.GREATER_THAN, .GT, applyBinary_GT, by decide⟩
  · exact ⟨.LESS_THAN, .LT, applyBinary_LT, by decide⟩
  · exact ⟨.AT_LEAST, .GTE, applyBinary_GTE, by decide⟩
  · exact ⟨.AT_MOST, .LTE, applyBinary_LTE, by decide⟩

set_option maxRecDepth 100000 in
set_option maxHeartbeats 4000000 in
theorem runFile_comparison (a b w1 w2 : List Char) (cmp : Int → Int → Bool) (k : Nat)
    (cin : List (List Char))
    (ha : isNatLiteral a = true) (hb : isNatLiteral b = true)
    (hA : (digitsValue a : Int) ≤ INT_MAX) (hB : (digitsValue b : Int) ≤ INT_MAX)
    (hop : (w1, w2, cmp) ∈ naturalComparisons) :
    runFile (k + 100) (comparisonSource a w1 w2 b) cin =
      { cout := if cmp (digitsValue a) (digitsValue b) then "yes\n".toList else "no\n".toList,
        cerr := [], outcome := .exit 0 } := by
  obtain ⟨t, op, happly, h1ne, h1, h2ne, h2, hlook, hcmp, n1, n2, n3, n4, n5, n6, n7⟩ :=
    naturalComparisons_props hop
  obtain ⟨d, a', rfl, hd⟩ := digit_head ha
  have h0 := At.new (comparisonSource (d :: a') w1 w2 b)
  obtain ⟨ln1, cl1, l1, e1, at1⟩ := yields_word
    (l := Lexer.new (comparisonSource (d :: a') w1 w2 b)) (u := []) (w := "if".toList)
    (g := [' '])
    (r := d :: a' ++ [' '] ++ w1 ++ [' '] ++ w2 ++ [' '] ++ b ++
      " shownl \"yes\" else shownl \"no\" endif".toList)
    (by simpa [comparisonSource] using h0)
    (by simp) (by decide) (by decide) (by decide)
    (by simp only [List.cons_append, List.headD_cons]; exact (digit_props hd).1)
    (by simp only [List.cons_append, List.headD_cons]; exact (digit_props hd).2) (by simp)
  obtain ⟨ln2, cl2, l2, e2, at2⟩ := yields_int (u := [' ']) (n := d :: a')
    (r := [' '] ++ w1 ++ [' '] ++ w2 ++ [' '] ++ b ++
      " shownl \"yes\" else shownl \"no\" endif".toList)
    (by simpa using at1) (by decide) ha
    (by simp only [List.cons_append, List.nil_append, List.headD_cons]; decide)
    (by simp only [List.cons_append, List.nil_append, List.headD_cons]; decide) hA
  obtain ⟨e, b', rfl, he⟩ := digit_head hb
  obtain ⟨ln3, cl3, l3, e3, at3⟩ := yields_two_hit (u := [' ']) (w := w1) (g := [' '])
    (v := w2) (t := t)
    (r := [' '] ++ e :: b' ++ " shownl \"yes\" else shownl \"no\" endif".toList)
    (by simpa using at2) (by decide) h1ne h1 (by decide) (by decide) h2 h2ne
    (by simp only [List.cons_append, List.nil_append, List.headD_cons]; decide) hlook
  obtain ⟨ln4, cl4, l4, e4, at4⟩ := yields_int (u := [' ']) (n := e :: b')
    (r := " shownl \"yes\" else shownl \"no\" endif".toList)
    (by simpa using at3) (by decide) hb (by decide) (by decide) hB
  obtain ⟨ln5, cl5, l5, e5, at5⟩ := yields_word (u := [' ']) (w := "shownl".toList)
    (g := [' ']) (r := "\"yes\" else shownl \"no\" endif".toList)
    (by simpa using at4) (by decide) (by decide) (by decide) (by decide)
    (by decide) (by decide) (by decide)
  obtain ⟨ln6, cl6, l6, e6, at6⟩ := yields_string (u := [' ']) (s := "yes".toList)
    (r := " else shownl \"no\" endif".toList)
    (by simpa [QUOTE] using at5) (by decide) (by decide)
  obtain ⟨ln7, cl7, l7, e7, at7⟩ := yields_two_miss (u := [' ']) (w := "else".toList)
    (g := [' ']) (v := "shownl".toList) (r := " \"no\" endif".toList)
    (by simpa using at6) (by decide) (by decide) (by decide) (by decide) (by decide)
    (by decide) (by decide) (by decide) (by decide)
  obtain ⟨ln8, cl8, l8, e8, at8⟩ := yields_word (u := [' ']) (w := "shownl".toList)
    (g := [' ']) (r := "\"no\" endif".toList)
    (by simpa using at7) (by decide) (by decide) (by decide) (by decide)
    (by decide) (by decide) (by decide)
  obtain ⟨ln9, cl9, l9, e9, at9⟩ := yields_string (u := [' ']) (s := "no".toList)
    (r := " endif".toList)
    (by simpa [QUOTE] using at8) (by decide) (by decide)
  obtain ⟨ln10, cl10, l10, e10, at10⟩ := yields_word (u := [' ']) (w := "endif".toList)
    (g := []) (r := [])
    (by simpa using at9) (by decide) (by decide) (by decide) (by decide)
    (by decide) (by decide) (by decide)
  obtain ⟨ln11, cl11, l11, e11, at11⟩ := yields_eof (u := []) (by simpa using at10) (by simp)
  have w1' : wordToken "if".toList = (.IF, .none) := by decide
  have w2' : wordToken "shownl".toList = (.SHOWNL, .none) := by decide
  have w3' : wordToken "else".toList = (.ELSE, .none) := by decide
  have w4' : wordToken "endif".toList = (.ENDIF, .none) := by decide
  simp only [w1', w2', w3', w4'] at e1 e5 e7 e8 e10
  have c1 : Parser.comparisonOp .SHOWNL = none := rfl
  have c2 : Parser.comparisonOp .ELSE = none := rfl
  have c3 : Parser.comparisonOp .ENDIF = none := rfl
  simp only [runFile, execute, executeProgram, Execution.finish, Parser.new, Parser.advance, e1,
    Parser.parse, Parser.program]
  repeat
    ((first
      | rw [Parser.programLoop] | rw [Parser.statement] | rw [Parser.expressionStatement]
      | rw [Parser.ifStatement] | rw [Parser.printStatement]
      | rw [Parser.expression] | rw [Parser.assignment] | rw [Parser.logicalOr]
      | rw [Parser.logicalOrLoop] | rw [Parser.logicalAnd] | rw [Parser.logicalAndLoop]
      | rw [Parser.equality] | rw [Parser.equalityLoop] | rw [Parser.comparison]
      | rw [Parser.comparisonLoop] | rw [Parser.term] | rw [Parser.termLoop]
      | rw [Parser.factor] | rw [Parser.factorLoop] | rw [Parser.unary] | rw [Parser.call]
      | rw [Parser.callLoop] | rw [Parser.primary]);
     (try simp [Parser.matchType, Parser.check, Parser.advance, c1, c2, c3,
      Parser.consume, Parser.stringValue, Token.getStringValue, hcmp, n1, n2, n3, n4, n5, n6, n7,
      Token.getIntValue, e1, e2, e3, e4, e5, e6, e7, e8, e9, e10, e11]))
  have hw : (World.new cin).cout = [] := rfl
  cases hc : cmp (digitsValue (d :: a')) (digitsValue (e :: b')) <;>
  · repeat
      ((first | rw [evaluate] | rw [evaluateEach]);
       (try simp [happly, hc, Except.map, LiteralValue.toValue, Value.isTruthy, Value.toString,
         hw]))

set_option maxRecDepth 100000 in
/-- C6, counterexample: for `a = 3` and the literal `b = 2147483648`, one past the largest
`int`, the run of `if 3 at least 2147483648 shownl "yes" else shownl "no" endif` does not
write `no`: `std::stoi` throws in the lexer, `runFile` reports `Error: stoi` and returns 1. -/
theorem C6_literal_out_of_range :
    runFile 1000 "if 3 at least 2147483648 shownl \"yes\" else shownl \"no\" endif".toList [] =
        { cout := [], cerr := "Error: stoi\n".toList, outcome := .exit 1 } := by decide!

/-- C6, amended: for non-negative integer literals `a` and `b` in the `int` range (at most
2147483647) and each of the four two-word operators (`greater than`, `less than`, `at least`, `at most`), the program
`if a <op> b shownl "yes" else shownl "no" endif` ends normally and prints `yes` exactly when
`a > b`, `a < b`, `a ≥ b`, `a ≤ b` respectively, and `no` otherwise: the two words are lexed
greedily as one comparison operator with the meaning of `>`, `<`, `>=`, `<=`. -/
theorem C6_natural_comparisons (a b w1 w2 : List Char) (cmp : Int → Int → Bool) (fuel : Nat)
    (cin : List (List Char))
    (ha : isNatLiteral a = true) (hb : isNatLiteral b = true)
    (hA : (digitsValue a : Int) ≤ INT_MAX) (hB : (digitsValue b : Int) ≤ INT_MAX)
    (hop : (w1, w2, cmp) ∈ naturalComparisons) (hfuel : 100 ≤ fuel) :
    runFile fuel
      ("if ".toList ++ a ++ [' '] ++ w1 ++ [' '] ++ w2 ++ [' '] ++ b ++
        " shownl \"yes\" else shownl \"no\" endif".toList) cin =
      { cout := if cmp (digitsValue a) (digitsValue b) then "yes\n".toList else "no\n".toList,
        cerr := [], outcome := .exit 0 } := by
  obtain ⟨k, rfl⟩ : ∃ k, fuel = k + 100 := ⟨fuel - 100, by omega⟩
  exact runFile_comparison a b w1 w2 cmp k cin ha hb hA hB hop

theorem C6_natural_comparisons_witness :
    (isNatLiteral "3".toList = true ∧ (digitsValue "3".toList : Int) ≤ INT_MAX ∧
        ("at".toList, "least".toList, fun a b : Int => decide (a ≥ b)) ∈ naturalComparisons ∧
        (100 : Nat) ≤ 100) ∧
      runFile 100 "if 3 at least 3 shownl \"yes\" else shownl \"no\" endif".toList [] =
        { cout := "yes\n".toList, cerr := [], outcome := .exit 0 } :=
  ⟨⟨by decide, by decide, by simp [naturalComparisons], by decide⟩,
   C6_natural_comparisons "3".toList "3".toList "at".toList "least".toList
    (fun a b => decide (a ≥ b)) 100 [] (by decide) (by decide) (by decide) (by decide)
    (by simp [naturalComparisons]) (by decide)⟩

/-! ## The operator `not` and equality -/

set_option maxRecDepth 100000 in
/-- C8 (code defect): `not 1 == 2` is rejected by the parser: `unary` reads the operator
from the token after the `not`, the literal 1, and skips it, so the operand is looked for
at `==`. The program parsed is empty and its value is nil, not the boolean of
`not (1 == 2)`, which is true; `shownl not 1 == 2` writes nothing. The source
`not (1 == 2)` is rejected in the same way (there `(` is skipped). The tree that the rule
`equality` builds around a unary operand, `(not 1) == 2`, evaluates to false. -/
theorem C8_not_operand_rejected :
    (execute 1000 "not 1 == 2".toList []).result = .ok .nil ∧
      (execute 1000 "not 1 == 2".toList []).cerr =
        "Error at line 1, column 9: Expect expression, got token type 16\n".toList ∧
      runFile 1000 "shownl not 1 == 2".toList [] =
        { cout := [],
          cerr := "Error at line 1, column 16: Expect expression, got token type 16\n".toList,
          outcome := .exit 0 } ∧
      runFile 1000 "shownl not (1 == 2)".toList [] =
        { cout := [],
          cerr := "Error at line 1, column 19: Expect expression, got token type 32\n".toList,
          outcome := .exit 0 } ∧
      (evaluate 10 .interpreter
        (.UnaryOp .NOT (.BinaryOp .EQ (.Literal (.int 1)) (.Literal (.int 2))))
        (World.new [])).1 = .ok (.boolean true) ∧
      (evaluate 10 .interpreter
        (.BinaryOp .EQ (.UnaryOp .NOT (.Literal (.int 1))) (.Literal (.int 2)))
        (World.new [])).1 = .ok (.boolean false) := by
  refine ⟨by rfl, by decide!, by decide!, by decide!, by rfl, by rfl⟩

/-! ## Assignment and scopes -/

theorem mapFind_mapSet (m : List (List Char × Value)) (name k : List Char) (v : Value) :
    mapFind (mapSet m name v) k = if k = name then some v else mapFind m k := by
  induction m with
  | nil =>
    by_cases h : k = name
    · simp [mapSet, mapFind, h]
    · have h2 : ¬ name = k := fun e => h e.symm
      simp [mapSet, mapFind, h, h2]
  | cons a m ih =>
    obtain ⟨x, y⟩ := a
    by_cases hx : x = name
    · subst hx
      by_cases h : k = x
      · simp [mapSet, mapFind, h]
      · have h2 : ¬ x = k := fun e => h e.symm
        simp [mapSet, mapFind, h, h2]
    · by_cases h : x = k
      · subst h
        simp [mapSet, mapFind, hx]
      · simp [mapSet, mapFind, hx, h, ih]

theorem parentsPrecede_get {envs : List Environment} (h : parentsPrecede envs = true)
    {i : Nat} {e : Environment} (hi : envs.get? i = some e) {p : Nat}
    (hp : e.enclosing = some p) : p < i := by
  simp only [parentsPrecede, List.all_eq_true] at h
  have hm : (i, e) ∈ envs.enum := by
    rw [List.mk_mem_enum_iff_getElem?, ← List.get?_eq_getElem?]
    exact hi
  have := h (i, e) hm
  simpa [hp] using this

theorem assignAux_found (envs : List Environment) (name : List Char) (v : Value) :
    ∀ (fuel env e : Nat),
      (scopeChain envs fuel env).find? (fun e => Environment.«exists» envs e name) = some e →
      Environment.assignAux envs fuel env name v = .ok (Environment.define envs e name v) := by
  intro fuel
  induction fuel with
  | zero => intro env e h; simp [scopeChain] at h
  | succ f ih =>
    intro env e h
    rw [scopeChain] at h
    rw [Environment.assignAux]
    simp only [List.get?_eq_getElem?] at h ⊢
    cases hs : envs[env]? with
    | none => simp [hs] at h
    | some s =>
      simp only [hs, List.find?_cons] at h
      simp only [Environment.«exists», List.get?_eq_getElem?, hs] at h
      simp only [hs]
      cases hm : mapFind s.values name with
      | some x =>
        simp [hm] at h
        simp [h]
      | none =>
        simp only [hm, Option.isSome_none] at h
        cases hp : s.enclosing with
        | none => simp [hp] at h
        | some parent =>
          simp only [hp] at h
          exact ih parent e (by simpa [Environment.«exists»] using h)

theorem assignAux_missing (envs : List Environment) (name : List Char) (v : Value)
    (hwf : parentsPrecede envs = true) :
    ∀ (fuel env : Nat), env < fuel → env < envs.length →
      (scopeChain envs fuel env).find? (fun e => Environment.«exists» envs e name) = none →
      Environment.assignAux envs fuel env name v = .error (undefinedVariable name) := by
  intro fuel
  induction fuel with
  | zero => intro env h; omega
  | succ f ih =>
    intro env hf hl h
    rw [scopeChain] at h
    rw [Environment.assignAux]
    simp only [List.get?_eq_getElem?] at h ⊢
    obtain ⟨s, hs⟩ : ∃ s, envs[env]? = some s := ⟨_, List.getElem?_eq_getElem hl⟩
    simp only [hs, List.find?_cons] at h
    simp only [Environment.«exists», List.get?_eq_getElem?, hs] at h
    simp only [hs]
    cases hm : mapFind s.values name with
    | some x => simp [hm] at h
    | none =>
      simp only [hm, Option.isSome_none] at h
      cases hp : s.enclosing with
      | none => rfl
      | some parent =>
        simp only [hp] at h
        have hlt := parentsPrecede_get hwf ((List.get?_eq_getElem? envs env).trans hs) hp
        exact ih parent (by omega) (by omega) (by simpa [Environment.«exists»] using h)

/-- C10: let `expr` evaluate to `v`, leaving the world `w1` (with a well-formed heap of
environments). If some scope of the chain of the current environment binds `name`, then
`Assignment(name, expr)` returns `v` and stores `v` in the innermost such scope `e`; otherwise
it returns `v` and stores `v` in the current scope. Storing in a scope `e` changes no other
environment, keeps `enclosing` of `e`, and changes the map of `e` at `name` only: so in the
first case no binding is created in the current scope, and in the second no ancestor scope
changes. -/
theorem C10_assignment_scope (fuel : Nat) (name : List Char) (expr : ASTNode) (w w1 : World)
    (v : Value)
    (hv : evaluate fuel .interpreter expr w = (.ok v, w1))
    (hwf : parentsPrecede w1.environments = true)
    (hc : w1.interpreter.environment < w1.environments.length) :
    (∀ e, innermostBinding w1.environments w1.interpreter.environment name = some e →
        evaluate (fuel + 1) .interpreter (.Assignment name expr) w =
          (.ok v, w1.define e name v)) ∧
      (innermostBinding w1.environments w1.interpreter.environment name = none →
        evaluate (fuel + 1) .interpreter (.Assignment name expr) w =
          (.ok v, w1.define w1.interpreter.environment name v)) ∧
      (∀ e : Nat,
        (∀ i, i ≠ e → (w1.define e name v).environments.get? i = w1.environments.get? i) ∧
        (∀ s, w1.environments.get? e = some s →
          (w1.define e name v).environments.get? e =
            some { values := mapSet s.values name v, enclosing := s.enclosing }) ∧
        (∀ (m : List (List Char × Value)) (k : List Char),
          mapFind (mapSet m name v) k = if k = name then some v else mapFind m k) ∧
        (w1.define e name v).interpreter = w1.interpreter) := by
  refine ⟨?_, ?_, ?_⟩
  · intro e he
    rw [evaluate]
    simp only [hv, World.getEnvironment, Environment.assign]
    rw [assignAux_found _ _ _ _ _ _ he]
    rfl
  · intro he
    rw [evaluate]
    simp only [hv, World.getEnvironment, Environment.assign]
    rw [assignAux_missing _ _ _ hwf _ _ hc hc he]
    rfl
  · intro e
    refine ⟨?_, ?_, ?_, rfl⟩
    · intro i hi
      have hi2 : ¬ e = i := fun h => hi h.symm
      simp [World.define, Environment.define, List.getElem?_modify, hi2]
    · intro s hs
      simp only [List.get?_eq_getElem?] at hs
      simp [World.define, Environment.define, List.getElem?_modify, hs]
    · exact fun m k => mapFind_mapSet m name k v

theorem C10_assignment_scope_witness :
    (evaluate 1 .interpreter (.Literal (.int 5)) nestedWorld = (.ok (.integer 5), nestedWorld) ∧
      parentsPrecede nestedWorld.environments = true ∧
      nestedWorld.interpreter.environment < nestedWorld.environments.length ∧
      innermostBinding nestedWorld.environments nestedWorld.interpreter.environment ['x'] =
        some 0) ∧
    evaluate 2 .interpreter (.Assignment ['x'] (.Literal (.int 5))) nestedWorld =
      (.ok (.integer 5), nestedWorld.define 0 ['x'] (.integer 5)) :=
  ⟨⟨rfl, by decide, by decide, by decide⟩,
   (C10_assignment_scope 1 ['x'] (.Literal (.int 5)) nestedWorld nestedWorld (.integer 5) rfl
     (by decide) (by decide)).1 0 (by decide)⟩

/-! ## Scopes of loops -/

theorem Keeps.same (c : Option Nat) (envs : List Environment) : Keeps c envs envs :=
  fun _ s h => ⟨s, h, rfl, Or.inr fun _ => rfl⟩

theorem Keeps.chain {c : Option Nat} {a b d : List Environment}
    (h1 : Keeps c a b) (h2 : Keeps c b d) : Keeps c a d := by
  intro i s hs
  obtain ⟨t, ht, e1, n1⟩ := h1 i s hs
  obtain ⟨u, hu, e2, n2⟩ := h2 i t ht
  refine ⟨u, hu, e2.trans e1, ?_⟩
  rcases n1 with n1 | n1
  · exact Or.inl n1
  · rcases n2 with n2 | n2
    · exact Or.inl n2
    · exact Or.inr fun k => (n2 k).trans (n1 k)

theorem Keeps.lift {c : Option Nat} {a b : List Environment} (h : Keeps none a b) :
    Keeps c a b := by
  intro i s hs
  obtain ⟨t, ht, e1, n1⟩ := h i s hs
  refine ⟨t, ht, e1, ?_⟩
  rcases n1 with n1 | n1
  · cases n1
  · exact Or.inr n1

/-- An environment appended to the heap and changed afterwards does not count. -/
theorem Keeps.of_appended {a b : List Environment} {e : Environment}
    (h : Keeps (some a.length) (a ++ [e]) b) : Keeps none a b := by
  intro i s hs
  have hi : i < a.length := by
    by_contra hc
    rw [List.getElem?_eq_none (by omega)] at hs
    cases hs
  obtain ⟨t, ht, e1, n1⟩ := h i s (by rw [List.getElem?_append_left hi]; exact hs)
  refine ⟨t, ht, e1, ?_⟩
  rcases n1 with n1 | n1
  · simp only [Option.some.injEq] at n1
    omega
  · exact Or.inr n1

theorem Keeps.defineAt (envs : List Environment) (env : Nat) (name : List Char) (v : Value) :
    Keeps (some env) envs (Environment.define envs env name v) := by
  intro i s hs
  by_cases h : env = i
  · subst h
    exact ⟨{ values := mapSet s.values name v, enclosing := s.enclosing },
      by simp [Environment.define, List.getElem?_modify, hs], rfl, Or.inl rfl⟩
  · exact ⟨s, by simp [Environment.define, List.getElem?_modify, hs, h], rfl,
      Or.inr fun _ => rfl⟩

theorem Keeps.define_bound (envs : List Environment) (env : Nat) (name : List Char)
    (v : Value) (s : Environment) (hs : envs[env]? = some s)
    (hb : (mapFind s.values name).isSome = true) :
    Keeps none envs (Environment.define envs env name v) := by
  intro i t ht
  by_cases h : env = i
  · subst h
    rw [hs] at ht
    cases ht
    refine ⟨{ values := mapSet s.values name v, enclosing := s.enclosing },
      by simp [Environment.define, List.getElem?_modify, hs], rfl, Or.inr ?_⟩
    intro k
    simp only [mapFind_mapSet]
    by_cases hk : k = name
    · rw [if_pos hk, hk, hb]; rfl
    · rw [if_neg hk]
  · exact ⟨t, by simp [Environment.define, List.getElem?_modify, ht, h], rfl,
      Or.inr fun _ => rfl⟩

theorem Keeps.assignAux (envs : List Environment) (name : List Char) (v : Value) :
    ∀ (fuel env : Nat) (envs2 : List Environment),
      Environment.assignAux envs fuel env name v = .ok envs2 → Keeps none envs envs2 := by
  intro fuel
  induction fuel with
  | zero => intro env envs2 h; simp [Environment.assignAux] at h
  | succ f ih =>
    intro env envs2 h
    rw [Environment.assignAux] at h
    simp only [List.get?_eq_getElem?] at h
    cases hs : envs[env]? with
    | none => simp [hs] at h
    | some s =>
      simp only [hs] at h
      cases hm : mapFind s.values name with
      | some x =>
        simp only [hm, Except.ok.injEq] at h
        subst h
        exact Keeps.define_bound envs env name v s hs (by simp [hm])
      | none =>
        simp only [hm] at h
        cases hp : s.enclosing with
        | none => simp [hp] at h
        | some parent =>
          simp only [hp] at h
          exact ih parent envs2 h

theorem Keeps.bindParameters (env : Nat) :
    ∀ (ps : List (List Char)) (as : List Value) (envs : List Environment),
      Keeps (some env) envs (bindParameters envs env ps as) := by
  intro ps
  induction ps with
  | nil => intro as envs; cases as <;> exact Keeps.same _ _
  | cons p ps ih =>
    intro as envs
    cases as with
    | nil => exact (Keeps.defineAt envs env p .nil).chain (ih [] _)
    | cons a as => exact (Keeps.defineAt envs env p a).chain (ih as _)

theorem Frame.refl (ref : InterpreterRef) (w : World) : Frame ref w w :=
  ⟨rfl, Keeps.same _ _⟩

theorem Frame.trans {ref : InterpreterRef} {a b d : World}
    (h1 : Frame ref a b) (h2 : Frame ref b d) : Frame ref a d := by
  refine ⟨h2.1.trans h1.1, h1.2.chain ?_⟩
  have : currentScope ref b = currentScope ref a := by
    cases ref <;> simp [currentScope, h1.1]
  rw [← this]
  exact h2.2

theorem Frame.of_eq {ref : InterpreterRef} {w w2 : World}
    (h1 : w2.interpreter = w.interpreter) (h2 : w2.environments = w.environments) :
    Frame ref w w2 :=
  ⟨h1, by rw [h2]; exact Keeps.same _ _⟩

theorem Frame.weaken {ref : InterpreterRef} {e : Nat} {w w2 : World}
    (h : Frame (.environment e) w w2) : Frame ref w w2 :=
  ⟨h.1, Keeps.lift h.2⟩

theorem Frame.assign {ref : InterpreterRef} {w : World} {env : Nat} {name : List Char}
    {v : Value} {envs : List Environment}
    (h : Environment.assign w.environments env name v = .ok envs) :
    Frame ref w { w with environments := envs } :=
  ⟨rfl, Keeps.lift (Keeps.assignAux _ _ _ _ _ _ h)⟩

theorem Frame.define {ref : InterpreterRef} {w : World} {env : Nat} (name : List Char)
    (v : Value) (h : w.getEnvironment ref = .ok env) : Frame ref w (w.define env name v) := by
  cases ref with
  | interpreter =>
    simp only [World.getEnvironment, Except.ok.injEq] at h
    subst h
    exact ⟨rfl, Keeps.defineAt _ _ _ _⟩
  | environment e => simp [World.getEnvironment] at h

/-- The frame of a `for` loop: what the loop does in its own environment is not seen in
the environments that were there before. -/
theorem Frame.of_loop {w w4 : World}
    (h : Frame .interpreter
      ((w.newEnvironment (some w.interpreter.environment)).1.setEnvironment
        (w.newEnvironment (some w.interpreter.environment)).2) w4) :
    (w4.setEnvironment w.interpreter.environment).interpreter = w.interpreter ∧
      Keeps none w.environments (w4.setEnvironment w.interpreter.environment).environments := by
  obtain ⟨h1, h2⟩ := h
  constructor
  · simp only [World.setEnvironment, World.newEnvironment] at h1 ⊢
    rw [h1]
  · exact Keeps.of_appended h2

theorem Frame.getline {ref : InterpreterRef} {w w1 : World} {input : List Char}
    (h : w.getline = (input, w1)) : Frame ref w w1 := by
  unfold World.getline at h
  split at h
  · cases h; exact Frame.refl _ _
  · cases h; exact Frame.of_eq rfl rfl

theorem Frame.functionDef {ref : InterpreterRef} {w w1 : World} {env size : Nat}
    {c : Callable} (name : List Char) (v : Value)
    (h0 : w.getEnvironment ref = .ok env) (h : w.newCallable c = (w1, size)) :
    Frame ref w (w1.define env name v) := by
  simp only [World.newCallable, Prod.mk.injEq] at h
  obtain ⟨rfl, rfl⟩ := h
  exact Frame.trans (Frame.of_eq rfl rfl) (Frame.define name v h0)

theorem Frame.nativeCall {ref : InterpreterRef} (f : Native) (args : List Value) (w : World) :
    Frame ref w (f.call args w).2 := by
  cases f <;> simp only [Native.call]
  · exact Frame.of_eq rfl rfl
  · exact Frame.of_eq rfl rfl
  · exact Frame.getline rfl
  · split <;> exact Frame.refl _ _

theorem Frame.userCall {w w3 : World} (closure : Nat) (parameters : List (List Char))
    (args : List Value)
    (h : Frame (.environment w.environments.length)
      (World.mk
        (bindParameters (w.environments ++ [{ values := [], enclosing := some closure }])
          w.environments.length parameters args)
        w.callables w.interpreter w.cout w.cin) w3) :
    Frame (.environment 0) w w3 := by
  obtain ⟨h1, h2⟩ := h
  exact ⟨h1, (Keeps.of_appended (Keeps.bindParameters _ _ _ _)).chain h2⟩

/-- One step of the induction for `for`: the loop leaves the interpreter object and all
the environments that were there before as they were (up to assigned values). -/
theorem for_step (fuel : Nat)
    (h1 : ∀ ref node w, Frame ref w (evaluate fuel ref node w).2)
    (h5 : ∀ ref c i b v w, Frame ref w (forLoop fuel ref c i b v w).2)
    (init cond incr body : ASTNode) (w : World) :
    (evaluate (fuel + 1) .interpreter (.For init cond incr body) w).2.interpreter =
        w.interpreter ∧
      Keeps none w.environments
        (evaluate (fuel + 1) .interpreter (.For init cond incr body) w).2.environments := by
  rw [evaluate]
  simp only [World.getEnvironment]
  have f3 := h1 .interpreter init
    ((w.newEnvironment (some w.interpreter.environment)).1.setEnvironment
      (w.newEnvironment (some w.interpreter.environment)).2)
  rcases hi : evaluate fuel .interpreter init
    ((w.newEnvironment (some w.interpreter.environment)).1.setEnvironment
      (w.newEnvironment (some w.interpreter.environment)).2) with ⟨r3, w3⟩
  rw [hi] at f3
  have f4 := h5 .interpreter cond incr body .nil w3
  rcases hl : forLoop fuel .interpreter cond incr body .nil w3 with ⟨r4, w4⟩
  rw [hl] at f4
  cases r3 with
  | error e => exact Frame.of_loop f3
  | ok v3 =>
    cases r4 with
    | error e => simp only [hl]; exact Frame.of_loop (f3.trans f4)
    | ok v4 => simp only [hl]; exact Frame.of_loop (f3.trans f4)

theorem frame_all (fuel : Nat) :
    (∀ ref node w, Frame ref w (evaluate fuel ref node w).2) ∧
    (∀ ref nodes w, Frame ref w (evaluateAll fuel ref nodes w).2) ∧
    (∀ ref nodes v w, Frame ref w (evaluateEach fuel ref nodes v w).2) ∧
    (∀ ref c b v w, Frame ref w (whileLoop fuel ref c b v w).2) ∧
    (∀ ref c i b v w, Frame ref w (forLoop fuel ref c i b v w).2) ∧
    (∀ f args w, Frame (.environment 0) w (call fuel f args w).2) := by
  induction fuel with
  | zero =>
    refine ⟨?_, ?_, ?_, ?_, ?_, ?_⟩
    · intro ref node w; rw [evaluate]; exact Frame.refl _ _
    · intro ref nodes w; rw [evaluateAll]; exact Frame.refl _ _
    · intro ref nodes v w; rw [evaluateEach]; exact Frame.refl _ _
    · intro ref c b v w; rw [whileLoop]; exact Frame.refl _ _
    · intro ref c i b v w; rw [forLoop]; exact Frame.refl _ _
    · intro f args w; rw [call]; exact Frame.refl _ _
  | succ fuel ih =>
    obtain ⟨ih1, ih2, ih3, ih4, ih5, ih6⟩ := ih
    have e1 : ∀ ref node w r w1, evaluate fuel ref node w = (r, w1) → Frame ref w w1 := by
      intro ref node w r w1 h; simpa [h] using ih1 ref node w
    have e2 : ∀ ref nodes w r w1, evaluateAll fuel ref nodes w = (r, w1) → Frame ref w w1 := by
      intro ref nodes w r w1 h; simpa [h] using ih2 ref nodes w
    have e6 : ∀ ref f args w, Frame ref w (call fuel f args w).2 :=
      fun ref f args w => Frame.weaken (ih6 f args w)
    refine ⟨?_, ?_, ?_, ?_, ?_, ?_⟩
    · intro ref node w
      cases node
      all_goals rw [evaluate]
      case Block => exact ih3 _ _ _ _
      case Program => exact ih3 _ _ _ _
      case While => exact ih4 _ _ _ _ _
      case For init cond incr body =>
        rw [← evaluate]
        cases ref with
        | interpreter =>
          exact ⟨(for_step fuel ih1 ih5 init cond incr body w).1,
            Keeps.lift (for_step fuel ih1 ih5 init cond incr body w).2⟩
        | environment e => rw [evaluate]; exact Frame.refl _ _
      all_goals clear ih1 ih2 ih3 ih4 ih5 ih6
      all_goals repeat' split
      all_goals (try dsimp only)
      all_goals first
        | exact Frame.refl _ _
        | solve_by_elim [Frame.refl, Frame.trans]
        | exact Frame.trans (Frame.trans (e1 _ _ _ _ _ (by assumption))
            (e1 _ _ _ _ _ (by assumption))) (e1 _ _ _ _ _ (by assumption))
        | exact Frame.trans (e1 _ _ _ _ _ (by assumption)) (Frame.assign (by assumption))
        | exact Frame.trans (e1 _ _ _ _ _ (by assumption))
            (Frame.define _ _ (by assumption))
        | exact Frame.getline (by assumption)
        | exact Frame.functionDef _ _ (by assumption) (by assumption)
    · intro ref nodes w
      cases nodes with
      | nil => rw [evaluateAll]; exact Frame.refl _ _
      | cons node rest =>
        rw [evaluateAll]
        have e2b : ∀ ref nodes w r w1, evaluateAll fuel ref nodes w = (r, w1) →
            Frame ref w w1 := e2
        clear ih1 ih2 ih3 ih4 ih5 ih6
        repeat' split
        all_goals (try dsimp only)
        all_goals first
          | exact e1 _ _ _ _ _ (by assumption)
          | exact Frame.trans (e1 _ _ _ _ _ (by assumption)) (e2b _ _ _ _ _ (by assumption))
    · intro ref nodes v w
      cases nodes with
      | nil => rw [evaluateEach]; exact Frame.refl _ _
      | cons node rest =>
        rw [evaluateEach]
        split
        · exact Frame.trans (e1 _ _ _ _ _ (by assumption)) (ih3 _ _ _ _)
        · exact e1 _ _ _ _ _ (by assumption)
    · intro ref c b v w
      rw [whileLoop]
      repeat' split
      all_goals (try dsimp only)
      all_goals first
        | exact e1 _ _ _ _ _ (by assumption)
        | exact Frame.trans (e1 _ _ _ _ _ (by assumption)) (e1 _ _ _ _ _ (by assumption))
        | exact Frame.trans (Frame.trans (e1 _ _ _ _ _ (by assumption))
            (e1 _ _ _ _ _ (by assumption))) (ih4 _ _ _ _ _)
    · intro ref c i b v w
      rw [forLoop]
      repeat' split
      all_goals (try dsimp only)
      all_goals first
        | exact e1 _ _ _ _ _ (by assumption)
        | exact Frame.trans (e1 _ _ _ _ _ (by assumption)) (e1 _ _ _ _ _ (by assumption))
        | exact Frame.trans (Frame.trans (e1 _ _ _ _ _ (by assumption))
            (e1 _ _ _ _ _ (by assumption))) (e1 _ _ _ _ _ (by assumption))
        | exact Frame.trans (Frame.trans (Frame.trans (e1 _ _ _ _ _ (by assumption))
            (e1 _ _ _ _ _ (by assumption))) (e1 _ _ _ _ _ (by assumption))) (ih5 _ _ _ _ _ _)
    · intro f args w
      cases f
      case function handle =>
        rw [call]
        split
        · exact Frame.refl _ _
        · split
          · exact Frame.refl _ _
          · split
            · exact Frame.nativeCall _ _ _
            · rename_i parameters body closure hget harity
              have f3 := ih1 (.environment w.environments.length) body
                (World.mk
                  (bindParameters
                    (w.environments ++ [{ values := [], enclosing := some closure }])
                    w.environments.length parameters args)
                  w.callables w.interpreter w.cout w.cin)
              simp only [World.newEnvironment] at f3 ⊢
              have f4 := Frame.userCall closure parameters args f3
              repeat' split
              all_goals (try dsimp only)
              all_goals simp_all
      all_goals rw [call]
      all_goals first
        | exact Frame.refl _ _
        | (intro _ hh; cases hh)

theorem for_frame (fuel : Nat) (init cond incr body : ASTNode) (w : World) :
    (evaluate fuel .interpreter (.For init cond incr body) w).2.interpreter = w.interpreter ∧
      Keeps none w.environments
        (evaluate fuel .interpreter (.For init cond incr body) w).2.environments := by
  cases fuel with
  | zero => rw [evaluate]; exact ⟨rfl, Keeps.same _ _⟩
  | succ fuel =>
    exact for_step fuel (frame_all fuel).1 (frame_all fuel).2.2.2.2.1 init cond incr body w

/-- A name that is unbound along a chain of environments stays unbound when every
environment keeps its enclosing environment and its names. -/
theorem getAux_unbound {envs envs2 : List Environment} (h : Keeps none envs envs2)
    (x : List Char) :
    ∀ (fuel fuel2 env : Nat), fuel ≤ fuel2 →
      Environment.getAux envs fuel env x = .error (undefinedVariable x) →
      Environment.getAux envs2 fuel2 env x = .error (undefinedVariable x) := by
  intro fuel
  induction fuel with
  | zero => intro fuel2 env _ hg; simp [Environment.getAux, undefinedVariable] at hg
  | succ f ih =>
    intro fuel2 env hf hg
    obtain ⟨g, rfl⟩ : ∃ g, fuel2 = g + 1 := ⟨fuel2 - 1, by omega⟩
    rw [Environment.getAux] at hg ⊢
    simp only [List.get?_eq_getElem?] at hg ⊢
    cases hs : envs[env]? with
    | none => simp [hs, undefinedVariable] at hg
    | some s =>
      obtain ⟨t, ht, he, hn⟩ := h env s hs
      simp only [hs] at hg
      simp only [ht]
      cases hm : mapFind s.values x with
      | some v => simp [hm] at hg
      | none =>
        have hm2 : mapFind t.values x = none := by
          rcases hn with hn | hn
          · cases hn
          · have := hn x
            rw [hm] at this
            simpa using this
        simp only [hm] at hg
        simp only [hm2, he]
        cases hp : s.enclosing with
        | none => rfl
        | some parent =>
          simp only [hp] at hg ⊢
          exact ih g parent (by omega) hg

theorem Keeps.length_le {c : Option Nat} {a b : List Environment} (h : Keeps c a b) :
    a.length ≤ b.length := by
  by_contra hc
  have hlt : b.length < a.length := by omega
  obtain ⟨t, ht, _⟩ := h b.length (a.get ⟨b.length, hlt⟩) (List.getElem?_eq_getElem hlt)
  rw [List.getElem?_eq_none (le_refl _)] at ht
  cases ht

set_option maxRecDepth 100000 in
/-- C9: for every `for` loop (whatever its header and body) and every name `x` whose lookup
in the current environment fails with `Undefined variable` before the loop, however the
evaluation of the loop ends, the current environment is afterwards the one from before the
loop and the lookup of `x` still fails with `Undefined variable`: names first assigned in
the header or the body live in the loop's own environment. For instance
`for i = 0; i < 1; i = i + 1 shownl i endfor shownl i` prints 0 and then fails at the last
statement. -/
theorem C9_for_scope (fuel : Nat) (init cond incr body : ASTNode) (w : World) (x : List Char)
    (hx : Environment.get w.environments w.interpreter.environment x =
      .error (undefinedVariable x)) :
    ((evaluate fuel .interpreter (.For init cond incr body) w).2.interpreter = w.interpreter ∧
      Environment.get (evaluate fuel .interpreter (.For init cond incr body) w).2.environments
        w.interpreter.environment x = .error (undefinedVariable x)) ∧
    runFile 1000 "for i = 0; i < 1; i = i + 1 shownl i endfor shownl i".toList [] =
      { cout := "0\n".toList, cerr := "Error: Undefined variable \x27i\x27\n".toList,
        outcome := .exit 1 } := by
  obtain ⟨h1, h2⟩ := for_frame fuel init cond incr body w
  exact ⟨⟨h1, getAux_unbound h2 x _ _ _ (Keeps.length_le h2) hx⟩, by decide!⟩

set_option maxRecDepth 100000 in
theorem C9_for_scope_witness :
    (Environment.get (World.new []).environments (World.new []).interpreter.environment ['i'] =
        .error (undefinedVariable ['i']) ∧
      (evaluate 100 .interpreter scopeLoop (World.new [])).1 = .ok (.integer 0) ∧
      (evaluate 100 .interpreter scopeLoop (World.new [])).2.cout = "0\n".toList ∧
      Environment.«exists» (evaluate 100 .interpreter scopeLoop (World.new [])).2.environments 1
        ['i'] = true) ∧
    (evaluate 100 .interpreter scopeLoop (World.new [])).2.interpreter =
      (World.new []).interpreter ∧
    Environment.get (evaluate 100 .interpreter scopeLoop (World.new [])).2.environments
      (World.new []).interpreter.environment ['i'] = .error (undefinedVariable ['i']) :=
  ⟨⟨by rfl, by rfl, by decide!, by decide!⟩,
   (C9_for_scope 100 (.Assignment ['i'] (.Literal (.int 0)))
    (.BinaryOp .LT (.Variable ['i']) (.Literal (.int 1)))
    (.Assignment ['i'] (.BinaryOp .ADD (.Variable ['i']) (.Literal (.int 1))))
    (.Print (.Variable ['i']) true) (World.new []) ['i'] (by rfl)).1⟩

/-! ## The heap invariant -/

theorem parentsPrecede_iff (envs : List Environment) :
    parentsPrecede envs = true ↔
      ∀ (i : Nat) (e : Environment), envs[i]? = some e →
        ∀ p, e.enclosing = some p → p < i := by
  constructor
  · intro h i e hi p hp
    exact parentsPrecede_get h ((List.get?_eq_getElem? envs i).trans hi) hp
  · intro h
    simp only [parentsPrecede, List.all_eq_true]
    rintro ⟨i, e⟩ hm
    rw [List.mk_mem_enum_iff_getElem?] at hm
    cases hp : e.enclosing with
    | none => rfl
    | some p => simpa using h i e hm p hp

theorem World.WellFormed.of_keeps {w : World} {c : Option Nat} {envs : List Environment}
    (hw : w.WellFormed) (hk : Keeps c w.environments envs)
    (hl : envs.length = w.environments.length) :
    World.WellFormed { w with environments := envs } := by
  obtain ⟨h1, h2, h3⟩ := hw
  refine ⟨?_, by simpa [hl] using h2, fun h ps body closure hh => by simpa [hl] using h3 h ps body closure hh⟩
  rw [parentsPrecede_iff] at h1 ⊢
  intro i e hi p hp
  have hlt : i < w.environments.length := by
    by_contra hc
    have : envs[i]? = none := List.getElem?_eq_none (by simp only [hl]; omega)
    simp only [this] at hi
    cases hi
  obtain ⟨t, ht, he, _⟩ := hk i _ (List.getElem?_eq_getElem hlt)
  simp only [ht, Option.some.injEq] at hi
  subst hi
  exact h1 i _ (List.getElem?_eq_getElem hlt) p (he ▸ hp)

theorem World.WellFormed.initial (cin : List (List Char)) : (World.new cin).WellFormed := by
  refine ⟨by rfl, (by show (0 : Nat) < 1; omega), ?_⟩
  intro h ps body closure hh
  have hc : (World.new cin).callables =
      [.NativeFunction 1 .show, .NativeFunction 1 .shownl, .NativeFunction 0 .ask,
        .NativeFunction 1 .size] := rfl
  rw [hc] at hh
  match h, hh with
  | 0, hh => simp at hh
  | 1, hh => simp at hh
  | 2, hh => simp at hh
  | 3, hh => simp at hh
  | n + 4, hh => simp at hh

theorem World.WellFormed.of_same {w w2 : World} (hw : w.WellFormed)
    (h1 : w2.environments = w.environments) (h2 : w2.interpreter = w.interpreter)
    (h3 : w2.callables = w.callables) : w2.WellFormed := by
  obtain ⟨a, b, c⟩ := hw
  exact ⟨by rw [h1]; exact a, by rw [h1, h2]; exact b, by rw [h1, h3]; exact c⟩

theorem assignAux_length (envs : List Environment) (name : List Char) (v : Value) :
    ∀ (fuel env : Nat) (envs2 : List Environment),
      Environment.assignAux envs fuel env name v = .ok envs2 → envs2.length = envs.length := by
  intro fuel
  induction fuel with
  | zero => intro env envs2 h; simp [Environment.assignAux] at h
  | succ f ih =>
    intro env envs2 h
    rw [Environment.assignAux] at h
    simp only [List.get?_eq_getElem?] at h
    cases hs : envs[env]? with
    | none => simp [hs] at h
    | some s =>
      simp only [hs] at h
      cases hm : mapFind s.values name with
      | some x =>
        simp only [hm, Except.ok.injEq] at h
        subst h
        simp [Environment.define]
      | none =>
        simp only [hm] at h
        cases hp : s.enclosing with
        | none => simp [hp] at h
        | some parent =>
          simp only [hp] at h
          exact ih parent envs2 h

theorem bindParameters_length (env : Nat) :
    ∀ (ps : List (List Char)) (as : List Value) (envs : List Environment),
      (bindParameters envs env ps as).length = envs.length := by
  intro ps
  induction ps with
  | nil => intro as envs; cases as <;> rfl
  | cons p ps ih =>
    intro as envs
    cases as with
    | nil => rw [bindParameters, ih]; simp [Environment.define]
    | cons a as => rw [bindParameters, ih]; simp [Environment.define]

theorem World.WellFormed.after_assign {w : World} {env : Nat} {name : List Char} {v : Value}
    {envs : List Environment} (hw : w.WellFormed)
    (h : Environment.assign w.environments env name v = .ok envs) :
    World.WellFormed { w with environments := envs } :=
  hw.of_keeps (Keeps.assignAux _ _ _ _ _ _ h) (assignAux_length _ _ _ _ _ _ h)

theorem World.WellFormed.after_define {w : World} (env : Nat) (name : List Char) (v : Value)
    (hw : w.WellFormed) : (w.define env name v).WellFormed :=
  hw.of_keeps (Keeps.defineAt _ _ _ _) (by simp [Environment.define])

theorem World.WellFormed.after_getline {w w1 : World} {input : List Char} (hw : w.WellFormed)
    (h : w.getline = (input, w1)) : w1.WellFormed := by
  unfold World.getline at h
  split at h
  · cases h; exact hw
  · cases h; exact hw.of_same rfl rfl rfl

theorem World.WellFormed.after_setEnvironment {w : World} {c : Nat} (hw : w.WellFormed)
    (hc : c < w.environments.length) : (w.setEnvironment c).WellFormed :=
  ⟨hw.1, hc, hw.2.2⟩

/-- A new environment whose enclosing environment exists keeps the heap well formed. -/
theorem World.WellFormed.after_newEnvironment {w : World} {p : Nat} (hw : w.WellFormed)
    (hp : p < w.environments.length) : (w.newEnvironment (some p)).1.WellFormed := by
  obtain ⟨h1, h2, h3⟩ := hw
  refine ⟨?_, ?_, ?_⟩
  · rw [parentsPrecede_iff] at h1 ⊢
    intro i e hi q hq
    simp only [World.newEnvironment] at hi
    by_cases hlt : i < w.environments.length
    · rw [List.getElem?_append_left hlt] at hi
      exact h1 i e hi q hq
    · rw [List.getElem?_append_right (by omega)] at hi
      have h0 : i - w.environments.length = 0 := by
        by_contra hne
        rw [List.getElem?_eq_none (by simp; omega)] at hi
        cases hi
      rw [h0] at hi
      simp only [List.getElem?_cons_zero, Option.some.injEq] at hi
      subst hi
      simp only [Option.some.injEq] at hq
      omega
  · simp only [World.newEnvironment, List.length_append, List.length_singleton]
    omega
  · intro h ps body closure hh
    simp only [World.newEnvironment, List.length_append, List.length_singleton]
    have := h3 h ps body closure hh
    omega

theorem World.WellFormed.after_functionDef {ref : InterpreterRef} {w w1 : World} {env size : Nat}
    {ps : List (List Char)} {body : ASTNode} (name : List Char) (v : Value)
    (hw : w.WellFormed) (h0 : w.getEnvironment ref = .ok env)
    (h : w.newCallable (.UserFunction ps body env) = (w1, size)) :
    (w1.define env name v).WellFormed := by
  simp only [World.newCallable, Prod.mk.injEq] at h
  obtain ⟨rfl, rfl⟩ := h
  apply World.WellFormed.after_define
  obtain ⟨h1, h2, h3⟩ := hw
  refine ⟨h1, h2, ?_⟩
  intro h ps2 body2 closure hh
  dsimp only at hh ⊢
  by_cases hlt : h < w.callables.length
  · rw [List.getElem?_append_left hlt] at hh
    exact h3 h ps2 body2 closure hh
  · rw [List.getElem?_append_right (by omega)] at hh
    have h0' : h - w.callables.length = 0 := by
      by_contra hne
      rw [List.getElem?_eq_none (by simp; omega)] at hh
      cases hh
    rw [h0'] at hh
    simp only [List.getElem?_cons_zero, Option.some.injEq, Callable.UserFunction.injEq] at hh
    obtain ⟨_, _, rfl⟩ := hh
    cases ref with
    | interpreter =>
      simp only [World.getEnvironment, Except.ok.injEq] at h0
      omega
    | environment e => simp [World.getEnvironment] at h0

theorem World.WellFormed.after_nativeCall (f : Native) (args : List Value) {w : World}
    (hw : w.WellFormed) : (f.call args w).2.WellFormed := by
  cases f <;> simp only [Native.call]
  · exact hw.of_same rfl rfl rfl
  · exact hw.of_same rfl rfl rfl
  · exact hw.after_getline rfl
  · split <;> exact hw

theorem World.WellFormed.before_userCall {w : World} (hw : w.WellFormed) (closure : Nat)
    (hc : closure < w.environments.length) (parameters : List (List Char))
    (args : List Value) :
    World.WellFormed
      (World.mk
        (bindParameters (w.environments ++ [{ values := [], enclosing := some closure }])
          w.environments.length parameters args)
        w.callables w.interpreter w.cout w.cin) :=
  (hw.after_newEnvironment hc).of_keeps (Keeps.bindParameters _ _ _ _) (bindParameters_length _ _ _ _)

/-- One step of the induction for `for`. -/
theorem for_wellFormed (fuel : Nat)
    (h1 : ∀ ref node w, w.WellFormed → (evaluate fuel ref node w).2.WellFormed)
    (h5 : ∀ ref c i b v w, w.WellFormed → (forLoop fuel ref c i b v w).2.WellFormed)
    (init cond incr body : ASTNode) (w : World) (hw : w.WellFormed) :
    (evaluate (fuel + 1) .interpreter (.For init cond incr body) w).2.WellFormed := by
  have hlen := (for_step fuel (frame_all fuel).1 (frame_all fuel).2.2.2.2.1
    init cond incr body w).2.length_le
  have hc : w.interpreter.environment <
      (evaluate (fuel + 1) .interpreter (.For init cond incr body) w).2.environments.length :=
    lt_of_lt_of_le hw.2.1 hlen
  revert hc
  rw [evaluate]
  simp only [World.getEnvironment]
  have f3 := h1 .interpreter init
    ((w.newEnvironment (some w.interpreter.environment)).1.setEnvironment
      (w.newEnvironment (some w.interpreter.environment)).2)
    ((hw.after_newEnvironment hw.2.1).after_setEnvironment (by simp [World.newEnvironment]))
  rcases hi : evaluate fuel .interpreter init
    ((w.newEnvironment (some w.interpreter.environment)).1.setEnvironment
      (w.newEnvironment (some w.interpreter.environment)).2) with ⟨r3, w3⟩
  rw [hi] at f3
  have f4 := h5 .interpreter cond incr body .nil w3 f3
  rcases hl : forLoop fuel .interpreter cond incr body .nil w3 with ⟨r4, w4⟩
  rw [hl] at f4
  cases r3 with
  | error e => exact fun hc => f3.after_setEnvironment hc
  | ok v3 =>
    cases r4 with
    | error e => simp only [hl]; exact fun hc => f4.after_setEnvironment hc
    | ok v4 => simp only [hl]; exact fun hc => f4.after_setEnvironment hc

/-- Evaluation keeps the heap well formed. -/
theorem wellFormed_all (fuel : Nat) :
    (∀ ref node w, w.WellFormed → (evaluate fuel ref node w).2.WellFormed) ∧
    (∀ ref nodes w, w.WellFormed → (evaluateAll fuel ref nodes w).2.WellFormed) ∧
    (∀ ref nodes v w, w.WellFormed → (evaluateEach fuel ref nodes v w).2.WellFormed) ∧
    (∀ ref c b v w, w.WellFormed → (whileLoop fuel ref c b v w).2.WellFormed) ∧
    (∀ ref c i b v w, w.WellFormed → (forLoop fuel ref c i b v w).2.WellFormed) ∧
    (∀ f args w, w.WellFormed → (call fuel f args w).2.WellFormed) := by
  induction fuel with
  | zero =>
    refine ⟨?_, ?_, ?_, ?_, ?_, ?_⟩
    · intro ref node w hw; rw [evaluate]; exact hw
    · intro ref nodes w hw; rw [evaluateAll]; exact hw
    · intro ref nodes v w hw; rw [evaluateEach]; exact hw
    · intro ref c b v w hw; rw [whileLoop]; exact hw
    · intro ref c i b v w hw; rw [forLoop]; exact hw
    · intro f args w hw; rw [call]; exact hw
  | succ fuel ih =>
    obtain ⟨ih1, ih2, ih3, ih4, ih5, ih6⟩ := ih
    have e1 : ∀ ref node w r w1, evaluate fuel ref node w = (r, w1) →
        w.WellFormed → w1.WellFormed := by
      intro ref node w r w1 h hw; simpa [h] using ih1 ref node w hw
    have e2 : ∀ ref nodes w r w1, evaluateAll fuel ref nodes w = (r, w1) →
        w.WellFormed → w1.WellFormed := by
      intro ref nodes w r w1 h hw; simpa [h] using ih2 ref nodes w hw
    refine ⟨?_, ?_, ?_, ?_, ?_, ?_⟩
    · intro ref node w hw
      cases node
      all_goals rw [evaluate]
      case Block => exact ih3 _ _ _ _ hw
      case Program => exact ih3 _ _ _ _ hw
      case While => exact ih4 _ _ _ _ _ hw
      case For init cond incr body =>
        rw [← evaluate]
        cases ref with
        | interpreter => exact for_wellFormed fuel ih1 ih5 init cond incr body w hw
        | environment e => rw [evaluate]; exact hw
      all_goals clear ih1 ih2 ih3 ih4 ih5
      all_goals repeat' split
      all_goals (try dsimp only)
      all_goals first
        | exact hw
        | exact e1 _ _ _ _ _ (by assumption) hw
        | exact e1 _ _ _ _ _ (by assumption) (e1 _ _ _ _ _ (by assumption) hw)
        | exact e1 _ _ _ _ _ (by assumption) (e1 _ _ _ _ _ (by assumption)
            (e1 _ _ _ _ _ (by assumption) hw))
        | exact e2 _ _ _ _ _ (by assumption) hw
        | exact ih6 _ _ _ (e2 _ _ _ _ _ (by assumption) hw)
        | exact (e1 _ _ _ _ _ (by assumption) hw).after_assign (by assumption)
        | exact (e1 _ _ _ _ _ (by assumption) hw).after_define _ _ _
        | exact hw.after_getline (by assumption)
        | exact hw.after_functionDef _ _ (by assumption) (by assumption)
        | exact e1 _ _ _ _ _ rfl (e1 _ _ _ _ _ (by assumption) hw)
        | (have h := e1 _ _ _ _ _ (by assumption) hw; exact h.of_same rfl rfl rfl)
    · intro ref nodes w hw
      cases nodes with
      | nil => rw [evaluateAll]; exact hw
      | cons node rest =>
        rw [evaluateAll]
        clear ih1 ih2 ih3 ih4 ih5 ih6
        repeat' split
        all_goals (try dsimp only)
        all_goals first
          | exact e1 _ _ _ _ _ (by assumption) hw
          | exact e2 _ _ _ _ _ (by assumption) (e1 _ _ _ _ _ (by assumption) hw)
    · intro ref nodes v w hw
      cases nodes with
      | nil => rw [evaluateEach]; exact hw
      | cons node rest =>
        rw [evaluateEach]
        split
        · exact ih3 _ _ _ _ (e1 _ _ _ _ _ (by assumption) hw)
        · exact e1 _ _ _ _ _ (by assumption) hw
    · intro ref c b v w hw
      rw [whileLoop]
      repeat' split
      all_goals (try dsimp only)
      all_goals first
        | exact e1 _ _ _ _ _ (by assumption) hw
        | exact e1 _ _ _ _ _ (by assumption) (e1 _ _ _ _ _ (by assumption) hw)
        | exact ih4 _ _ _ _ _ (e1 _ _ _ _ _ (by assumption)
            (e1 _ _ _ _ _ (by assumption) hw))
    · intro ref c i b v w hw
      rw [forLoop]
      repeat' split
      all_goals (try dsimp only)
      all_goals first
        | exact e1 _ _ _ _ _ (by assumption) hw
        | exact e1 _ _ _ _ _ (by assumption) (e1 _ _ _ _ _ (by assumption) hw)
        | exact e1 _ _ _ _ _ (by assumption) (e1 _ _ _ _ _ (by assumption)
            (e1 _ _ _ _ _ (by assumption) hw))
        | exact ih5 _ _ _ _ _ _ (e1 _ _ _ _ _ (by assumption)
            (e1 _ _ _ _ _ (by assumption) (e1 _ _ _ _ _ (by assumption) hw)))
    · intro f args w hw
      cases f
      case function handle =>
        rw [call]
        split
        · exact hw
        · split
          · exact hw
          · split
            · exact hw.after_nativeCall _ _
            · rename_i parameters body closure hget harity
              have hc := hw.2.2 handle parameters body closure
                ((List.get?_eq_getElem? _ _).symm.trans hget)
              have f3 := ih1 (.environment w.environments.length) body _
                (hw.before_userCall closure hc parameters args)
              simp only [World.newEnvironment] at f3 ⊢
              repeat' split
              all_goals (try dsimp only)
              all_goals simp_all
      all_goals rw [call]
      all_goals first
        | exact hw
        | (intro _ hh; cases hh)

/-- Every world reached by evaluating a program from the initial world is well formed. -/
theorem wellFormed_evaluate (fuel : Nat) (node : ASTNode) (cin : List (List Char)) :
    (evaluate fuel .interpreter node (World.new cin)).2.WellFormed :=
  (wellFormed_all fuel).1 _ _ _ (World.WellFormed.initial cin)

/-! ## Lookup and assignment along the chain of environments -/

theorem getAux_found (envs : List Environment) (name : List Char) :
    ∀ (fuel env e : Nat),
      (scopeChain envs fuel env).find? (fun e => Environment.«exists» envs e name) = some e →
      ∃ s v, envs[e]? = some s ∧ mapFind s.values name = some v ∧
        Environment.getAux envs fuel env name = .ok v := by
  intro fuel
  induction fuel with
  | zero => intro env e h; simp [scopeChain] at h
  | succ f ih =>
    intro env e h
    rw [scopeChain] at h
    rw [Environment.getAux]
    simp only [List.get?_eq_getElem?] at h ⊢
    cases hs : envs[env]? with
    | none => simp [hs] at h
    | some s =>
      simp only [hs, List.find?_cons] at h
      simp only [Environment.«exists», List.get?_eq_getElem?, hs] at h
      simp only [hs]
      cases hm : mapFind s.values name with
      | some x =>
        simp [hm] at h
        subst h
        exact ⟨s, x, hs, hm, rfl⟩
      | none =>
        simp only [hm, Option.isSome_none] at h
        cases hp : s.enclosing with
        | none => simp [hp] at h
        | some parent =>
          simp only [hp] at h
          exact ih parent e (by simpa [Environment.«exists»] using h)

theorem getAux_missing (envs : List Environment) (name : List Char)
    (hwf : parentsPrecede envs = true) :
    ∀ (fuel env : Nat), env < fuel → env < envs.length →
      (scopeChain envs fuel env).find? (fun e => Environment.«exists» envs e name) = none →
      Environment.getAux envs fuel env name = .error (undefinedVariable name) := by
  intro fuel
  induction fuel with
  | zero => intro env h; omega
  | succ f ih =>
    intro env hf hl h
    rw [scopeChain] at h
    rw [Environment.getAux]
    simp only [List.get?_eq_getElem?] at h ⊢
    obtain ⟨s, hs⟩ : ∃ s, envs[env]? = some s := ⟨_, List.getElem?_eq_getElem hl⟩
    simp only [hs, List.find?_cons] at h
    simp only [Environment.«exists», List.get?_eq_getElem?, hs] at h
    simp only [hs]
    cases hm : mapFind s.values name with
    | some x => simp [hm] at h
    | none =>
      simp only [hm, Option.isSome_none] at h
      cases hp : s.enclosing with
      | none => rfl
      | some parent =>
        simp only [hp] at h
        have hlt := parentsPrecede_get hwf ((List.get?_eq_getElem? envs env).trans hs) hp
        exact ih parent (by omega) (by omega) (by simpa [Environment.«exists»] using h)

theorem get_define_self (envs : List Environment) (env : Nat) (name : List Char) (v : Value)
    (hc : env < envs.length) :
    Environment.get (Environment.define envs env name v) env name = .ok v := by
  obtain ⟨n, hn⟩ : ∃ n, (Environment.define envs env name v).length = n + 1 :=
    ⟨envs.length - 1, by simp [Environment.define]; omega⟩
  rw [Environment.get, hn, Environment.getAux]
  simp [Environment.define, List.getElem?_modify, List.getElem?_eq_getElem hc,
    mapFind_mapSet_self]

/-- C11: in a well-formed heap of environments, `get(name)` on the environment `env`
returns the value bound to `name` in the innermost scope of the chain of `env` that binds
it, and throws `Undefined variable` exactly when no scope of the chain, from `env` up to the
root, binds it. In particular, after `define(name, v)` on `env` the lookup from `env` returns
`v`, whatever the enclosing scopes bind: a definition in a child scope shadows the parent. -/
theorem C11_get_innermost (envs : List Environment) (env : Nat) (name : List Char)
    (hwf : parentsPrecede envs = true) (hc : env < envs.length) :
    (∀ e, innermostBinding envs env name = some e →
        ∃ s v, envs[e]? = some s ∧ mapFind s.values name = some v ∧
          Environment.get envs env name = .ok v) ∧
      (innermostBinding envs env name = none ↔
        Environment.get envs env name = .error (undefinedVariable name)) ∧
      (∀ v, Environment.get (Environment.define envs env name v) env name = .ok v) := by
  refine ⟨fun e he => getAux_found envs name _ _ _ he, ⟨?_, ?_⟩, fun v => get_define_self envs env name v hc⟩
  · intro h
    exact getAux_missing envs name hwf _ _ hc hc h
  · intro h
    cases hi : innermostBinding envs env name with
    | none => rfl
    | some e =>
      obtain ⟨s, v, _, _, hg⟩ := getAux_found envs name _ _ _ hi
      rw [Environment.get] at h
      rw [h] at hg
      cases hg

theorem C11_get_innermost_witness :
    (parentsPrecede shadowHeap = true ∧ 1 < shadowHeap.length ∧
      innermostBinding shadowHeap 1 ['x'] = some 1 ∧
      Environment.get shadowHeap 1 ['x'] = .ok (.integer 2) ∧
      Environment.get shadowHeap 1 ['y'] = .ok (.integer 7)) ∧
    (innermostBinding shadowHeap 1 ['z'] = none ↔
      Environment.get shadowHeap 1 ['z'] = .error (undefinedVariable ['z'])) :=
  ⟨⟨by decide, by decide, by decide, by rfl, by rfl⟩,
   (C11_get_innermost shadowHeap 1 ['z'] (by decide) (by decide)).2.1⟩

/-- C12: in a well-formed heap of environments, `assign(name, v)` on the environment `env`
succeeds exactly when some scope of the chain of `env` binds `name`. It then replaces the
value bound in the innermost such scope `e`: no other environment changes, `e` keeps its
enclosing environment, and the map of `e` changes at `name` only. When no scope binds
`name` it throws `Undefined variable`; no heap is produced, all scopes stay as they were. -/
theorem C12_assign_innermost (envs : List Environment) (env : Nat) (name : List Char)
    (v : Value) (hwf : parentsPrecede envs = true) (hc : env < envs.length) :
    (∀ e, innermostBinding envs env name = some e →
        ∃ envs2, Environment.assign envs env name v = .ok envs2 ∧
          envs2.length = envs.length ∧
          (∀ i, i ≠ e → envs2[i]? = envs[i]?) ∧
          ∃ s t, envs[e]? = some s ∧ envs2[e]? = some t ∧ t.enclosing = s.enclosing ∧
            (mapFind s.values name).isSome = true ∧
            ∀ k, mapFind t.values k = if k = name then some v else mapFind s.values k) ∧
      (innermostBinding envs env name = none ↔
        Environment.assign envs env name v = .error (undefinedVariable name)) := by
  refine ⟨?_, ⟨?_, ?_⟩⟩
  · intro e he
    obtain ⟨s, x, hs, hm, _⟩ := getAux_found envs name _ _ _ he
    refine ⟨Environment.define envs e name v, assignAux_found envs name v _ _ _ he,
      by simp [Environment.define], ?_, s,
      { values := mapSet s.values name v, enclosing := s.enclosing }, hs, ?_, rfl,
      by simp [hm], fun k => mapFind_mapSet s.values name k v⟩
    · intro i hi
      have hi2 : ¬ e = i := fun h => hi h.symm
      simp [Environment.define, List.getElem?_modify, hi2]
    · simp [Environment.define, List.getElem?_modify, hs]
  · intro h
    exact assignAux_missing envs name v hwf _ _ hc hc h
  · intro h
    cases hi : innermostBinding envs env name with
    | none => rfl
    | some e =>
      have hg := assignAux_found envs name v _ _ _ hi
      rw [Environment.assign] at h
      rw [h] at hg
      cases hg

theorem C12_assign_innermost_witness :
    (parentsPrecede shadowHeap = true ∧ 1 < shadowHeap.length ∧
      innermostBinding shadowHeap 1 ['y'] = some 0 ∧
      (Environment.assign shadowHeap 1 ['y'] (.integer 9)).toOption.map
          (fun h => h.map (fun s => s.values.map (fun p => (p.1, p.2.toString))))
        = some [[(['x'], ['1']), (['y'], ['9'])], [(['x'], ['2'])]]) ∧
    (innermostBinding shadowHeap 1 ['z'] = none ↔
      Environment.assign shadowHeap 1 ['z'] (.integer 9) = .error (undefinedVariable ['z'])) :=
  ⟨⟨by decide, by decide, by decide, by rfl⟩,
   (C12_assign_innermost shadowHeap 1 ['z'] (.integer 9) (by decide) (by decide)).2⟩

/-! ## Doubles and the numbers they denote -/

theorem Double.scaled_cast (s : Bool) (m : Nat) (e e0 : Int) (h : e0 ≤ e) :
    ((Double.scaled s m e e0 : Int) : ℚ) =
      ((if s then -1 else 1) * (m : ℚ) * (2 : ℚ) ^ e) * ((2 : ℚ) ^ e0)⁻¹ := by
  have h2 : ((2 : ℚ) ^ (e - e0).toNat) = (2 : ℚ) ^ e * ((2 : ℚ) ^ e0)⁻¹ := by
    rw [← zpow_natCast, Int.toNat_of_nonneg (by omega), zpow_sub₀ (by norm_num)]
    rfl
  unfold Double.scaled
  cases s <;> simp [h2] <;> ring

theorem Double.eq_iff_denotes {c d : Double} {x y : ℚ} (hc : c.denotes = some x)
    (hd : d.denotes = some y) : Double.eq c d = true ↔ x = y := by
  cases c with
  | finite sa ma ea =>
    cases d with
    | finite sb mb eb =>
      simp only [Double.denotes, Option.some.injEq] at hc hd
      have h1 := Double.scaled_cast sa ma ea (min ea eb) (min_le_left _ _)
      have h2 := Double.scaled_cast sb mb eb (min ea eb) (min_le_right _ _)
      rw [hc] at h1
      rw [hd] at h2
      have hpos : (0 : ℚ) < ((2 : ℚ) ^ (min ea eb))⁻¹ := by positivity
      simp only [Double.eq, decide_eq_true_eq]
      constructor
      · intro h
        have : ((Double.scaled sa ma ea (min ea eb) : Int) : ℚ) =
            ((Double.scaled sb mb eb (min ea eb) : Int) : ℚ) := by rw [h]
        rw [h1, h2] at this
        exact mul_right_cancel₀ (ne_of_gt hpos) this
      · intro h
        have : ((Double.scaled sa ma ea (min ea eb) : Int) : ℚ) =
            ((Double.scaled sb mb eb (min ea eb) : Int) : ℚ) := by rw [h1, h2, h]
        exact_mod_cast this
    | infinite s => simp [Double.denotes] at hd
    | nan => simp [Double.denotes] at hd
  | infinite s => simp [Double.denotes] at hc
  | nan => simp [Double.denotes] at hc

theorem Double.lt_iff_denotes {c d : Double} {x y : ℚ} (hc : c.denotes = some x)
    (hd : d.denotes = some y) : Double.lt c d = true ↔ x < y := by
  cases c with
  | finite sa ma ea =>
    cases d with
    | finite sb mb eb =>
      simp only [Double.denotes, Option.some.injEq] at hc hd
      have h1 := Double.scaled_cast sa ma ea (min ea eb) (min_le_left _ _)
      have h2 := Double.scaled_cast sb mb eb (min ea eb) (min_le_right _ _)
      rw [hc] at h1
      rw [hd] at h2
      have hpos : (0 : ℚ) < ((2 : ℚ) ^ (min ea eb))⁻¹ := by positivity
      simp only [Double.lt, decide_eq_true_eq]
      rw [← Int.cast_lt (R := ℚ), h1, h2]
      exact mul_lt_mul_right hpos
    | infinite s => simp [Double.denotes] at hd
    | nan => simp [Double.denotes] at hd
  | infinite s => simp [Double.denotes] at hc
  | nan => simp [Double.denotes] at hc

theorem Double.denotes_ofInt (i : Int) : (Double.ofInt i).denotes = some (i : ℚ) := by
  simp only [Double.ofInt, Double.denotes, zpow_zero, mul_one, Option.some.injEq]
  by_cases h : i < 0
  · simp only [h, decide_True, if_true]
    have : ((i.natAbs : Int) : ℚ) = -(i : ℚ) := by
      rw [← Int.cast_neg]; congr 1; omega
    rw [← Int.cast_natCast, this]; ring
  · simp only [h, decide_False]
    have : ((i.natAbs : Int) : ℚ) = (i : ℚ) := by
      congr 1; omega
    rw [← Int.cast_natCast, this]; simp

/-! ## The operator `+` -/

/-- C14, counterexample: `1 / 0.0` is not a float-tagged value: the operator throws
`Division by zero`, and so does the run of `shownl 1 / 0.0`. -/
theorem C14_division_by_float_zero :
    Value.div (.integer 1) (.float (.finite false 0 0)) =
        .error (.runtimeError "Division by zero".toList) ∧
      runFile 1000 "shownl 1 / 0.0".toList [] =
        { cout := [], cerr := "Error: Division by zero\n".toList, outcome := .exit 1 } := by
  refine ⟨by rfl, by decide!⟩

/-- C14, amended: for every integer `i` and float `f`, `i + f`, `i - f` and `i * f` are
float-tagged values (the operation on `double` after converting `i`); `i / f` is a
float-tagged value when `f` does not compare equal to 0.0, and throws `Division by zero`
when it does (`f` is 0.0 or -0.0). -/
theorem C14_mixed_arithmetic (i : Int) (f : Double) :
    Value.add (.integer i) (.float f) = .ok (.float (Double.add (Double.ofInt i) f)) ∧
      Value.sub (.integer i) (.float f) = .ok (.float (Double.sub (Double.ofInt i) f)) ∧
      Value.mul (.integer i) (.float f) = .ok (.float (Double.mul (Double.ofInt i) f)) ∧
      Value.div (.integer i) (.float f) =
        (if Double.eq f (Double.ofInt 0) then .error (.runtimeError "Division by zero".toList)
         else .ok (.float (Double.div (Double.ofInt i) f))) := by
  refine ⟨?_, ?_, ?_, ?_⟩
  · simp [Value.add, Value.isString, Value.isNumber, Value.isInteger, Value.isFloat,
      Value.asFloat]
  · simp [Value.sub, Value.isNumber, Value.isInteger, Value.isFloat, Value.asFloat]
  · simp [Value.mul, Value.isNumber, Value.isInteger, Value.isFloat, Value.asFloat]
  · by_cases h : Double.eq f (Double.ofInt 0) = true
    · simp [Value.div, Value.isNumber, Value.isInteger, Value.isFloat, Value.asFloat,
        Value.asInteger, h]
    · simp [Value.div, Value.isNumber, Value.isInteger, Value.isFloat, Value.asFloat,
        Value.asInteger, h]

theorem tdiv_range {x y : Int} (h1 : INT_MIN ≤ x) (h2 : x ≤ INT_MAX)
    (h : ¬ (x = INT_MIN ∧ y = -1)) : INT_MIN ≤ Int.tdiv x y ∧ Int.tdiv x y ≤ INT_MAX := by
  have ha : (Int.tdiv x y).natAbs ≤ x.natAbs := by
    rw [Int.natAbs_tdiv]
    exact Nat.div_le_self _ _
  unfold INT_MIN at h1 h ⊢
  unfold INT_MAX at h2 ⊢
  by_cases hy : y = -1
  · subst hy
    have : Int.tdiv x (-1) = -x := by
      rw [Int.tdiv_neg, Int.tdiv_one]
    rw [this]
    omega
  · constructor
    · omega
    · by_cases hx : x = -2147483648
      · subst hx
        by_cases hy1 : y = 1
        · subst hy1; simp
        · by_cases hy0 : y = 0
          · subst hy0; simp
          · have hlt : (Int.tdiv (-2147483648) y).natAbs ≤ 2147483648 / 2 := by
              rw [Int.natAbs_tdiv]
              have hy2 : 2 ≤ y.natAbs := by omega
              calc (-2147483648 : Int).natAbs / y.natAbs
                  ≤ (-2147483648 : Int).natAbs / 2 := Nat.div_le_div_left hy2 (by norm_num)
                _ = 2147483648 / 2 := by norm_num
            omega
      · omega

theorem tmod_bounds (x y : Int) :
    (0 ≤ x → 0 ≤ Int.tmod x y ∧ Int.tmod x y ≤ x) ∧
      (x ≤ 0 → x ≤ Int.tmod x y ∧ Int.tmod x y ≤ 0) := by
  cases x with
  | ofNat m =>
    cases y with
    | ofNat n =>
      have := Nat.mod_le m n
      simp only [Int.tmod, Int.ofNat_eq_coe, Nat.succ_eq_add_one]
      omega
    | negSucc n =>
      have := Nat.mod_le m (n + 1)
      simp only [Int.tmod, Int.ofNat_eq_coe, Nat.succ_eq_add_one]
      omega
  | negSucc m =>
    cases y with
    | ofNat n =>
      have := Nat.mod_le (m + 1) n
      simp only [Int.tmod, Int.ofNat_eq_coe, Int.negSucc_eq, Nat.succ_eq_add_one]
      omega
    | negSucc n =>
      have := Nat.mod_le (m + 1) (n + 1)
      simp only [Int.tmod, Int.ofNat_eq_coe, Int.negSucc_eq, Nat.succ_eq_add_one]
      omega

theorem tmod_range {x y : Int} (h1 : INT_MIN ≤ x) (h2 : x ≤ INT_MAX) :
    INT_MIN ≤ Int.tmod x y ∧ Int.tmod x y ≤ INT_MAX := by
  have hb := tmod_bounds x y
  unfold INT_MIN at h1 ⊢
  unfold INT_MAX at h2 ⊢
  omega

set_option maxRecDepth 100000 in
/-- C15 (counterexample): for the integers `a = INT_MIN` and `b = -1`, where `b` is not 0,
`a / b` returns no quotient and `a % b` no remainder, and neither throws: the `int`
operation overflows, which is undefined behaviour. The runs of
`shownl (0 - 2147483647 - 1) / (0 - 1)` and of the same with `%` write nothing and do not
end with an exit status. -/
theorem C15_int_min_by_minus_one :
    Value.div (.integer INT_MIN) (.integer (-1)) = .error .undefinedBehaviour ∧
      Value.mod (.integer INT_MIN) (.integer (-1)) = .error .undefinedBehaviour ∧
      runFile 1000 "shownl (0 - 2147483647 - 1) / (0 - 1)".toList [] =
        { cout := [], cerr := [], outcome := .undefinedBehaviour } ∧
      runFile 1000 "shownl (0 - 2147483647 - 1) % (0 - 1)".toList [] =
        { cout := [], cerr := [], outcome := .undefinedBehaviour } := by
  refine ⟨by rfl, by rfl, by decide!, by decide!⟩

/-- C15 (amended): for numeric operands, `a / b` throws `Division by zero` exactly when `b`
is the integer 0 or a float that compares equal to 0.0, and returns a value otherwise,
unless `a` is `INT_MIN` and `b` is -1; for two integers with `b ≠ 0`, other than
`INT_MIN` and -1, the value is the integer quotient (truncated toward zero, as the `int`
division: `Int.tdiv a b` for operands in the `int` range). `a % b` throws
`Modulo requires integer operands` unless both operands are integers; for two integers it
throws exactly when `b` is 0, with `Modulo by zero`, and otherwise, again other than for
`INT_MIN` and -1, returns the integer remainder (with the sign of `a`). -/
theorem C15_division_and_remainder :
    (∀ a b : Value, a.isNumber = true → b.isNumber = true →
        (Value.div a b = .error (.runtimeError "Division by zero".toList) ↔
          (b = .integer 0 ∨ ∃ d, b = .float d ∧ Double.eq d (Double.ofInt 0) = true)) ∧
        (Value.div a b ≠ .error (.runtimeError "Division by zero".toList) →
          ¬ (a = .integer INT_MIN ∧ b = .integer (-1)) →
          ∃ v, Value.div a b = .ok v)) ∧
      (∀ x y : Int, y ≠ 0 → ¬ (x = INT_MIN ∧ y = -1) →
        Value.div (.integer x) (.integer y) = .ok (.integer (wrapInt (Int.tdiv x y))) ∧
        (INT_MIN ≤ x → x ≤ INT_MAX →
          Value.div (.integer x) (.integer y) = .ok (.integer (Int.tdiv x y)))) ∧
      (∀ l r : Value, (l.isInteger && r.isInteger) = false →
        Value.mod l r = .error (.runtimeError "Modulo requires integer operands".toList)) ∧
      (∀ x y : Int,
        (y = 0 →
          Value.mod (.integer x) (.integer y) =
            .error (.runtimeError "Modulo by zero".toList)) ∧
        (y ≠ 0 → ∀ msg, Value.mod (.integer x) (.integer y) ≠ .error (.runtimeError msg)) ∧
        (y ≠ 0 → ¬ (x = INT_MIN ∧ y = -1) →
          Value.mod (.integer x) (.integer y) = .ok (.integer (wrapInt (Int.tmod x y))) ∧
          (INT_MIN ≤ x → x ≤ INT_MAX →
            Value.mod (.integer x) (.integer y) = .ok (.integer (Int.tmod x y))))) := by
  refine ⟨?_, ?_, ?_, ?_⟩
  · intro a b ha hb
    cases b with
    | integer y =>
      cases a with
      | integer x =>
        by_cases hy : y = 0
        · simp [Value.div, Value.isNumber, Value.isInteger, Value.isFloat, Value.asInteger,
            Value.asFloat, hy]
        · by_cases hm : x = INT_MIN ∧ y = -1
          · simp [Value.div, Value.isNumber, Value.isInteger, Value.isFloat,
              Value.asInteger, Value.asFloat, hy, hm]
          · simp [Value.div, Value.isNumber, Value.isInteger, Value.isFloat,
              Value.asInteger, Value.asFloat, hy, hm]
      | float x =>
        by_cases hy : y = 0 <;>
          simp [Value.div, Value.isNumber, Value.isInteger, Value.isFloat, Value.asInteger,
            Value.asFloat, hy]
      | _ => simp [Value.isNumber, Value.isInteger, Value.isFloat] at ha
    | float d =>
      cases a <;> simp [Value.isNumber, Value.isInteger, Value.isFloat] at ha <;>
        by_cases hd : Double.eq d (Double.ofInt 0) = true <;>
        simp [Value.div, Value.isNumber, Value.isInteger, Value.isFloat, Value.asInteger,
          Value.asFloat, hd]
    | _ => simp [Value.isNumber, Value.isInteger, Value.isFloat] at hb
  · intro x y hy hm
    have h0 : Value.div (.integer x) (.integer y) = .ok (.integer (wrapInt (Int.tdiv x y))) := by
      simp [Value.div, Value.isNumber, Value.isInteger, Value.isFloat, Value.asInteger,
        Value.asFloat, hy, hm]
    refine ⟨h0, fun h1 h2 => ?_⟩
    rw [h0, wrapInt_of_range (tdiv_range h1 h2 hm).1 (tdiv_range h1 h2 hm).2]
  · intro l r h
    simp [Value.mod, h]
  · intro x y
    refine ⟨?_, ?_, ?_⟩
    · intro hy
      simp [Value.mod, Value.isInteger, Value.asInteger, hy]
    · intro hy msg
      by_cases hm : x = INT_MIN ∧ y = -1 <;>
        simp [Value.mod, Value.isInteger, Value.asInteger, hy, hm]
    · intro hy hm
      have h0 : Value.mod (.integer x) (.integer y) =
          .ok (.integer (wrapInt (Int.tmod x y))) := by
        simp [Value.mod, Value.isInteger, Value.asInteger, hy, hm]
      refine ⟨h0, fun h1 h2 => ?_⟩
      rw [h0, wrapInt_of_range (tmod_range h1 h2).1 (tmod_range h1 h2).2]

theorem C15_division_and_remainder_witness :
    ((2 : Int) ≠ 0 ∧ ¬ ((-7 : Int) = INT_MIN ∧ (2 : Int) = -1) ∧ INT_MIN ≤ (-7 : Int) ∧
        (-7 : Int) ≤ INT_MAX) ∧
      Value.div (.integer (-7)) (.integer 2) = .ok (.integer (-3)) ∧
      Value.mod (.integer (-7)) (.integer 2) = .ok (.integer (-1)) :=
  ⟨by decide,
   (C15_division_and_remainder.2.1 (-7) 2 (by decide) (by decide)).2 (by decide) (by decide),
   ((C15_division_and_remainder.2.2.2 (-7) 2).2.2 (by decide) (by decide)).2 (by decide)
     (by decide)⟩

/-! ## Equality -/

theorem eqElems_iff (a b : List Value) (h : a.length = b.length) :
    Value.eq.eqElems a b = true ↔
      ∀ i, i < a.length → Value.eq (a.getD i .nil) (b.getD i .nil) = true := by
  induction a generalizing b with
  | nil =>
    cases b with
    | nil => simp [Value.eq.eqElems]
    | cons y ys => simp at h
  | cons x xs ih =>
    cases b with
    | nil => simp at h
    | cons y ys =>
      simp only [List.length_cons, add_left_inj] at h
      rw [Value.eq.eqElems]
      constructor
      · intro hh i hi
        by_cases hxy : Value.eq x y = true
        · simp only [hxy, Bool.not_true, Bool.false_eq_true, if_false] at hh
          cases i with
          | zero => simpa using hxy
          | succ j =>
            simp only [List.getD_cons_succ]
            exact (ih ys h).1 hh j (by simpa using hi)
        · simp [hxy] at hh
      · intro hh
        have h0 := hh 0 (by simp)
        simp only [List.getD_cons_zero] at h0
        simp only [h0, Bool.not_true, Bool.false_eq_true, if_false]
        refine (ih ys h).2 fun j hj => ?_
        have := hh (j + 1) (by simpa using hj)
        simpa using this

/-- C16: for values of different tags `a == b` is false unless both are numeric, and an
integer and a float are equal exactly when they denote the same number; two arrays are
equal exactly when they have the same length and are `==` at every index; `a != b` is the
negation of `a == b`. The runs of `shownl 1 == 1.0` and `shownl 1 == "1"` print `true` and
`false`. -/
theorem C16_equality :
    (∀ a b : Value, a.getType ≠ b.getType → (a.isNumber && b.isNumber) = false →
        Value.eq a b = false) ∧
      (∀ (i : Int) (d : Double),
        (Value.eq (.integer i) (.float d) = true ↔ d.denotes = some (i : ℚ)) ∧
        (Value.eq (.float d) (.integer i) = true ↔ d.denotes = some (i : ℚ))) ∧
      (∀ x y : List Value,
        Value.eq (.array x) (.array y) = true ↔
          x.length = y.length ∧
            ∀ i, i < x.length → Value.eq (x.getD i .nil) (y.getD i .nil) = true) ∧
      (∀ a b : Value, Value.ne a b = !Value.eq a b) ∧
      runFile 1000 "shownl 1 == 1.0".toList [] =
        { cout := "true\n".toList, cerr := [], outcome := .exit 0 } ∧
      runFile 1000 "shownl 1 == \"1\"".toList [] =
        { cout := "false\n".toList, cerr := [], outcome := .exit 0 } := by
  refine ⟨?_, ?_, ?_, fun a b => rfl, by decide!, by decide!⟩
  · intro a b ht hn
    cases a <;> cases b <;>
      simp [Value.getType, Value.isNumber, Value.isInteger, Value.isFloat, Value.eq] at ht hn ⊢
  · intro i d
    have key : ∀ c : Double, c.denotes = none → Double.eq (Double.ofInt i) c = false ∧
        Double.eq c (Double.ofInt i) = false := by
      intro c hc
      cases c <;> simp [Double.denotes, Double.eq, Double.ofInt] at hc ⊢
    cases hd : d.denotes with
    | none =>
      simp [Value.eq, (key d hd).1, (key d hd).2]
    | some y =>
      have h1 := Double.eq_iff_denotes (Double.denotes_ofInt i) hd
      have h2 := Double.eq_iff_denotes hd (Double.denotes_ofInt i)
      simp only [Value.eq, Option.some.injEq]
      exact ⟨h1.trans eq_comm, h2⟩
  · intro x y
    by_cases h : x.length = y.length
    · simp [Value.eq, h, eqElems_iff x y h]
    · simp [Value.eq, h]

theorem C16_equality_witness :
    ((Value.integer 1).getType ≠ (Value.string ['1']).getType ∧
      ((Value.integer 1).isNumber && (Value.string ['1']).isNumber) = false) ∧
    Value.eq (.integer 1) (.string ['1']) = false :=
  ⟨⟨by decide, rfl⟩, C16_equality.1 (.integer 1) (.string ['1']) (by decide) rfl⟩

/-! ## Ordering -/

/-- The operator `<` of `std::string` is the lexicographic order: `a < b` when `a` is a
proper prefix of `b`, or the first character at which they differ is smaller in `a`. -/
theorem strLt_iff (a b : List Char) :
    Value.strLt a b = true ↔
      (∃ c t, b = a ++ c :: t) ∨
        (∃ p x y s t, a = p ++ x :: s ∧ b = p ++ y :: t ∧ x < y) := by
  induction a generalizing b with
  | nil =>
    cases b with
    | nil =>
      simp only [Value.strLt, Bool.false_eq_true, false_iff, not_or, not_exists]
      refine ⟨fun c t h => by simp at h, fun p x y s t h => by simp at h⟩
    | cons y ys =>
      simp only [Value.strLt, true_iff]
      exact Or.inl ⟨y, ys, rfl⟩
  | cons x xs ih =>
    cases b with
    | nil =>
      simp only [Value.strLt, Bool.false_eq_true, false_iff, not_or, not_exists]
      refine ⟨fun c t h => by simp at h, fun p u v s t h => by simp at h⟩
    | cons y ys =>
      rw [Value.strLt]
      by_cases h1 : x < y
      · simp only [h1, if_true, true_iff]
        exact Or.inr ⟨[], x, y, xs, ys, rfl, rfl, h1⟩
      · by_cases h2 : y < x
        · simp only [h1, h2, if_false, if_true, Bool.false_eq_true, false_iff, not_or,
            not_exists]
          constructor
          · intro c t h
            simp only [List.cons_append, List.cons.injEq] at h
            exact absurd (h.1 ▸ h2) (lt_irrefl _)
          · rintro p u v s t ⟨ha, hb, huv⟩
            cases p with
            | nil =>
              simp only [List.nil_append, List.cons.injEq] at ha hb
              rw [← ha.1, ← hb.1] at huv
              exact h1 huv
            | cons q qs =>
              simp only [List.cons_append, List.cons.injEq] at ha hb
              rw [ha.1, hb.1] at h2
              exact lt_irrefl _ h2
        · have hxy : x = y := le_antisymm (not_lt.1 h2) (not_lt.1 h1)
          subst hxy
          simp only [h1, if_false]
          rw [ih ys]
          constructor
          · rintro (⟨c, t, rfl⟩ | ⟨p, u, v, s, t, rfl, rfl, huv⟩)
            · exact Or.inl ⟨c, t, rfl⟩
            · exact Or.inr ⟨x :: p, u, v, s, t, rfl, rfl, huv⟩
          · rintro (⟨c, t, h⟩ | ⟨p, u, v, s, t, ha, hb, huv⟩)
            · simp only [List.cons_append, List.cons.injEq, true_and] at h
              exact Or.inl ⟨c, t, h⟩
            · cases p with
              | nil =>
                simp only [List.nil_append, List.cons.injEq] at ha hb
                rw [← ha.1, ← hb.1] at huv
                exact absurd huv (lt_irrefl _)
              | cons q qs =>
                simp only [List.cons_append, List.cons.injEq] at ha hb
                exact Or.inr ⟨qs, u, v, s, t, ha.2, hb.2, huv⟩

theorem asFloat_of_denotes {l : Value} {x : ℚ} (h : l.denotes = some x) :
    ∃ c, l.asFloat = .ok c ∧ c.denotes = some x ∧ l.isNumber = true := by
  cases l with
  | integer i =>
    simp only [Value.denotes, Option.some.injEq] at h
    subst h
    exact ⟨Double.ofInt i, rfl, Double.denotes_ofInt i, rfl⟩
  | float d => exact ⟨d, rfl, h, rfl⟩
  | _ => simp [Value.denotes] at h

theorem eq_of_denotes {l r : Value} {x y : ℚ} (hl : l.denotes = some x)
    (hr : r.denotes = some y) : Value.eq l r = decide (x = y) := by
  rw [Bool.eq_iff_iff, decide_eq_true_eq]
  cases l <;> cases r <;> simp only [Value.denotes, Option.some.injEq] at hl hr <;>
    first
    | (exact absurd hl (by simp))
    | (exact absurd hr (by simp))
    | (subst hl; subst hr; simp [Value.eq])
    | (subst hl; simp only [Value.eq]; exact Double.eq_iff_denotes (Double.denotes_ofInt _) hr)
    | (subst hr; simp only [Value.eq]; exact Double.eq_iff_denotes hl (Double.denotes_ofInt _))
    | (simp only [Value.eq]; exact Double.eq_iff_denotes hl hr)

theorem lt_of_denotes {l r : Value} {x y : ℚ} (hl : l.denotes = some x)
    (hr : r.denotes = some y) : Value.lt l r = .ok (decide (x < y)) := by
  obtain ⟨c, hc, hcx, hln⟩ := asFloat_of_denotes hl
  obtain ⟨d, hd, hdy, hrn⟩ := asFloat_of_denotes hr
  have : Double.lt c d = decide (x < y) := by
    rw [Bool.eq_iff_iff, decide_eq_true_eq]
    exact Double.lt_iff_denotes hcx hdy
  simp [Value.lt, hln, hrn, hc, hd, this]

/-- C17: each of `<`, `<=`, `>`, `>=` returns a boolean exactly when both operands are
numeric or both are strings, and throws `Cannot compare these types with <` for every other
pair of operands (for instance nil with nil, or an array with itself, also for `<=` and
`>=`). With `b` the result of `<`, the results of `<=`, `>` and `>=` are `b || l == r`,
its negation, and the negation of `b`. Numeric operands that denote the numbers `x` and `y`
are compared by value; strings are compared in the lexicographic order. -/
theorem C17_ordering :
    (∀ l r : Value, (l.isNumber && r.isNumber) = false → (l.isString && r.isString) = false →
        Value.lt l r = .error (.runtimeError "Cannot compare these types with <".toList) ∧
        Value.le l r = .error (.runtimeError "Cannot compare these types with <".toList) ∧
        Value.gt l r = .error (.runtimeError "Cannot compare these types with <".toList) ∧
        Value.ge l r = .error (.runtimeError "Cannot compare these types with <".toList)) ∧
      (∀ l r : Value, (l.isNumber && r.isNumber) = true ∨ (l.isString && r.isString) = true →
        ∃ b : Bool, Value.lt l r = .ok b ∧ Value.le l r = .ok (b || Value.eq l r) ∧
          Value.gt l r = .ok (!(b || Value.eq l r)) ∧ Value.ge l r = .ok (!b)) ∧
      (∀ (l r : Value) (x y : ℚ), l.denotes = some x → r.denotes = some y →
        Value.lt l r = .ok (decide (x < y)) ∧ Value.le l r = .ok (decide (x ≤ y)) ∧
          Value.gt l r = .ok (decide (x > y)) ∧ Value.ge l r = .ok (decide (x ≥ y))) ∧
      (∀ a b : List Char,
        Value.lt (.string a) (.string b) = .ok (Value.strLt a b) ∧
        (Value.strLt a b = true ↔
          (∃ c t, b = a ++ c :: t) ∨
            (∃ p x y s t, a = p ++ x :: s ∧ b = p ++ y :: t ∧ x < y))) := by
  refine ⟨?_, ?_, ?_, ?_⟩
  · intro l r h1 h2
    have h : Value.lt l r = .error (.runtimeError "Cannot compare these types with <".toList) := by
      simp [Value.lt, h1, h2]
    simp [Value.le, Value.gt, Value.ge, h]
  · intro l r h
    have hb : ∃ b : Bool, Value.lt l r = .ok b := by
      rcases h with h | h
      · cases l <;> cases r <;>
          simp [Value.lt, Value.isNumber, Value.isInteger, Value.isFloat, Value.asFloat] at h ⊢
      · cases l <;> cases r <;>
          simp [Value.lt, Value.isNumber, Value.isInteger, Value.isFloat, Value.isString]
            at h ⊢
    obtain ⟨b, hb⟩ := hb
    exact ⟨b, hb, by simp [Value.le, hb], by simp [Value.gt, Value.le, hb],
      by simp [Value.ge, hb]⟩
  · intro l r x y hl hr
    have h1 := lt_of_denotes hl hr
    have h2 := eq_of_denotes hl hr
    refine ⟨h1, ?_, ?_, ?_⟩
    · simp only [Value.le, h1, h2, bind_ok_eq]
      congr 1
      rw [Bool.eq_iff_iff]
      simp [le_iff_lt_or_eq]
    · simp only [Value.gt, Value.le, h1, h2, bind_ok_eq]
      congr 1
      rw [Bool.eq_iff_iff]
      simp only [Bool.not_eq_true', Bool.or_eq_false_iff, decide_eq_false_iff_not,
        decide_eq_true_eq, gt_iff_lt]
      constructor
      · rintro ⟨ha, hb⟩
        exact lt_of_le_of_ne (not_lt.1 ha) (fun e => hb e.symm)
      · intro h
        exact ⟨not_lt.2 (le_of_lt h), ne_of_gt h⟩
    · simp only [Value.ge, h1, bind_ok_eq]
      congr 1
      rw [Bool.eq_iff_iff]
      simp
  · intro a b
    exact ⟨by simp [Value.lt, Value.isNumber, Value.isInteger, Value.isFloat, Value.isString,
      Value.asString], strLt_iff a b⟩

theorem C17_ordering_witness :
    (((Value.nil).isNumber && (Value.nil).isNumber) = false ∧
      ((Value.nil).isString && (Value.nil).isString) = false) ∧
    Value.le .nil .nil = .error (.runtimeError "Cannot compare these types with <".toList) ∧
    Value.ge (.array []) (.array []) =
      .error (.runtimeError "Cannot compare these types with <".toList) :=
  ⟨⟨rfl, rfl⟩, (C17_ordering.1 .nil .nil rfl rfl).2.1,
   (C17_ordering.1 (.array []) (.array []) rfl rfl).2.2.2⟩

/-! ## Truthiness -/

/-- C18: `isTruthy` is total, with: nil is false; a boolean is itself; an integer is truthy
exactly when it is not 0; a float exactly when it does not compare equal to 0.0 (for a
float that denotes the number `x`: when `x ≠ 0`; infinities and NaN are truthy); a string
and an array exactly when they are not empty; a function always. -/
theorem C18_isTruthy :
    Value.isTruthy .nil = false ∧
      (∀ b : Bool, Value.isTruthy (.boolean b) = b) ∧
      (∀ i : Int, Value.isTruthy (.integer i) = decide (i ≠ 0)) ∧
      (∀ d : Double, Value.isTruthy (.float d) = !(Double.eq d (Double.ofInt 0))) ∧
      (∀ (d : Double) (x : ℚ), d.denotes = some x →
        Value.isTruthy (.float d) = decide (x ≠ 0)) ∧
      (∀ d : Double, d.denotes = none → Value.isTruthy (.float d) = true) ∧
      (∀ s : List Char, Value.isTruthy (.string s) = decide (s ≠ [])) ∧
      (∀ elems : List Value, Value.isTruthy (.array elems) = decide (elems.length ≠ 0)) ∧
      (∀ h : Nat, Value.isTruthy (.function h) = true) := by
  refine ⟨rfl, fun b => rfl, ?_, fun d => rfl, ?_, ?_, ?_, ?_, fun h => rfl⟩
  · intro i
    by_cases h : i = 0 <;> simp [Value.isTruthy, h]
  · intro d x hd
    have h := Double.eq_iff_denotes hd (Double.denotes_ofInt 0)
    simp only [Int.cast_zero] at h
    rw [Value.isTruthy, Bool.eq_iff_iff]
    by_cases hx : x = 0
    · simp [h.2 hx, hx]
    · have : Double.eq d (Double.ofInt 0) = false := by
        cases he : Double.eq d (Double.ofInt 0)
        · rfl
        · exact absurd (h.1 he) hx
      simp [this, hx]
  · intro d hd
    cases d <;> simp [Double.denotes, Value.isTruthy, Double.eq, Double.ofInt] at hd ⊢
  · intro s
    cases s <;> simp [Value.isTruthy]
  · intro elems
    cases elems <;> simp [Value.isTruthy]

theorem C18_isTruthy_witness :
    (Double.finite true 0 0).denotes = some 0 ∧
      Value.isTruthy (.float (.finite true 0 0)) = false :=
  ⟨by simp [Double.denotes], by
    have h := C18_isTruthy.2.2.2.2.1 (.finite true 0 0) 0 (by simp [Double.denotes])
    simpa using h⟩

/-! ## Array access -/

set_option maxRecDepth 100000 in
/-- C19: when the array operand evaluates to `a` and the index operand to `ix`,
`ArrayAccess(array, index)` returns element `i` of `a` exactly when `a` is an array of some
length `n` and `ix` is an integer `i` with `0 ≤ i < n`. It throws `Cannot index non-array
value` when `a` is not an array (a string, for instance), `Array index must be an integer`
when `ix` is not an integer (the float 1.0, for instance), and `Array index out of bounds`
when `i < 0` or `i ≥ n`. -/
theorem C19_array_access (fuel : Nat) (ref : InterpreterRef) (array index : ASTNode)
    (w w1 w2 : World) (a ix : Value)
    (ha : evaluate fuel ref array w = (.ok a, w1))
    (hi : evaluate fuel ref index w1 = (.ok ix, w2)) :
    evaluate (fuel + 1) ref (.ArrayAccess array index) w =
        ((match a, ix with
          | .array elems, .integer i =>
              if 0 ≤ i ∧ i < elems.length then .ok (elems.getD i.toNat .nil)
              else .error (.runtimeError "Array index out of bounds".toList)
          | .array _, _ => .error (.runtimeError "Array index must be an integer".toList)
          | _, _ => .error (.runtimeError "Cannot index non-array value".toList)), w2) ∧
      runFile 1000 "a = [1,2,3] shownl a[1]".toList [] =
        { cout := "2\n".toList, cerr := [], outcome := .exit 0 } ∧
      runFile 1000 "a = [1,2,3] shownl a[1.0]".toList [] =
        { cout := [], cerr := "Error: Array index must be an integer\n".toList,
          outcome := .exit 1 } ∧
      runFile 1000 "a = [1,2,3] shownl a[3]".toList [] =
        { cout := [], cerr := "Error: Array index out of bounds\n".toList,
          outcome := .exit 1 } ∧
      runFile 1000 "a = [1,2,3] shownl a[0 - 1]".toList [] =
        { cout := [], cerr := "Error: Array index out of bounds\n".toList,
          outcome := .exit 1 } ∧
      runFile 1000 "s = \"abc\" shownl s[0]".toList [] =
        { cout := [], cerr := "Error: Cannot index non-array value\n".toList,
          outcome := .exit 1 } := by
  refine ⟨?_, by decide!, by decide!, by decide!, by decide!, by decide!⟩
  rw [evaluate]
  simp only [ha, hi]
  cases a <;> cases ix <;> simp [Value.isArray, Value.atIndex]
  rename_i elems i
  by_cases h1 : i < 0
  · have h2 : ¬ (0 ≤ i) := by omega
    simp [h1, h2]
  · by_cases h3 : i < elems.length
    · have h4 : ¬ ((elems.length : Int) ≤ i) := by omega
      have h5 : ¬ (elems.length ≤ i.toNat) := by omega
      simp [h1, h3, h5, not_lt.1 h1]
    · have h5 : elems.length ≤ i.toNat := by omega
      simp [h3, h5]

theorem C19_array_access_witness :
    (evaluate 5 .interpreter (.ArrayLiteral [.Literal (.int 10), .Literal (.int 20)])
          (World.new []) = (.ok (.array [.integer 10, .integer 20]), World.new []) ∧
      evaluate 5 .interpreter (.Literal (.int 1)) (World.new []) =
        (.ok (.integer 1), World.new [])) ∧
    evaluate 6 .interpreter
        (.ArrayAccess (.ArrayLiteral [.Literal (.int 10), .Literal (.int 20)])
          (.Literal (.int 1)))
        (World.new []) =
      (.ok (.integer 20), World.new []) :=
  ⟨⟨rfl, rfl⟩,
   (C19_array_access 5 .interpreter (.ArrayLiteral [.Literal (.int 10), .Literal (.int 20)])
     (.Literal (.int 1)) (World.new []) (World.new []) (World.new [])
     (.array [.integer 10, .integer 20]) (.integer 1) rfl rfl).1⟩

/-! ## Call dispatch -/

set_option maxRecDepth 100000 in
/-- C20: calling a value that is not a function throws `Value is not callable`. Calling a
function value with a number of arguments different from its arity throws `Expected n
arguments but got m` and leaves the world as it is: the callable is not invoked. With the
exact number of arguments the call is the call of the underlying callable on these
arguments: the wrapped lambda for a native function, `UserFunction::call` for a user
function. The runs of `size()` and `size(1, 2)` fail, `shownl size([1,2,3])` prints 3 and
`shownl size("ab")` prints 2. -/
theorem C20_call_dispatch :
    (∀ (fuel : Nat) (v : Value) (args : List Value) (w : World), v.isFunction = false →
        call (fuel + 1) v args w = (.error (.runtimeError "Value is not callable".toList), w)) ∧
      (∀ (fuel h : Nat) (args : List Value) (w : World) (func : Callable),
        w.callables.get? h = some func → wrapInt args.length ≠ func.arity →
        call (fuel + 1) (.function h) args w =
          (.error (.runtimeError (arityMessage func.arity args.length)), w)) ∧
      (∀ (fuel h : Nat) (args : List Value) (w : World) (n : Int) (f : Native),
        w.callables.get? h = some (.NativeFunction n f) → wrapInt args.length = n →
        call (fuel + 1) (.function h) args w = f.call args w) ∧
      (∀ (fuel h : Nat) (args : List Value) (w : World) (parameters : List (List Char))
          (body : ASTNode) (closure : Nat),
        w.callables.get? h = some (.UserFunction parameters body closure) →
        wrapInt args.length = wrapInt parameters.length →
        call (fuel + 1) (.function h) args w =
          (match evaluate fuel (.environment w.environments.length) body
              (World.mk
                (bindParameters (w.environments ++ [{ values := [], enclosing := some closure }])
                  w.environments.length parameters args)
                w.callables w.interpreter w.cout w.cin) with
            | (.ok v, w3) => (.ok v, w3)
            | (.error (.returnValue v), w3) => (.ok v, w3)
            | (.error e, w3) => (.error e, w3))) ∧
      runFile 1000 "size()".toList [] =
        { cout := [], cerr := "Error: Expected 1 arguments but got 0\n".toList,
          outcome := .exit 1 } ∧
      runFile 1000 "size(1, 2)".toList [] =
        { cout := [], cerr := "Error: Expected 1 arguments but got 2\n".toList,
          outcome := .exit 1 } ∧
      runFile 1000 "shownl size([1,2,3])".toList [] =
        { cout := "3\n".toList, cerr := [], outcome := .exit 0 } ∧
      runFile 1000 "shownl size(\"ab\")".toList [] =
        { cout := "2\n".toList, cerr := [], outcome := .exit 0 } := by
  refine ⟨?_, ?_, ?_, ?_, by decide!, by decide!, by decide!, by decide!⟩
  · intro fuel v args w hv
    cases v <;> simp [Value.isFunction] at hv <;> (rw [call]; intro _ hh; cases hh)
  · intro fuel h args w func hf ha
    rw [call]
    simp only [List.get?_eq_getElem?] at hf
    simp [hf, ha]
  · intro fuel h args w n f hf ha
    rw [call]
    simp only [List.get?_eq_getElem?] at hf
    simp [hf, ha, Callable.arity]
  · intro fuel h args w parameters body closure hf ha
    rw [call]
    simp only [hf, ha, Callable.arity, World.newEnvironment, ne_eq, not_true_eq_false,
      if_false]

theorem C20_call_dispatch_witness :
    ((Value.integer 5).isFunction = false ∧
      (World.new []).callables.get? 3 = some (.NativeFunction 1 .size) ∧
      wrapInt ([] : List Value).length ≠ (Callable.NativeFunction 1 .size).arity) ∧
    call 1 (.integer 5) [] (World.new []) =
      (.error (.runtimeError "Value is not callable".toList), World.new []) ∧
    call 1 (.function 3) [] (World.new []) =
      (.error (.runtimeError "Expected 1 arguments but got 0".toList), World.new []) :=
  ⟨⟨rfl, rfl, by decide⟩, C20_call_dispatch.1 0 (.integer 5) [] (World.new []) rfl,
   C20_call_dispatch.2.1 0 3 [] (World.new []) (.NativeFunction 1 .size) rfl (by decide)⟩

/-! ## The word `nextl` -/

set_option maxRecDepth 100000 in
/-- C21 (code defect): the run of `show "a" + nextl` writes nothing to the standard output:
the lexer makes the keyword token `NEXTL` of the word and `Parser::primary` has no case for
it, so the statement is rejected with `Expect expression`. The constant defined by
`setupGlobals` is moreover the boolean true and not the newline string, so that the tree
the source is meant to parse to writes `atrue`. -/
theorem C21_nextl_rejected :
    runFile 1000 "show \"a\" + nextl".toList [] =
        { cout := [],
          cerr := "Error at line 1, column 16: Expect expression, got token type 48\n".toList,
          outcome := .exit 0 } ∧
      Environment.get (World.new []).environments 0 "nextl".toList = .ok (.boolean true) ∧
      runProgram 1000 nextlProgram [] =
        { cout := "atrue".toList, cerr := [], outcome := .exit 0 } := by
  refine ⟨by decide!, by rfl, by decide!⟩

/-! ## The words `equals` and `isnt` -/

set_option maxRecDepth 100000 in
/-- C24 (code defect): the words `equals` and `isnt` are lexed as identifiers, not as the
tokens `EQUALS` and `ISNT`: `handleWord` looks only two-word texts up in
`naturalOperators`. So `shownl 1 equals 1` writes `1` and stops at the undefined variable
`equals`, where `shownl 1 == 1` writes `true`; likewise for `isnt` and `!=`. -/
theorem C24_single_word_synonyms_missing :
    ((Lexer.new "equals".toList).nextToken.toOption.map fun r => (r.1.type, r.1.value)) =
        some (.IDENTIFIER, .string "equals".toList) ∧
      ((Lexer.new "isnt".toList).nextToken.toOption.map fun r => (r.1.type, r.1.value)) =
        some (.IDENTIFIER, .string "isnt".toList) ∧
      runFile 1000 "shownl 1 equals 1".toList [] =
        { cout := "1\n".toList, cerr := "Error: Undefined variable \x27equals\x27\n".toList,
          outcome := .exit 1 } ∧
      runFile 1000 "shownl 1 == 1".toList [] =
        { cout := "true\n".toList, cerr := [], outcome := .exit 0 } ∧
      runFile 1000 "shownl 1 isnt 2".toList [] =
        { cout := "1\n".toList, cerr := "Error: Undefined variable \x27isnt\x27\n".toList,
          outcome := .exit 1 } ∧
      runFile 1000 "shownl 1 != 2".toList [] =
        { cout := "true\n".toList, cerr := [], outcome := .exit 0 } := by
  refine ⟨by decide!, by decide!, by decide!, by decide!, by decide!, by decide!⟩

/-! ## Assignment targets and callees -/

set_option maxRecDepth 100000 in
/-- C29: in `assignment`, where `logicalOr` reads the left-hand side `lhs` and stops at `=`,
and the recursive call reads the right-hand side `rhs`, the result is `Assignment(name, rhs)`
for a variable reference `lhs`, `ArrayAssignment(array, index, rhs)` for an index expression,
and for every other `lhs` the parse error made by `error("Invalid assignment target")` (the
message after the position of the current token). On the sources `1 = 2`,
`a + b = 3` and `f(x) = 3` the run reports that error (`parse` prints it and returns an empty
program); `a = 3` and `a[1] = 3` parse to the two nodes. -/
theorem C29_assignment_target (fuel : Nat) (p p1 p2 p3 : Parser) (lhs rhs : ASTNode)
    (hl : Parser.logicalOr fuel p = .ok (lhs, p1))
    (ha : p1.currentToken.type = .ASSIGN)
    (hadv : p1.advance = .ok ((), p2))
    (hr : Parser.assignment fuel p2 = .ok (rhs, p3)) :
    Parser.assignment (fuel + 1) p =
        (match lhs with
         | .Variable name => .ok (.Assignment name rhs, p3)
         | .ArrayAccess array index => .ok (.ArrayAssignment array index rhs, p3)
         | _ => .error (p3.error "Invalid assignment target".toList, p3)) ∧
      runFile 1000 "1 = 2".toList [] =
        { cout := [], cerr := "Error at line 1, column 5: Invalid assignment target\n".toList,
          outcome := .exit 0 } ∧
      runFile 1000 "a + b = 3".toList [] =
        { cout := [], cerr := "Error at line 1, column 9: Invalid assignment target\n".toList,
          outcome := .exit 0 } ∧
      runFile 1000 "f(x) = 3".toList [] =
        { cout := [], cerr := "Error at line 1, column 8: Invalid assignment target\n".toList,
          outcome := .exit 0 } ∧
      parseExpression 40 "a = 3".toList = .ok (.Assignment ['a'] (.Literal (.int 3))) ∧
      parseExpression 40 "a[1] = 3".toList =
        .ok (.ArrayAssignment (.Variable ['a']) (.Literal (.int 1)) (.Literal (.int 3))) := by
  refine ⟨?_, by decide!, by decide!, by decide!, by rfl, by rfl⟩
  rw [Parser.assignment]
  simp only [hl, bind, Except.bind, Parser.matchType, Parser.check, ha, hadv, beq_self_eq_true,
    if_true, hr]
  cases lhs <;> rfl

set_option maxRecDepth 100000 in
theorem C29_assignment_target_witness :
    (Parser.logicalOr 20 (Parser.afterTokens "a[1] = 3".toList 0) =
        .ok (.ArrayAccess (.Variable ['a']) (.Literal (.int 1)),
          Parser.afterTokens "a[1] = 3".toList 4) ∧
      (Parser.afterTokens "a[1] = 3".toList 4).currentToken.type = .ASSIGN ∧
      (Parser.afterTokens "a[1] = 3".toList 4).advance =
        .ok ((), Parser.afterTokens "a[1] = 3".toList 5) ∧
      Parser.assignment 20 (Parser.afterTokens "a[1] = 3".toList 5) =
        .ok (.Literal (.int 3), Parser.afterTokens "a[1] = 3".toList 6)) ∧
    Parser.assignment 21 (Parser.afterTokens "a[1] = 3".toList 0) =
      .ok (.ArrayAssignment (.Variable ['a']) (.Literal (.int 1)) (.Literal (.int 3)),
        Parser.afterTokens "a[1] = 3".toList 6) :=
  ⟨⟨by rfl, by rfl, by rfl, by rfl⟩,
   (C29_assignment_target 20 _ _ _ _ _ _ (by rfl) (by rfl) (by rfl) (by rfl)).1⟩

set_option maxRecDepth 100000 in
/-- C30, counterexample: the callee of `(f)(1)` is a parenthesised expression, not a bare
identifier, and the call is accepted: `primary` returns the node of the inner expression,
so `finishCall` finds a variable reference. -/
theorem C30_parenthesised_callee :
    parseExpression 40 "(f)(1)".toList = .ok (.FunctionCall ['f'] [.Literal (.int 1)]) := by
  rfl

set_option maxRecDepth 100000 in
/-- C30, amended: in `finishCall`, once the arguments are read and the `)` is consumed, the
result is `FunctionCall(name, arguments)` where the callee parsed to the variable reference
`name`, and for every other callee node the parse error made by
`error("Expected function name")`. On the sources `a()()`, `arr[0]()` and `1(2)` the run
reports that error; `f(1, 2)` and `f()` parse to calls of `f`. -/
theorem C30_callee (fuel : Nat) (callee : ASTNode) (p p1 p2 : Parser)
    (arguments : List ASTNode)
    (hargs : (if !p.check .RIGHT_PAREN then Parser.expressionList fuel [] p
              else .ok ([], p)) = .ok (arguments, p1))
    (hclose : p1.consume .RIGHT_PAREN "Expect \x27)\x27 after function arguments".toList =
      .ok ((), p2)) :
    Parser.finishCall (fuel + 1) callee p =
        (match callee with
         | .Variable name => .ok (.FunctionCall name arguments, p2)
         | _ => .error (p2.error "Expected function name".toList, p2)) ∧
      runFile 1000 "a()()".toList [] =
        { cout := [], cerr := "Error at line 1, column 5: Expected function name\n".toList,
          outcome := .exit 0 } ∧
      runFile 1000 "arr[0]()".toList [] =
        { cout := [], cerr := "Error at line 1, column 8: Expected function name\n".toList,
          outcome := .exit 0 } ∧
      runFile 1000 "1(2)".toList [] =
        { cout := [], cerr := "Error at line 1, column 4: Expected function name\n".toList,
          outcome := .exit 0 } ∧
      parseExpression 40 "f(1, 2)".toList =
        .ok (.FunctionCall ['f'] [.Literal (.int 1), .Literal (.int 2)]) ∧
      parseExpression 40 "f()".toList = .ok (.FunctionCall ['f'] []) := by
  refine ⟨?_, by decide!, by decide!, by decide!, by rfl, by rfl⟩
  rw [Parser.finishCall]
  by_cases hc : (!p.check .RIGHT_PAREN) = true
  · rw [if_pos hc] at hargs ⊢
    simp only [bind, Except.bind, hargs, hclose]
  · rw [if_neg hc] at hargs ⊢
    simp only [Except.ok.injEq, Prod.mk.injEq] at hargs
    obtain ⟨h1, h2⟩ := hargs
    subst h1 h2
    simp only [bind, Except.bind, hclose]

set_option maxRecDepth 100000 in
theorem C30_callee_witness :
    ((if !(Parser.afterTokens "f(1, 2)".toList 2).check .RIGHT_PAREN then
          Parser.expressionList 20 [] (Parser.afterTokens "f(1, 2)".toList 2)
        else .ok ([], Parser.afterTokens "f(1, 2)".toList 2)) =
        .ok ([.Literal (.int 1), .Literal (.int 2)], Parser.afterTokens "f(1, 2)".toList 5) ∧
      (Parser.afterTokens "f(1, 2)".toList 5).consume .RIGHT_PAREN
          "Expect \x27)\x27 after function arguments".toList =
        .ok ((), Parser.afterTokens "f(1, 2)".toList 6)) ∧
    Parser.finishCall 21 (.Variable ['f']) (Parser.afterTokens "f(1, 2)".toList 2) =
      .ok (.FunctionCall ['f'] [.Literal (.int 1), .Literal (.int 2)],
        Parser.afterTokens "f(1, 2)".toList 6) :=
  ⟨⟨by rfl, by rfl⟩, (C30_callee 20 (.Variable ['f']) _ _ _ _ (by rfl) (by rfl)).1⟩

/-! ## The source text is never changed -/

theorem Lexer.advance_source (l : Lexer) : l.advance.source = l.source := by
  unfold Lexer.advance
  dsimp only
  split_ifs <;> rfl

theorem Lexer.advanceWhile_source (f : Char → Bool) (n : Nat) :
    ∀ l : Lexer, (Lexer.advanceWhile f n l).source = l.source := by
  induction n with
  | zero => intro l; rfl
  | succ n ih =>
    intro l
    unfold Lexer.advanceWhile
    split
    · rw [ih, Lexer.advance_source]
    · rfl

theorem Lexer.handleNumber_source {l : Lexer} {t : Token} {l1 : Lexer}
    (h : l.handleNumber = .ok (t, l1)) : l1.source = l.source := by
  unfold Lexer.handleNumber at h
  simp only at h
  split at h
  · split at h
    · simp only [Except.ok.injEq, Prod.mk.injEq] at h
      rw [← h.2, Lexer.advanceWhile_source, Lexer.advance_source, Lexer.advanceWhile_source]
    · cases h
  · split at h
    · simp only [Except.ok.injEq, Prod.mk.injEq] at h
      rw [← h.2, Lexer.advanceWhile_source]
    · cases h

theorem Lexer.handleIdentifier_source (l : Lexer) : l.handleIdentifier.2.source = l.source := by
  unfold Lexer.handleIdentifier
  simp only
  split <;> simp only [Lexer.advanceWhile_source]

theorem Lexer.handleString_source (l : Lexer) : l.handleString.2.source = l.source := by
  unfold Lexer.handleString
  simp only
  split <;> simp only [Lexer.advanceWhile_source, Lexer.advance_source]

theorem Lexer.handleWord_source (l : Lexer) : l.handleWord.2.source = l.source := by
  unfold Lexer.handleWord
  simp only
  split
  · rename_i r hr
    split at hr
    · split at hr
      · cases hr
        simp only [Lexer.advanceWhile_source]
      · cases hr
    · cases hr
  · rename_i l4 hr
    rw [Lexer.handleIdentifier_source]
    split at hr
    · split at hr
      · cases hr
      · cases hr
        simp only [Lexer.advanceWhile_source]
    · cases hr
      simp only [Lexer.advanceWhile_source]

theorem Lexer.withAssign_source (l : Lexer) (a b : TokenType) :
    (l.withAssign a b).2.source = l.source := by
  unfold Lexer.withAssign
  dsimp only
  split_ifs <;> simp only [Lexer.advance_source]

theorem Lexer.single_source (l : Lexer) (a : TokenType) : (l.single a).2.source = l.source := by
  unfold Lexer.single
  simp only [Lexer.advance_source]

theorem ite_cases {α : Type} {P : α → Prop} {c : Prop} [Decidable c] {a b : α}
    (ha : P a) (hb : P b) : P (if c then a else b) := by
  split <;> assumption

theorem Lexer.handleOperator_source (l : Lexer) : l.handleOperator.2.source = l.source := by
  unfold Lexer.handleOperator
  dsimp only
  repeat' refine ite_cases (P := fun r : Token × Lexer => r.2.source = l.source) ?_ ?_
  all_goals
    first
    | exact Lexer.withAssign_source _ _ _
    | exact Lexer.single_source _ _
    | exact Lexer.advance_source _
    | simp only [Lexer.advance_source]

theorem Lexer.skipComment_source (l : Lexer) : l.skipComment.source = l.source := by
  unfold Lexer.skipComment
  simp only
  split <;> simp only [Lexer.advanceWhile_source, Lexer.advance_source]

theorem Lexer.nextTokenAux_source (n : Nat) :
    ∀ (l : Lexer) (t : Token) (l1 : Lexer),
      Lexer.nextTokenAux n l = .ok (t, l1) → l1.source = l.source := by
  induction n with
  | zero =>
    intro l t l1 h
    unfold Lexer.nextTokenAux at h
    simp only [Except.ok.injEq, Prod.mk.injEq] at h
    rw [← h.2, Lexer.skipWhitespace, Lexer.advanceWhile_source]
  | succ n ih =>
    intro l t l1 h
    unfold Lexer.nextTokenAux at h
    have hsk : l.skipWhitespace.source = l.source := by
      rw [Lexer.skipWhitespace, Lexer.advanceWhile_source]
    simp only at h
    split at h
    · simp only [Except.ok.injEq, Prod.mk.injEq] at h
      rw [← h.2, hsk]
    · split at h
      · rw [ih _ _ _ h, Lexer.skipComment_source, hsk]
      · split at h
        · rw [Lexer.handleNumber_source h, hsk]
        · split at h
          · simp only [Except.ok.injEq] at h
            have := Lexer.handleWord_source l.skipWhitespace
            rw [h] at this
            exact this.trans hsk
          · split at h
            · simp only [Except.ok.injEq] at h
              have := Lexer.handleString_source l.skipWhitespace
              rw [h] at this
              exact this.trans hsk
            · simp only [Except.ok.injEq] at h
              have := Lexer.handleOperator_source l.skipWhitespace
              rw [h] at this
              exact this.trans hsk

theorem Lexer.nextToken_source {l : Lexer} {t : Token} {l1 : Lexer}
    (h : l.nextToken = .ok (t, l1)) : l1.source = l.source :=
  Lexer.nextTokenAux_source _ _ _ _ h

/-! ## The token kinds the lexer produces -/

theorem Lexer.dropWhile_stop (f : Char → Bool) (r : List Char) :
    ((r.dropWhile f).isEmpty || !f ((r.dropWhile f).headD NUL)) = true := by
  induction r with
  | nil => simp
  | cons c r ih =>
    by_cases h : f c = true
    · rw [List.dropWhile_cons_of_pos h]; exact ih
    · rw [List.dropWhile_cons_of_neg h]; simp [h]

/-- A scanning loop reads the longest run of characters that satisfy its condition. -/
theorem Lexer.At.scan {f : Char → Bool} {l : Lexer} {r : List Char} (h : l.At r) :
    (Lexer.advanceWhile f l.remaining l).At (r.dropWhile f) ∧
      (Lexer.advanceWhile f l.remaining l).source = l.source ∧
      (Lexer.advanceWhile f l.remaining l).position = l.position + (r.takeWhile f).length :=
  Lexer.At.advanceWhile (f := f) (r.takeWhile f) (l := l) (r := r.dropWhile f) l.remaining
    (by rw [List.takeWhile_append_dropWhile]; exact h)
    (by rw [h.remaining]; exact (List.takeWhile_prefix f).length_le)
    (fun c hc => (List.mem_takeWhile_imp hc)) (Lexer.dropWhile_stop f r)

theorem lookup_mem {β : Type} {a : List Char} {b : β} :
    ∀ {l : List (List Char × β)}, l.lookup a = some b → (a, b) ∈ l := by
  intro l
  induction l with
  | nil => intro h; simp [List.lookup] at h
  | cons x l ih =>
    obtain ⟨k, v⟩ := x
    intro h
    rw [List.lookup_cons] at h
    by_cases hk : a = k
    · subst hk
      simp at h
      simp [h]
    · have : (a == k) = false := by simpa using hk
      rw [this] at h
      exact List.mem_cons_of_mem _ (ih h)

theorem Lexer.handleIdentifier_kind (l : Lexer) :
    l.handleIdentifier.1.type ≠ .EQUALS ∧ l.handleIdentifier.1.type ≠ .ISNT := by
  unfold Lexer.handleIdentifier
  dsimp only
  split
  · rename_i t ht
    have hall : ∀ p ∈ keywords, p.2 ≠ TokenType.EQUALS ∧ p.2 ≠ TokenType.ISNT := by decide
    exact hall _ (lookup_mem ht)
  · exact ⟨by simp [Lexer.makeTokenWith], by simp [Lexer.makeTokenWith]⟩

theorem Lexer.handleNumber_kind {l : Lexer} {t : Token} {l1 : Lexer}
    (h : l.handleNumber = .ok (t, l1)) : t.type ≠ .EQUALS ∧ t.type ≠ .ISNT := by
  unfold Lexer.handleNumber at h
  simp only at h
  split at h
  · split at h
    · simp only [Except.ok.injEq, Prod.mk.injEq] at h
      rw [← h.1]; exact ⟨by simp, by simp⟩
    · cases h
  · split at h
    · simp only [Except.ok.injEq, Prod.mk.injEq] at h
      rw [← h.1]; exact ⟨by simp, by simp⟩
    · cases h

theorem Lexer.handleString_kind (l : Lexer) :
    l.handleString.1.type ≠ .EQUALS ∧ l.handleString.1.type ≠ .ISNT := by
  unfold Lexer.handleString
  dsimp only
  split <;> exact ⟨by simp [Lexer.makeTokenWith], by simp [Lexer.makeTokenWith]⟩

theorem Lexer.handleOperator_kind (l : Lexer) :
    l.handleOperator.1.type ≠ .EQUALS ∧ l.handleOperator.1.type ≠ .ISNT := by
  unfold Lexer.handleOperator
  dsimp only
  repeat' refine ite_cases (P := fun r : Token × Lexer =>
    r.1.type ≠ TokenType.EQUALS ∧ r.1.type ≠ TokenType.ISNT) ?_ ?_
  all_goals constructor <;> simp [Lexer.single, Lexer.makeToken, Lexer.makeTokenWith]

theorem Lexer.trimRight_word (a v : List Char) (hv : v ≠ [])
    (hall : ∀ x ∈ v, isAlpha x = true) :
    Lexer.trimRight (a ++ [' '] ++ v) = a ++ [' '] ++ v := by
  have hx := hall (v.getLast hv) (List.getLast_mem hv)
  have hsp := (alpha_props hx).1
  have hne : (v.getLast hv == ' ' || v.getLast hv == '\t') = false := by
    generalize v.getLast hv = x at hsp
    rw [Bool.or_eq_false_iff]
    constructor
    · rw [beq_eq_false_iff_ne]; intro e; subst e; revert hsp; decide
    · rw [beq_eq_false_iff_ne]; intro e; subst e; revert hsp; decide
  unfold Lexer.trimRight
  conv_lhs => rw [← List.dropLast_append_getLast hv]
  rw [← List.append_assoc, List.reverse_append, List.reverse_singleton, List.singleton_append,
    List.dropWhile_cons_of_neg (by simp [hne])]
  rw [List.reverse_cons, List.reverse_reverse, List.append_assoc,
    List.dropLast_append_getLast hv]

/-- On a lexer that holds the character at its position, `handleWord` makes no `EQUALS`
and no `ISNT` token: the text it looks up in `naturalOperators` contains a space. -/
theorem Lexer.handleWord_kind {l : Lexer} {r : List Char} (h : l.At r) :
    l.handleWord.1.type ≠ .EQUALS ∧ l.handleWord.1.type ≠ .ISNT := by
  obtain ⟨h1, hs1, hp1⟩ := h.scan (f := isAlpha)
  obtain ⟨h2, hs2, hp2⟩ := h1.scan (f := fun c => isspace c && c != '\n')
  obtain ⟨h3, hs3, hp3⟩ := h2.scan (f := isAlpha)
  generalize hl1 : Lexer.advanceWhile isAlpha l.remaining l = l1 at *
  generalize hl2 : Lexer.advanceWhile (fun c => isspace c && c != '\n') l1.remaining l1 = l2 at *
  generalize hl3 : Lexer.advanceWhile isAlpha l2.remaining l2 = l3 at *
  generalize hr2 : List.dropWhile (fun c => isspace c && c != '\n') (List.dropWhile isAlpha r) = r2 at *
  unfold Lexer.handleWord
  simp only [hl1, hl2, hl3]
  split
  · rename_i res hres
    split at hres
    · rename_i halpha
      split at hres
      · rename_i t ht
        cases hres
        have hcur := h2.cur
        rw [hcur] at halpha
        have hv : r2.takeWhile isAlpha ≠ [] := by
          cases r2 with
          | nil => simp at halpha; exact absurd halpha (by decide)
          | cons c r2 =>
            simp only [List.headD_cons] at halpha
            simp [List.takeWhile_cons, halpha]
        have hsub : SimpScript.substr l.source l2.position (l3.position - l2.position) =
            r2.takeWhile isAlpha := by
          have := Lexer.At.substr (l := l2) (z := r2.takeWhile isAlpha)
            (r := r2.dropWhile isAlpha) (by rw [List.takeWhile_append_dropWhile]; exact h2)
            l3 hp3
          rw [hs2, hs1] at this
          exact this
        rw [hsub, Lexer.trimRight_word _ _ hv (fun x hx => List.mem_takeWhile_imp hx)] at ht
        have hm := lookup_mem ht
        have hall : ∀ p ∈ naturalOperators,
            (p.2 = TokenType.EQUALS ∨ p.2 = TokenType.ISNT) → ' ' ∉ p.1 := by decide
        have hsp : ' ' ∈ SimpScript.substr l.source l.position (l2.position - l.position - 1) ++
            [' '] ++ r2.takeWhile isAlpha := by simp
        constructor
        · intro e
          exact hall _ hm (Or.inl e) hsp
        · intro e
          exact hall _ hm (Or.inr e) hsp
      · cases hres
    · cases hres
  · exact Lexer.handleIdentifier_kind _

theorem Lexer.At.afterComment {l : Lexer} {r : List Char} (h : l.At r) :
    ∃ r1, l.skipComment.At r1 := by
  obtain ⟨h1, _, _⟩ := h.scan (f := fun c => c != '\n')
  unfold Lexer.skipComment
  dsimp only
  split
  · rename_i hc
    rw [h1.cur] at hc
    generalize List.dropWhile (fun c => c != '\n') r = r1 at *
    cases r1 with
    | nil => simp at hc; exact absurd hc (by decide)
    | cons c r1 => exact ⟨r1, (Lexer.At.advance h1).1⟩
  · exact ⟨_, h1⟩

theorem Lexer.nextTokenAux_kind (n : Nat) :
    ∀ (l : Lexer) (r : List Char), l.At r → ∀ (t : Token) (l1 : Lexer),
      Lexer.nextTokenAux n l = .ok (t, l1) → t.type ≠ .EQUALS ∧ t.type ≠ .ISNT := by
  induction n with
  | zero =>
    intro l r _ t l1 h
    unfold Lexer.nextTokenAux at h
    simp only [Except.ok.injEq, Prod.mk.injEq] at h
    rw [← h.1]
    exact ⟨by simp [Lexer.makeToken], by simp [Lexer.makeToken]⟩
  | succ n ih =>
    intro l r hat t l1 h
    unfold Lexer.nextTokenAux at h
    have hsk : l.skipWhitespace.At (r.dropWhile isspace) := (hat.scan (f := isspace)).1
    simp only at h
    split at h
    · simp only [Except.ok.injEq, Prod.mk.injEq] at h
      rw [← h.1]
      exact ⟨by simp [Lexer.makeToken], by simp [Lexer.makeToken]⟩
    · split at h
      · obtain ⟨r1, hc⟩ := hsk.afterComment
        exact ih _ _ hc _ _ h
      · split at h
        · exact Lexer.handleNumber_kind h
        · split at h
          · simp only [Except.ok.injEq] at h
            have := Lexer.handleWord_kind hsk
            rw [h] at this
            exact this
          · split at h
            · simp only [Except.ok.injEq] at h
              have := Lexer.handleString_kind l.skipWhitespace
              rw [h] at this
              exact this
            · simp only [Except.ok.injEq] at h
              have := Lexer.handleOperator_kind l.skipWhitespace
              rw [h] at this
              exact this

set_option maxRecDepth 100000 in
/-- C25 (code defect): no source text makes `nextToken()` return a first token of kind
`EQUALS` or `ISNT`; every other kind except `ERROR` and `END_OF_FILE` is the kind of the
first token of its text in `canonicalSources`. The two kinds are entered in
`naturalOperators` with the keys `equals` and `isnt`, but `handleWord` looks up only texts
of two words joined by a space. -/
theorem C25_kinds_produced :
    (∀ source : List Char,
        firstKind source ≠ some .EQUALS ∧ firstKind source ≠ some .ISNT) ∧
      (∀ p ∈ canonicalSources, firstKind p.2 = some p.1) ∧
      (∀ k : TokenType, k ∈ canonicalSources.map Prod.fst ∨ k = .ERROR ∨ k = .END_OF_FILE ∨
        k = .EQUALS ∨ k = .ISNT) := by
  refine ⟨?_, by decide!, ?_⟩
  · intro source
    unfold firstKind
    split
    · rename_i t l1 h
      have := Lexer.nextTokenAux_kind _ _ _ (Lexer.At.new source) _ _ h
      simp only [ne_eq, Option.some.injEq]
      exact this
    · exact ⟨by simp, by simp⟩
  · intro k
    cases k <;> decide

/-- C26: whenever `nextToken()` returns a token `t`, `peekToken()` returns the same token
and leaves the lexer exactly as it was (position, line, column and current character are
put back and the source is never changed), so that after any number of calls of
`peekToken()` the lexer is still the same and `nextToken()` returns what it would have
returned. (When `nextToken()` throws, on an integer literal outside the range of `int`,
`peekToken()` throws with it.) -/
theorem C26_peekToken (l : Lexer) (t : Token) (l1 : Lexer) (h : l.nextToken = .ok (t, l1)) :
    l.peekToken = .ok (t, l) ∧ ∀ n : Nat, peekTokens n l = .ok l := by
  have hp : l.peekToken = .ok (t, l) := by
    unfold Lexer.peekToken
    rw [h]
    have hs := Lexer.nextToken_source h
    cases l
    cases l1
    simp only at hs
    simp [hs]
  refine ⟨hp, ?_⟩
  intro n
  induction n with
  | zero => rfl
  | succ n ih =>
    unfold peekTokens
    rw [hp]
    exact ih

theorem C26_peekToken_witness :
    (Lexer.new "x greater than 1".toList).nextToken =
        .ok (⟨.IDENTIFIER, .string ['x'], 1, 2⟩,
          { source := "x greater than 1".toList, position := 1, line := 1, column := 2,
            currentChar := ' ' }) ∧
      (Lexer.new "x greater than 1".toList).peekToken =
        .ok (⟨.IDENTIFIER, .string ['x'], 1, 2⟩, Lexer.new "x greater than 1".toList) ∧
      peekTokens 3 (Lexer.new "x greater than 1".toList) =
        .ok (Lexer.new "x greater than 1".toList) :=
  ⟨by rfl,
   (C26_peekToken (Lexer.new "x greater than 1".toList) _ _ (by rfl)).1,
   (C26_peekToken (Lexer.new "x greater than 1".toList) _ _ (by rfl)).2 3⟩

/-! ## Words -/

theorem Lexer.dropWhile_of_stop {f : Char → Bool} {r : List Char}
    (h : f (r.headD NUL) = false) : r.dropWhile f = r := by
  cases r with
  | nil => rfl
  | cons c r =>
    simp only [List.headD_cons] at h
    rw [List.dropWhile_cons_of_neg (by simp [h])]

/-- After the letters at the start of a lexeme comes a digit of the lexeme or the
character that follows the lexeme. -/
theorem Lexer.lexeme_stop {r : List Char} (hr : isAlphaNumeric (r.headD NUL) = false)
    (hsp : isspace (r.headD NUL) = false) :
    ∀ w : List Char, (∀ x ∈ w, isAlphaNumeric x = true) →
      isAlpha (((w ++ r).dropWhile isAlpha).headD NUL) = false ∧
      hspace (((w ++ r).dropWhile isAlpha).headD NUL) = false := by
  have hra : isAlpha (r.headD NUL) = false := by
    simp only [Lexer.isAlphaNumeric, Bool.or_eq_false_iff] at hr
    exact hr.1
  intro w
  induction w with
  | nil =>
    intro _
    rw [List.nil_append, Lexer.dropWhile_of_stop hra]
    exact ⟨hra, by unfold hspace; rw [hsp]; rfl⟩
  | cons x w ih =>
    intro hw
    by_cases hx : isAlpha x = true
    · rw [List.cons_append, List.dropWhile_cons_of_pos hx]
      exact ih (fun y hy => hw y (by simp [hy]))
    · rw [List.cons_append, List.dropWhile_cons_of_neg hx]
      simp only [List.headD_cons]
      have hxa := hw x (by simp)
      simp only [Bool.not_eq_true] at hx
      simp only [Lexer.isAlphaNumeric, hx, Bool.false_or] at hxa
      refine ⟨hx, ?_⟩
      revert hxa
      unfold Lexer.isDigit isdigit hspace isspace
      simp
      intro h1 h2 h3
      rcases h3 with h3 | h3 <;> omega

/-- A lexeme followed by neither a letter, a digit, an underscore nor white space goes
through `handleIdentifier` as a whole. -/
theorem Lexer.handleWord_lexeme {l : Lexer} {c : Char} {w r : List Char}
    (h : l.At (c :: w ++ r)) (hc : isAlpha c = true)
    (hw : ∀ x ∈ w, isAlphaNumeric x = true) (hr : isAlphaNumeric (r.headD NUL) = false)
    (hsp : isspace (r.headD NUL) = false) :
    ∃ (line column : Int) (l1 : Lexer),
      l.handleWord = (⟨(wordToken (c :: w)).1, (wordToken (c :: w)).2, line, column⟩, l1) ∧
      l1.At r := by
  obtain ⟨hstop1, hstop2⟩ := Lexer.lexeme_stop hr hsp w hw
  obtain ⟨h1, hs1, hp1⟩ := h.scan (f := isAlpha)
  obtain ⟨h2, hs2, hp2⟩ := h1.scan (f := fun c => isspace c && c != '\n')
  have hdw : (c :: w ++ r).dropWhile isAlpha = (w ++ r).dropWhile isAlpha := by
    rw [List.cons_append, List.dropWhile_cons_of_pos hc]
  rw [hdw] at h1 h2
  rw [Lexer.dropWhile_of_stop (f := fun c => isspace c && c != '\n') hstop2] at h2
  generalize hl1 : Lexer.advanceWhile isAlpha l.remaining l = l1 at *
  generalize hl2 : Lexer.advanceWhile (fun c => isspace c && c != '\n') l1.remaining l1 = l2 at *
  have hres := At.restore h (m := l2) (by rw [hs2, hs1]) l2.line l.column
  obtain ⟨line, col, l3, hid, h3⟩ := handleIdentifier_spec (w := c :: w) (r := r)
    (by simpa using hres)
    (by intro x hx
        simp only [List.mem_cons] at hx
        rcases hx with rfl | hx
        · exact alnum_of_alpha hc
        · exact hw x hx) hr
  refine ⟨line, col, l3, ?_, h3⟩
  unfold Lexer.handleWord
  have hcur := h2.cur
  simp only [hl1, hl2, hcur, hstop1]
  simpa using hid

theorem Lexer.yields_lexeme {l : Lexer} {u : List Char} {c : Char} {w r : List Char}
    (h : l.At (u ++ c :: w ++ r)) (hws : ∀ x ∈ u, isspace x = true) (hc : isAlpha c = true)
    (hw : ∀ x ∈ w, isAlphaNumeric x = true) (hr : isAlphaNumeric (r.headD NUL) = false)
    (hsp : isspace (r.headD NUL) = false) :
    Yields l (wordToken (c :: w)).1 (wordToken (c :: w)).2 r := by
  obtain ⟨p1, p2, p3⟩ := alpha_props hc
  obtain ⟨l1, h1, _, heq⟩ := nextToken_dispatch (c := c) (r := w ++ r)
    (by simpa using h) hws p1 p2
  obtain ⟨line, col, l2, hn, h2⟩ := Lexer.handleWord_lexeme (by simpa using h1) hc hw hr hsp
  refine ⟨line, col, l2, ?_, h2⟩
  rw [heq]
  simp only [p3, hc, hn]
  simp

set_option maxRecDepth 100000 in
/-- C22, counterexample: the reserved word `if` followed by the digit `1`, a character that
is neither alphabetic nor white space, is not lexed as the keyword: the token is the
identifier `if1`. Likewise `x` followed by `_` is the identifier `x_`. -/
theorem C22_word_followed_by_digit :
    ((Lexer.new "if1".toList).nextToken.toOption.map fun r => (r.1.type, r.1.value)) =
        some (.IDENTIFIER, .string "if1".toList) ∧
      ((Lexer.new "x_".toList).nextToken.toOption.map fun r => (r.1.type, r.1.value)) =
        some (.IDENTIFIER, .string "x_".toList) := by
  refine ⟨by decide!, by decide!⟩

/-- C22, amended: a lexeme `c :: w` made of a letter or underscore `c` followed by letters,
digits and underscores, and followed by the end of the input or by a character that is
neither a letter, a digit, an underscore nor white space, is one token, after which the
lexer is at the text `r` that follows: the keyword kind that `keywords` gives for a
reserved word, and otherwise `IDENTIFIER` with the lexeme as payload. -/
theorem C22_word (c : Char) (w r : List Char) (hc : isAlpha c = true)
    (hw : ∀ x ∈ w, isAlphaNumeric x = true) (hr : isAlphaNumeric (r.headD NUL) = false)
    (hsp : isspace (r.headD NUL) = false) :
    Yields (Lexer.new (c :: w ++ r)) (wordToken (c :: w)).1 (wordToken (c :: w)).2 r ∧
      (c :: w ∈ reservedWords →
        ∃ t, keywords.lookup (c :: w) = some t ∧ wordToken (c :: w) = (t, .none)) ∧
      (c :: w ∉ reservedWords → wordToken (c :: w) = (.IDENTIFIER, .string (c :: w))) := by
  refine ⟨Lexer.yields_lexeme (u := []) (by simpa using At.new (c :: w ++ r)) (by simp) hc hw
    hr hsp, ?_, ?_⟩
  · intro hm
    have hall : ∀ k ∈ reservedWords, (keywords.lookup k).isSome = true := by decide
    have := hall _ hm
    obtain ⟨t, ht⟩ := Option.isSome_iff_exists.mp this
    exact ⟨t, ht, by simp [wordToken, ht]⟩
  · intro hm
    cases hk : keywords.lookup (c :: w) with
    | none => simp [wordToken, hk]
    | some t =>
      have hall : ∀ p ∈ keywords, p.1 ∈ reservedWords := by decide
      exact absurd (hall _ (lookup_mem hk)) hm

theorem C22_word_witness :
    (isAlpha 'e' = true ∧ (∀ x ∈ "ndif".toList, isAlphaNumeric x = true) ∧
      isAlphaNumeric ("(x1)".toList.headD NUL) = false ∧
      isspace ("(x1)".toList.headD NUL) = false) ∧
    Yields (Lexer.new "endif(x1)".toList) .ENDIF .none "(x1)".toList :=
  ⟨⟨by decide, by decide, by decide, by decide⟩,
   (C22_word 'e' "ndif".toList "(x1)".toList (by decide) (by decide) (by decide)
     (by decide)).1⟩

/-! ## Two-word operators -/

theorem Lexer.countP_key {w d v : List Char} (hd : ∀ x ∈ d, isAlpha x = false) :
    d.length + 1 ≤ (w ++ d ++ [' '] ++ v).countP (fun c => !isAlpha c) := by
  have h1 : d.countP (fun c => !isAlpha c) = d.length := by
    rw [List.countP_eq_length]
    intro x hx
    simp [hd x hx]
  have h2 : [' '].countP (fun c => !isAlpha c) = 1 := by decide
  simp only [List.countP_append, h1, h2]
  omega

/-- The text looked up for two words `w` and `v` of a pair, separated by `g`: the text of
the operator when `g` is one character, and none of the keys when it is longer. -/
theorem Lexer.twoWords_lookup {w v : List Char} {t : TokenType} {g : List Char}
    (hp : (w, v, t) ∈ wordPairs) (hg : ∀ c ∈ g, c = ' ' ∨ c = '\t') :
    (g.length = 1 → naturalOperators.lookup (twoWords w g v) = some t) ∧
    (2 ≤ g.length → naturalOperators.lookup (twoWords w g v) = none) := by
  have hall : ∀ p ∈ wordPairs, p.2.1 ≠ [] ∧ (∀ x ∈ p.2.1, isAlpha x = true) ∧
      naturalOperators.lookup (p.1 ++ [' '] ++ p.2.1) = some p.2.2 := by decide
  obtain ⟨hv, hva, hl⟩ := hall _ hp
  simp only at hv hva hl
  have htw : twoWords w g v = w ++ g.dropLast ++ [' '] ++ v := by
    unfold twoWords
    exact Lexer.trimRight_word _ _ hv hva
  rw [htw]
  constructor
  · intro h1
    have : g.dropLast = [] := by
      match g, h1 with
      | [x], _ => rfl
    rw [this, List.append_nil]
    exact hl
  · intro h2
    cases hk : naturalOperators.lookup (w ++ g.dropLast ++ [' '] ++ v) with
    | none => rfl
    | some t1 =>
      have hm := lookup_mem hk
      have hkeys : ∀ p ∈ naturalOperators, p.1.countP (fun c => !isAlpha c) ≤ 1 := by decide
      have h3 := hkeys _ hm
      have h4 := Lexer.countP_key (w := w) (d := g.dropLast) (v := v) (by
        intro x hx
        rcases hg x (List.mem_of_mem_dropLast hx) with rfl | rfl <;> decide)
      simp only [List.length_dropLast] at h4
      simp only at h3
      omega

/-- C23 (code defect): of the two words of a pair separated by spaces and tabs,
`nextToken()` makes the operator token (and then `END_OF_FILE`) only when the separator is
one character; with two or more, the first token is the identifier of the first word and
the next the identifier of the second: `handleWord` takes as first word the text up to the
second word less one character (`tempPos - startPos - 1`), so the text it looks up keeps
the rest of the separator. -/
theorem C23_separator (w v : List Char) (t : TokenType) (g : List Char)
    (hp : (w, v, t) ∈ wordPairs) (hg : ∀ c ∈ g, c = ' ' ∨ c = '\t') :
    (g.length = 1 →
      ∃ (line column : Int) (l1 : Lexer),
        (Lexer.new (w ++ g ++ v)).nextToken = .ok (⟨t, .none, line, column⟩, l1) ∧
        Yields l1 .END_OF_FILE .none []) ∧
    (2 ≤ g.length →
      ∃ (line column : Int) (l1 : Lexer),
        (Lexer.new (w ++ g ++ v)).nextToken =
          .ok (⟨.IDENTIFIER, .string w, line, column⟩, l1) ∧
        Yields l1 .IDENTIFIER (.string v) []) := by
  have hall : ∀ p ∈ wordPairs, p.1 ≠ [] ∧ (∀ x ∈ p.1, isAlpha x = true) ∧ p.2.1 ≠ [] ∧
      (∀ x ∈ p.2.1, isAlpha x = true) ∧ wordToken p.1 = (.IDENTIFIER, .string p.1) ∧
      wordToken p.2.1 = (.IDENTIFIER, .string p.2.1) := by decide
  obtain ⟨hw, hwa, hv, hva, hwt, hvt⟩ := hall _ hp
  simp only at hw hwa hv hva hwt hvt
  have hsp : ∀ x ∈ g, hspace x = true := by
    intro x hx
    rcases hg x hx with rfl | rfl <;> decide
  have hat : (Lexer.new (w ++ g ++ v)).At ([] ++ w ++ g ++ v ++ []) := by
    simpa using At.new (w ++ g ++ v)
  obtain ⟨hit, miss⟩ := Lexer.twoWords_lookup hp hg
  constructor
  · intro h1
    have hne : g ≠ [] := by intro e; rw [e] at h1; simp at h1
    obtain ⟨line, col, l1, hn, h1at⟩ := yields_two_hit (u := []) (r := []) hat (by simp) hw hwa
      hsp hne hva hv (by decide) (hit h1)
    exact ⟨line, col, l1, hn, yields_eof (u := []) h1at (by simp)⟩
  · intro h2
    have hne : g ≠ [] := by intro e; rw [e] at h2; simp at h2
    obtain ⟨line, col, l1, hn, h1at⟩ := yields_two_miss (u := []) (r := []) hat (by simp) hw hwa
      hsp hne hva hv (by decide) (miss h2)
    rw [hwt] at hn
    refine ⟨line, col, l1, hn, ?_⟩
    have := yields_word (l := l1) (u := g) (w := v) (g := []) (r := [])
      (by simpa using h1at) (fun x hx => (hspace_props (hsp x hx)).2.2) hv hva (by simp)
      (by decide) (by decide) (by intro _; decide)
    rw [hvt] at this
    simpa using this

theorem C23_separator_witness :
    (("greater".toList, "than".toList, TokenType.GREATER_THAN) ∈ wordPairs ∧
      (∀ c ∈ "  ".toList, c = ' ' ∨ c = '\t') ∧ 2 ≤ "  ".toList.length) ∧
    ∃ (line column : Int) (l1 : Lexer),
      (Lexer.new ("greater".toList ++ "  ".toList ++ "than".toList)).nextToken =
        .ok (⟨.IDENTIFIER, .string "greater".toList, line, column⟩, l1) ∧
      Yields l1 .IDENTIFIER (.string "than".toList) [] :=
  ⟨⟨by decide, by decide, by decide⟩,
   (C23_separator "greater".toList "than".toList .GREATER_THAN "  ".toList (by decide)
     (by decide)).2 (by decide)⟩

/-! ## String literals -/

/-- C28: for a text `s` without a double quote, the source `"s"` is one `STRING` token
whose payload is `s`, character for character, followed by `END_OF_FILE`; and the source
`"s` without the closing quote is an `ERROR` token (`Unterminated string`). -/
theorem C28_string (s : List Char) (hs : ∀ x ∈ s, x ≠ QUOTE) :
    (∃ (line column : Int) (l1 : Lexer),
        (Lexer.new (QUOTE :: s ++ [QUOTE])).nextToken =
          .ok (⟨.STRING, .string s, line, column⟩, l1) ∧
        Yields l1 .END_OF_FILE .none []) ∧
    (∃ (line column : Int) (l1 : Lexer),
        (Lexer.new (QUOTE :: s)).nextToken =
          .ok (⟨.ERROR, .string "Unterminated string".toList, line, column⟩, l1)) := by
  constructor
  · obtain ⟨line, col, l1, hn, h1⟩ := yields_string (u := []) (s := s) (r := [])
      (by simpa using At.new (QUOTE :: s ++ [QUOTE])) (by simp) hs
    exact ⟨line, col, l1, hn, yields_eof (u := []) h1 (by simp)⟩
  · obtain ⟨l1, h1, hs1, heq⟩ := nextToken_dispatch (u := []) (c := QUOTE) (r := s)
      (by simpa using At.new (QUOTE :: s)) (by simp) (by decide) (by decide)
    obtain ⟨h2, hs2, hp2⟩ := At.advance h1
    obtain ⟨h3, hs3, hp3⟩ := h2.scan (f := fun c => c != QUOTE)
    have hdrop : s.dropWhile (fun c => c != QUOTE) = [] := by
      rw [List.dropWhile_eq_nil_iff]
      intro x hx
      simpa using hs x hx
    rw [hdrop] at h3
    have hend := h3.isAtEnd
    simp only [List.isEmpty_nil] at hend
    generalize hl3 :
      Lexer.advanceWhile (fun c => c != QUOTE) l1.advance.remaining l1.advance = l3 at *
    refine ⟨l3.line, l3.column, l3, ?_⟩
    rw [heq]
    have e1 : isDigit QUOTE = false := by decide
    have e2 : isAlpha QUOTE = false := by decide
    simp only [e1, e2, Bool.false_eq_true, if_false, if_true]
    unfold Lexer.handleString
    simp only [hl3, hend, if_true, Lexer.makeTokenWith]

theorem C28_string_witness :
    (∀ x ∈ "a\\n#b\nc".toList, x ≠ QUOTE) ∧
    ∃ (line column : Int) (l1 : Lexer),
      (Lexer.new (QUOTE :: "a\\n#b\nc".toList ++ [QUOTE])).nextToken =
        .ok (⟨.STRING, .string "a\\n#b\nc".toList, line, column⟩, l1) ∧
      Yields l1 .END_OF_FILE .none [] :=
  ⟨by decide, (C28_string "a\\n#b\nc".toList (by decide)).1⟩

/-! ## Integer literals outside the range of `int` -/

theorem Lexer.handleNumber_error {l : Lexer} {e : Exc} (h : l.handleNumber = .error e) :
    e = .outOfRange "stoi".toList ∨ e = .outOfRange "stod".toList := by
  unfold Lexer.handleNumber at h
  simp only at h
  split at h
  · split at h
    · cases h
    · cases h; exact Or.inr rfl
  · split at h
    · cases h
    · rename_i e1 he
      cases h
      unfold Lexer.stoi at he
      split at he
      · cases he
      · cases he; exact Or.inl rfl

/-- The only exceptions that leave `nextToken()` are those of `std::stoi` and `std::stod`. -/
theorem Lexer.nextTokenAux_error (n : Nat) :
    ∀ (l : Lexer) (e : Exc), Lexer.nextTokenAux n l = .error e →
      e = .outOfRange "stoi".toList ∨ e = .outOfRange "stod".toList := by
  induction n with
  | zero =>
    intro l e h
    unfold Lexer.nextTokenAux at h
    cases h
  | succ n ih =>
    intro l e h
    unfold Lexer.nextTokenAux at h
    simp only at h
    split at h
    · cases h
    · split at h
      · exact ih _ _ h
      · split at h
        · exact Lexer.handleNumber_error h
        · split at h
          · cases h
          · split at h <;> cases h

set_option maxRecDepth 100000 in
/-- C27 (code defect): on `99999999999` the call `nextToken()` returns no token: `std::stoi`
throws `std::out_of_range`, which `handleNumber` does not catch, and the run of the file
ends with `Error: stoi` and status 1. The exceptions of `std::stoi` and `std::stod` are the
only ones that leave `nextToken()`. -/
theorem C27_nextToken_throws :
    (Lexer.new "99999999999".toList).nextToken = .error (.outOfRange "stoi".toList) ∧
      runFile 1000 "99999999999".toList [] =
        { cout := [], cerr := "Error: stoi\n".toList, outcome := .exit 1 } ∧
      ∀ (source : List Char) (e : Exc), (Lexer.new source).nextToken = .error e →
        e = .outOfRange "stoi".toList ∨ e = .outOfRange "stod".toList := by
  refine ⟨by rfl, by decide!, ?_⟩
  intro source e h
  exact Lexer.nextTokenAux_error _ _ _ h

/-! ## The result of `parse` -/

theorem Parser.programLoop_node (fuel : Nat) :
    ∀ (statements : List ASTNode) (p : Parser) (prog : ASTNode) (p1 : Parser),
      Parser.programLoop fuel statements p = .ok (prog, p1) →
        ∃ s, prog = .Program s := by
  induction fuel with
  | zero =>
    intro statements p prog p1 h
    rw [Parser.programLoop] at h
    cases h
  | succ fuel ih =>
    intro statements p prog p1 h
    rw [Parser.programLoop] at h
    split at h
    · cases hs : Parser.statement fuel p with
      | error e => simp [hs, bind, Except.bind] at h
      | ok r =>
        obtain ⟨s, p2⟩ := r
        simp only [hs, bind, Except.bind] at h
        exact ih _ _ _ _ h
    · simp only [Except.ok.injEq, Prod.mk.injEq] at h
      exact ⟨statements, h.1.symm⟩

set_option maxRecDepth 100000 in
/-- C31 (code defect): on `function f() endfunction` the call `parse()` returns no program:
`functionDeclaration` reads the name from the token after the identifier, the `(`, and the
`std::runtime_error` of `getStringValue` is not a `ParseError`, so it leaves `parse` and the
run ends with status 1. An integer literal outside the range of `int` leaves `parse` with
the exception of `std::stoi`. Whenever `parse` does return, it returns a `Program` node; and
when `program` ends in a `ParseError`, `parse` prints it and, once `synchronize` returns,
returns the program without statements, so that `shownl 1 shownl )` writes nothing. -/
theorem C31_parse_propagates :
    (parseSource 1000 "function f() endfunction".toList).toOption.isNone = true ∧
      runFile 1000 "function f() endfunction".toList [] =
        { cout := [], cerr := "Error: Token does not contain a string value\n".toList,
          outcome := .exit 1 } ∧
      (parseSource 1000 "shownl 1 shownl 99999999999".toList).toOption.isNone = true ∧
      (∀ (fuel : Nat) (p : Parser) (prog : ASTNode) (cerr : List Char),
        p.parse fuel = .ok (prog, cerr) →
          ∃ statements, prog = .Program statements ∧ (cerr ≠ [] → statements = [])) ∧
      (∀ (fuel : Nat) (p p1 p2 : Parser) (msg : List Char),
        Parser.program fuel p = .error (.parseError msg, p1) →
        Parser.synchronize fuel p1 = .ok ((), p2) →
          p.parse fuel = .ok (.Program [], msg ++ ['\n'])) ∧
      runFile 1000 "shownl 1 shownl )".toList [] =
        { cout := [],
          cerr := "Error at line 1, column 17: Expect expression, got token type 32\n".toList,
          outcome := .exit 0 } := by
  refine ⟨by decide!, by decide!, by decide!, ?_, ?_, by decide!⟩
  · intro fuel p prog cerr h
    unfold Parser.parse at h
    split at h
    · rename_i prog1 p1 hp
      simp only [Except.ok.injEq, Prod.mk.injEq] at h
      obtain ⟨s, hs⟩ := Parser.programLoop_node fuel [] p prog1 p1 hp
      exact ⟨s, by rw [← h.1, hs], fun hne => absurd h.2.symm hne⟩
    · split at h
      · simp only [Except.ok.injEq, Prod.mk.injEq] at h
        exact ⟨[], h.1.symm, fun _ => rfl⟩
      · cases h
    · cases h
  · intro fuel p p1 p2 msg hp hs
    unfold Parser.parse
    rw [hp]
    simp only [hs]

/-! ## Logical operators -/

set_option maxRecDepth 100000 in
/-- C33: `BinaryOp(AND, l, r)` and `BinaryOp(OR, l, r)` evaluate `l` and then, in the state
`l` leaves, `r`, whatever the value of `l`: an exception of `r` is the outcome of the node,
the effects of `r` stay, and when both return the result is the boolean
`isTruthy(l) && isTruthy(r)`, respectively `isTruthy(l) || isTruthy(r)`. The run of
`0 and (1 / 0)` ends with `Division by zero`, and `1 or (x = 5)` binds `x`. -/
theorem C33_no_short_circuit (fuel : Nat) (ref : InterpreterRef) (l r : ASTNode)
    (w w1 : World) (lv : Value) (hl : evaluate fuel ref l w = (.ok lv, w1)) :
    (∀ (e : Exc) (w2 : World), evaluate fuel ref r w1 = (.error e, w2) →
        evaluate (fuel + 1) ref (.BinaryOp .AND l r) w = (.error e, w2) ∧
        evaluate (fuel + 1) ref (.BinaryOp .OR l r) w = (.error e, w2)) ∧
      (∀ (rv : Value) (w2 : World), evaluate fuel ref r w1 = (.ok rv, w2) →
        evaluate (fuel + 1) ref (.BinaryOp .AND l r) w =
          (.ok (.boolean (lv.isTruthy && rv.isTruthy)), w2) ∧
        evaluate (fuel + 1) ref (.BinaryOp .OR l r) w =
          (.ok (.boolean (lv.isTruthy || rv.isTruthy)), w2)) ∧
      runFile 1000 "0 and (1 / 0)".toList [] =
        { cout := [], cerr := "Error: Division by zero\n".toList, outcome := .exit 1 } ∧
      runFile 1000 "1 or (x = 5) shownl x".toList [] =
        { cout := "5\n".toList, cerr := [], outcome := .exit 0 } := by
  refine ⟨?_, ?_, by decide!, by decide!⟩
  · intro e w2 hr
    constructor <;> (rw [evaluate]; simp only [hl, hr])
  · intro rv w2 hr
    constructor <;> (rw [evaluate]; simp only [hl, hr, applyBinary])

set_option maxRecDepth 100000 in
theorem C33_no_short_circuit_witness :
    evaluate 5 .interpreter (.Literal (.int 0)) (World.new []) =
        (.ok (.integer 0), World.new []) ∧
      evaluate 6 .interpreter
          (.BinaryOp .AND (.Literal (.int 0))
            (.BinaryOp .DIV (.Literal (.int 1)) (.Literal (.int 0)))) (World.new []) =
        (.error (.runtimeError "Division by zero".toList), World.new []) :=
  ⟨by rfl,
   ((C33_no_short_circuit 5 .interpreter (.Literal (.int 0))
      (.BinaryOp .DIV (.Literal (.int 1)) (.Literal (.int 0))) (World.new []) (World.new [])
      (.integer 0) (by rfl)).1 (.runtimeError "Division by zero".toList) (World.new [])
      (by rfl)).1⟩

/-! ## The current environment after an evaluation -/

set_option maxRecDepth 100000 in
/-- C32: whatever the node and the state, and however the evaluation ends (with a value,
with a runtime error or with a return signal; also where the model stops), the interpreter
object is afterwards as before: its current environment is the one from before the
evaluation. A `for` loop runs its header and body in a new environment, whose enclosing
environment is the current one, and puts the current one back: the loop
`for i = 0; i < 1; i = i + 1 shownl i endfor`, which ends with a value, and the loops
`for i = 0; true; 0` with the bodies `y` (an undefined variable) and `return i` all leave
environment 0 current; after the last one `i` is bound in the new environment 1 and not in
environment 0. -/
theorem C32_environment_restored (fuel : Nat) (ref : InterpreterRef) (node : ASTNode)
    (w : World) :
    (evaluate fuel ref node w).2.interpreter.environment = w.interpreter.environment ∧
      ((evaluate 50 .interpreter scopeLoop (World.new [])).1 = .ok (.integer 0) ∧
        (evaluate 50 .interpreter scopeLoop (World.new [])).2.interpreter.environment = 0) ∧
      ((evaluate 50 .interpreter (foreverLoop (.Variable ['y'])) (World.new [])).1 =
          .error (undefinedVariable ['y']) ∧
        (evaluate 50 .interpreter (foreverLoop (.Variable ['y']))
          (World.new [])).2.interpreter.environment = 0) ∧
      ((evaluate 50 .interpreter (foreverLoop (.Return (.Variable ['i']))) (World.new [])).1 =
          .error (.returnValue (.integer 0)) ∧
        (evaluate 50 .interpreter (foreverLoop (.Return (.Variable ['i'])))
          (World.new [])).2.interpreter.environment = 0 ∧
        Environment.«exists» (evaluate 50 .interpreter (foreverLoop (.Return (.Variable ['i'])))
          (World.new [])).2.environments 1 ['i'] = true ∧
        Environment.«exists» (evaluate 50 .interpreter (foreverLoop (.Return (.Variable ['i'])))
          (World.new [])).2.environments 0 ['i'] = false) := by
  refine ⟨?_, ⟨by rfl, by rfl⟩, ⟨by rfl, by rfl⟩, ⟨by rfl, by rfl, by decide!, by decide!⟩⟩
  rw [((frame_all fuel).1 ref node w).1]

/-! ## Return signals -/

set_option maxRecDepth 100000 in
/-- C34: `Return(e)` ends with the return signal that carries the value of `e`; and where
the evaluation of a statement `s` ends with a return signal, so does, with the same value,
the evaluation of a `Block` or `Program` in which `s` is reached, of an assignment of `s`,
of an `If` with `s` as condition or as the branch taken, of a `While` loop whose condition
or body is `s`, and of a `For` loop in which the loop reaches `s` (the loop's environment
is left first). The program of the statements `shownl 1`, `return 7`, `shownl 2` writes `1` and ends with
the return signal carrying 7, which `runFile` reports as `Error: Return value`, as does the
run of the source `shownl 1 return 7 shownl 2`; a `return x`
inside `if`, `while` and `for` ends the program in the same way. -/
theorem C34_return_propagates (fuel : Nat) (ref : InterpreterRef) (s : ASTNode)
    (w w1 : World) (v : Value) (h : evaluate fuel ref s w = (.error (.returnValue v), w1)) :
    (∀ (e : ASTNode) (w0 : World) (x : Value), evaluate fuel ref e w0 = (.ok x, w) →
        evaluate (fuel + 1) ref (.Return e) w0 = (.error (.returnValue x), w)) ∧
      (∀ (rest : List ASTNode) (r : Value),
        evaluateEach (fuel + 1) ref (s :: rest) r w = (.error (.returnValue v), w1) ∧
        evaluate (fuel + 2) ref (.Block (s :: rest)) w = (.error (.returnValue v), w1) ∧
        evaluate (fuel + 2) ref (.Program (s :: rest)) w = (.error (.returnValue v), w1)) ∧
      (∀ (first : ASTNode) (rest : List ASTNode) (r x : Value) (w0 : World),
        evaluate (fuel + 1) ref first w0 = (.ok x, w) →
        evaluateEach (fuel + 1) ref (s :: rest) x w = (.error (.returnValue v), w1) →
          evaluateEach (fuel + 2) ref (first :: s :: rest) r w0 =
            (.error (.returnValue v), w1)) ∧
      (∀ name : List Char,
        evaluate (fuel + 1) ref (.Assignment name s) w = (.error (.returnValue v), w1)) ∧
      (∀ (t : ASTNode) (e : Option ASTNode),
        evaluate (fuel + 1) ref (.If s t e) w = (.error (.returnValue v), w1)) ∧
      (∀ (c t : ASTNode) (e : Option ASTNode) (w0 : World) (x : Value),
        evaluate fuel ref c w0 = (.ok x, w) →
          (x.isTruthy = true →
            evaluate (fuel + 1) ref (.If c s e) w0 = (.error (.returnValue v), w1)) ∧
          (x.isTruthy = false →
            evaluate (fuel + 1) ref (.If c t (some s)) w0 = (.error (.returnValue v), w1))) ∧
      (∀ (b : ASTNode) (r : Value),
        whileLoop (fuel + 1) ref s b r w = (.error (.returnValue v), w1) ∧
        evaluate (fuel + 2) ref (.While s b) w = (.error (.returnValue v), w1)) ∧
      (∀ (c : ASTNode) (r x : Value) (w0 : World), evaluate fuel ref c w0 = (.ok x, w) →
        x.isTruthy = true →
          whileLoop (fuel + 1) ref c s r w0 = (.error (.returnValue v), w1) ∧
          evaluate (fuel + 2) ref (.While c s) w0 = (.error (.returnValue v), w1)) ∧
      (∀ (c n : ASTNode) (r x : Value) (w0 : World), evaluate fuel ref c w0 = (.ok x, w) →
        x.isTruthy = true →
          forLoop (fuel + 1) ref c n s r w0 = (.error (.returnValue v), w1)) ∧
      (∀ (i c n b : ASTNode) (x : Value) (w0 w3 w4 : World),
        evaluate fuel .interpreter i
            ((w0.newEnvironment (some w0.interpreter.environment)).1.setEnvironment
              (w0.newEnvironment (some w0.interpreter.environment)).2) = (.ok x, w3) →
        forLoop fuel .interpreter c n b .nil w3 = (.error (.returnValue v), w4) →
          evaluate (fuel + 1) .interpreter (.For i c n b) w0 =
            (.error (.returnValue v), w4.setEnvironment w0.interpreter.environment)) ∧
      ((evaluate 50 .interpreter returnProgram (World.new [])).1 =
          .error (.returnValue (.integer 7)) ∧
        runProgram 1000 returnProgram [] =
          { cout := "1\n".toList, cerr := "Error: Return value\n".toList,
            outcome := .exit 1 } ∧
        runFile 1000 "shownl 1 return 7 shownl 2".toList [] =
          { cout := "1\n".toList, cerr := "Error: Return value\n".toList,
            outcome := .exit 1 }) ∧
      (evaluate 50 .interpreter nestedReturn (World.new [])).1 =
        .error (.returnValue (.integer 3)) ∧
      (evaluate 50 .interpreter nestedReturn (World.new [])).2.cout = [] := by
  refine ⟨?_, ?_, ?_, ?_, ?_, ?_, ?_, ?_, ?_, ?_, ⟨by rfl, by decide!, by decide!⟩, by rfl,
    by rfl⟩
  · intro e w0 x he
    rw [evaluate]; simp only [he]
  · intro rest r
    have h1 : evaluateEach (fuel + 1) ref (s :: rest) r w = (.error (.returnValue v), w1) := by
      rw [evaluateEach]; simp only [h]
    refine ⟨h1, ?_, ?_⟩
    · rw [evaluate]; exact h1
    · rw [evaluate]; exact h1
  · intro first rest r x w0 hf hs
    rw [evaluateEach]; simp only [hf, hs]
  · intro name
    rw [evaluate]; simp only [h]
  · intro t e
    rw [evaluate]; simp only [h]
  · intro c t e w0 x hc
    constructor
    · intro hx
      rw [evaluate]; simp only [hc, hx, if_true, h]
    · intro hx
      rw [evaluate]; simp only [hc, hx, Bool.false_eq_true, if_false, h]
  · intro b r
    have h1 : ∀ r, whileLoop (fuel + 1) ref s b r w = (.error (.returnValue v), w1) := by
      intro r; rw [whileLoop]; simp only [h]
    exact ⟨h1 r, by rw [evaluate]; exact h1 _⟩
  · intro c r x w0 hc hx
    have h1 : ∀ r, whileLoop (fuel + 1) ref c s r w0 = (.error (.returnValue v), w1) := by
      intro r; rw [whileLoop]; simp only [hc, hx, if_true, h]
    exact ⟨h1 r, by rw [evaluate]; exact h1 _⟩
  · intro c n r x w0 hc hx
    rw [forLoop]; simp only [hc, hx, if_true, h]
  · intro i c n b x w0 w3 w4 hi hloop
    rw [evaluate]
    simp only [World.getEnvironment, hi, hloop]

set_option maxRecDepth 100000 in
theorem C34_return_propagates_witness :
    evaluate 5 .interpreter (.Return (.Literal (.int 7))) (World.new []) =
        (.error (.returnValue (.integer 7)), World.new []) ∧
      evaluate 7 .interpreter
          (.Program [.Return (.Literal (.int 7)), .Print (.Literal (.int 2)) true])
          (World.new []) =
        (.error (.returnValue (.integer 7)), World.new []) :=
  ⟨by rfl,
   ((C34_return_propagates 5 .interpreter (.Return (.Literal (.int 7))) (World.new [])
      (World.new []) (.integer 7) (by rfl)).2.1
      [.Print (.Literal (.int 2)) true] .nil).2.2⟩

/-! ## Equality is reflexive and symmetric -/

mutual

theorem Value.eq_self_of_plain : ∀ a : Value, a.isPlain = true → Value.eq a a = true
  | .nil, _ => rfl
  | .boolean _, _ => by simp [Value.eq]
  | .integer _, _ => by simp [Value.eq]
  | .string _, _ => by simp [Value.eq]
  | .array xs, h => by
      have := Value.eqElems_self_of_plain xs (by simpa [Value.isPlain] using h)
      simp [Value.eq, this]
  | .float _, h => by simp [Value.isPlain] at h
  | .function _, h => by simp [Value.isPlain] at h

theorem Value.eqElems_self_of_plain :
    ∀ xs : List Value, Value.isPlain.allPlain xs = true → Value.eq.eqElems xs xs = true
  | [], _ => by simp [Value.eq.eqElems]
  | x :: xs, h => by
      simp only [Value.isPlain.allPlain, Bool.and_eq_true] at h
      have h1 := Value.eq_self_of_plain x h.1
      have h2 := Value.eqElems_self_of_plain xs h.2
      simp [Value.eq.eqElems, h1, h2]

end

mutual

theorem Value.eq_comm_of_plain :
    ∀ a b : Value, a.isPlain = true → b.isPlain = true → Value.eq a b = Value.eq b a
  | .array xs, .array ys, ha, hb => by
      have := Value.eqElems_comm_of_plain xs ys (by simpa [Value.isPlain] using ha)
        (by simpa [Value.isPlain] using hb)
      simp only [Value.eq, this]
      rw [Bool.eq_iff_iff]
      simp only [Bool.and_eq_true, beq_iff_eq]
      constructor <;> exact fun h => ⟨h.1.symm, h.2⟩
  | .nil, b, _, hb => by cases b <;> simp [Value.eq, Value.isPlain] at hb ⊢
  | .boolean x, b, _, hb => by
      cases b <;> simp [Value.eq, Value.isPlain] at hb ⊢
      exact eq_comm
  | .integer x, b, _, hb => by
      cases b <;> simp [Value.eq, Value.isPlain] at hb ⊢
      exact eq_comm
  | .string x, b, _, hb => by
      cases b <;> simp [Value.eq, Value.isPlain] at hb ⊢
      exact eq_comm
  | .array xs, .nil, _, _ => by simp [Value.eq]
  | .array xs, .boolean _, _, _ => by simp [Value.eq]
  | .array xs, .integer _, _, _ => by simp [Value.eq]
  | .array xs, .string _, _, _ => by simp [Value.eq]
  | .array xs, .float _, _, hb => by simp [Value.isPlain] at hb
  | .array xs, .function _, _, hb => by simp [Value.isPlain] at hb
  | .float _, _, ha, _ => by simp [Value.isPlain] at ha
  | .function _, _, ha, _ => by simp [Value.isPlain] at ha

theorem Value.eqElems_comm_of_plain :
    ∀ xs ys : List Value, Value.isPlain.allPlain xs = true →
      Value.isPlain.allPlain ys = true → Value.eq.eqElems xs ys = Value.eq.eqElems ys xs
  | [], [], _, _ => rfl
  | [], _ :: _, _, _ => by simp [Value.eq.eqElems]
  | _ :: _, [], _, _ => by simp [Value.eq.eqElems]
  | x :: xs, y :: ys, hx, hy => by
      simp only [Value.isPlain.allPlain, Bool.and_eq_true] at hx hy
      have h1 := Value.eq_comm_of_plain x y hx.1 hy.1
      have h2 := Value.eqElems_comm_of_plain xs ys hx.2 hy.2
      simp only [Value.eq.eqElems, h1, h2]

end

/-- C37: on values built from nil, booleans, integers, strings and arrays of such values,
nested to any depth, `a == a` is true and `a == b` is the boolean `b == a`. -/
theorem C37_equality_reflexive_symmetric (a b : Value) (ha : a.isPlain = true)
    (hb : b.isPlain = true) :
    Value.eq a a = true ∧ Value.eq a b = Value.eq b a :=
  ⟨Value.eq_self_of_plain a ha, Value.eq_comm_of_plain a b ha hb⟩

theorem C37_equality_reflexive_symmetric_witness :
    ((Value.array [.integer 1, .array [.string ['a'], .nil]]).isPlain = true ∧
      (Value.array [.integer 1, .array [.string ['a'], .boolean true]]).isPlain = true) ∧
    Value.eq (.array [.integer 1, .array [.string ['a'], .nil]])
        (.array [.integer 1, .array [.string ['a'], .nil]]) = true ∧
      Value.eq (.array [.integer 1, .array [.string ['a'], .nil]])
          (.array [.integer 1, .array [.string ['a'], .boolean true]]) =
        Value.eq (.array [.integer 1, .array [.string ['a'], .boolean true]])
          (.array [.integer 1, .array [.string ['a'], .nil]]) :=
  ⟨⟨by rfl, by rfl⟩,
   C37_equality_reflexive_symmetric (.array [.integer 1, .array [.string ['a'], .nil]])
     (.array [.integer 1, .array [.string ['a'], .boolean true]]) (by rfl) (by rfl)⟩

/-! ## The derived ordering operators -/

/-- On strings, `b < a` holds exactly when neither `a < b` nor `a = b`. -/
theorem strLt_flip (a : List Char) :
    ∀ b : List Char, Value.strLt b a = (!(Value.strLt a b) && !(a == b)) := by
  induction a with
  | nil =>
    intro b
    cases b <;> simp [Value.strLt]
  | cons x xs ih =>
    intro b
    cases b with
    | nil => simp [Value.strLt]
    | cons y ys =>
      rw [Value.strLt, Value.strLt]
      rcases lt_trichotomy x y with h | h | h
      · have h2 : ¬ y < x := not_lt.2 (le_of_lt h)
        have h3 : x ≠ y := ne_of_lt h
        simp [h, h2, h3]
      · subst h
        have h2 : ¬ x < x := lt_irrefl x
        simp [h2, ih ys]
      · have h2 : ¬ x < y := not_lt.2 (le_of_lt h)
        have h3 : x ≠ y := ne_of_gt h
        simp [h, h2, h3]

/-- C38: for two integers and for two strings, `a > b` is the boolean `b < a` and `a >= b`
the boolean `b <= a`, and exactly one of `a < b`, `a == b`, `a > b` is true. On integers
`<` is the order of the integers, on strings the one of `std::string`. -/
theorem C38_derived_ordering :
    (∀ a b : Int,
        Value.gt (.integer a) (.integer b) = Value.lt (.integer b) (.integer a) ∧
        Value.ge (.integer a) (.integer b) = Value.le (.integer b) (.integer a) ∧
        Value.lt (.integer a) (.integer b) = .ok (decide (a < b)) ∧
        Value.gt (.integer a) (.integer b) = .ok (decide (b < a)) ∧
        exactlyOne (decide (a < b)) (Value.eq (.integer a) (.integer b)) (decide (b < a))) ∧
      (∀ a b : List Char,
        Value.gt (.string a) (.string b) = Value.lt (.string b) (.string a) ∧
        Value.ge (.string a) (.string b) = Value.le (.string b) (.string a) ∧
        Value.lt (.string a) (.string b) = .ok (Value.strLt a b) ∧
        Value.gt (.string a) (.string b) = .ok (Value.strLt b a) ∧
        exactlyOne (Value.strLt a b) (Value.eq (.string a) (.string b))
          (Value.strLt b a)) := by
  constructor
  · intro a b
    have hlt : ∀ x y : Int, Value.lt (.integer x) (.integer y) = .ok (decide (x < y)) := by
      intro x y
      simp [Value.lt, Value.isNumber, Value.isInteger, Value.asFloat, Double.lt_ofInt]
    have heq : ∀ x y : Int, Value.eq (.integer x) (.integer y) = decide (x = y) := by
      intro x y
      simp only [Value.eq]
      rw [Bool.eq_iff_iff]
      simp
    have hgt : Value.gt (.integer a) (.integer b) = .ok (decide (b < a)) := by
      simp only [Value.gt, Value.le, hlt, heq, bind_ok_eq]
      congr 1
      rw [Bool.eq_iff_iff]
      simp only [Bool.not_eq_true', Bool.or_eq_false_iff, decide_eq_false_iff_not,
        decide_eq_true_eq]
      omega
    refine ⟨by rw [hgt, hlt], ?_, hlt a b, hgt, ?_⟩
    · simp only [Value.ge, Value.le, hlt, heq, bind_ok_eq]
      congr 1
      rw [Bool.eq_iff_iff]
      simp only [Bool.not_eq_true', decide_eq_false_iff_not, Bool.or_eq_true,
        decide_eq_true_eq]
      omega
    · rw [heq]
      unfold exactlyOne
      simp only [decide_eq_true_eq, decide_eq_false_iff_not]
      omega
  · intro a b
    have hlt : ∀ x y : List Char, Value.lt (.string x) (.string y) = .ok (Value.strLt x y) := by
      intro x y
      simp [Value.lt, Value.isNumber, Value.isInteger, Value.isFloat, Value.isString,
        Value.asString]
    have heq : ∀ x y : List Char, Value.eq (.string x) (.string y) = (x == y) := by
      intro x y
      simp [Value.eq]
    have hflip := strLt_flip a b
    have hflip2 := strLt_flip b a
    have hgt : Value.gt (.string a) (.string b) = .ok (Value.strLt b a) := by
      simp only [Value.gt, Value.le, hlt, heq, bind_ok_eq]
      congr 1
      rw [hflip]
      cases Value.strLt a b <;> cases (a == b) <;> rfl
    refine ⟨by rw [hgt, hlt], ?_, hlt a b, hgt, ?_⟩
    · simp only [Value.ge, Value.le, hlt, heq, bind_ok_eq]
      congr 1
      rw [hflip]
      have hc : (b == a) = (a == b) := by
        rw [Bool.eq_iff_iff]
        simp only [beq_iff_eq]
        exact eq_comm
      rw [hc]
      by_cases hab : a = b
      · subst hab
        have : Value.strLt a a = false := by
          have := strLt_flip a a
          cases h : Value.strLt a a
          · rfl
          · rw [h] at this; simp at this
        simp [this]
      · have : (a == b) = false := by simpa using hab
        rw [this]
        cases Value.strLt a b <;> rfl
    · rw [heq, hflip]
      unfold exactlyOne
      by_cases hab : a = b
      · subst hab
        have : Value.strLt a a = false := by
          have := strLt_flip a a
          cases h : Value.strLt a a
          · rfl
          · rw [h] at this; simp at this
        simp [this]
      · have hne : (a == b) = false := by simpa using hab
        rw [hne]
        cases Value.strLt a b <;> simp

/-! ## Division and remainder -/

theorem natAbs_tmod_lt (a : Int) {b : Int} (hb : b ≠ 0) :
    (Int.tmod a b).natAbs < b.natAbs := by
  have hpos : 0 < b.natAbs := Int.natAbs_pos.2 hb
  have key : (Int.tmod a b).natAbs = a.natAbs % b.natAbs := by
    cases a <;> cases b <;> simp [Int.tmod, Int.natAbs_neg] <;> norm_cast
  rw [key]
  exact Nat.mod_lt _ hpos

/-- C39: for an integer `a` in the range of `int` and an integer `b`, `b` not 0 and not
`a = INT_MIN` with `b = -1`: `a / b` is the quotient truncated toward zero (its absolute value is
`|a| / |b|` rounded down), `a % b` is 0 or has the sign of `a`, `|a % b| < |b|`, no
operation of `(a / b) * b + (a % b)` overflows and the sum is `a`, so that
`(a / b) * b + (a % b) == a` evaluates to true. -/
theorem C39_division_consistent (a b : Int) (ha : INT_MIN ≤ a ∧ a ≤ INT_MAX)
    (hb0 : b ≠ 0) (hmin : ¬ (a = INT_MIN ∧ b = -1)) :
    Value.div (.integer a) (.integer b) = .ok (.integer (Int.tdiv a b)) ∧
      Value.mod (.integer a) (.integer b) = .ok (.integer (Int.tmod a b)) ∧
      (Int.tdiv a b).natAbs = a.natAbs / b.natAbs ∧
      (Int.tmod a b = 0 ∨ (0 < Int.tmod a b ∧ 0 < a) ∨ (Int.tmod a b < 0 ∧ a < 0)) ∧
      (Int.tmod a b).natAbs < b.natAbs ∧
      Value.mul (.integer (Int.tdiv a b)) (.integer b) = .ok (.integer (Int.tdiv a b * b)) ∧
      Value.add (.integer (Int.tdiv a b * b)) (.integer (Int.tmod a b)) = .ok (.integer a) ∧
      ∀ (fuel : Nat) (ref : InterpreterRef) (w : World),
        evaluate (fuel + 5) ref (divModIdentity a b) w = (.ok (.boolean true), w) := by
  have hq := tdiv_range (y := b) ha.1 ha.2 hmin
  have hr := tmod_range (y := b) ha.1 ha.2
  have hsum : Int.tdiv a b * b + Int.tmod a b = a := Int.tdiv_add_tmod' a b
  have hbd := tmod_bounds a b
  have hprod : INT_MIN ≤ Int.tdiv a b * b ∧ Int.tdiv a b * b ≤ INT_MAX := by
    have e : Int.tdiv a b * b = a - Int.tmod a b := by omega
    rw [e]
    unfold INT_MIN INT_MAX at *
    rcases le_total 0 a with h0 | h0
    · have := hbd.1 h0
      omega
    · have := hbd.2 h0
      omega
  have hdiv : Value.div (.integer a) (.integer b) = .ok (.integer (Int.tdiv a b)) := by
    simp [Value.div, Value.isNumber, Value.isInteger, Value.isFloat, Value.asInteger,
      Value.asFloat, hb0, hmin, bind, Except.bind, wrapInt_of_range hq.1 hq.2]
  have hmod : Value.mod (.integer a) (.integer b) = .ok (.integer (Int.tmod a b)) := by
    simp [Value.mod, Value.isInteger, Value.asInteger, hb0, hmin, bind, Except.bind,
      wrapInt_of_range hr.1 hr.2]
  have hmul : Value.mul (.integer (Int.tdiv a b)) (.integer b) =
      .ok (.integer (Int.tdiv a b * b)) := by
    simp [Value.mul, Value.isNumber, Value.isInteger, Value.isFloat, Value.asInteger,
      bind, Except.bind, wrapInt_of_range hprod.1 hprod.2]
  have hadd : Value.add (.integer (Int.tdiv a b * b)) (.integer (Int.tmod a b)) =
      .ok (.integer a) := by
    simp [Value.add, Value.isString, Value.isNumber, Value.isInteger, Value.isFloat,
      Value.asInteger, bind, Except.bind, hsum, wrapInt_of_range ha.1 ha.2]
  refine ⟨hdiv, hmod, ?_, ?_, natAbs_tmod_lt a hb0, hmul, hadd, ?_⟩
  · rw [Int.natAbs_tdiv]; rfl
  · rcases lt_trichotomy a 0 with h0 | h0 | h0
    · have := hbd.2 (le_of_lt h0)
      omega
    · subst h0
      have := hbd.1 (le_refl 0)
      omega
    · have := hbd.1 (le_of_lt h0)
      omega
  · intro fuel ref w
    unfold divModIdentity
    repeat
      ((first | rw [evaluate]);
       (try simp only [LiteralValue.toValue, applyBinary, hdiv, hmod, hmul, hadd]))
    simp [Value.eq]

theorem C39_division_consistent_witness :
    ((INT_MIN ≤ (-7 : Int) ∧ (-7 : Int) ≤ INT_MAX) ∧ (2 : Int) ≠ 0 ∧
      ¬ ((-7 : Int) = INT_MIN ∧ (2 : Int) = -1)) ∧
    Value.div (.integer (-7)) (.integer 2) = .ok (.integer (Int.tdiv (-7) 2)) ∧
      Int.tdiv (-7) 2 = -3 ∧ Int.tmod (-7) 2 = -1 :=
  ⟨⟨by decide, by decide, by decide⟩,
   (C39_division_consistent (-7) 2 (by decide) (by decide) (by decide)).1,
   by decide, by decide⟩

/-! ## Operators of equal precedence -/

theorem execute_of_parseSource {fuel : Nat} {source : List Char} {prog : ASTNode}
    {cerr : List Char} (h : parseSource fuel source = .ok (prog, cerr))
    (cin : List (List Char)) :
    execute fuel source cin = executeProgram fuel prog cerr cin := by
  unfold parseSource at h
  unfold execute
  cases hp : Parser.new (Lexer.new source) with
  | error e => rw [hp] at h; cases h
  | ok parser =>
    rw [hp] at h
    simp only at h ⊢
    rw [h]

/-- The source `a - b - c` parses to the program of the one statement `SUB(SUB(a, b), c)`. -/
theorem parse_sub_sub (a b c : List Char) (k : Nat)
    (ha : isNatLiteral a = true) (hb : isNatLiteral b = true) (hc : isNatLiteral c = true)
    (hA : (digitsValue a : Int) ≤ INT_MAX) (hB : (digitsValue b : Int) ≤ INT_MAX)
    (hC : (digitsValue c : Int) ≤ INT_MAX) :
    parseSource (k + 100) (a ++ " - ".toList ++ b ++ " - ".toList ++ c) =
      .ok (.Program [leftNested .SUB (digitsValue a) (digitsValue b) (digitsValue c)], []) := by
  have h0 := At.new (a ++ " - ".toList ++ b ++ " - ".toList ++ c)
  obtain ⟨ln1, cl1, l1, e1, at1⟩ := yields_int (u := []) (n := a)
    (r := ' ' :: '-' :: ' ' :: (b ++ ' ' :: '-' :: ' ' :: c)) (by simpa using h0) (by simp) ha
    (by simp only [List.headD_cons]; decide) (by simp only [List.headD_cons]; decide) hA
  obtain ⟨ln2, cl2, l2, e2, at2⟩ := yields_operator (u := [' ']) (c := '-') (t := .MINUS)
    (r := ' ' :: (b ++ ' ' :: '-' :: ' ' :: c)) (by simpa using at1) (by decide) (by decide)
    (by simp only [List.headD_cons]; decide)
  obtain ⟨ln3, cl3, l3, e3, at3⟩ := yields_int (u := [' ']) (n := b)
    (r := ' ' :: '-' :: ' ' :: c) (by simpa using at2) (by decide) hb
    (by simp only [List.headD_cons]; decide) (by simp only [List.headD_cons]; decide) hB
  obtain ⟨ln4, cl4, l4, e4, at4⟩ := yields_operator (u := [' ']) (c := '-') (t := .MINUS)
    (r := ' ' :: c) (by simpa using at3) (by decide) (by decide)
    (by simp only [List.headD_cons]; decide)
  obtain ⟨ln5, cl5, l5, e5, at5⟩ := yields_int (u := [' ']) (n := c)
    (r := []) (by simpa using at4) (by decide) hc (by decide) (by decide) hC
  obtain ⟨ln6, cl6, l6, e6, at6⟩ := yields_eof (u := []) at5 (by simp)
  simp only [String.toList, List.append_assoc, List.cons_append, List.nil_append] at e1 ⊢
  simp only [parseSource, leftNested]
  simp only [Parser.new, Parser.advance, e1, Parser.parse, Parser.program]
  repeat
    ((first
      | rw [Parser.programLoop] | rw [Parser.statement] | rw [Parser.expressionStatement]
      | rw [Parser.expression] | rw [Parser.assignment] | rw [Parser.logicalOr]
      | rw [Parser.logicalOrLoop] | rw [Parser.logicalAnd] | rw [Parser.logicalAndLoop]
      | rw [Parser.equality] | rw [Parser.equalityLoop] | rw [Parser.comparison]
      | rw [Parser.comparisonLoop] | rw [Parser.term] | rw [Parser.termLoop]
      | rw [Parser.factor] | rw [Parser.factorLoop] | rw [Parser.unary] | rw [Parser.call]
      | rw [Parser.callLoop] | rw [Parser.primary]);
     (try simp [Parser.matchType, Parser.check, Parser.advance, Parser.comparisonOp,
      Token.getIntValue, e1, e2, e3, e4, e5, e6]))

/-- The source `a / b / c` parses to the program of the one statement `DIV(DIV(a, b), c)`. -/
theorem parse_div_div (a b c : List Char) (k : Nat)
    (ha : isNatLiteral a = true) (hb : isNatLiteral b = true) (hc : isNatLiteral c = true)
    (hA : (digitsValue a : Int) ≤ INT_MAX) (hB : (digitsValue b : Int) ≤ INT_MAX)
    (hC : (digitsValue c : Int) ≤ INT_MAX) :
    parseSource (k + 100) (a ++ " / ".toList ++ b ++ " / ".toList ++ c) =
      .ok (.Program [leftNested .DIV (digitsValue a) (digitsValue b) (digitsValue c)], []) := by
  have h0 := At.new (a ++ " / ".toList ++ b ++ " / ".toList ++ c)
  obtain ⟨ln1, cl1, l1, e1, at1⟩ := yields_int (u := []) (n := a)
    (r := ' ' :: '/' :: ' ' :: (b ++ ' ' :: '/' :: ' ' :: c)) (by simpa using h0) (by simp) ha
    (by simp only [List.headD_cons]; decide) (by simp only [List.headD_cons]; decide) hA
  obtain ⟨ln2, cl2, l2, e2, at2⟩ := yields_operator (u := [' ']) (c := '/') (t := .DIVIDE)
    (r := ' ' :: (b ++ ' ' :: '/' :: ' ' :: c)) (by simpa using at1) (by decide) (by decide)
    (by simp only [List.headD_cons]; decide)
  obtain ⟨ln3, cl3, l3, e3, at3⟩ := yields_int (u := [' ']) (n := b)
    (r := ' ' :: '/' :: ' ' :: c) (by simpa using at2) (by decide) hb
    (by simp only [List.headD_cons]; decide) (by simp only [List.headD_cons]; decide) hB
  obtain ⟨ln4, cl4, l4, e4, at4⟩ := yields_operator (u := [' ']) (c := '/') (t := .DIVIDE)
    (r := ' ' :: c) (by simpa using at3) (by decide) (by decide)
    (by simp only [List.headD_cons]; decide)
  obtain ⟨ln5, cl5, l5, e5, at5⟩ := yields_int (u := [' ']) (n := c)
    (r := []) (by simpa using at4) (by decide) hc (by decide) (by decide) hC
  obtain ⟨ln6, cl6, l6, e6, at6⟩ := yields_eof (u := []) at5 (by simp)
  simp only [String.toList, List.append_assoc, List.cons_append, List.nil_append] at e1 ⊢
  simp only [parseSource, leftNested]
  simp only [Parser.new, Parser.advance, e1, Parser.parse, Parser.program]
  repeat
    ((first
      | rw [Parser.programLoop] | rw [Parser.statement] | rw [Parser.expressionStatement]
      | rw [Parser.expression] | rw [Parser.assignment] | rw [Parser.logicalOr]
      | rw [Parser.logicalOrLoop] | rw [Parser.logicalAnd] | rw [Parser.logicalAndLoop]
      | rw [Parser.equality] | rw [Parser.equalityLoop] | rw [Parser.comparison]
      | rw [Parser.comparisonLoop] | rw [Parser.term] | rw [Parser.termLoop]
      | rw [Parser.factor] | rw [Parser.factorLoop] | rw [Parser.unary] | rw [Parser.call]
      | rw [Parser.callLoop] | rw [Parser.primary]);
     (try simp [Parser.matchType, Parser.check, Parser.advance, Parser.comparisonOp,
      Token.getIntValue, e1, e2, e3, e4, e5, e6]))

/-- The program `SUB(SUB(x, y), z)` evaluates to `(x - y) - z`, each difference wrapped. -/
theorem evaluate_sub_sub (x y z : Int) (k : Nat) (ref : InterpreterRef) (w : World) :
    evaluate (k + 5) ref (.Program [leftNested .SUB x y z]) w =
      (.ok (.integer (wrapInt (wrapInt (x - y) - z))), w) := by
  unfold leftNested
  repeat
    ((first | rw [evaluate] | rw [evaluateEach]);
     (try simp [applyBinary, LiteralValue.toValue, Value.sub, Value.isNumber, Value.isInteger,
      Value.isFloat, Value.asInteger]))

/-- The program `DIV(DIV(x, y), z)` evaluates to `(x / y) / z`, for `y` and `z` not 0, where
neither dividend is `INT_MIN`. -/
theorem evaluate_div_div (x y z : Int) (hy : y ≠ 0) (hz : z ≠ 0) (hx : x ≠ INT_MIN)
    (hq : wrapInt (Int.tdiv x y) ≠ INT_MIN) (k : Nat) (ref : InterpreterRef) (w : World) :
    evaluate (k + 5) ref (.Program [leftNested .DIV x y z]) w =
      (.ok (.integer (wrapInt (Int.tdiv (wrapInt (Int.tdiv x y)) z))), w) := by
  unfold leftNested
  repeat
    ((first | rw [evaluate] | rw [evaluateEach]);
     (try simp [applyBinary, LiteralValue.toValue, Value.div, Value.isNumber, Value.isInteger,
      Value.isFloat, Value.asInteger, Value.asFloat, hy, hz, hx, hq]))

set_option maxRecDepth 100000 in
/-- C40, counterexample: with the literal 2147483648 the source `a - b - c` is not parsed:
`std::stoi` throws in the lexer and the run ends with `Error: stoi`. -/
theorem C40_literal_out_of_range :
    (parseSource 1000 "2147483648 - 1 - 1".toList).toOption.isNone = true ∧
      runFile 1000 "shownl 2147483648 - 1 - 1".toList [] =
        { cout := [], cerr := "Error: stoi\n".toList, outcome := .exit 1 } := by
  refine ⟨by decide!, by decide!⟩

set_option maxRecDepth 100000 in
/-- C40, amended: for non-negative integer literals `a`, `b`, `c` in the range of `int`,
the source `a - b - c` parses to `SUB(SUB(a, b), c)` and evaluates to `(a - b) - c` wrapped
to `int`, which is `(a - b) - c` itself when that is not below `INT_MIN`; the source
`a / b / c` parses to `DIV(DIV(a, b), c)` and, for `b` and `c` not 0, evaluates to
`(a / b) / c`. The runs of `shownl 10 - 3 - 2` and `shownl 100 / 10 / 5` write 5 and 2. -/
theorem C40_left_associative (a b c : List Char) (fuel : Nat) (cin : List (List Char))
    (ha : isNatLiteral a = true) (hb : isNatLiteral b = true) (hc : isNatLiteral c = true)
    (hA : (digitsValue a : Int) ≤ INT_MAX) (hB : (digitsValue b : Int) ≤ INT_MAX)
    (hC : (digitsValue c : Int) ≤ INT_MAX) (hfuel : 100 ≤ fuel) :
    parseSource fuel (a ++ " - ".toList ++ b ++ " - ".toList ++ c) =
        .ok (.Program [leftNested .SUB (digitsValue a) (digitsValue b) (digitsValue c)], []) ∧
      (execute fuel (a ++ " - ".toList ++ b ++ " - ".toList ++ c) cin).result =
        .ok (.integer (wrapInt ((digitsValue a : Int) - digitsValue b - digitsValue c))) ∧
      (INT_MIN ≤ (digitsValue a : Int) - digitsValue b - digitsValue c →
        (execute fuel (a ++ " - ".toList ++ b ++ " - ".toList ++ c) cin).result =
          .ok (.integer ((digitsValue a : Int) - digitsValue b - digitsValue c))) ∧
      parseSource fuel (a ++ " / ".toList ++ b ++ " / ".toList ++ c) =
        .ok (.Program [leftNested .DIV (digitsValue a) (digitsValue b) (digitsValue c)], []) ∧
      (digitsValue b ≠ 0 → digitsValue c ≠ 0 →
        (execute fuel (a ++ " / ".toList ++ b ++ " / ".toList ++ c) cin).result =
          .ok (.integer ((digitsValue a / digitsValue b / digitsValue c : Nat) : Int))) ∧
      runFile 1000 "shownl 10 - 3 - 2".toList [] =
        { cout := "5\n".toList, cerr := [], outcome := .exit 0 } ∧
      runFile 1000 "shownl 100 / 10 / 5".toList [] =
        { cout := "2\n".toList, cerr := [], outcome := .exit 0 } := by
  obtain ⟨k, rfl⟩ : ∃ k, fuel = k + 100 := ⟨fuel - 100, by omega⟩
  have nA : (0 : Int) ≤ digitsValue a := Int.natCast_nonneg _
  have nB : (0 : Int) ≤ digitsValue b := Int.natCast_nonneg _
  have nC : (0 : Int) ≤ digitsValue c := Int.natCast_nonneg _
  have hps := parse_sub_sub a b c k ha hb hc hA hB hC
  have hpd := parse_div_div a b c k ha hb hc hA hB hC
  have hes : (execute (k + 100) (a ++ " - ".toList ++ b ++ " - ".toList ++ c) cin).result =
      .ok (.integer (wrapInt ((digitsValue a : Int) - digitsValue b - digitsValue c))) := by
    rw [execute_of_parseSource hps cin]
    unfold executeProgram
    rw [show k + 100 = (k + 95) + 5 by omega, evaluate_sub_sub]
    have : wrapInt ((digitsValue a : Int) - digitsValue b) = digitsValue a - digitsValue b :=
      wrapInt_of_range (by unfold INT_MIN; unfold INT_MAX at hB; omega)
        (by unfold INT_MAX at hA ⊢; omega)
    rw [this]
  refine ⟨hps, hes, ?_, hpd, ?_, by decide!, by decide!⟩
  · intro hmin
    rw [hes, wrapInt_of_range hmin (by unfold INT_MAX at hA ⊢; omega)]
  · intro hb0 hc0
    have hk : k + 100 = (k + 95) + 5 := by omega
    have hx : (digitsValue a : Int) ≠ INT_MIN :=
      ne_of_gt (lt_of_lt_of_le (by decide) nA)
    rw [execute_of_parseSource hpd cin]
    unfold executeProgram
    have e1 : Int.tdiv (digitsValue a : Int) (digitsValue b) =
        ((digitsValue a / digitsValue b : Nat) : Int) := by
      rw [Int.tdiv_eq_ediv nA nB]; norm_cast
    have r1 : ((digitsValue a / digitsValue b : Nat) : Int) ≤ INT_MAX := by
      have : digitsValue a / digitsValue b ≤ digitsValue a := Nat.div_le_self _ _
      have : ((digitsValue a / digitsValue b : Nat) : Int) ≤ digitsValue a := by
        exact_mod_cast this
      omega
    have e2 : Int.tdiv ((digitsValue a / digitsValue b : Nat) : Int) (digitsValue c) =
        ((digitsValue a / digitsValue b / digitsValue c : Nat) : Int) := by
      rw [Int.tdiv_eq_ediv (Int.natCast_nonneg _) nC]; norm_cast
    have r2 : ((digitsValue a / digitsValue b / digitsValue c : Nat) : Int) ≤ INT_MAX := by
      have : digitsValue a / digitsValue b / digitsValue c ≤ digitsValue a / digitsValue b :=
        Nat.div_le_self _ _
      have : ((digitsValue a / digitsValue b / digitsValue c : Nat) : Int) ≤
          ((digitsValue a / digitsValue b : Nat) : Int) := by exact_mod_cast this
      omega
    have m : INT_MIN ≤ 0 := by decide
    have w1 : wrapInt (Int.tdiv (digitsValue a : Int) (digitsValue b)) =
        ((digitsValue a / digitsValue b : Nat) : Int) := by
      rw [e1, wrapInt_of_range (le_trans m (Int.natCast_nonneg _)) r1]
    have hq : wrapInt (Int.tdiv (digitsValue a : Int) (digitsValue b)) ≠ INT_MIN := by
      rw [w1]
      exact ne_of_gt (lt_of_lt_of_le (by decide) (Int.natCast_nonneg _))
    rw [hk, evaluate_div_div _ _ _ (by exact_mod_cast hb0) (by exact_mod_cast hc0) hx hq]
    rw [w1, e2, wrapInt_of_range (le_trans m (Int.natCast_nonneg _)) r2]

theorem C40_left_associative_witness :
    (isNatLiteral "10".toList = true ∧ isNatLiteral "3".toList = true ∧
        isNatLiteral "2".toList = true ∧ (100 : Nat) ≤ 100) ∧
      parseSource 100 "10 - 3 - 2".toList = .ok (.Program [leftNested .SUB 10 3 2], []) ∧
      (execute 100 "10 - 3 - 2".toList []).result = .ok (.integer 5) :=
  ⟨by decide,
   (C40_left_associative "10".toList "3".toList "2".toList 100 [] (by decide) (by decide)
     (by decide) (by decide) (by decide) (by decide) (by decide)).1,
   (C40_left_associative "10".toList "3".toList "2".toList 100 [] (by decide) (by decide)
     (by decide) (by decide) (by decide) (by decide) (by decide)).2.2.1 (by decide)⟩

/-! ## The lookahead of `handleWord` -/

theorem Lexer.advance_line {l : Lexer} (h : l.advance.currentChar ≠ '\n') :
    l.advance.line = l.line := by
  unfold Lexer.advance at h ⊢
  dsimp only at h ⊢
  split_ifs at h ⊢ with h1 h2
  · rfl
  · exact absurd h2 (by simpa [h1, h2] using h)
  · rfl

/-- A scanning loop that reaches no newline leaves the line number as it is. -/
theorem Lexer.At.advanceWhile_line {f : Char → Bool} (z : List Char) :
    ∀ {l : Lexer} {r : List Char} (n : Nat), l.At (z ++ r) → z.length ≤ n →
      (∀ c ∈ z, f c = true) → (r.isEmpty || !f (r.headD NUL)) = true →
      (∀ c ∈ z, c ≠ '\n') → r.headD NUL ≠ '\n' →
      (Lexer.advanceWhile f n l).line = l.line := by
  induction z with
  | nil =>
    intro l r n h _ _ hr _ _
    have hstop : Lexer.advanceWhile f n l = l := by
      cases n with
      | zero => rfl
      | succ n =>
        unfold Lexer.advanceWhile
        have h1 := h.cur
        have h2 := h.isAtEnd
        simp at h1 h2
        cases r with
        | nil => simp [h2]
        | cons c r => simp at hr h1; simp [h1, hr]
    rw [hstop]
  | cons x z ih =>
    intro l r n h hn hall hr hnl hrnl
    cases n with
    | zero => simp at hn
    | succ n =>
      unfold Lexer.advanceWhile
      have h1 := h.cur
      have h2 := h.isAtEnd
      simp at h1 h2
      have hx : f x = true := hall x (by simp)
      simp only [h1, hx, h2]
      simp only [Bool.not_false, Bool.and_self, if_true]
      obtain ⟨ha, _, _⟩ := At.advance h
      have hcur : l.advance.currentChar ≠ '\n' := by
        rw [ha.cur]
        cases z with
        | nil => simpa using hrnl
        | cons y z => simpa using hnl y (by simp)
      rw [ih n ha (by simpa using hn) (fun c hc => hall c (by simp [hc])) hr
        (fun c hc => hnl c (by simp [hc])) hrnl, Lexer.advance_line hcur]

theorem Lexer.hspace_ne_newline {c : Char} (h : hspace c = true) : c ≠ '\n' := by
  intro e
  subst e
  revert h
  decide

theorem Lexer.alpha_ne_newline {c : Char} (h : isAlpha c = true) : c ≠ '\n' := by
  intro e
  subst e
  revert h
  decide

theorem Lexer.At.current {l : Lexer} {r : List Char} (h : l.At r) :
    l.source.getD l.position NUL = l.currentChar := by
  rw [getD_eq_headD_drop, h.rest, h.cur]

/-- Where the text looked up for two words misses, `handleWord` is `handleIdentifier`: the
same token and the same lexer afterwards. -/
theorem Lexer.handleWord_miss {l : Lexer} {w g v r : List Char} (h : l.At (w ++ g ++ v ++ r))
    (hw : ∀ x ∈ w, isAlpha x = true) (hsp : ∀ x ∈ g, hspace x = true) (hspne : g ≠ [])
    (hw2 : ∀ x ∈ v, isAlpha x = true) (hw2ne : v ≠ [])
    (hr : isAlpha (r.headD NUL) = false)
    (hmiss : naturalOperators.lookup (twoWords w g v) = none) :
    l.handleWord = l.handleIdentifier := by
  obtain ⟨s0, sp', rfl⟩ : ∃ s0 sp', g = s0 :: sp' := by
    cases g with
    | nil => exact absurd rfl hspne
    | cons s0 sp' => exact ⟨s0, sp', rfl⟩
  obtain ⟨c2, w2', rfl⟩ : ∃ c2 w2', v = c2 :: w2' := by
    cases v with
    | nil => exact absurd rfl hw2ne
    | cons c2 w2' => exact ⟨c2, w2', rfl⟩
  have hs0 := hspace_props (hsp s0 (by simp))
  have hc2 := hw2 c2 (by simp)
  have hc2s : hspace c2 = false := by
    have := (alpha_props hc2).1
    simp [hspace, this]
  have hstop1 : ((s0 :: sp' ++ c2 :: w2' ++ r).isEmpty ||
      !isAlpha ((s0 :: sp' ++ c2 :: w2' ++ r).headD NUL)) = true := by simp [hs0.1]
  have hat1 : l.At (w ++ (s0 :: sp' ++ c2 :: w2' ++ r)) := by simpa using h
  obtain ⟨h1, hs1, hp1⟩ := At.advanceWhile (f := isAlpha) w l.remaining hat1
    (by rw [h.remaining]; simp) hw hstop1
  have hline1 := Lexer.At.advanceWhile_line (f := isAlpha) w l.remaining hat1
    (by rw [h.remaining]; simp) hw hstop1 (fun c hc => Lexer.alpha_ne_newline (hw c hc))
    (by simpa using Lexer.hspace_ne_newline (hsp s0 (by simp)))
  have hstop2 := stop_of (f := fun c => isspace c && c != '\n') (r := c2 :: w2' ++ r) hc2s
  have hat2 : (Lexer.advanceWhile isAlpha l.remaining l).At
      ((s0 :: sp') ++ (c2 :: w2' ++ r)) := by simpa using h1
  obtain ⟨h2, hs2, hp2⟩ := At.advanceWhile (f := fun c => isspace c && c != '\n')
    (s0 :: sp') (Lexer.advanceWhile isAlpha l.remaining l).remaining hat2
    (by rw [h1.remaining]; simp) hsp hstop2
  have hline2 := Lexer.At.advanceWhile_line (f := fun c => isspace c && c != '\n')
    (s0 :: sp') (Lexer.advanceWhile isAlpha l.remaining l).remaining hat2
    (by rw [h1.remaining]; simp) hsp hstop2 (fun c hc => Lexer.hspace_ne_newline (hsp c hc))
    (by simpa using Lexer.alpha_ne_newline hc2)
  obtain ⟨h3, hs3, hp3⟩ := At.advanceWhile (f := isAlpha) (c2 :: w2') (r := r)
    (Lexer.advanceWhile (fun c => isspace c && c != '\n')
      (Lexer.advanceWhile isAlpha l.remaining l).remaining
      (Lexer.advanceWhile isAlpha l.remaining l)).remaining (by simpa using h2)
    (by rw [h2.remaining]; simp) hw2 (stop_of hr)
  generalize hl1 : Lexer.advanceWhile isAlpha l.remaining l = l1 at *
  generalize hl2 : Lexer.advanceWhile (fun c => isspace c && c != '\n') l1.remaining l1 = l2 at *
  generalize hl3 : Lexer.advanceWhile isAlpha l2.remaining l2 = l3 at *
  have hfirst : SimpScript.substr l.source l.position (l2.position - l.position - 1)
      = w ++ (s0 :: sp').dropLast := by
    unfold SimpScript.substr
    rw [h.rest, hp2, hp1]
    have : l.position + w.length + (s0 :: sp').length - l.position - 1
        = w.length + (s0 :: sp').length - 1 := by omega
    rw [this]
    have := take_dropLast_aux w (s0 :: sp') (c2 :: w2' ++ r) (by simp)
    simpa using this
  have hsecond : SimpScript.substr l.source l2.position (l3.position - l2.position)
      = c2 :: w2' := by
    have := h2.substr (z := c2 :: w2') (r := r) l3 hp3
    rw [hs2, hs1] at this
    exact this
  have hcur := h2.cur
  simp only [List.cons_append, List.headD_cons] at hcur
  have hsame : Lexer.mk l3.source l.position l2.line l.column
      (l.source.getD l.position NUL) = l := by
    rw [hs3, hs2, hs1, hline2, hline1, h.current]
  unfold Lexer.handleWord
  simp only [hl1, hl2, hl3, hcur, hc2, if_true, hfirst, hsecond]
  unfold twoWords at hmiss
  simp only [List.append_assoc] at hmiss ⊢
  rw [hmiss]
  simp only [hsame]

theorem Lexer.split_unique :
    ∀ (w w2 v v2 : List Char), (∀ x ∈ w, isAlpha x = true) → (∀ x ∈ w2, isAlpha x = true) →
      w ++ ' ' :: v = w2 ++ ' ' :: v2 → w = w2 ∧ v = v2 := by
  have hsp : isAlpha ' ' = false := by decide
  intro w
  induction w with
  | nil =>
    intro w2 v v2 _ h2 e
    cases w2 with
    | nil => simpa using e
    | cons b w2 =>
      simp only [List.nil_append, List.cons_append, List.cons.injEq] at e
      have := h2 b (by simp)
      rw [← e.1, hsp] at this
      cases this
  | cons a w ih =>
    intro w2 v v2 h1 h2 e
    cases w2 with
    | nil =>
      simp only [List.nil_append, List.cons_append, List.cons.injEq] at e
      have := h1 a (by simp)
      rw [e.1, hsp] at this
      cases this
    | cons b w2 =>
      simp only [List.cons_append, List.cons.injEq] at e
      obtain ⟨r1, r2⟩ := ih w2 v v2 (fun x hx => h1 x (by simp [hx]))
        (fun x hx => h2 x (by simp [hx])) e.2
      exact ⟨by rw [e.1, r1], r2⟩

/-- The text looked up for two words is a key of `naturalOperators` only for the two words
of a pair. -/
theorem Lexer.twoWords_pair {w g v : List Char} {t : TokenType}
    (hw : ∀ x ∈ w, isAlpha x = true) (hsp : ∀ x ∈ g, hspace x = true)
    (hv : ∀ x ∈ v, isAlpha x = true) (hvne : v ≠ [])
    (h : naturalOperators.lookup (twoWords w g v) = some t) : (w, v, t) ∈ wordPairs := by
  have htw : twoWords w g v = w ++ g.dropLast ++ [' '] ++ v := by
    unfold twoWords
    exact Lexer.trimRight_word _ _ hvne hv
  rw [htw] at h
  have hm := lookup_mem h
  have hkeys : ∀ p ∈ naturalOperators, p.1.countP (fun c => !isAlpha c) ≤ 1 := by decide
  have h3 := hkeys _ hm
  have h4 := Lexer.countP_key (w := w) (d := g.dropLast) (v := v) (by
    intro x hx
    exact (hspace_props (hsp x (List.mem_of_mem_dropLast hx))).1)
  simp only at h3
  have hd : g.dropLast = [] := by
    have : g.dropLast.length + 1 ≤ 1 := le_trans h4 h3
    exact List.length_eq_zero.mp (by omega)
  rw [hd, List.append_nil] at hm
  have hall : ∀ p ∈ naturalOperators, ' ' ∈ p.1 →
      ∃ q ∈ wordPairs, p.1 = q.1 ++ ' ' :: q.2.1 ∧ p.2 = q.2.2 ∧
        (∀ x ∈ q.1, isAlpha x = true) := by decide
  obtain ⟨q, hq, e1, e2, hqa⟩ := hall _ hm (by simp)
  simp only [List.append_assoc, List.singleton_append] at e1
  obtain ⟨r1, r2⟩ := Lexer.split_unique w q.1 v q.2.1 hw hqa e1
  simp only at e2
  obtain ⟨q1, q2, q3⟩ := q
  simp only at r1 r2 e2
  rw [r1, r2, e2]
  exact hq

set_option maxRecDepth 100000 in
/-- C35 (counterexample): in `x greater than 1` the word `x` is followed by a space and the
word `greater`, and the two are not the words of an operator. The first call returns the
identifier `x`, as `handleIdentifier` does, but the following call does not return the word
`greater`: it returns the operator `GREATER_THAN` made of `greater than`. In `a b1` the
following call returns the identifier `b1`, not the word `b`. -/
theorem C35_second_word_fused :
    ("x".toList, "greater".toList) ∉ (wordPairs.map fun p => (p.1, p.2.1)) ∧
      (Lexer.new "x greater than 1".toList).handleWord =
        (Lexer.new "x greater than 1".toList).handleIdentifier ∧
      tokenKinds 3 "x greater than 1".toList =
        some [(.IDENTIFIER, .string ['x']), (.GREATER_THAN, .none), (.INTEGER, .int 1)] ∧
      tokenKinds 2 "a b1".toList =
        some [(.IDENTIFIER, .string ['a']), (.IDENTIFIER, .string ['b', '1'])] := by
  refine ⟨by decide, by decide!, by decide!, by decide!⟩

/-- C35 (amended): where a word of letters `w` is followed by single-line white space `g`
and a second word of letters `v`, and `w`, `v` are not the two words of an operator, `handleWord` returns
what `handleIdentifier` returns on the same lexer: the same token (the keyword or identifier
of `w`) and the same lexer afterwards, position, line, column and current character
included. That lexer is at the white space before the second word, so that the following
`nextToken()` starts there; it returns the keyword or identifier of `v` when `v` is followed
by the end of the input or by a character that is neither a letter, a digit, an underscore
nor white space. -/
theorem C35_lookahead_miss (l : Lexer) (w g v r : List Char) (h : l.At (w ++ g ++ v ++ r))
    (hw : ∀ x ∈ w, isAlpha x = true) (hsp : ∀ x ∈ g, hspace x = true) (hspne : g ≠ [])
    (hv : ∀ x ∈ v, isAlpha x = true) (hvne : v ≠ [])
    (hr : isAlpha (r.headD NUL) = false)
    (hpair : (w, v) ∉ wordPairs.map fun p => (p.1, p.2.1)) :
    l.handleWord = l.handleIdentifier ∧
      ∃ (line column : Int) (l1 : Lexer),
        l.handleIdentifier = (⟨(wordToken w).1, (wordToken w).2, line, column⟩, l1) ∧
        l1.At (g ++ v ++ r) ∧
        (isAlphaNumeric (r.headD NUL) = false → isspace (r.headD NUL) = false →
          Yields l1 (wordToken v).1 (wordToken v).2 r) := by
  have hmiss : naturalOperators.lookup (twoWords w g v) = none := by
    cases hk : naturalOperators.lookup (twoWords w g v) with
    | none => rfl
    | some t =>
      exact absurd (List.mem_map.2 ⟨_, Lexer.twoWords_pair hw hsp hv hvne hk, rfl⟩) hpair
  refine ⟨Lexer.handleWord_miss h hw hsp hspne hv hvne hr hmiss, ?_⟩
  obtain ⟨s0, sp', rfl⟩ : ∃ s0 sp', g = s0 :: sp' := by
    cases g with
    | nil => exact absurd rfl hspne
    | cons s0 sp' => exact ⟨s0, sp', rfl⟩
  obtain ⟨c2, w2', rfl⟩ : ∃ c2 w2', v = c2 :: w2' := by
    cases v with
    | nil => exact absurd rfl hvne
    | cons c2 w2' => exact ⟨c2, w2', rfl⟩
  have hs0 := hspace_props (hsp s0 (by simp))
  obtain ⟨line, col, l1, hid, h1⟩ := handleIdentifier_spec (w := w)
    (r := s0 :: sp' ++ c2 :: w2' ++ r) (by simpa using h)
    (fun x hx => alnum_of_alpha (hw x hx)) (by simp [hs0.2.1])
  refine ⟨line, col, l1, hid, h1, ?_⟩
  intro hr1 hr2
  exact Lexer.yields_lexeme (u := s0 :: sp') (c := c2) (w := w2') (r := r)
    (by simpa using h1) (fun x hx => (hspace_props (hsp x hx)).2.2) (hv c2 (by simp))
    (fun x hx => alnum_of_alpha (hv x (by simp [hx]))) hr1 hr2

theorem C35_lookahead_miss_witness :
    ((Lexer.new "abc def".toList).At ("abc".toList ++ " ".toList ++ "def".toList ++ []) ∧
      ("abc".toList, "def".toList) ∉ wordPairs.map fun p => (p.1, p.2.1)) ∧
    (Lexer.new "abc def".toList).handleWord = (Lexer.new "abc def".toList).handleIdentifier :=
  ⟨⟨At.new "abc def".toList, by decide⟩,
   (C35_lookahead_miss (Lexer.new "abc def".toList) "abc".toList " ".toList "def".toList []
     (At.new "abc def".toList) (by decide) (by decide) (by decide) (by decide) (by decide)
     (by decide) (by decide)).1⟩

/-! ## Progress of the lexer -/

theorem ite_cond {α : Type} {P : α → Prop} {c : Prop} [Decidable c] {a b : α}
    (ha : c → P a) (hb : ¬ c → P b) : P (if c then a else b) := by
  split
  · exact ha (by assumption)
  · exact hb (by assumption)

theorem Lexer.Reads.atStart (source : List Char) : (Lexer.new source).Reads source :=
  ⟨At.new source, by simp [Lexer.new]⟩

theorem Lexer.Reads.step {l : Lexer} {c : Char} {r : List Char} (h : l.Reads (c :: r)) :
    l.advance.Reads r ∧ l.advance.position = l.position + 1 ∧
      l.advance.source = l.source := by
  obtain ⟨h1, h2, h3⟩ := At.advance h.1
  refine ⟨⟨h1, ?_⟩, h3, h2⟩
  have := h.2
  simp only [List.length_cons] at this
  rw [h2, h3]
  omega

theorem Lexer.Reads.loop {f : Char → Bool} {l : Lexer} {r : List Char} (h : l.Reads r) :
    (Lexer.advanceWhile f l.remaining l).Reads (r.dropWhile f) ∧
      (Lexer.advanceWhile f l.remaining l).source = l.source ∧
      l.position ≤ (Lexer.advanceWhile f l.remaining l).position ∧
      (f (r.headD NUL) = true → r ≠ [] →
        l.position < (Lexer.advanceWhile f l.remaining l).position) := by
  obtain ⟨h1, h2, h3⟩ := h.1.scan (f := f)
  have hlen : (r.takeWhile f).length + (r.dropWhile f).length = r.length := by
    rw [← List.length_append, List.takeWhile_append_dropWhile]
  refine ⟨⟨h1, ?_⟩, h2, by omega, ?_⟩
  · have := h.2
    rw [h2, h3]
    omega
  · intro hf hne
    cases r with
    | nil => exact absurd rfl hne
    | cons c r =>
      simp only [List.headD_cons] at hf
      rw [h3, List.takeWhile_cons_of_pos hf]
      simp

theorem Lexer.Reads.nonempty {l : Lexer} {r : List Char} (h : l.Reads r)
    (hend : ¬ l.isAtEnd = true) : ∃ c r0, r = c :: r0 ∧ l.currentChar = c := by
  have he := h.1.isAtEnd
  cases r with
  | nil => rw [he] at hend; simp at hend
  | cons c r0 => exact ⟨c, r0, rfl, by simpa using h.1.cur⟩

theorem Lexer.Reads.of_char {l : Lexer} {r : List Char} (h : l.Reads r) {c : Char}
    (hc : l.currentChar = c) (hne : c ≠ NUL) : ∃ r0, r = c :: r0 := by
  have hcur := h.1.cur
  cases r with
  | nil =>
    rw [hc] at hcur
    exact absurd hcur hne
  | cons d r0 =>
    rw [hc] at hcur
    simp only [List.headD_cons] at hcur
    exact ⟨r0, by rw [hcur]⟩

theorem Lexer.Reads.rewound {l : Lexer} {r : List Char} (h : l.Reads r) (m : Lexer)
    (hs : m.source = l.source) (line column : Int) :
    Lexer.Reads (Lexer.mk m.source l.position line column (l.source.getD l.position NUL)) r :=
  ⟨At.restore h.1 hs line column, by simpa [hs] using h.2⟩

theorem Lexer.handleIdentifier_progress {l : Lexer} {c : Char} {r : List Char}
    (h : l.Reads (c :: r)) (hc : isAlphaNumeric c = true) :
    l.Progress l.handleIdentifier := by
  obtain ⟨h1, h2, _, h4⟩ := h.loop (f := isAlphaNumeric)
  have hpos := h4 (by simpa using hc) (by simp)
  unfold Lexer.handleIdentifier
  dsimp only
  split
  · rename_i t ht
    have hall : ∀ p ∈ keywords, p.2 ≠ TokenType.END_OF_FILE := by decide
    exact ⟨hall _ (lookup_mem ht), hpos, h2, _, h1⟩
  · exact ⟨by simp [Lexer.makeTokenWith], hpos, h2, _, h1⟩

theorem Lexer.handleNumber_progress {l : Lexer} {c : Char} {r : List Char}
    (h : l.Reads (c :: r)) (hc : isDigit c = true) {t : Token} {l1 : Lexer}
    (hn : l.handleNumber = .ok (t, l1)) : l.Progress (t, l1) := by
  obtain ⟨h1, h2, _, h4⟩ := h.loop (f := isDigit)
  have hpos := h4 (by simpa using hc) (by simp)
  unfold Lexer.handleNumber at hn
  simp only at hn
  split at hn
  · rename_i hdot
    obtain ⟨r0, hr0⟩ := h1.of_char hdot.1 (by decide)
    rw [hr0] at h1
    obtain ⟨s1, s2, s3⟩ := h1.step
    obtain ⟨k1, k2, k3, _⟩ := s1.loop (f := isDigit)
    split at hn
    · simp only [Except.ok.injEq, Prod.mk.injEq] at hn
      obtain ⟨e1, e2⟩ := hn
      subst e2
      refine ⟨by rw [← e1]; simp, by dsimp only; omega, by rw [k2, s3, h2], _, k1⟩
    · cases hn
  · split at hn
    · simp only [Except.ok.injEq, Prod.mk.injEq] at hn
      obtain ⟨e1, e2⟩ := hn
      subst e2
      exact ⟨by rw [← e1]; simp, hpos, h2, _, h1⟩
    · cases hn

theorem Lexer.handleString_progress {l : Lexer} {c : Char} {r : List Char}
    (h : l.Reads (c :: r)) : l.Progress l.handleString := by
  obtain ⟨s1, s2, s3⟩ := h.step
  obtain ⟨k1, k2, k3, _⟩ := s1.loop (f := fun c => c != QUOTE)
  unfold Lexer.handleString
  dsimp only
  split
  · exact ⟨by simp [Lexer.makeTokenWith], by dsimp only; omega, by rw [k2, s3], _, k1⟩
  · rename_i hend
    obtain ⟨c1, r1, hr1, _⟩ := k1.nonempty hend
    rw [hr1] at k1
    obtain ⟨t1, t2, t3⟩ := k1.step
    exact ⟨by simp [Lexer.makeTokenWith], by dsimp only; omega,
      by dsimp only; rw [t3, k2, s3], _, t1⟩

theorem Lexer.handleOperator_progress {l : Lexer} {c : Char} {r : List Char}
    (h : l.Reads (c :: r)) : l.Progress l.handleOperator := by
  obtain ⟨s1, s2, s3⟩ := h.step
  have hone : ∀ t : Token, t.type ≠ .END_OF_FILE → l.Progress (t, l.advance) :=
    fun t ht => ⟨ht, by dsimp only; omega, s3, _, s1⟩
  have htwo : ∀ t : Token, t.type ≠ .END_OF_FILE → l.advance.currentChar = '=' →
      l.Progress (t, l.advance.advance) := by
    intro t ht heq
    obtain ⟨r0, hr0⟩ := s1.of_char heq (by decide)
    rw [hr0] at s1
    obtain ⟨t1, t2, t3⟩ := s1.step
    exact ⟨ht, by dsimp only; omega, by dsimp only; rw [t3, s3], _, t1⟩
  unfold Lexer.handleOperator
  dsimp only
  repeat' refine ite_cond (P := fun res : Token × Lexer => l.Progress res) (fun _ => ?_) (fun _ => ?_)
  all_goals
    first
    | exact htwo _ (by simp [Lexer.makeToken, Lexer.makeTokenWith]) (by assumption)
    | exact hone _ (by simp [Lexer.single, Lexer.makeToken, Lexer.makeTokenWith])

theorem Lexer.Progress.of_restored {l m : Lexer} {res : Token × Lexer} (h : m.Progress res)
    (hp : m.position = l.position) (hs : m.source = l.source) : l.Progress res :=
  ⟨h.1, by rw [← hp]; exact h.2.1, by rw [← hs]; exact h.2.2.1, h.2.2.2⟩

theorem Lexer.handleWord_progress {l : Lexer} {c : Char} {r : List Char}
    (h : l.Reads (c :: r)) (hc : isAlpha c = true) : l.Progress l.handleWord := by
  obtain ⟨h1, s1, _, p1⟩ := h.loop (f := isAlpha)
  have hpos := p1 (by simpa using hc) (by simp)
  obtain ⟨h2, s2, p2, _⟩ := h1.loop (f := fun c => isspace c && c != '\n')
  obtain ⟨h3, s3, p3, _⟩ := h2.loop (f := isAlpha)
  have hid : ∀ (m : Lexer) (line : Int), m.source = l.source →
      l.Progress
        (Lexer.mk m.source l.position line l.column
          (l.source.getD l.position NUL)).handleIdentifier := by
    intro m line hm
    exact (Lexer.handleIdentifier_progress (h.rewound m hm line l.column)
      (alnum_of_alpha hc)).of_restored rfl hm
  unfold Lexer.handleWord
  simp only
  split
  · rename_i res hr
    split at hr
    · split at hr
      · rename_i t ht
        cases hr
        have hall : ∀ p ∈ naturalOperators, p.2 ≠ TokenType.END_OF_FILE := by decide
        exact ⟨hall _ (lookup_mem ht), by dsimp only; omega,
          by dsimp only; rw [s3, s2, s1], _, h3⟩
      · cases hr
    · cases hr
  · rename_i l4 hr
    split at hr
    · split at hr
      · cases hr
      · cases hr
        exact hid _ _ (by rw [s3, s2, s1])
    · cases hr
      exact hid _ _ (by rw [s2, s1])

theorem Lexer.skipComment_reads {l : Lexer} {r : List Char} (h : l.Reads r) :
    ∃ r1, l.skipComment.Reads r1 ∧ l.position ≤ l.skipComment.position ∧
      (r ≠ [] → r.headD NUL ≠ '\n' → r1.length < r.length) := by
  obtain ⟨h1, s1, p1, q1⟩ := h.loop (f := fun c => c != '\n')
  have hlen : (r.dropWhile fun c => c != '\n').length ≤ r.length :=
    (List.dropWhile_suffix _).length_le
  unfold Lexer.skipComment
  dsimp only
  split
  · rename_i hnl
    obtain ⟨r0, hr0⟩ := h1.of_char hnl (by decide)
    rw [hr0] at h1 hlen
    obtain ⟨t1, t2, t3⟩ := h1.step
    refine ⟨_, t1, by omega, ?_⟩
    intro _ _
    simp only [List.length_cons] at hlen
    omega
  · refine ⟨_, h1, p1, ?_⟩
    intro hne hhead
    have hp := q1 (by simpa using hhead) hne
    have e1 := h.2
    have e2 := h1.2
    rw [s1] at e2
    omega

theorem Lexer.Reads.afterWhitespace {l : Lexer} {r : List Char} (h : l.Reads r) :
    l.skipWhitespace.Reads (r.dropWhile isspace) ∧ l.skipWhitespace.source = l.source ∧
      l.position ≤ l.skipWhitespace.position :=
  ⟨(h.loop (f := isspace)).1, (h.loop (f := isspace)).2.1, (h.loop (f := isspace)).2.2.1⟩

theorem Lexer.nextTokenAux_progress :
    ∀ (n : Nat) (l : Lexer) (r : List Char), l.Reads r → r.length ≤ n →
      ∀ (t : Token) (l1 : Lexer), Lexer.nextTokenAux n l = .ok (t, l1) →
        l1.source = l.source ∧ l.position ≤ l1.position ∧
          (∃ r1, l1.Reads r1 ∧ (t.type = .END_OF_FILE → r1 = [])) ∧
          (t.type ≠ .END_OF_FILE → l.position < l1.position) := by
  intro n
  induction n with
  | zero =>
    intro l r h hn t l1 ht
    have hr : r = [] := List.length_eq_zero.mp (by omega)
    subst hr
    obtain ⟨h1, s1, p1⟩ := h.afterWhitespace
    unfold Lexer.nextTokenAux at ht
    simp only [Except.ok.injEq, Prod.mk.injEq] at ht
    obtain ⟨e1, e2⟩ := ht
    subst e2
    refine ⟨s1, p1, ⟨_, h1, fun _ => rfl⟩, ?_⟩
    intro hne
    rw [← e1] at hne
    exact absurd rfl hne
  | succ n ih =>
    intro l r h hn t l1 ht
    obtain ⟨h1, s1, p1⟩ := h.afterWhitespace
    have hlen : (r.dropWhile isspace).length ≤ r.length :=
      (List.dropWhile_suffix _).length_le
    have hfin : ∀ res : Token × Lexer, l.skipWhitespace.Progress res → res = (t, l1) →
        l1.source = l.source ∧ l.position ≤ l1.position ∧
          (∃ r1, l1.Reads r1 ∧ (t.type = .END_OF_FILE → r1 = [])) ∧
          (t.type ≠ .END_OF_FILE → l.position < l1.position) := by
      intro res hp he
      subst he
      obtain ⟨q1, q2, q3, r1, q4⟩ := hp
      have q2' : l.position < l1.position := lt_of_le_of_lt p1 q2
      exact ⟨by rw [q3]; exact s1, le_of_lt q2', ⟨r1, q4, fun e => absurd e q1⟩, fun _ => q2'⟩
    unfold Lexer.nextTokenAux at ht
    simp only at ht
    split at ht
    · rename_i hend
      simp only [Except.ok.injEq, Prod.mk.injEq] at ht
      obtain ⟨e1, e2⟩ := ht
      subst e2
      have hnil : r.dropWhile isspace = [] := by
        have := h1.1.isAtEnd
        rw [hend] at this
        exact List.isEmpty_iff.mp this.symm
      refine ⟨s1, p1, ⟨_, h1, fun _ => hnil⟩, ?_⟩
      intro hne
      rw [← e1] at hne
      exact absurd rfl hne
    · rename_i hend
      obtain ⟨c, r0, hr0, hcur⟩ := h1.nonempty hend
      rw [hr0] at h1
      split at ht
      · rename_i hhash
        obtain ⟨r2, k1, k2, k3⟩ := Lexer.skipComment_reads h1
        have hc : c ≠ '\n' := by
          rw [← hcur, hhash]
          decide
        have k4 := k3 (by simp) (by simpa using hc)
        rw [hr0] at hlen
        obtain ⟨a1, a2, a3, a4⟩ := ih _ r2 k1 (by omega) t l1 ht
        refine ⟨by rw [a1, Lexer.skipComment_source]; exact s1, by omega, a3, ?_⟩
        intro hne
        have := a4 hne
        omega
      · split at ht
        · rename_i hd
          rw [hcur] at hd
          exact hfin _ (Lexer.handleNumber_progress h1 hd ht) rfl
        · split at ht
          · rename_i ha
            rw [hcur] at ha
            simp only [Except.ok.injEq] at ht
            exact hfin _ (Lexer.handleWord_progress h1 ha) ht
          · split at ht
            · simp only [Except.ok.injEq] at ht
              exact hfin _ (Lexer.handleString_progress h1) ht
            · simp only [Except.ok.injEq] at ht
              exact hfin _ (Lexer.handleOperator_progress h1) ht

theorem Lexer.nextToken_progress {l : Lexer} {r : List Char} (h : l.Reads r) {t : Token}
    {l1 : Lexer} (ht : l.nextToken = .ok (t, l1)) :
    l1.source = l.source ∧ l.position ≤ l1.position ∧
      (∃ r1, l1.Reads r1 ∧ (t.type = .END_OF_FILE → r1 = [])) ∧
      (t.type ≠ .END_OF_FILE → l.position < l1.position) := by
  unfold Lexer.nextToken at ht
  exact Lexer.nextTokenAux_progress _ l r h (by rw [h.1.remaining]) t l1 ht

theorem Lexer.nextToken_at_end {l : Lexer} (h : l.Reads []) :
    l.nextToken = .ok (l.makeToken .END_OF_FILE, l) := by
  have h0 := h.1.remaining
  simp [Lexer.nextToken, Lexer.nextTokenAux, Lexer.skipWhitespace, h0, Lexer.advanceWhile]

theorem nextTokens_at_end {l : Lexer} (h : l.Reads []) :
    ∀ m, nextTokens m l = .ok (List.replicate m (l.makeToken .END_OF_FILE), l) := by
  intro m
  induction m with
  | zero => rfl
  | succ m ih =>
    unfold nextTokens
    rw [Lexer.nextToken_at_end h]
    simp only [ih, List.replicate_succ]

theorem nextTokens_reads :
    ∀ (k : Nat) (l0 : Lexer) (r0 : List Char), l0.Reads r0 →
      ∀ (ts : List Token) (l : Lexer), nextTokens k l0 = .ok (ts, l) →
        (∃ r, l.Reads r) ∧ l.source = l0.source ∧ ts.length = k ∧
          ((∀ t ∈ ts, t.type ≠ .END_OF_FILE) → l0.position + k ≤ l.position) := by
  intro k
  induction k with
  | zero =>
    intro l0 r0 h0 ts l h
    unfold nextTokens at h
    simp only [Except.ok.injEq, Prod.mk.injEq] at h
    obtain ⟨e1, e2⟩ := h
    subst e1 e2
    exact ⟨⟨r0, h0⟩, rfl, rfl, fun _ => le_refl _⟩
  | succ k ih =>
    intro l0 r0 h0 ts l h
    unfold nextTokens at h
    split at h
    · rename_i t l1 ht
      obtain ⟨a1, a2, ⟨r1, a3, _⟩, a4⟩ := Lexer.nextToken_progress h0 ht
      split at h
      · rename_i us l2 hus
        simp only [Except.ok.injEq, Prod.mk.injEq] at h
        obtain ⟨e1, e2⟩ := h
        subst e1 e2
        obtain ⟨b1, b2, b3, b4⟩ := ih l1 r1 a3 us l2 hus
        refine ⟨b1, by rw [b2, a1], by simp [b3], ?_⟩
        intro hall
        have h1 := a4 (hall t (List.mem_cons_self _ _))
        have h2 := b4 (fun u hu => hall u (List.mem_cons_of_mem _ hu))
        omega
      · cases h
    · cases h

set_option maxRecDepth 100000 in
/-- C36 (counterexample): the source `hugeFloat` holds no integer literal, only a float
literal above the largest `double`. The first call of `nextToken()` returns no token:
`std::stod` throws `std::out_of_range`, so no sequence of calls returns `END_OF_FILE`, and
the run of the file ends with `Error: stod` and status 1. -/
theorem C36_float_out_of_range :
    firstKind hugeFloat = none ∧
      (∀ n, (nextTokens (n + 1) (Lexer.new hugeFloat)).toOption = none) ∧
      runFile 1000 hugeFloat [] =
        { cout := [], cerr := "Error: stod\n".toList, outcome := .exit 1 } := by
  have hk : firstKind hugeFloat = none := by decide!
  refine ⟨hk, ?_, by decide!⟩
  intro n
  obtain ⟨e, he⟩ : ∃ e, (Lexer.new hugeFloat).nextToken = .error e := by
    unfold firstKind at hk
    split at hk
    · cases hk
    · exact ⟨_, by assumption⟩
  unfold nextTokens
  rw [he]
  rfl

/-- C36 (amended): take any source text and any number `k` of calls of `nextToken()` from
the start that all return a token, which is the case when no integer or float literal of
the source is outside the range of its type (the exceptions of `std::stoi` and `std::stod`
are the only ones that leave `nextToken()`). Then the lexer position is at most the length
of the source; a further call that returns a token other than `END_OF_FILE` leaves the
position strictly greater; a further call that returns `END_OF_FILE` leaves the lexer in a
state from which every sequence of calls returns `END_OF_FILE` only; and when `k` is more
than the length of the source, one of the `k` tokens is `END_OF_FILE`. -/
theorem C36_progress (source : List Char) (k : Nat) (ts : List Token) (l : Lexer)
    (h : nextTokens k (Lexer.new source) = .ok (ts, l)) :
    ts.length = k ∧ l.position ≤ source.length ∧
      (∀ e, l.nextToken = .error e →
        e = .outOfRange "stoi".toList ∨ e = .outOfRange "stod".toList) ∧
      (∀ t l1, l.nextToken = .ok (t, l1) → t.type ≠ .END_OF_FILE →
        l.position < l1.position) ∧
      (∀ t l1, l.nextToken = .ok (t, l1) → t.type = .END_OF_FILE →
        ∀ m, nextTokens m l1 = .ok (List.replicate m (l1.makeToken .END_OF_FILE), l1)) ∧
      (source.length + 1 ≤ k → ∃ t ∈ ts, t.type = .END_OF_FILE) := by
  obtain ⟨⟨r, hr⟩, hs, hlen, hpos⟩ := nextTokens_reads k _ source (Lexer.Reads.atStart source)
    ts l h
  have hsrc : l.source = source := by rw [hs]; rfl
  have hle : l.position ≤ source.length := by
    have := hr.2
    rw [hsrc] at this
    omega
  refine ⟨hlen, hle, fun e he => Lexer.nextTokenAux_error _ _ _ he, ?_, ?_, ?_⟩
  · intro t l1 ht hne
    exact (Lexer.nextToken_progress hr ht).2.2.2 hne
  · intro t l1 ht heof
    obtain ⟨_, _, ⟨r1, h1, h2⟩, _⟩ := Lexer.nextToken_progress hr ht
    have := h2 heof
    subst this
    exact nextTokens_at_end h1
  · intro hk
    by_contra hno
    have hall : ∀ t ∈ ts, t.type ≠ .END_OF_FILE := fun t ht he => hno ⟨t, ht, he⟩
    have := hpos hall
    have h0 : (Lexer.new source).position = 0 := rfl
    omega

/-- Six calls on the source `x = 1`, of five characters: the tokens of `x`, `=` and `1`,
then `END_OF_FILE` three times. -/
theorem C36_progress_witness :
    nextTokens 6 (Lexer.new "x = 1".toList) =
        .ok ([⟨.IDENTIFIER, .string ['x'], 1, 2⟩, ⟨.ASSIGN, .none, 1, 4⟩,
          ⟨.INTEGER, .int 1, 1, 5⟩, ⟨.END_OF_FILE, .none, 1, 5⟩,
          ⟨.END_OF_FILE, .none, 1, 5⟩, ⟨.END_OF_FILE, .none, 1, 5⟩],
          ⟨"x = 1".toList, 5, 1, 5, NUL⟩) ∧
      ∃ t ∈ [(⟨.IDENTIFIER, .string ['x'], 1, 2⟩ : Token), ⟨.ASSIGN, .none, 1, 4⟩,
          ⟨.INTEGER, .int 1, 1, 5⟩, ⟨.END_OF_FILE, .none, 1, 5⟩,
          ⟨.END_OF_FILE, .none, 1, 5⟩, ⟨.END_OF_FILE, .none, 1, 5⟩],
        t.type = .END_OF_FILE :=
  ⟨by rfl, (C36_progress "x = 1".toList 6 _ _ (by rfl)).2.2.2.2.2 (by decide)⟩

end SimpScript
